import Mathlib

/-!
MPT and Replit loaders and the Replit tokenizer of ctransformers

A shallow embedding of `models/llms/replit.cc` and `models/llms/mpt.cc`.

Conventions of the embedding
* `std::string` is a list of byte values (`Str`).
* `float` and `double` values are extended rationals (`float`): a number, or
  one of the IEEE specials `+inf`, `-inf` and `NaN`.  Sums and products are
  the exact results rounded to the format (`binary32`, `binary64`; round to
  nearest, ties to even) with overflow to an infinity; the sign of zero is not
  kept.
* C++ exceptions and undefined behaviour (use of an object that a short read
  left uninitialised, a write past an array) are results `Except.error _`.
* `while` loops run on fuel; running out of fuel is `Exn.out_of_fuel`.
* Word lengths and loop counters, which the source keeps in `int`, are natural
  numbers: they stay below `2^31`.  Conversions between `size_t`, `int32_t` and
  `int64_t` of values that come from a file or a table are explicit.
* The ggml library and the shared header are outside the two source files; what
  the loaders use of them is the parameter `ggml_lib`.
-/

namespace Ctransformers

/-! ## Basic data -/

/-- Byte strings: the contents of a `std::string`, one number per `char`. -/
abbrev Str := List Nat

/-- Failure modes of the embedded code. -/
inductive Exn where
  | out_of_range
  | length_error
  | range_error
  | undefined_behaviour
  | out_of_fuel
deriving DecidableEq, Repr

deriving instance DecidableEq for Except

/-- The values of a binary floating-point type (`float`, `double`): a number,
the two infinities and NaN.  Which numbers occur is decided by the rounding
`fp_round` of the operations. -/
inductive float where
  | fin (q : ℚ)
  | pinf
  | ninf
  | nan
deriving DecidableEq

namespace float

/-- Unary minus. -/
def neg : float → float
  | fin q => fin (-q)
  | pinf => ninf
  | ninf => pinf
  | nan => nan

end float

/-- A binary floating-point format: the number of significand bits and the
exponent range of the normal numbers. -/
structure fp_format where
  prec : Nat
  emin : Int
  emax : Int
deriving DecidableEq

/-- IEEE 754 binary32, the type `float`. -/
def binary32 : fp_format := { prec := 24, emin := -126, emax := 127 }

/-- IEEE 754 binary64, the type `double`. -/
def binary64 : fp_format := { prec := 53, emin := -1022, emax := 1023 }

/-- The nearest integer, a tie going to the even one. -/
def round_even (x : ℚ) : Int :=
  let f := ⌊x⌋
  if x - f < 1 / 2 then f
  else if 1 / 2 < x - f then f + 1
  else if f % 2 = 0 then f else f + 1

/-- Halving loop of `nat_log2`. -/
def log2_loop : Nat → Nat → Nat
  | 0, _ => 0
  | fuel + 1, n => if 2 ≤ n then log2_loop fuel (n / 2) + 1 else 0

/-- Position of the leading bit of `n > 0`. -/
def nat_log2 (n : Nat) : Nat := log2_loop n n

/-- The exponent `e` with `2 ^ e ≤ a < 2 ^ (e + 1)`, for `a > 0`. -/
def ilog2 (a : ℚ) : Int :=
  let k : Int := (nat_log2 a.num.natAbs : Int) - (nat_log2 a.den : Int)
  if (2 : ℚ) ^ k ≤ a then k else k - 1

/-- The exponent the format gives the magnitude `a`: that of its leading bit,
and `emin` for the subnormal numbers. -/
def fp_exponent (fmt : fp_format) (a : ℚ) : Int := max fmt.emin (ilog2 a)

/-- The spacing of the numbers of the format around the magnitude `a`. -/
def fp_ulp (fmt : fp_format) (a : ℚ) : ℚ := 2 ^ (fp_exponent fmt a - ((fmt.prec : Int) - 1))

/-- The magnitude `a` rounded to a multiple of the spacing, ties to even. -/
def fp_nearest (fmt : fp_format) (a : ℚ) : ℚ := round_even (a / fp_ulp fmt a) * fp_ulp fmt a

/-- Rounding of a magnitude `a ≥ 0` to the format (round to nearest, ties to
even), with overflow to `+inf`. -/
def fp_round_pos (fmt : fp_format) (a : ℚ) : float :=
  if 2 ^ (fmt.emax + 1) ≤ fp_nearest fmt a then float.pinf else float.fin (fp_nearest fmt a)

/-- Rounding of an exact result to the format, the default rounding of IEEE 754
arithmetic. -/
def fp_round (fmt : fp_format) (q : ℚ) : float :=
  if q < 0 then (fp_round_pos fmt (-q)).neg else fp_round_pos fmt q

/-- Addition `a + b` in a floating type: the exact sum rounded to the format. -/
def fp_add (fmt : fp_format) : float → float → float
  | .fin a, .fin b => fp_round fmt (a + b)
  | .nan, _ => .nan
  | _, .nan => .nan
  | .pinf, .ninf => .nan
  | .ninf, .pinf => .nan
  | .pinf, _ => .pinf
  | _, .pinf => .pinf
  | .ninf, _ => .ninf
  | _, .ninf => .ninf

/-- Multiplication `a * b` in a floating type: the exact product rounded to the
format; zero times an infinity is NaN. -/
def fp_mul (fmt : fp_format) : float → float → float
  | .fin a, .fin b => fp_round fmt (a * b)
  | .nan, _ => .nan
  | _, .nan => .nan
  | .fin a, .pinf => if a = 0 then .nan else if a < 0 then .ninf else .pinf
  | .fin a, .ninf => if a = 0 then .nan else if a < 0 then .pinf else .ninf
  | .pinf, .fin b => if b = 0 then .nan else if b < 0 then .ninf else .pinf
  | .ninf, .fin b => if b = 0 then .nan else if b < 0 then .pinf else .ninf
  | .pinf, .pinf => .pinf
  | .ninf, .ninf => .pinf
  | .pinf, .ninf => .ninf
  | .ninf, .pinf => .ninf

/-- Conversion of an integer value (`size_t`, `int`) to a floating type. -/
def fp_of_int (fmt : fp_format) (n : Int) : float := fp_round fmt (n : ℚ)

/-- Conversion of a floating value to `size_t`: the fraction is cut off.  The
conversion is defined for values in the range of `size_t`; other numbers are
taken modulo `2 ^ 64` and the specials as 0. -/
def size_t_of_float : float → Nat
  | .fin q => (⌊q⌋).toNat % 2 ^ 64
  | _ => 0

namespace float

/-- Addition `a + b` of two `float` values: the exact sum rounded to binary32. -/
def add (a b : float) : float := fp_add binary32 a b

/-- Comparison `a > b` (false as soon as one side is NaN). -/
def gt : float → float → Bool
  | fin a, fin b => decide (b < a)
  | nan, _ => false
  | _, nan => false
  | pinf, pinf => false
  | pinf, _ => true
  | _, pinf => false
  | ninf, _ => false
  | _, ninf => true

/-- Comparison `a == -infinity`. -/
def is_ninf : float → Bool
  | ninf => true
  | _ => false

end float

/-- `std::string::substr(pos, count)` for `pos <= size()`. -/
def substr (s : Str) (pos count : Nat) : Str := (s.drop pos).take count

/-- A `for (i = start; ...; ++i)` loop running `count` iterations. -/
def for_loop {σ : Type} (body : Nat → σ → σ) : Nat → Nat → σ → σ
  | _, 0, st => st
  | i, k + 1, st => for_loop body (i + 1) k (body i st)

/-- Lookup in a `std::map` / `std::unordered_map` kept as an association list:
`m.find(key)`, with `none` for `m.end()`. -/
def map_find {κ ν : Type} [DecidableEq κ] (key : κ) : List (κ × ν) → Option ν
  | [] => none
  | (k, v) :: m => if k = key then some v else map_find key m

/-- Assignment `m[key] = v`: overwrite the entry of `key` or add one. -/
def map_assign {κ ν : Type} [DecidableEq κ] (key : κ) (v : ν) : List (κ × ν) → List (κ × ν)
  | [] => [(key, v)]
  | (k, w) :: m => if k = key then (key, v) :: m else (k, w) :: map_assign key v m

/-- Conversion of an unsigned value to `int32_t` (two's complement wrap-around). -/
def int32_of_nat (n : Nat) : Int :=
  if n % 2 ^ 32 < 2 ^ 31 then ((n % 2 ^ 32 : Nat) : Int) else ((n % 2 ^ 32 : Nat) : Int) - 2 ^ 32

/-- A `for` loop whose body can throw. -/
def for_loop_except {σ : Type} (body : Nat → σ → Except Exn σ) : Nat → Nat → σ → Except Exn σ
  | _, 0, st => .ok st
  | i, k + 1, st =>
    match body i st with
    | .error e => .error e
    | .ok st1 => for_loop_except body (i + 1) k st1

/-! ## Binary input stream (`std::ifstream` opened in binary mode) -/

/-- The unread bytes of the file and the two state bits the loaders look at. -/
structure istream where
  data : List Nat
  eofbit : Bool
  failbit : Bool
deriving DecidableEq

/-- The call `fin.read(p, count)`: the bytes stored at `p` and the stream afterwards.  A
stream that is not good stores nothing and sets `failbit`; fewer than `count`
unread bytes are all stored and both `eofbit` and `failbit` are set. -/
def istream.read (fin : istream) (count : Nat) : List Nat × istream :=
  if fin.eofbit || fin.failbit then ([], { fin with failbit := true })
  else if count ≤ fin.data.length then
    (fin.data.take count, { fin with data := fin.data.drop count })
  else (fin.data, { data := [], eofbit := true, failbit := true })

/-- Value of a little-endian byte sequence. -/
def le_nat : List Nat → Nat
  | [] => 0
  | b :: bs => b % 256 + 256 * le_nat bs

/-- The `count` little-endian bytes of a value. -/
def le_bytes (n : Nat) : Nat → List Nat
  | 0 => []
  | k + 1 => n % 256 :: le_bytes (n / 256) k

/-- The bytes of an object after `got` was stored over its first bytes. -/
def overlay (old got : List Nat) : List Nat := got ++ old.drop got.length

/-- Reading 4 bytes into an uninitialised `uint32_t` that is used right after:
a short read leaves the object indeterminate. -/
def read_u32 (fin : istream) : Except Exn (Nat × istream) :=
  if (fin.read 4).1.length = 4 then .ok (le_nat (fin.read 4).1, (fin.read 4).2)
  else .error .undefined_behaviour

/-- Reading 4 bytes into an `int32_t` object that holds `old`. -/
def read_i32 (old : Int) (fin : istream) : Int × istream :=
  (int32_of_nat (le_nat (overlay (le_bytes (old % 2 ^ 32).toNat 4) (fin.read 4).1)),
    (fin.read 4).2)

/-- The value of an IEEE 754 binary32 bit pattern. -/
def float_of_bits (b : Nat) : float :=
  let sign := b / 2 ^ 31 % 2
  let expo := b / 2 ^ 23 % 256
  let frac := b % 2 ^ 23
  if expo = 255 then
    if frac = 0 then (if sign = 0 then float.pinf else float.ninf) else float.nan
  else
    let mant : Nat := if expo = 0 then frac else 2 ^ 23 + frac
    let ex : Nat := if expo = 0 then 1 else expo
    let mag : ℚ :=
      if 150 ≤ ex then ((mant * 2 ^ (ex - 150) : Nat) : ℚ)
      else (mant : ℚ) / ((2 ^ (150 - ex) : Nat) : ℚ)
    float.fin (if sign = 0 then mag else -mag)

/-- Reading 4 bytes into an uninitialised `float` that is used right after. -/
def read_f32 (fin : istream) : Except Exn (float × istream) :=
  match read_u32 fin with
  | .error e => .error e
  | .ok (bits, fin1) => .ok (float_of_bits bits, fin1)

/-! ## Vocabulary (`gpt_vocab`, declared in the shared header) -/

/-- The two maps of `gpt_vocab`; `gpt_vocab::id` is `int32_t`. -/
structure gpt_vocab where
  token_to_id : List (Str × Int)
  id_to_token : List (Int × Str)
deriving DecidableEq

/-! ## Replit tokenizer (`replit.cc`) -/

/-- `piece_t = std::pair<std::size_t, float>`: piece id and stored score. -/
abbrev piece_t := Nat × float

/-- `piece_map_t = std::unordered_map<std::string, piece_t>` as an association
list with unique keys (kept so by `map_assign`). -/
abbrev piece_map_t := List (Str × piece_t)


/-- The two vectors of `encode_word`. -/
structure segmentation_state where
  best_segmentations_starts : List Int
  best_segmentations_scores : List float
deriving DecidableEq

/-- Body of the inner loop of `encode_word` (lines 70-81). -/
def encode_word_inner (word : Str) (model : piece_map_t) (start_idx : Nat)
    (best_score_at_start : float) (end_idx : Nat) (st : segmentation_state) :
    segmentation_state :=
  let token := substr word start_idx (end_idx - start_idx)
  match map_find token model with
  | none => st
  | some (_, token_score) =>
    if best_score_at_start.is_ninf then st
    else
      let score := token_score.add best_score_at_start
      let cur := st.best_segmentations_scores.getD end_idx float.ninf
      if cur.is_ninf || cur.gt score then
        { best_segmentations_starts := st.best_segmentations_starts.set end_idx (start_idx : Int)
          best_segmentations_scores := st.best_segmentations_scores.set end_idx score }
      else st

/-- Body of the outer loop of `encode_word` (lines 66-83). -/
def encode_word_outer (word : Str) (model : piece_map_t) (start_idx : Nat)
    (st : segmentation_state) : segmentation_state :=
  let best_score_at_start := st.best_segmentations_scores.getD start_idx float.ninf
  for_loop (encode_word_inner word model start_idx best_score_at_start)
    (start_idx + 1) (word.length - start_idx) st

/-- The vectors as initialised on lines 59-64. -/
def encode_word_init (word : Str) : segmentation_state :=
  { best_segmentations_starts := (List.replicate (word.length + 1) (-1 : Int)).set 0 0
    best_segmentations_scores := (List.replicate (word.length + 1) float.ninf).set 0 (float.fin 1) }

/-- The filled vectors after the double loop (lines 66-83). -/
def encode_word_table (word : Str) (model : piece_map_t) : segmentation_state :=
  for_loop (encode_word_outer word model) 0 word.length (encode_word_init word)

/-- The backtracking `while (start != 0)` loop and the final lookup
(lines 94-102).  `word.substr` throws when `start` is outside the word and
`model.at` throws when the piece is unknown. -/
def encode_word_backtrack (word : Str) (model : piece_map_t) (starts : List Int) :
    Nat → Int → Int → List Int → Except Exn (List Int)
  | 0, _, _, _ => .error .out_of_fuel
  | fuel + 1, start, end_, tokens =>
    if start < 0 ∨ (word.length : Int) < start then .error .out_of_range
    else
      let count : Nat := if start ≤ end_ then (end_ - start).toNat else 2 ^ 64 - (start - end_).toNat
      match map_find (substr word start.toNat count) model with
      | none => .error .out_of_range
      | some (token_id, _) =>
        if start ≠ 0 then
          encode_word_backtrack word model starts fuel
            (starts.getD start.toNat (-1)) start (int32_of_nat token_id :: tokens)
        else .ok (int32_of_nat token_id :: tokens)

/-- The function `encode_word` (lines 57-104). -/
def encode_word (word : Str) (model : piece_map_t) : Except Exn (List Int × float) :=
  let st := encode_word_table word model
  let back_score := st.best_segmentations_scores.getD word.length float.ninf
  if back_score.is_ninf then .ok ([0], float.fin 0)
  else
    match encode_word_backtrack word model st.best_segmentations_starts (word.length + 1)
        (st.best_segmentations_starts.getD word.length (-1)) word.length [] with
    | .error e => .error e
    | .ok tokens => .ok (tokens, back_score)

/-- The struct `replit_tokenizer`. -/
structure replit_tokenizer where
  raw_vocab : gpt_vocab
  piece_map : piece_map_t
  vocab : List Str
deriving DecidableEq

/-- A freshly constructed tokenizer: all containers empty. -/
def replit_tokenizer_empty : replit_tokenizer :=
  { raw_vocab := { token_to_id := [], id_to_token := [] }, piece_map := [], vocab := [] }

/-- State of the vocabulary loop of `replit_tokenizer_load`: the tokenizer, the
stream and the buffer `buf`, which lives across iterations. -/
structure tokenizer_load_state where
  tokenizer : replit_tokenizer
  fin : istream
  buf : List Nat

/-- The call `buf.resize(len)`: truncate or pad with zero bytes. -/
def resize (buf : List Nat) (len : Nat) : List Nat :=
  buf.take len ++ List.replicate (len - buf.length) 0

/-- One iteration of the loop of `replit_tokenizer_load` (lines 112-123). -/
def replit_tokenizer_load_entry (i : Nat) (st : tokenizer_load_state) :
    Except Exn tokenizer_load_state :=
  match read_u32 st.fin with
  | .error e => .error e
  | .ok (len, fin1) =>
    let buf1 := overlay (resize st.buf len) (fin1.read len).1
    let word : Str := buf1
    match read_f32 (fin1.read len).2 with
    | .error e => .error e
    | .ok (score, fin3) =>
      .ok { tokenizer :=
              { st.tokenizer with
                piece_map := map_assign word (i, score.neg) st.tokenizer.piece_map
                raw_vocab :=
                  { st.tokenizer.raw_vocab with
                    id_to_token :=
                      map_assign (int32_of_nat i) word st.tokenizer.raw_vocab.id_to_token } }
            fin := fin3
            buf := buf1 }

/-- The function `replit_tokenizer_load` (lines 106-127); `buf` starts as 128 zero
bytes.  The tokenizer and the stream are updated in place, so both are returned. -/
def replit_tokenizer_load (tokenizer : replit_tokenizer) (fin : istream)
    (max_vocab_size : Int) : Except Exn (replit_tokenizer × istream) :=
  match for_loop_except replit_tokenizer_load_entry 0 max_vocab_size.toNat
      { tokenizer := tokenizer, fin := fin, buf := List.replicate 128 0 } with
  | .error e => .error e
  | .ok st => .ok (st.tokenizer, st.fin)

/-- Search loop of `str.find(pat, pos)`: first match at or after `pos`, trying
`fuel` positions. -/
def str_find_from (str pat : Str) : Nat → Nat → Option Nat
  | 0, _ => none
  | fuel + 1, pos =>
    if substr str pos pat.length = pat then some pos
    else str_find_from str pat fuel (pos + 1)

/-- The call `str.find(pat, pos)`; `none` is `std::string::npos`. -/
def str_find (str pat : Str) (pos : Nat) : Option Nat :=
  if str.length < pos + pat.length then none
  else str_find_from str pat (str.length - pat.length - pos + 1) pos

/-- The `while` loop and final append of `replace_all` (lines 137-143). -/
def replace_all_loop (str find replace : Str) : Nat → Str → Nat → Except Exn Str
  | 0, _, _ => .error .out_of_fuel
  | fuel + 1, result, from_ =>
    match str_find str find from_ with
    | some pos =>
      replace_all_loop str find replace fuel
        (result ++ substr str from_ (pos - from_) ++ replace) (pos + find.length)
    | none =>
      if str.length < from_ then .error .out_of_range else .ok (result ++ str.drop from_)

/-- The function `replace_all` (lines 129-144). -/
def replace_all (str find replace : Str) : Except Exn Str :=
  replace_all_loop str find replace (str.length + 2) [] 0

/-- The word-boundary marker `ws_symbol = "\342\226\201"`. -/
def ws_symbol : Str := [226, 150, 129]

/-- The function `replit_tokenizer_tokenize` (lines 147-154). -/
def replit_tokenizer_tokenize (tokenizer : replit_tokenizer) (text : Str) :
    Except Exn (List Int) :=
  match replace_all text [32] ws_symbol with
  | .error e => .error e
  | .ok normalized_text =>
    match encode_word normalized_text tokenizer.piece_map with
    | .error e => .error e
    | .ok tokenized => .ok tokenized.1

/-- The method `replit_llm::Tokenize` (lines 630-636). -/
def replit_llm_Tokenize (replit_tokenizer_ : replit_tokenizer) (text : Str) :
    Except Exn (List Int) :=
  replit_tokenizer_tokenize replit_tokenizer_ text

/-- The method `replit_llm::Detokenize` (lines 638-646) on the vocabulary `vocab_`. -/
def replit_llm_Detokenize (vocab_ : gpt_vocab) (id : Int) : Except Exn Str :=
  match map_find id vocab_.id_to_token with
  | none => .ok []
  | some token => replace_all token ws_symbol [32]

/-- Concatenation of `Detokenize(id)` over a list of ids. -/
def detokenize_all (vocab_ : gpt_vocab) : List Int → Except Exn Str
  | [] => .ok []
  | id :: ids =>
    match replit_llm_Detokenize vocab_ id, detokenize_all vocab_ ids with
    | .ok a, .ok b => .ok (a ++ b)
    | .error e, _ => .error e
    | _, .error e => .error e

/-- A stream freshly opened on a file with the given bytes. -/
def open_file (bytes : List Nat) : istream :=
  { data := bytes, eofbit := false, failbit := false }

/-- Vocabulary block with the two pieces `\342` and `\226\201`, both of file
score `-1.0`. -/
def split_marker_file : List Nat :=
  [1, 0, 0, 0, 226, 0, 0, 128, 191, 2, 0, 0, 0, 150, 129, 0, 0, 128, 191]

/-- Vocabulary block with the pieces `b` (file score `0.0`) and `a` (file score
`+inf`). -/
def inf_score_file : List Nat :=
  [1, 0, 0, 0, 98, 0, 0, 0, 0, 1, 0, 0, 0, 97, 0, 0, 128, 127]

/-- Load a vocabulary block into an empty tokenizer, tokenize `text` and
concatenate `Detokenize` over the ids (`vocab_` is the loaded `raw_vocab`). -/
def tokenize_detokenize (file : List Nat) (n_vocab : Int) (text : Str) : Except Exn Str :=
  match replit_tokenizer_load replit_tokenizer_empty (open_file file) n_vocab with
  | .error e => .error e
  | .ok (tokenizer, _) =>
    match replit_llm_Tokenize tokenizer text with
    | .error e => .error e
    | .ok ids => detokenize_all tokenizer.raw_vocab ids

/-! ## Tensors and the ggml interface -/

/-- ASCII bytes of a string literal of the source. -/
def ascii (s : String) : Str := s.toList.map Char.toNat

/-- The name as the C string `name.data()`: the bytes before the first NUL. -/
def c_str (name : Str) : Str := name.takeWhile (fun b => decide (b ≠ 0))

/-- Conversion of a signed value to `size_t` (64 bits). -/
def size_t_of_int (i : Int) : Nat := (i % 2 ^ 64).toNat

/-- Wrap-around of 32-bit `int` arithmetic. -/
def wrap32 (i : Int) : Int := int32_of_nat (i % 2 ^ 32).toNat

/-- Wrap-around of 64-bit arithmetic, read as `int64_t`. -/
def wrap64 (i : Int) : Int :=
  if i % 2 ^ 64 < 2 ^ 63 then i % 2 ^ 64 else i % 2 ^ 64 - 2 ^ 64

/-- What the loaders see of a `ggml_tensor`: element type, the first two
dimensions (the others are 1), the placement flag given to `ct_new_tensor`, and
the bytes stored so far at the start of its buffer (the buffer of a new tensor
is uninitialised, so nothing is recorded for it). -/
structure ggml_tensor where
  type : Int
  ne0 : Int
  ne1 : Int
  gpu : Bool
  data : List Nat
deriving DecidableEq

/-- The Tensor Directory `model.tensors`: `std::map<std::string, ggml_tensor *>`.
The pointers `wte_weight`, `norm_f_weight` and those of `layers[i]` point to the
tensors registered here under their names. -/
abbrev tensor_map := List (Str × ggml_tensor)

/-- Constants and functions of the ggml library and of the shared header that
the loaders use and whose definitions are outside these two source files.  Enum
values of `ggml_type` and `ggml_ftype` are integers.  `ggml_type_sizef` gives
the number the function returns and `sizef_format` the floating type it returns
it in (`float` or `double`), in which the byte budget is then accumulated. -/
structure ggml_lib where
  GGML_FILE_MAGIC : Nat
  GGML_QNT_VERSION_FACTOR : Int
  GGML_TYPE_F32 : Int
  GGML_TYPE_F16 : Int
  GGML_TYPE_COUNT : Int
  ggml_ftype_to_ggml_type : Int → Int
  ggml_type_size : Int → Nat
  ggml_type_sizef : Int → ℚ
  sizef_format : fp_format
  ggml_blck_size : Int → Nat
  ggml_nelements : Int → Int → Int
  ggml_nbytes : Int → Int → Int → Nat
  ggml_init : Nat → Bool
  convert_to_wstring : Str → Except Exn (List Nat)

/-- The call `ggml_nelements(tensor)`. -/
def ggml_lib.nelements (g : ggml_lib) (t : ggml_tensor) : Int := g.ggml_nelements t.ne0 t.ne1

/-- The call `ggml_nbytes(tensor)`. -/
def ggml_lib.nbytes (g : ggml_lib) (t : ggml_tensor) : Nat := g.ggml_nbytes t.type t.ne0 t.ne1

/-- The call `ggml_new_tensor_1d(ctx, type, ne0)`. -/
def ggml_new_tensor_1d (type ne0 : Int) : ggml_tensor :=
  { type := type, ne0 := ne0, ne1 := 1, gpu := false, data := [] }

/-- The call `ggml_new_tensor_2d(ctx, type, ne0, ne1)`. -/
def ggml_new_tensor_2d (type ne0 ne1 : Int) : ggml_tensor :=
  { type := type, ne0 := ne0, ne1 := ne1, gpu := false, data := [] }

/-- Modelled from the spec: `ct_new_tensor` (shared header, not in these files)
declares a 2-d weight tensor; the flag only chooses where its storage lives. -/
def ct_new_tensor (type ne0 ne1 : Int) (gpu : Bool) : ggml_tensor :=
  { type := type, ne0 := ne0, ne1 := ne1, gpu := gpu, data := [] }

/-- Modelled from the spec: `ct_alloc` and `ct_transform` (shared header, not in
these files) hand out the buffer the record is read into and move it to the
tensor's storage; the tensor ends up holding the bytes read, like after
`fin.read(tensor->data, ...)` in the Replit loader. -/
def store_data (t : ggml_tensor) (got : List Nat) : ggml_tensor :=
  { t with data := overlay t.data got }

/-! ## The tensor record loop (`mpt.cc` 246-314, `replit.cc` 323-387) -/

/-- What one iteration reads before looking at the directory: the header, the
dimensions and the name (`mpt.cc` 247-267). -/
structure tensor_record where
  n_dims : Int
  length : Int
  ttype : Int
  nelements : Int
  ne0 : Int
  ne1 : Int
  name : Str
  fin : istream
deriving DecidableEq

/-- The reads of one iteration up to the name.  `none` is the `break` on
`fin.eof()`.  A third dimension would be written past `ne[2]`, and a negative
length makes the `std::string` constructor throw. -/
def read_tensor_record (fin : istream) : Except Exn (Option tensor_record) :=
  let r1 := fin.read 4
  let r2 := r1.2.read 4
  let r3 := r2.2.read 4
  if r3.2.eofbit then .ok none
  else if r1.1.length ≠ 4 ∨ r2.1.length ≠ 4 ∨ r3.1.length ≠ 4 then .error .undefined_behaviour
  else
    let n_dims := int32_of_nat (le_nat r1.1)
    let length := int32_of_nat (le_nat r2.1)
    let ttype := int32_of_nat (le_nat r3.1)
    if 2 < n_dims then .error .undefined_behaviour
    else
      let d0 := if 0 < n_dims then read_i32 1 r3.2 else (1, r3.2)
      let d1 := if 1 < n_dims then read_i32 1 d0.2 else (1, d0.2)
      let nelements := wrap32 (wrap32 (1 * d0.1) * d1.1)
      if length < 0 then .error .length_error
      else
        let rn := d1.2.read length.toNat
        .ok (some
          { n_dims := n_dims, length := length, ttype := ttype, nelements := nelements
            ne0 := d0.1, ne1 := d1.1
            name := overlay (List.replicate length.toNat 0) rn.1
            fin := rn.2 })

/-- The byte size the file implies for a record:
`(nelements * bpe) / ggml_blck_size(tensor->type)` in `size_t` arithmetic.  The
block size of the type of a declared tensor is positive. -/
def record_size (g : ggml_lib) (r : tensor_record) (tensor : ggml_tensor) : Nat :=
  (size_t_of_int r.nelements * g.ggml_type_size r.ttype) % 2 ^ 64 / g.ggml_blck_size tensor.type

/-- How one iteration of the record loop ends. -/
inductive record_result where
  | stop (tensors : tensor_map) (fin : istream)
  | return_false (tensors : tensor_map) (fin : istream)
  | next (tensors : tensor_map) (fin : istream)
deriving DecidableEq

/-- One iteration of the `while (true)` loop over tensor records. -/
def load_record (g : ggml_lib) (tensors : tensor_map) (fin : istream) :
    Except Exn record_result :=
  match read_tensor_record fin with
  | .error e => .error e
  | .ok none => .ok (.stop tensors fin)
  | .ok (some r) =>
    match map_find (c_str r.name) tensors with
    | none => .ok (.return_false tensors r.fin)
    | some tensor =>
      if g.nelements tensor ≠ r.nelements then .ok (.return_false tensors r.fin)
      else if tensor.ne0 ≠ r.ne0 ∨ tensor.ne1 ≠ r.ne1 then .ok (.return_false tensors r.fin)
      else if record_size g r tensor ≠ g.nbytes tensor then .ok (.return_false tensors r.fin)
      else
        .ok (.next
          (map_assign (c_str r.name) (store_data tensor (r.fin.read (g.nbytes tensor)).1) tensors)
          (r.fin.read (g.nbytes tensor)).2)

/-- The record loop; the result is the value the loader returns and the
directory it leaves. -/
def load_weights (g : ggml_lib) : Nat → tensor_map → istream → Except Exn (Bool × tensor_map)
  | 0, _, _ => .error .out_of_fuel
  | fuel + 1, tensors, fin =>
    match load_record g tensors fin with
    | .error e => .error e
    | .ok (.stop tensors1 _) => .ok (true, tensors1)
    | .ok (.return_false tensors1 _) => .ok (false, tensors1)
    | .ok (.next tensors1 fin1) => load_weights g fuel tensors1 fin1

/-- Registration of the six tensors of layer `i` (`mpt.cc` 196-220). -/
def declare_layer (wtype n_embd : Int) (F32 : Int) (gpu : Bool) (i : Nat) (tensors : tensor_map) :
    tensor_map :=
  let base := ascii "transformer.blocks." ++ ascii (toString i)
  let t1 := map_assign (base ++ ascii ".norm_1.weight") (ggml_new_tensor_1d F32 n_embd) tensors
  let t2 := map_assign (base ++ ascii ".attn.Wqkv.weight")
    (ct_new_tensor wtype n_embd (3 * n_embd) gpu) t1
  let t3 := map_assign (base ++ ascii ".attn.out_proj.weight")
    (ct_new_tensor wtype n_embd n_embd gpu) t2
  let t4 := map_assign (base ++ ascii ".norm_2.weight") (ggml_new_tensor_1d F32 n_embd) t3
  let t5 := map_assign (base ++ ascii ".ffn.up_proj.weight")
    (ct_new_tensor wtype n_embd (4 * n_embd) gpu) t4
  map_assign (base ++ ascii ".ffn.down_proj.weight")
    (ct_new_tensor wtype (4 * n_embd) n_embd gpu) t5

/-- The product `count * x` of an integer count and a floating value: the count
is converted to the floating type and the product is formed there. -/
def mul_sizef (fmt : fp_format) (count : Int) (x : float) : float :=
  fp_mul fmt (fp_of_int fmt count) x

/-- The statement `ctx_size += amount` for the `size_t` accumulator `ctx_size`
and a floating `amount`: the accumulator is converted to the floating type,
the sum is formed there and converted back to `size_t`. -/
def add_sizef (fmt : fp_format) (ctx_size : Nat) (amount : float) : Nat :=
  size_t_of_float (fp_add fmt (fp_of_int fmt (ctx_size : Int)) amount)

/-- How the part of a loader before the record loop ends. -/
inductive head_result (μ ν : Type) where
  | return_false (model : μ) (vocab : ν)
  | proceed (model : μ) (vocab : ν) (fin : istream)
deriving DecidableEq

/-- What a loader leaves behind: the returned flag and the objects it updated
through its reference parameters. -/
structure load_result (μ ν : Type) where
  ret : Bool
  model : μ
  vocab : ν
deriving DecidableEq

/-! ## MPT loader (`mpt.cc`) -/

/-- The struct `mpt_hparams`; the two `float` fields are kept as bit patterns. -/
structure mpt_hparams where
  d_model : Int
  max_seq_len : Int
  n_heads : Int
  n_layers : Int
  n_vocab : Int
  alibi_bias_max : Nat
  clip_qkv : Nat
  ftype : Int
  n_ctx : Int
deriving DecidableEq

/-- The default member initialisers of `mpt_hparams`. -/
def mpt_hparams_default : mpt_hparams :=
  { d_model := 0, max_seq_len := 0, n_heads := 0, n_layers := 0, n_vocab := 0
    alibi_bias_max := 0, clip_qkv := 0, ftype := 0, n_ctx := 2048 }

/-- The struct `mpt_model`: `ctx` is the size of the ggml context once created;
the weight pointers are the entries of `tensors`. -/
structure mpt_model where
  hparams : mpt_hparams
  memory_k : Option ggml_tensor
  memory_v : Option ggml_tensor
  ctx : Option Nat
  tensors : tensor_map
deriving DecidableEq

/-- Reading 4 bytes into a `float` object whose bit pattern is `old`. -/
def read_bits (old : Nat) (fin : istream) : Nat × istream :=
  (le_nat (overlay (le_bytes old 4) (fin.read 4).1), (fin.read 4).2)

/-- The block "load hparams" of `mpt_model_load` (lines 71-88). -/
def mpt_load_hparams (g : ggml_lib) (hparams : mpt_hparams) (fin : istream) :
    mpt_hparams × istream :=
  let r1 := read_i32 hparams.d_model fin
  let r2 := read_i32 hparams.max_seq_len r1.2
  let r3 := read_i32 hparams.n_heads r2.2
  let r4 := read_i32 hparams.n_layers r3.2
  let r5 := read_i32 hparams.n_vocab r4.2
  let r6 := read_bits hparams.alibi_bias_max r5.2
  let r7 := read_bits hparams.clip_qkv r6.2
  let r8 := read_i32 hparams.ftype r7.2
  ({ d_model := r1.1, max_seq_len := r2.1, n_heads := r3.1, n_layers := r4.1, n_vocab := r5.1
     alibi_bias_max := r6.1, clip_qkv := r7.1
     ftype := Int.tmod r8.1 g.GGML_QNT_VERSION_FACTOR
     n_ctx := min r2.1 hparams.n_ctx }, r8.2)

/-- State of the vocabulary loop of `mpt_model_load`. -/
structure vocab_load_state where
  vocab : gpt_vocab
  fin : istream
  buf : List Nat
deriving DecidableEq

/-- One iteration of the vocabulary loop of `mpt_model_load` (lines 98-113). -/
def mpt_load_vocab_entry (g : ggml_lib) (i : Nat) (st : vocab_load_state) :
    Except Exn vocab_load_state :=
  match read_u32 st.fin with
  | .error e => .error e
  | .ok (len, fin1) =>
    let buf1 := overlay (resize st.buf len) (fin1.read len).1
    match g.convert_to_wstring buf1 with
    | .error e => .error e
    | .ok word_multibytes =>
      let word : Str := word_multibytes.map (fun c => c % 256)
      .ok { vocab :=
              { token_to_id := map_assign word (int32_of_nat i) st.vocab.token_to_id
                id_to_token := map_assign (int32_of_nat i) word st.vocab.id_to_token }
            fin := (fin1.read len).2
            buf := buf1 }

/-- The block "load vocab" of `mpt_model_load` (lines 91-115); `buf` starts as
128 zero bytes. -/
def mpt_load_vocab (g : ggml_lib) (n_vocab : Int) (vocab : gpt_vocab) (fin : istream) :
    Except Exn vocab_load_state :=
  for_loop_except (mpt_load_vocab_entry g) 0 n_vocab.toNat
    { vocab := vocab, fin := fin, buf := List.replicate 128 0 }

/-- The byte budget `ctx_size` of `mpt_model_load` (lines 129-161), all counts in
`size_t`, the products with `ggml_type_sizef` and the sums in the floating type
that `ggml_type_sizef` returns. -/
def mpt_ctx_size (g : ggml_lib) (hparams : mpt_hparams) (wtype : Int) : Nat :=
  let n_ctx := size_t_of_int hparams.n_ctx
  let n_embd := size_t_of_int hparams.d_model
  let n_layer := size_t_of_int hparams.n_layers
  let n_vocab := size_t_of_int hparams.n_vocab
  let m (x : Nat) : Nat := x % 2 ^ 64
  let F := g.sizef_format
  let sizef (t : Int) : float := float.fin (g.ggml_type_sizef t)
  let mul (count : Nat) (x : float) : float := mul_sizef F (count : Int) x
  let c1 := add_sizef F 0 (mul (m (n_embd * n_vocab)) (sizef wtype))
  let c2 := add_sizef F c1 (mul n_embd (sizef g.GGML_TYPE_F32))
  let c3 := add_sizef F c2 (mul n_layer (mul n_embd (sizef g.GGML_TYPE_F32)))
  let c4 := add_sizef F c3 (mul n_layer (mul (m (m (3 * n_embd) * n_embd)) (sizef wtype)))
  let c5 := add_sizef F c4 (mul n_layer (mul (m (n_embd * n_embd)) (sizef wtype)))
  let c6 := add_sizef F c5 (mul n_layer (mul n_embd (sizef g.GGML_TYPE_F32)))
  let c7 := add_sizef F c6 (mul n_layer (mul (m (m (4 * n_embd) * n_embd)) (sizef wtype)))
  let c8 := add_sizef F c7 (mul n_layer (mul (m (m (n_embd * n_embd) * 4)) (sizef wtype)))
  let c9 := add_sizef F c8 (mul (m (m (n_ctx * n_layer) * n_embd)) (sizef g.GGML_TYPE_F16))
  let c10 := add_sizef F c9 (mul (m (m (n_ctx * n_layer) * n_embd)) (sizef g.GGML_TYPE_F16))
  m (c10 + m (m (1 + m (6 * n_layer)) * 512))

/-- The tensors declared by `mpt_model_load` (lines 186-221), added to the
directory `tensors`. -/
def mpt_declare_tensors (g : ggml_lib) (hparams : mpt_hparams) (wtype : Int) (gpu_layers : Int)
    (tensors : tensor_map) : tensor_map :=
  let t1 := map_assign (ascii "transformer.wte.weight")
    (ggml_new_tensor_2d wtype hparams.d_model hparams.n_vocab) tensors
  let t2 := map_assign (ascii "transformer.norm_f.weight")
    (ggml_new_tensor_1d g.GGML_TYPE_F32 hparams.d_model) t1
  for_loop
    (fun i ts => declare_layer wtype hparams.d_model g.GGML_TYPE_F32
      (decide (hparams.n_layers - gpu_layers ≤ (i : Int))) i ts)
    0 hparams.n_layers.toNat t2

/-- The part of `mpt_model_load` before the record loop (lines 53-239).  The
resize of `model.layers` to a negative count throws. -/
def mpt_model_load_head (g : ggml_lib) (fin : istream) (model : mpt_model) (vocab : gpt_vocab)
    (gpu_layers : Int) : Except Exn (head_result mpt_model gpt_vocab) :=
  if fin.failbit then .ok (.return_false model vocab)
  else
    match read_u32 fin with
    | .error e => .error e
    | .ok (magic, fin1) =>
      if magic ≠ g.GGML_FILE_MAGIC then .ok (.return_false model vocab)
      else
        let hp := mpt_load_hparams g model.hparams fin1
        let model1 : mpt_model := { model with hparams := hp.1 }
        match mpt_load_vocab g hp.1.n_vocab vocab hp.2 with
        | .error e => .error e
        | .ok vs =>
          let wtype := g.ggml_ftype_to_ggml_type hp.1.ftype
          if wtype = g.GGML_TYPE_COUNT then .ok (.return_false model1 vs.vocab)
          else
            let ctx_size := mpt_ctx_size g hp.1 wtype
            if g.ggml_init ctx_size = false then
              .ok (.return_false { model1 with ctx := none } vs.vocab)
            else if hp.1.n_layers < 0 then .error .length_error
            else
              let n_mem := wrap64 (hp.1.n_layers * hp.1.n_ctx)
              let n_elements := wrap64 (hp.1.d_model * n_mem)
              .ok (.proceed
                { model1 with
                  ctx := some ctx_size
                  tensors := mpt_declare_tensors g hp.1 wtype gpu_layers model.tensors
                  memory_k := some (ggml_new_tensor_1d g.GGML_TYPE_F16 n_elements)
                  memory_v := some (ggml_new_tensor_1d g.GGML_TYPE_F16 n_elements) }
                vs.vocab vs.fin)

/-- The function `mpt_model_load` (lines 51-320) on an opened stream `fin`. -/
def mpt_model_load (g : ggml_lib) (fin : istream) (model : mpt_model) (vocab : gpt_vocab)
    (gpu_layers : Int) : Except Exn (load_result mpt_model gpt_vocab) :=
  match mpt_model_load_head g fin model vocab gpu_layers with
  | .error e => .error e
  | .ok (.return_false model1 vocab1) => .ok { ret := false, model := model1, vocab := vocab1 }
  | .ok (.proceed model1 vocab1 fin1) =>
    match load_weights g (fin1.data.length + 1) model1.tensors fin1 with
    | .error e => .error e
    | .ok (ret, tensors2) =>
      .ok { ret := ret, model := { model1 with tensors := tensors2 }, vocab := vocab1 }

/-! ## Replit loader (`replit.cc`) -/

/-- The struct `replit_hparams`. -/
structure replit_hparams where
  d_model : Int
  max_seq_len : Int
  n_heads : Int
  n_layers : Int
  n_vocab : Int
  ftype : Int
  n_ctx : Int
deriving DecidableEq

/-- The default member initialisers of `replit_hparams`. -/
def replit_hparams_default : replit_hparams :=
  { d_model := 0, max_seq_len := 0, n_heads := 0, n_layers := 0, n_vocab := 0
    ftype := 0, n_ctx := 2048 }

/-- The struct `replit_model`, like `mpt_model`. -/
structure replit_model where
  hparams : replit_hparams
  memory_k : Option ggml_tensor
  memory_v : Option ggml_tensor
  ctx : Option Nat
  tensors : tensor_map
deriving DecidableEq

/-- The block "load hparams" of `replit_model_load` (lines 177-192). -/
def replit_load_hparams (g : ggml_lib) (hparams : replit_hparams) (fin : istream) :
    replit_hparams × istream :=
  let r1 := read_i32 hparams.d_model fin
  let r2 := read_i32 hparams.max_seq_len r1.2
  let r3 := read_i32 hparams.n_heads r2.2
  let r4 := read_i32 hparams.n_layers r3.2
  let r5 := read_i32 hparams.n_vocab r4.2
  let r6 := read_i32 hparams.ftype r5.2
  ({ d_model := r1.1, max_seq_len := r2.1, n_heads := r3.1, n_layers := r4.1, n_vocab := r5.1
     ftype := Int.tmod r6.1 g.GGML_QNT_VERSION_FACTOR
     n_ctx := min r2.1 hparams.n_ctx }, r6.2)

/-- The byte budget `ctx_size` of `replit_model_load` (lines 209-241); the
counts are products of `int` values, the products with `ggml_type_sizef` and
the sums are formed in the floating type that `ggml_type_sizef` returns. -/
def replit_ctx_size (g : ggml_lib) (hparams : replit_hparams) (wtype : Int) : Nat :=
  let n_embd := hparams.d_model
  let n_layer := hparams.n_layers
  let n_ctx := hparams.max_seq_len
  let n_vocab := hparams.n_vocab
  let F := g.sizef_format
  let sizef (t : Int) : float := float.fin (g.ggml_type_sizef t)
  let mul (count : Int) (x : float) : float := mul_sizef F count x
  let c1 := add_sizef F 0 (mul (wrap32 (n_embd * n_vocab)) (sizef wtype))
  let c2 := add_sizef F c1 (mul n_embd (sizef g.GGML_TYPE_F32))
  let c3 := add_sizef F c2 (mul n_layer (mul n_embd (sizef g.GGML_TYPE_F32)))
  let c4 := add_sizef F c3
    (mul n_layer (mul (wrap32 (wrap32 (3 * n_embd) * n_embd)) (sizef wtype)))
  let c5 := add_sizef F c4 (mul n_layer (mul (wrap32 (n_embd * n_embd)) (sizef wtype)))
  let c6 := add_sizef F c5 (mul n_layer (mul n_embd (sizef g.GGML_TYPE_F32)))
  let c7 := add_sizef F c6
    (mul n_layer (mul (wrap32 (wrap32 (4 * n_embd) * n_embd)) (sizef wtype)))
  let c8 := add_sizef F c7
    (mul n_layer (mul (wrap32 (wrap32 (n_embd * n_embd) * 4)) (sizef wtype)))
  let c9 := add_sizef F c8
    (mul (wrap32 (wrap32 (n_ctx * n_layer) * n_embd)) (sizef g.GGML_TYPE_F16))
  let c10 := add_sizef F c9
    (mul (wrap32 (wrap32 (n_ctx * n_layer) * n_embd)) (sizef g.GGML_TYPE_F16))
  (c10 + size_t_of_int (wrap32 (wrap32 (1 + wrap32 (6 * n_layer)) * 512))) % 2 ^ 64

/-- The tensors declared by `replit_model_load` (lines 266-300), added to the
directory `tensors`. -/
def replit_declare_tensors (g : ggml_lib) (hparams : replit_hparams) (wtype : Int)
    (tensors : tensor_map) : tensor_map :=
  let t1 := map_assign (ascii "transformer.wte.weight")
    (ggml_new_tensor_2d wtype hparams.d_model hparams.n_vocab) tensors
  let t2 := map_assign (ascii "transformer.norm_f.weight")
    (ggml_new_tensor_1d g.GGML_TYPE_F32 hparams.d_model) t1
  for_loop (fun i ts => declare_layer wtype hparams.d_model g.GGML_TYPE_F32 false i ts)
    0 hparams.n_layers.toNat t2

/-- The part of `replit_model_load` before the record loop (lines 159-319). -/
def replit_model_load_head (g : ggml_lib) (fin : istream) (model : replit_model)
    (tokenizer : replit_tokenizer) : Except Exn (head_result replit_model replit_tokenizer) :=
  if fin.failbit then .ok (.return_false model tokenizer)
  else
    match read_u32 fin with
    | .error e => .error e
    | .ok (magic, fin1) =>
      if magic ≠ g.GGML_FILE_MAGIC then .ok (.return_false model tokenizer)
      else
        let hp := replit_load_hparams g model.hparams fin1
        let model1 : replit_model := { model with hparams := hp.1 }
        match replit_tokenizer_load tokenizer hp.2 hp.1.n_vocab with
        | .error e => .error e
        | .ok (tokenizer1, fin2) =>
          let wtype := g.ggml_ftype_to_ggml_type hp.1.ftype
          if wtype = g.GGML_TYPE_COUNT then .ok (.return_false model1 tokenizer1)
          else
            let ctx_size := replit_ctx_size g hp.1 wtype
            if g.ggml_init ctx_size = false then
              .ok (.return_false { model1 with ctx := none } tokenizer1)
            else if hp.1.n_layers < 0 then .error .length_error
            else
              let n_mem := wrap32 (hp.1.n_layers * hp.1.max_seq_len)
              let n_elements := wrap64 (hp.1.d_model * n_mem)
              .ok (.proceed
                { model1 with
                  ctx := some ctx_size
                  tensors := replit_declare_tensors g hp.1 wtype model.tensors
                  memory_k := some (ggml_new_tensor_1d g.GGML_TYPE_F16 n_elements)
                  memory_v := some (ggml_new_tensor_1d g.GGML_TYPE_F16 n_elements) }
                tokenizer1 fin2)

/-- The function `replit_model_load` (lines 157-393) on an opened stream `fin`. -/
def replit_model_load (g : ggml_lib) (fin : istream) (model : replit_model)
    (tokenizer : replit_tokenizer) : Except Exn (load_result replit_model replit_tokenizer) :=
  match replit_model_load_head g fin model tokenizer with
  | .error e => .error e
  | .ok (.return_false model1 tokenizer1) =>
    .ok { ret := false, model := model1, vocab := tokenizer1 }
  | .ok (.proceed model1 tokenizer1 fin1) =>
    match load_weights g (fin1.data.length + 1) model1.tensors fin1 with
    | .error e => .error e
    | .ok (ret, tensors2) =>
      .ok { ret := ret, model := { model1 with tensors := tensors2 }, vocab := tokenizer1 }

/-! ## A reference instance of the ggml interface and sample files -/

/-- Decoding loop of `utf8_decode`. -/
def utf8_decode_loop : Nat → List Nat → Except Exn (List Nat)
  | 0, _ => .error .out_of_fuel
  | _ + 1, [] => .ok []
  | fuel + 1, b0 :: rest =>
    let cont (b : Nat) : Bool := decide (128 ≤ b ∧ b < 192)
    if b0 < 128 then
      match utf8_decode_loop fuel rest with
      | .ok cs => .ok (b0 :: cs)
      | .error e => .error e
    else if 192 ≤ b0 ∧ b0 < 224 then
      match rest with
      | b1 :: r1 =>
        if cont b1 then
          match utf8_decode_loop fuel r1 with
          | .ok cs => .ok (((b0 - 192) * 64 + (b1 - 128)) :: cs)
          | .error e => .error e
        else .error .range_error
      | _ => .error .range_error
    else if 224 ≤ b0 ∧ b0 < 240 then
      match rest with
      | b1 :: b2 :: r2 =>
        if cont b1 && cont b2 then
          match utf8_decode_loop fuel r2 with
          | .ok cs => .ok (((b0 - 224) * 4096 + (b1 - 128) * 64 + (b2 - 128)) :: cs)
          | .error e => .error e
        else .error .range_error
      | _ => .error .range_error
    else if 240 ≤ b0 ∧ b0 < 248 then
      match rest with
      | b1 :: b2 :: b3 :: r3 =>
        if cont b1 && cont b2 && cont b3 then
          match utf8_decode_loop fuel r3 with
          | .ok cs =>
            .ok (((b0 - 240) * 262144 + (b1 - 128) * 4096 + (b2 - 128) * 64 + (b3 - 128)) :: cs)
          | .error e => .error e
        else .error .range_error
      | _ => .error .range_error
    else .error .range_error

/-- Modelled from the spec: `convert_to_wstring` (shared header, not in these
files) decodes the bytes as UTF-8 into code points and throws on malformed
input. -/
def utf8_decode (bytes : Str) : Except Exn (List Nat) :=
  utf8_decode_loop (bytes.length + 1) bytes

/-- An instance of the ggml interface with the constants of the ggml release
the loaders were written for: magic `0x67676d6c`, version factor 1000, the
element and block sizes of F32, F16, Q4_0, Q4_1, Q5_0, Q5_1, Q8_0 and the
integer types, `double` as the type of `ggml_type_sizef`, and a `ggml_init`
that succeeds. -/
def ggml_ref : ggml_lib :=
  { GGML_FILE_MAGIC := 0x67676d6c
    GGML_QNT_VERSION_FACTOR := 1000
    GGML_TYPE_F32 := 0
    GGML_TYPE_F16 := 1
    GGML_TYPE_COUNT := 19
    ggml_ftype_to_ggml_type := fun f =>
      if f = 0 then 0 else if f = 1 then 1 else if f = 2 then 2 else if f = 3 then 3
      else if f = 7 then 8 else if f = 8 then 6 else if f = 9 then 7 else 19
    ggml_type_size := fun t =>
      if t = 0 then 4 else if t = 1 then 2 else if t = 2 then 18 else if t = 3 then 20
      else if t = 6 then 22 else if t = 7 then 24 else if t = 8 then 34
      else if t = 16 then 1 else if t = 17 then 2 else if t = 18 then 4 else 0
    ggml_type_sizef := fun t =>
      if t = 0 then 4 else if t = 1 then 2 else if t = 2 then 18 / 32 else if t = 3 then 20 / 32
      else if t = 6 then 22 / 32 else if t = 7 then 24 / 32 else if t = 8 then 34 / 32
      else if t = 16 then 1 else if t = 17 then 2 else if t = 18 then 4 else 0
    sizef_format := binary64
    ggml_blck_size := fun t =>
      if t = 2 ∨ t = 3 ∨ t = 6 ∨ t = 7 ∨ t = 8 then 32 else 1
    ggml_nelements := fun ne0 ne1 => ne0 * ne1
    ggml_nbytes := fun t ne0 ne1 =>
      ((ne0 * ne1).toNat *
        (if t = 0 then 4 else if t = 1 then 2 else if t = 2 then 18 else if t = 3 then 20
         else if t = 6 then 22 else if t = 7 then 24 else if t = 8 then 34
         else if t = 16 then 1 else if t = 17 then 2 else if t = 18 then 4 else 0)) /
        (if t = 2 ∨ t = 3 ∨ t = 6 ∨ t = 7 ∨ t = 8 then 32 else 1)
    ggml_init := fun _ => true
    convert_to_wstring := utf8_decode }

/-- A freshly constructed `mpt_model`. -/
def mpt_model_empty : mpt_model :=
  { hparams := mpt_hparams_default, memory_k := none, memory_v := none, ctx := none
    tensors := [] }

/-- A freshly constructed `replit_model`. -/
def replit_model_empty : replit_model :=
  { hparams := replit_hparams_default, memory_k := none, memory_v := none, ctx := none
    tensors := [] }

/-- A freshly constructed `gpt_vocab`. -/
def gpt_vocab_empty : gpt_vocab := { token_to_id := [], id_to_token := [] }

/-- The bytes of a tensor record: header, dimensions, name and data. -/
def record_bytes (ttype : Nat) (dims : List Nat) (name : Str) (data : List Nat) : List Nat :=
  le_bytes dims.length 4 ++ le_bytes name.length 4 ++ le_bytes ttype 4 ++
    (dims.map (fun d => le_bytes d 4)).flatten ++ name ++ data

/-- An MPT file up to its vocabulary: magic, `d_model = 2`, `max_seq_len = 4`,
`n_heads = 1`, `n_layers = 0`, `n_vocab = 1`, `alibi_bias_max = 8.0`,
`clip_qkv = 0.0`, `ftype = 0` (F32), and the one token `a`. -/
def mpt_file_head : List Nat :=
  le_bytes 0x67676d6c 4 ++ le_bytes 2 4 ++ le_bytes 4 4 ++ le_bytes 1 4 ++ le_bytes 0 4 ++
    le_bytes 1 4 ++ le_bytes 0x41000000 4 ++ le_bytes 0 4 ++ le_bytes 0 4 ++
    le_bytes 1 4 ++ [97]

/-- A Replit file up to its vocabulary: magic, `d_model = 2`, `max_seq_len = 4`,
`n_heads = 1`, `n_layers = 0`, `n_vocab = 1`, `ftype = 0` (F32), and the one
piece `a` with file score `-1.0`. -/
def replit_file_head : List Nat :=
  le_bytes 0x67676d6c 4 ++ le_bytes 2 4 ++ le_bytes 4 4 ++ le_bytes 1 4 ++ le_bytes 0 4 ++
    le_bytes 1 4 ++ le_bytes 0 4 ++ le_bytes 1 4 ++ [97] ++ le_bytes 0xbf800000 4

/-- The record of the embedding `transformer.wte.weight` of the sample files:
F32, shape `[2, 1]`, eight data bytes. -/
def wte_record : List Nat :=
  record_bytes 0 [2, 1] (ascii "transformer.wte.weight") [1, 2, 3, 4, 5, 6, 7, 8]

/-- The record of `transformer.norm_f.weight` of the sample files: F32, shape
`[2]`, eight data bytes. -/
def norm_f_record : List Nat :=
  record_bytes 0 [2] (ascii "transformer.norm_f.weight") [9, 10, 11, 12, 13, 14, 15, 16]

/-- The directory both loaders declare for the sample files. -/
def sample_tensors : tensor_map :=
  [(ascii "transformer.wte.weight", ggml_new_tensor_2d 0 2 1),
   (ascii "transformer.norm_f.weight", ggml_new_tensor_1d 0 2)]

/-- A record with the shape `[1, 2]` under the name of the embedding, which is
declared with shape `[2, 1]`. -/
def bad_shape_record : List Nat :=
  record_bytes 0 [1, 2] (ascii "transformer.wte.weight") [1, 2, 3, 4, 5, 6, 7, 8]

/-- A record whose 24-byte name is the name of the embedding followed by a NUL
byte and the byte `x`. -/
def nul_name_record : List Nat :=
  record_bytes 0 [2, 1] (ascii "transformer.wte.weight" ++ [0, 120]) [1, 2, 3, 4, 5, 6, 7, 8]

/-- A record for the embedding with the 2-byte type code F16 (1): four bytes
where the tensor takes eight. -/
def bad_size_record : List Nat :=
  record_bytes 1 [2, 1] (ascii "transformer.wte.weight") [1, 2, 3, 4]

/-- A record under a name that is not declared. -/
def unknown_name_record : List Nat :=
  record_bytes 0 [2, 1] (ascii "transformer.wpe.weight") [1, 2, 3, 4, 5, 6, 7, 8]

/-- The record of `transformer.norm_f.weight` with the type code 18 (I32, four
bytes per element like F32). -/
def norm_f_i32_record : List Nat :=
  record_bytes 18 [2] (ascii "transformer.norm_f.weight") [9, 10, 11, 12, 13, 14, 15, 16]

/-- The sample MPT file ending after three of the eight data bytes of the record
of the embedding. -/
def mpt_cut_data_file : List Nat := mpt_file_head ++ wte_record.take (wte_record.length - 5)

/-- The sample MPT file with the whole record of the embedding, ending after
seven bytes of the header of a second record. -/
def mpt_cut_header_file : List Nat := mpt_file_head ++ wte_record ++ norm_f_record.take 7

/-- The sample Replit file ending after three of the eight data bytes of the
record of the embedding. -/
def replit_cut_data_file : List Nat :=
  replit_file_head ++ wte_record.take (wte_record.length - 5)

/-- The sample Replit file with the whole record of the embedding, ending after
seven bytes of the header of a second record. -/
def replit_cut_header_file : List Nat := replit_file_head ++ wte_record ++ norm_f_record.take 7

/-- The sample MPT file followed by a record under a name that is not
declared. -/
def mpt_unknown_tensor_file : List Nat := mpt_file_head ++ unknown_name_record

/-- The sample Replit file followed by a record under a name that is not
declared. -/
def replit_unknown_tensor_file : List Nat := replit_file_head ++ unknown_name_record

/-- The `int32_t` stored in a file at a byte offset. -/
def field32 (bytes : List Nat) (offset : Nat) : Int :=
  int32_of_nat (le_nat ((bytes.drop offset).take 4))

/-- An MPT file like `mpt_file_head` but with `ftype = 4`, which
`ggml_ftype_to_ggml_type` does not map to a type. -/
def mpt_bad_ftype_file : List Nat :=
  le_bytes 0x67676d6c 4 ++ le_bytes 2 4 ++ le_bytes 4 4 ++ le_bytes 1 4 ++ le_bytes 0 4 ++
    le_bytes 1 4 ++ le_bytes 0x41000000 4 ++ le_bytes 0 4 ++ le_bytes 4 4 ++
    le_bytes 1 4 ++ [97] ++ wte_record

/-- A Replit file like `replit_file_head` but with `ftype = 4`. -/
def replit_bad_ftype_file : List Nat :=
  le_bytes 0x67676d6c 4 ++ le_bytes 2 4 ++ le_bytes 4 4 ++ le_bytes 1 4 ++ le_bytes 0 4 ++
    le_bytes 1 4 ++ le_bytes 4 4 ++ le_bytes 1 4 ++ [97] ++ le_bytes 0xbf800000 4 ++ wte_record

/-- The bytes are complete tensor records, each passing the checks against the
directory as it is when the record is reached, and end with the last of them. -/
inductive complete_records (g : ggml_lib) : tensor_map → List Nat → Prop where
  | done (tensors : tensor_map) : complete_records g tensors []
  | record (tensors : tensor_map) (bytes : List Nat) (r : tensor_record) (tensor : ggml_tensor) :
      read_tensor_record (open_file bytes) = .ok (some r) →
      r.fin.eofbit = false → r.fin.failbit = false →
      map_find (c_str r.name) tensors = some tensor →
      g.nelements tensor = r.nelements → tensor.ne0 = r.ne0 → tensor.ne1 = r.ne1 →
      record_size g r tensor = g.nbytes tensor →
      g.nbytes tensor ≤ r.fin.data.length →
      complete_records g
        (map_assign (c_str r.name) (store_data tensor (r.fin.data.take (g.nbytes tensor))) tensors)
        (r.fin.data.drop (g.nbytes tensor)) →
      complete_records g tensors bytes

/-- The model `mpt_model_load` has built from the sample files when it enters
the record loop. -/
def mpt_sample_model : mpt_model :=
  { hparams :=
      { d_model := 2, max_seq_len := 4, n_heads := 1, n_layers := 0, n_vocab := 1
        alibi_bias_max := 0x41000000, clip_qkv := 0, ftype := 0, n_ctx := 4 }
    memory_k := some (ggml_new_tensor_1d 1 0)
    memory_v := some (ggml_new_tensor_1d 1 0)
    ctx := some 528
    tensors := sample_tensors }

/-- The model `replit_model_load` has built from the sample files when it enters
the record loop. -/
def replit_sample_model : replit_model :=
  { hparams :=
      { d_model := 2, max_seq_len := 4, n_heads := 1, n_layers := 0, n_vocab := 1
        ftype := 0, n_ctx := 4 }
    memory_k := some (ggml_new_tensor_1d 1 0)
    memory_v := some (ggml_new_tensor_1d 1 0)
    ctx := some 528
    tensors := sample_tensors }

/-- The vocabulary of the sample MPT file. -/
def sample_vocab : gpt_vocab := { token_to_id := [([97], 0)], id_to_token := [(0, [97])] }

/-- The tokenizer of the sample Replit file. -/
def sample_tokenizer : replit_tokenizer :=
  { raw_vocab := { token_to_id := [], id_to_token := [(0, [97])] }
    piece_map := [([97], (0, float.fin 1))], vocab := [] }

/-- The text with every occurrence of the marker `ws_symbol` replaced by one
space, found from the left, and every other byte kept: what the spec asks of the
marker substitution in `Detokenize`. -/
def marker_to_space : Str → Str
  | 226 :: 150 :: 129 :: rest => 32 :: marker_to_space rest
  | b :: rest => b :: marker_to_space rest
  | [] => []

/-- The bytes of one entry of a Replit vocabulary block: 4-byte length, the
bytes of the piece, 4-byte score. -/
def replit_entry_bytes (e : Str × Nat) : List Nat :=
  le_bytes e.1.length 4 ++ e.1 ++ le_bytes e.2 4

/-- The bytes of a Replit vocabulary block with the given pieces and score bit
patterns, in file order. -/
def replit_vocab_bytes (es : List (Str × Nat)) : List Nat :=
  (es.map replit_entry_bytes).flatten

/-- The bytes of one entry of an MPT vocabulary block: 4-byte length and the
bytes of the token. -/
def mpt_entry_bytes (w : Str) : List Nat := le_bytes w.length 4 ++ w

/-- The bytes of an MPT vocabulary block with the given entries, in file order. -/
def mpt_vocab_bytes (ws : List Str) : List Nat := (ws.map mpt_entry_bytes).flatten

/-- The token the MPT loader stores for an entry: one byte per decoded code
point (the empty string stands in when the decoder throws). -/
def mpt_token (g : ggml_lib) (w : Str) : Str :=
  match g.convert_to_wstring w with
  | .ok cps => cps.map (fun c => c % 256)
  | .error _ => []

/-- The vocabulary block whose two entries are `A` and the UTF-8 bytes of
U+0141. -/
def colliding_vocab_file : List Nat := mpt_vocab_bytes [[65], [197, 129]]

/-- A vocabulary in which id 0 holds a token with one marker. -/
def marker_vocab : gpt_vocab :=
  { token_to_id := [], id_to_token := [(0, [97, 226, 150, 129, 98])] }

/-- The assignments `m[k] = v` for the pairs of a list, in order. -/
def assign_all {κ ν : Type} [DecidableEq κ] : List (κ × ν) → List (κ × ν) → List (κ × ν)
  | [], m => m
  | (k, v) :: kvs, m => assign_all kvs (map_assign k v m)

/-! ## Evaluation (`mpt_eval`, `replit_eval`) and `Load` -/

/-- What the evaluation routines take from the allocator and the compute
backend: whether `realloc` to a size succeeds, the `double` product
`1.1 * x` converted to `size_t`, the element values of the views `Kcur` and
`Vcur` of a layer (they depend on the cache as it is when the layer is
computed), the data of the output tensor `inpL` (`n_vocab * N` values), and
`ggml_used_mem(ctx0)`.  Values are kept as bit patterns. -/
structure eval_backend where
  realloc : Nat → Bool
  grow : Nat → Nat
  Kcur : Nat → List Nat → List Nat → Nat → Nat
  Vcur : Nat → List Nat → List Nat → Nat → Nat
  inpL : List Nat → List Nat → Nat → Nat
  used_mem : Nat

/-- The objects an evaluation updates: the elements of `model.memory_k` and
`model.memory_v`, the vector `embd_w`, the counter `mem_per_token` and the
function-local static `buf_size`. -/
structure eval_state where
  memory_k : List Nat
  memory_v : List Nat
  embd_w : List Nat
  mem_per_token : Nat
  buf_size : Nat
deriving DecidableEq

/-- Whether a value fits `int`; signed overflow is undefined. -/
def int_ok (x : Int) : Bool := decide (-2 ^ 31 ≤ x ∧ x < 2 ^ 31)

/-- The graph node `ggml_cpy(src, ggml_view_1d(ctx0, mem, count, elem_size *
start))`: `count` elements written from element `start` on.  A view that does
not lie inside the tensor is undefined behaviour. -/
def cache_store (mem : List Nat) (src : Nat → Nat) (start count : Int) :
    Except Exn (List Nat) :=
  if start < 0 ∨ count < 0 ∨ (mem.length : Int) < start + count then
    .error .undefined_behaviour
  else
    .ok (mem.take start.toNat ++ (List.range count.toNat).map src ++
      mem.drop (start.toNat + count.toNat))

/-- The view the keys (and likewise the values) of layer `il` are stored
through, `ggml_view_1d(ctx0, model.memory_k, N * n_embd,
(ggml_element_size(model.memory_k) * n_embd) * (il * n_ctx + n_past))` (mpt.cc
lines 423-431, replit.cc lines 478-485): its first element and its number of
elements. -/
def kv_write_view (n_embd n_ctx n_past N : Int) (il : Nat) : Int × Int :=
  (n_embd * ((il : Int) * n_ctx + n_past), N * n_embd)

/-- The view the cached keys (and likewise the values) of layer `il` are read
through, `ggml_view_1d(ctx0, model.memory_k, (n_past + N) * n_embd,
il * n_ctx * ggml_element_size(model.memory_k) * n_embd)` (mpt.cc lines
451-454 and 481-484, replit.cc lines 505-508 and 535-538): its first element
and its number of elements. -/
def kv_read_view (n_embd n_ctx n_past N : Int) (il : Nat) : Int × Int :=
  ((il : Int) * n_ctx * n_embd, (n_past + N) * n_embd)

/-- The cache traffic of layer `il` (mpt.cc lines 422-489, replit.cc lines
476-543): `N * n_embd` keys and values are stored from element
`n_embd * (il * n_ctx + n_past)` on, and the views read back start at
`il * n_ctx * n_embd` and hold `(n_past + N) * n_embd` elements, so they end
where the stores end. -/
def eval_layer (b : eval_backend) (n_embd n_ctx n_past N : Int) (il : Nat) (st : eval_state) :
    Except Exn eval_state :=
  if ¬ (int_ok (N * n_embd) ∧ int_ok ((il : Int) * n_ctx) ∧
      int_ok ((il : Int) * n_ctx + n_past) ∧ int_ok (n_past + N) ∧
      int_ok ((n_past + N) * n_embd)) then .error .undefined_behaviour
  else
    match cache_store st.memory_k (b.Kcur il st.memory_k st.memory_v)
        (n_embd * ((il : Int) * n_ctx + n_past)) (N * n_embd) with
    | .error e => .error e
    | .ok k =>
      match cache_store st.memory_v (b.Vcur il k st.memory_v)
          (n_embd * ((il : Int) * n_ctx + n_past)) (N * n_embd) with
      | .error e => .error e
      | .ok v => .ok { st with memory_k := k, memory_v := v }

/-- The part of `mpt_eval` (lines 366-595) and `replit_eval` (lines 438-622)
behind the buffer check, with `logits_all = false`: run the layers; resize
`embd_w` to `n_vocab` (a negative count throws) and copy `n_vocab` values from
offset `n_vocab * (N - 1)` of the output, which has `n_vocab * N` values; set
`mem_per_token` on the first call (a division by `N`); return true. -/
def eval_compute (b : eval_backend) (n_embd n_layer n_vocab n_ctx n_past N : Int)
    (st : eval_state) : Except Exn (Bool × eval_state) :=
  match for_loop_except (eval_layer b n_embd n_ctx n_past N) 0 n_layer.toNat st with
  | .error e => .error e
  | .ok st2 =>
    if n_vocab < 0 then .error .length_error
    else if ¬ (int_ok (N - 1) ∧ int_ok (n_vocab * (N - 1))) ∨ n_vocab * (N - 1) < 0 then
      .error .undefined_behaviour
    else
      let embd_w := (List.range n_vocab.toNat).map
        (fun j => b.inpL st2.memory_k st2.memory_v ((n_vocab * (N - 1)).toNat + j))
      if st2.mem_per_token = 0 then
        if N = 0 then .error .undefined_behaviour
        else .ok (true, { st2 with embd_w := embd_w, mem_per_token := b.used_mem / N.toNat })
      else .ok (true, { st2 with embd_w := embd_w })

/-- The steps `mpt_eval` (lines 330-595) and `replit_eval` (lines 403-622)
share: when `mem_per_token * N` exceeds the scratch buffer, grow it and return
false if `realloc` fails; then build and run the graph. -/
def transformer_eval (b : eval_backend) (n_embd n_layer n_vocab n_ctx n_past : Int)
    (embd_inp : List Int) (st : eval_state) : Except Exn (Bool × eval_state) :=
  let N := int32_of_nat embd_inp.length
  let need := (st.mem_per_token * size_t_of_int N) % 2 ^ 64
  if 0 < st.mem_per_token ∧ st.buf_size < need then
    if b.realloc (b.grow need) = false then .ok (false, { st with buf_size := b.grow need })
    else
      eval_compute b n_embd n_layer n_vocab n_ctx n_past N { st with buf_size := b.grow need }
  else eval_compute b n_embd n_layer n_vocab n_ctx n_past N st

/-- The function `mpt_eval` (lines 330-595): the layer stride is
`hparams.n_ctx`. -/
def mpt_eval (b : eval_backend) (model : mpt_model) (n_past : Int) (embd_inp : List Int)
    (st : eval_state) : Except Exn (Bool × eval_state) :=
  transformer_eval b model.hparams.d_model model.hparams.n_layers model.hparams.n_vocab
    model.hparams.n_ctx n_past embd_inp st

/-- The function `replit_eval` (lines 403-622): the layer stride is
`hparams.max_seq_len`. -/
def replit_eval (b : eval_backend) (model : replit_model) (n_past : Int) (embd_inp : List Int)
    (st : eval_state) : Except Exn (Bool × eval_state) :=
  transformer_eval b model.hparams.d_model model.hparams.n_layers model.hparams.n_vocab
    model.hparams.max_seq_len n_past embd_inp st

/-- The members of `mpt_llm` that `Load` touches; `n_ctx_` and `vocab_` are
inherited from `LLM`. -/
structure mpt_llm where
  model_ : mpt_model
  vocab_ : gpt_vocab
  n_ctx_ : Int
deriving DecidableEq

/-- The method `mpt_llm::Load` (lines 607-617) on the opened file `fin`. -/
def mpt_llm_Load (g : ggml_lib) (fin : istream) (context_length gpu_layers : Int)
    (self : mpt_llm) : Except Exn (Bool × mpt_llm) :=
  let model1 : mpt_model :=
    if 0 < context_length then
      { self.model_ with hparams := { self.model_.hparams with n_ctx := context_length } }
    else self.model_
  match mpt_model_load g fin model1 self.vocab_ gpu_layers with
  | .error e => .error e
  | .ok r =>
    if r.ret = false then .ok (false, { self with model_ := r.model, vocab_ := r.vocab })
    else .ok (true, { model_ := r.model, vocab_ := r.vocab, n_ctx_ := r.model.hparams.n_ctx })

/-- The members of `replit_llm` that `Load` touches. -/
structure replit_llm where
  model_ : replit_model
  replit_tokenizer_ : replit_tokenizer
  vocab_ : gpt_vocab
  n_ctx_ : Int
deriving DecidableEq

/-- The method `replit_llm::Load` (lines 650-661) on the opened file `fin`. -/
def replit_llm_Load (g : ggml_lib) (fin : istream) (context_length : Int)
    (self : replit_llm) : Except Exn (Bool × replit_llm) :=
  let model1 : replit_model :=
    if 0 < context_length then
      { self.model_ with hparams := { self.model_.hparams with n_ctx := context_length } }
    else self.model_
  match replit_model_load g fin model1 self.replit_tokenizer_ with
  | .error e => .error e
  | .ok r =>
    if r.ret = false then
      .ok (false, { self with model_ := r.model, replit_tokenizer_ := r.vocab })
    else
      .ok (true, { model_ := r.model, replit_tokenizer_ := r.vocab
                   vocab_ := r.vocab.raw_vocab, n_ctx_ := r.model.hparams.n_ctx })

/-- A freshly constructed `mpt_llm` whose inherited `n_ctx_` holds `n`. -/
def mpt_llm_new (n : Int) : mpt_llm :=
  { model_ := mpt_model_empty, vocab_ := gpt_vocab_empty, n_ctx_ := n }

/-- A freshly constructed `replit_llm` whose inherited `n_ctx_` holds `n`. -/
def replit_llm_new (n : Int) : replit_llm :=
  { model_ := replit_model_empty, replit_tokenizer_ := replit_tokenizer_empty
    vocab_ := gpt_vocab_empty, n_ctx_ := n }

/-- A Replit file with one layer and no tensor records: magic, `d_model = 2`,
`max_seq_len = 4`, `n_heads = 1`, `n_layers = 1`, `n_vocab = 1`, `ftype = 0`, and
the one piece `a` with file score `-1.0`. -/
def replit_one_layer_file : List Nat :=
  le_bytes 0x67676d6c 4 ++ le_bytes 2 4 ++ le_bytes 4 4 ++ le_bytes 1 4 ++ le_bytes 1 4 ++
    le_bytes 1 4 ++ le_bytes 0 4 ++ le_bytes 1 4 ++ [97] ++ le_bytes 0xbf800000 4

/-- An MPT file with one layer and no tensor records: magic, `d_model = 2`,
`max_seq_len = 4`, `n_heads = 1`, `n_layers = 1`, `n_vocab = 1`, `alibi_bias_max`
and `clip_qkv` zero, `ftype = 0`, and the one token `a`. -/
def mpt_one_layer_file : List Nat :=
  le_bytes 0x67676d6c 4 ++ le_bytes 2 4 ++ le_bytes 4 4 ++ le_bytes 1 4 ++ le_bytes 1 4 ++
    le_bytes 1 4 ++ le_bytes 0 4 ++ le_bytes 0 4 ++ le_bytes 0 4 ++ le_bytes 1 4 ++ [97]

/-- A backend whose allocations succeed and whose values tell where they come
from: key `j` of layer `il` is `100 + 10 * il + j`, value `j` is
`200 + 10 * il + j`, output `j` is `300 + j`. -/
def sample_backend : eval_backend :=
  { realloc := fun _ => true
    grow := fun x => x + x / 10
    Kcur := fun il _ _ j => 100 + 10 * il + j
    Vcur := fun il _ _ j => 200 + 10 * il + j
    inpL := fun _ _ j => 300 + j
    used_mem := 1000 }

/-- A backend like `sample_backend` whose `realloc` fails. -/
def failing_backend : eval_backend := { sample_backend with realloc := fun _ => false }

/-- The state before a first evaluation over caches of `n` zero elements. -/
def fresh_eval_state (n : Nat) : eval_state :=
  { memory_k := List.replicate n 0, memory_v := List.replicate n 0, embd_w := []
    mem_per_token := 0, buf_size := 256 * 1024 * 1024 }

/-- MPT hyperparameters with `d_model = 1`, two layers, `n_vocab = 2` and context
length 2. -/
def mpt_two_layer_hparams : mpt_hparams :=
  { d_model := 1, max_seq_len := 2, n_heads := 1, n_layers := 2, n_vocab := 2
    alibi_bias_max := 0, clip_qkv := 0, ftype := 0, n_ctx := 2 }

/-- Replit hyperparameters as `Load` leaves them for a file with `d_model = 1`,
one layer, `n_vocab = 2`, `max_seq_len = 4` and the override 2. -/
def replit_capped_hparams : replit_hparams :=
  { d_model := 1, max_seq_len := 4, n_heads := 1, n_layers := 1, n_vocab := 2
    ftype := 0, n_ctx := 2 }

/-- An MPT model with the hyperparameters `mpt_two_layer_hparams`. -/
def mpt_two_layer_model : mpt_model := { mpt_model_empty with hparams := mpt_two_layer_hparams }

/-- A Replit model with the hyperparameters `replit_capped_hparams`. -/
def replit_capped_model : replit_model :=
  { replit_model_empty with hparams := replit_capped_hparams }

/-- A state after earlier evaluations: four cache elements each, 500 bytes per
token recorded. -/
def used_eval_state : eval_state :=
  { memory_k := [11, 12, 13, 14], memory_v := [21, 22, 23, 24], embd_w := []
    mem_per_token := 500, buf_size := 256 * 1024 * 1024 }

/-- A state whose scratch buffer of one byte is too small for one token. -/
def tight_eval_state : eval_state :=
  { memory_k := [11, 12, 13, 14], memory_v := [21, 22, 23, 24], embd_w := []
    mem_per_token := 2, buf_size := 1 }

/-- The six declarations of layer `i` with their names, in the order of
`declare_layer`. -/
def layer_declarations (wtype n_embd F32 : Int) (gpu : Bool) (i : Nat) :
    List (Str × ggml_tensor) :=
  [(ascii "transformer.blocks." ++ ascii (toString i) ++ ascii ".norm_1.weight",
      ggml_new_tensor_1d F32 n_embd),
   (ascii "transformer.blocks." ++ ascii (toString i) ++ ascii ".attn.Wqkv.weight",
      ct_new_tensor wtype n_embd (3 * n_embd) gpu),
   (ascii "transformer.blocks." ++ ascii (toString i) ++ ascii ".attn.out_proj.weight",
      ct_new_tensor wtype n_embd n_embd gpu),
   (ascii "transformer.blocks." ++ ascii (toString i) ++ ascii ".norm_2.weight",
      ggml_new_tensor_1d F32 n_embd),
   (ascii "transformer.blocks." ++ ascii (toString i) ++ ascii ".ffn.up_proj.weight",
      ct_new_tensor wtype n_embd (4 * n_embd) gpu),
   (ascii "transformer.blocks." ++ ascii (toString i) ++ ascii ".ffn.down_proj.weight",
      ct_new_tensor wtype (4 * n_embd) n_embd gpu)]

/-- The declarations `mpt_declare_tensors` makes, in order: the embedding, the
final norm and six tensors per layer. -/
def mpt_declarations (g : ggml_lib) (hparams : mpt_hparams) (wtype : Int) (gpu_layers : Int) :
    List (Str × ggml_tensor) :=
  [(ascii "transformer.wte.weight", ggml_new_tensor_2d wtype hparams.d_model hparams.n_vocab),
   (ascii "transformer.norm_f.weight", ggml_new_tensor_1d g.GGML_TYPE_F32 hparams.d_model)] ++
    ((List.range hparams.n_layers.toNat).map
      (fun (i : Nat) => layer_declarations wtype hparams.d_model g.GGML_TYPE_F32
        (decide (hparams.n_layers - gpu_layers ≤ (i : Int))) i)).flatten

/-- The declarations `replit_declare_tensors` makes, in order. -/
def replit_declarations (g : ggml_lib) (hparams : replit_hparams) (wtype : Int) :
    List (Str × ggml_tensor) :=
  [(ascii "transformer.wte.weight", ggml_new_tensor_2d wtype hparams.d_model hparams.n_vocab),
   (ascii "transformer.norm_f.weight", ggml_new_tensor_1d g.GGML_TYPE_F32 hparams.d_model)] ++
    ((List.range hparams.n_layers.toNat).map
      (fun i => layer_declarations wtype hparams.d_model g.GGML_TYPE_F32 false i)).flatten

/-- Each of the two cache tensors as `mpt_model_load` declares it (lines
224-235). -/
def mpt_cache_tensor (g : ggml_lib) (hparams : mpt_hparams) : ggml_tensor :=
  ggml_new_tensor_1d g.GGML_TYPE_F16
    (wrap64 (hparams.d_model * wrap64 (hparams.n_layers * hparams.n_ctx)))

/-- Each of the two cache tensors as `replit_model_load` declares it (lines
303-315). -/
def replit_cache_tensor (g : ggml_lib) (hparams : replit_hparams) : ggml_tensor :=
  ggml_new_tensor_1d g.GGML_TYPE_F16
    (wrap64 (hparams.d_model * wrap32 (hparams.n_layers * hparams.max_seq_len)))

/-- Sum of `ggml_nbytes` over a list of tensors. -/
def total_nbytes (g : ggml_lib) (ts : List ggml_tensor) : Nat := (ts.map g.nbytes).sum

/-- In `g` the element type `t` is stored without blocks, `s` bytes per
element: `ggml_type_sizef` gives `s` and `ggml_nbytes` the element count times
`s`. -/
def plain_type (g : ggml_lib) (t : Int) (s : Nat) : Prop :=
  g.ggml_type_sizef t = (s : ℚ) ∧
  ∀ ne0 ne1 : Int, g.ggml_nbytes t ne0 ne1 = (ne0 * ne1).toNat * s

/-- MPT hyperparameters with `d_model = 2`, `max_seq_len = 4`, one layer,
`n_vocab = 1` and context length 4, as the loader has them for
`mpt_one_layer_file`. -/
def mpt_one_layer_hparams : mpt_hparams :=
  { d_model := 2, max_seq_len := 4, n_heads := 1, n_layers := 1, n_vocab := 1
    alibi_bias_max := 0, clip_qkv := 0, ftype := 0, n_ctx := 4 }

/-- MPT hyperparameters with `d_model = n_vocab = 2 ^ 30 + 1`, no layer and
context length 0. -/
def mpt_wide_hparams : mpt_hparams :=
  { d_model := 2 ^ 30 + 1, max_seq_len := 0, n_heads := 1, n_layers := 0, n_vocab := 2 ^ 30 + 1
    alibi_bias_max := 0, clip_qkv := 0, ftype := 0, n_ctx := 0 }

/-- Replit hyperparameters with `d_model = 2`, `max_seq_len = 4`, one layer and
`n_vocab = 1`, as the loader has them for `replit_one_layer_file`. -/
def replit_one_layer_hparams : replit_hparams :=
  { d_model := 2, max_seq_len := 4, n_heads := 1, n_layers := 1, n_vocab := 1
    ftype := 0, n_ctx := 4 }

/-! ## Specification vocabulary for the segmenter -/

/-- `ps` writes `word` as a concatenation of known pieces. -/
def is_segmentation (model : piece_map_t) (word : Str) (ps : List Str) : Prop :=
  ps.flatten = word ∧ ∀ p ∈ ps, (map_find p model).isSome = true

/-- A piece table all of whose stored scores are finite numbers. -/
def finite_scores (model : piece_map_t) : Prop :=
  ∀ e ∈ model, ∃ q : ℚ, e.2.2 = float.fin q

/-- The id stored for piece `p`, as a `gpt_vocab::id` (0 when `p` is unknown). -/
def piece_id (model : piece_map_t) (p : Str) : Int :=
  match map_find p model with
  | some (id, _) => int32_of_nat id
  | none => 0

/-- The stored score of piece `p` as an exact number (0 when unknown or not finite). -/
def piece_score (model : piece_map_t) (p : Str) : ℚ :=
  match map_find p model with
  | some (_, float.fin q) => q
  | _ => 0

/-- Sum of the stored scores of a list of pieces. -/
def total_score (model : piece_map_t) (ps : List Str) : ℚ :=
  (ps.map (piece_score model)).sum

/-- A piece table all of whose stored scores are finite numbers and not
negative (the file holds scores that are not positive). -/
def nonneg_scores (model : piece_map_t) : Prop :=
  ∀ e ∈ model, ∃ q : ℚ, e.2.2 = float.fin q ∧ 0 ≤ q

/-- A `float` value that is a number not below zero, or `+inf`. -/
def nonneg_float (x : float) : Prop :=
  x = float.pinf ∨ ∃ q : ℚ, 0 ≤ q ∧ x = float.fin q

/-- The stored score of piece `p` as the `float` of the table (0.0 when `p` is
unknown). -/
def stored_score (model : piece_map_t) (p : Str) : float :=
  match map_find p model with
  | some (_, sc) => sc
  | none => float.fin 0

/-- The score the dynamic program accumulates along the pieces `ps`, left to
right, in `float` arithmetic: it starts from 1.0 and forms `score + best` for
each piece. -/
def accumulated_score (model : piece_map_t) (ps : List Str) : float :=
  ps.foldl (fun acc p => (stored_score model p).add acc) (float.fin 1)

/-- Invariant of the double loop of `encode_word` for an arbitrary table, when
the start offsets up to `s` have been used: a position `e > 0` whose score is
not `-inf` has a recorded predecessor `s1 < e` that is itself reached, the piece
between them is known, and the score at `e` is the `float` sum of the score of
that piece and the score at `s1`. -/
structure chain_inv (word : Str) (model : piece_map_t) (s : Nat)
    (st : segmentation_state) : Prop where
  len_starts : st.best_segmentations_starts.length = word.length + 1
  len_scores : st.best_segmentations_scores.length = word.length + 1
  zero : st.best_segmentations_scores.getD 0 float.ninf = float.fin 1
  chain : ∀ e, 0 < e → e ≤ word.length →
    (st.best_segmentations_scores.getD e float.ninf).is_ninf = false →
    ∃ (s1 id : Nat) (sc : float), s1 < e ∧ s1 ≤ s ∧
      st.best_segmentations_starts.getD e (-1) = (s1 : Int) ∧
      map_find (substr word s1 (e - s1)) model = some (id, sc) ∧
      (st.best_segmentations_scores.getD s1 float.ninf).is_ninf = false ∧
      st.best_segmentations_scores.getD e float.ninf =
        sc.add (st.best_segmentations_scores.getD s1 float.ninf)

/-- Invariant of the double loop of `encode_word` for a table with finite
scores that are not negative, when every pair `(start, end)` with `start < s`,
or `start = s` and `end < e_cur`, has been tried: every score is `-inf`, a
number not below zero or `+inf`; for a tried pair with a known piece and a
reached start the end is reached and its score is not greater than the
candidate of the pair; and the candidate of a start offset before the
recorded predecessor is greater than the score of the end. -/
structure min_inv (word : Str) (model : piece_map_t) (s e_cur : Nat)
    (st : segmentation_state) : Prop where
  ok : ∀ e, e ≤ word.length →
    st.best_segmentations_scores.getD e float.ninf = float.ninf ∨
    nonneg_float (st.best_segmentations_scores.getD e float.ninf)
  opt : ∀ (s1 e id : Nat) (sc : float), s1 < e → e ≤ word.length →
    (s1 < s ∨ (s1 = s ∧ e < e_cur)) →
    map_find (substr word s1 (e - s1)) model = some (id, sc) →
    (st.best_segmentations_scores.getD s1 float.ninf).is_ninf = false →
    (st.best_segmentations_scores.getD e float.ninf).is_ninf = false ∧
    (st.best_segmentations_scores.getD e float.ninf).gt
      (sc.add (st.best_segmentations_scores.getD s1 float.ninf)) = false
  first : ∀ (e s1 s2 id : Nat) (sc : float), 0 < e → e ≤ word.length →
    (st.best_segmentations_scores.getD e float.ninf).is_ninf = false →
    st.best_segmentations_starts.getD e (-1) = (s1 : Int) →
    s2 < s1 →
    map_find (substr word s2 (e - s2)) model = some (id, sc) →
    (st.best_segmentations_scores.getD s2 float.ninf).is_ninf = false →
    (sc.add (st.best_segmentations_scores.getD s2 float.ninf)).gt
      (st.best_segmentations_scores.getD e float.ninf) = true

/-- The first `e` bytes of `word` are a concatenation of known pieces. -/
def coverable (model : piece_map_t) (word : Str) (e : Nat) : Prop :=
  ∃ ps : List Str, is_segmentation model (word.take e) ps

/-- Invariant of the double loop of `encode_word` for an arbitrary table: a
position whose score is not `-inf` is reached by known pieces. -/
def reach_inv (word : Str) (model : piece_map_t) (st : segmentation_state) : Prop :=
  st.best_segmentations_scores.length = word.length + 1 ∧
  ∀ e, e ≤ word.length →
    (st.best_segmentations_scores.getD e float.ninf).is_ninf = false → coverable model word e

/-- Every piece of a loaded table is stored in `id_to_token` under its own id. -/
def pieces_in_vocab (bound : Nat) (tokenizer : replit_tokenizer) : Prop :=
  ∀ (key : Str) (id : Nat) (sc : float),
    map_find key tokenizer.piece_map = some (id, sc) →
    id < bound ∧ map_find (int32_of_nat id) tokenizer.raw_vocab.id_to_token = some key

/-- A table with the pieces `a`, `b` and `ab`. -/
def three_piece_table : piece_map_t :=
  [([97], (0, float.fin 1)), ([98], (1, float.fin 2)), ([97, 98], (2, float.fin (5 / 2)))]

/-- A table with the pieces `a`, `b` (both of stored score 1) and `ab` (stored
score 5). -/
def cheap_parts_table : piece_map_t :=
  [([97], (0, float.fin 1)), ([98], (1, float.fin 1)), ([97, 98], (2, float.fin 5))]

/-- A table with the piece `a` and an empty piece of negative stored score. -/
def empty_piece_table : piece_map_t :=
  [([], (1, float.fin (-5))), ([97], (0, float.fin 1))]

/-- The tokenizer that `replit_tokenizer_load` builds from `split_marker_file`. -/
def split_marker_tokenizer : replit_tokenizer :=
  { raw_vocab := { token_to_id := [], id_to_token := [(0, [226]), (1, [150, 129])] }
    piece_map := [([226], (0, float.fin 1)), ([150, 129], (1, float.fin 1))]
    vocab := [] }

/-- Each space byte replaced by the three bytes of the marker, every other byte
kept: what the specification says of `replace_all(text, " ", ws_symbol)`. -/
def space_to_marker : Str → Str
  | [] => []
  | b :: rest =>
    if b = 32 then 226 :: 150 :: 129 :: space_to_marker rest else b :: space_to_marker rest

/-- A table with the pieces `a`, `b` (both of stored score 1) and `ab` (stored
score 2): the two ways to write `ab` have the same score. -/
def tie_table : piece_map_t :=
  [([97], (0, float.fin 1)), ([98], (1, float.fin 1)), ([97, 98], (2, float.fin 2))]

/-- The largest finite `float`, `FLT_MAX`. -/
def FLT_MAX : ℚ := 2 ^ 128 - 2 ^ 104

/-- A table with the pieces `ab`, `abc`, `c` and the pieces `a` and `bc` whose
stored score is `-FLT_MAX` (the file holds `FLT_MAX` for them). -/
def overflow_middle_table : piece_map_t :=
  [([97], (0, float.fin (-FLT_MAX))), ([97, 98], (1, float.fin 1)),
    ([97, 98, 99], (2, float.fin 3)), ([98, 99], (3, float.fin (-FLT_MAX))),
    ([99], (4, float.fin 2))]

/-- A table with the pieces `a`, `b` (both of stored score `2 ^ -30`) and `ab`
(stored score `3 * 2 ^ -30`). -/
def tiny_scores_table : piece_map_t :=
  [([97], (0, float.fin (1 / 2 ^ 30))), ([98], (1, float.fin (1 / 2 ^ 30))),
    ([97, 98], (2, float.fin (3 / 2 ^ 30)))]

/-- A table with the pieces `a` and `b`, both of stored score `-FLT_MAX`. -/
def huge_negative_table : piece_map_t :=
  [([97], (0, float.fin (-FLT_MAX))), ([98], (1, float.fin (-FLT_MAX)))]

/-- Vocabulary block with the pieces `a` and `b`, both of file score `FLT_MAX`
(stored `-FLT_MAX`). -/
def max_score_file : List Nat :=
  [1, 0, 0, 0, 97, 255, 255, 127, 127, 1, 0, 0, 0, 98, 255, 255, 127, 127]

/-- Vocabulary block with the pieces `a`, the marker and `b`, each of file score
`-1.0`. -/
def marker_piece_file : List Nat :=
  [1, 0, 0, 0, 97, 0, 0, 128, 191, 3, 0, 0, 0, 226, 150, 129, 0, 0, 128, 191,
    1, 0, 0, 0, 98, 0, 0, 128, 191]

/-- The tokenizer that `replit_tokenizer_load` builds from `marker_piece_file`. -/
def marker_piece_tokenizer : replit_tokenizer :=
  { raw_vocab :=
      { token_to_id := [], id_to_token := [(0, [97]), (1, [226, 150, 129]), (2, [98])] }
    piece_map :=
      [([97], (0, float.fin 1)), ([226, 150, 129], (1, float.fin 1)), ([98], (2, float.fin 1))]
    vocab := [] }

/-! # Theorems -/

/-! ## Lists and loops -/

theorem getD_set_eq {α : Type} (l : List α) (i : Nat) (a d : α) (h : i < l.length) :
    (l.set i a).getD i d = a := by
  simp [List.getD_eq_getElem?_getD, List.getElem?_set, h]

theorem getD_set_ne {α : Type} (l : List α) (i j : Nat) (a d : α) (h : i ≠ j) :
    (l.set i a).getD j d = l.getD j d := by
  simp [List.getD_eq_getElem?_getD, List.getElem?_set, h]

theorem getD_replicate_lt {α : Type} (n i : Nat) (a d : α) (h : i < n) :
    (List.replicate n a).getD i d = a := by
  simp [List.getD_eq_getElem?_getD, List.getElem?_replicate, h]

theorem for_loop_inv {σ : Type} (body : Nat → σ → σ) (P : Nat → σ → Prop) :
    ∀ (k i : Nat) (st : σ), P i st →
      (∀ j st, i ≤ j → j < i + k → P j st → P (j + 1) (body j st)) →
      P (i + k) (for_loop body i k st) := by
  intro k
  induction k with
  | zero => intro i st h _; simpa [for_loop] using h
  | succ k ih =>
    intro i st h hstep
    have h1 : P (i + 1) (body i st) := hstep i st (Nat.le_refl _) (by omega) h
    have h2 := ih (i + 1) (body i st) h1 (fun j st hj hj2 hP => hstep j st (by omega) (by omega) hP)
    have e : i + 1 + k = i + (k + 1) := by omega
    rw [e] at h2
    simpa [for_loop] using h2

theorem take_append_substr (word : Str) (s e : Nat) (h : s ≤ e) :
    word.take s ++ substr word s (e - s) = word.take e := by
  have := List.take_add word s (e - s)
  rw [Nat.add_sub_cancel' h] at this
  rw [this, substr]

theorem substr_ne_nil (word : Str) (s e : Nat) (h1 : s < e) (h2 : e ≤ word.length) :
    substr word s (e - s) ≠ [] := by
  intro h
  have := congrArg List.length h
  simp [substr, List.length_take, List.length_drop] at this
  omega

theorem split_take (word : Str) (a p : Str) (e : Nat) (he : e ≤ word.length)
    (h : a ++ p = word.take e) :
    a.length + p.length = e ∧ a = word.take a.length ∧ p = substr word a.length (e - a.length) := by
  have hl : a.length + p.length = e := by
    have := congrArg List.length h
    simp [List.length_take] at this
    omega
  refine ⟨hl, ?_, ?_⟩
  · have := congrArg (List.take a.length) h
    rw [List.take_left, List.take_take] at this
    have hm : min a.length e = a.length := by omega
    rw [hm] at this
    exact this
  · have := congrArg (List.drop a.length) h
    rw [List.drop_left, List.drop_take] at this
    rw [this, substr]

theorem map_find_mem {κ ν : Type} [DecidableEq κ] (key : κ) (v : ν) (model : List (κ × ν))
    (h : map_find key model = some v) : (key, v) ∈ model := by
  induction model with
  | nil => simp [map_find] at h
  | cons e m ih =>
    obtain ⟨k, w⟩ := e
    by_cases hk : k = key
    · simp [map_find, hk] at h
      simp [hk, h]
    · simp [map_find, hk] at h
      exact List.mem_cons_of_mem _ (ih h)

theorem finite_scores_find (model : piece_map_t) (hf : finite_scores model) (key : Str)
    (id : Nat) (sc : float) (h : map_find key model = some (id, sc)) :
    ∃ q : ℚ, sc = float.fin q := by
  have := hf _ (map_find_mem key (id, sc) model h)
  simpa using this

/-! ## Rounding to a floating-point format -/

theorem log2_loop_spec : ∀ (fuel n : Nat), 0 < n → n ≤ fuel →
    2 ^ log2_loop fuel n ≤ n ∧ n < 2 ^ (log2_loop fuel n + 1) := by
  intro fuel
  induction fuel with
  | zero => intro n h1 h2; omega
  | succ f ih =>
    intro n h1 h2
    rw [log2_loop]
    by_cases h : 2 ≤ n
    · simp only [h, if_true]
      obtain ⟨a, b⟩ := ih (n / 2) (by omega) (by omega)
      rw [Nat.pow_succ, Nat.pow_succ, Nat.pow_succ]
      rw [Nat.pow_succ] at b
      constructor <;> omega
    · simp only [h, if_false]
      constructor <;> omega

theorem nat_log2_spec (n : Nat) (h : 0 < n) :
    2 ^ nat_log2 n ≤ n ∧ n < 2 ^ (nat_log2 n + 1) :=
  log2_loop_spec n n h (Nat.le_refl _)

theorem ilog2_spec (a : ℚ) (h : 0 < a) :
    (2 : ℚ) ^ ilog2 a ≤ a ∧ a < (2 : ℚ) ^ (ilog2 a + 1) := by
  have hnum : 0 < a.num := Rat.num_pos.mpr h
  have hn : 0 < a.num.natAbs := Int.natAbs_pos.mpr (ne_of_gt hnum)
  have hd : 0 < a.den := a.den_pos
  obtain ⟨n1, n2⟩ := nat_log2_spec _ hn
  obtain ⟨d1, d2⟩ := nat_log2_spec _ hd
  have hnq : (a.num.natAbs : ℚ) = (a.num : ℚ) := by
    have h1 : (a.num.natAbs : Int) = a.num := Int.natAbs_of_nonneg (le_of_lt hnum)
    calc (a.num.natAbs : ℚ) = ((a.num.natAbs : Int) : ℚ) := (Int.cast_natCast _).symm
      _ = (a.num : ℚ) := by rw [h1]
  have ha : a = (a.num.natAbs : ℚ) / (a.den : ℚ) := by
    rw [hnq]
    exact (Rat.num_div_den a).symm
  have hdq : (0 : ℚ) < (a.den : ℚ) := by exact_mod_cast hd
  have n1q : (2 : ℚ) ^ (nat_log2 a.num.natAbs) ≤ (a.num.natAbs : ℚ) := by exact_mod_cast n1
  have n2q : (a.num.natAbs : ℚ) < (2 : ℚ) ^ (nat_log2 a.num.natAbs + 1) := by exact_mod_cast n2
  have d1q : (2 : ℚ) ^ (nat_log2 a.den) ≤ (a.den : ℚ) := by exact_mod_cast d1
  have d2q : (a.den : ℚ) < (2 : ℚ) ^ (nat_log2 a.den + 1) := by exact_mod_cast d2
  have hpd : (0 : ℚ) < (2 : ℚ) ^ (nat_log2 a.den) := by positivity
  have up : a < (2 : ℚ) ^ (((nat_log2 a.num.natAbs : Int) - (nat_log2 a.den : Int)) + 1) := by
    have e : (2 : ℚ) ^ (((nat_log2 a.num.natAbs : Int) - (nat_log2 a.den : Int)) + 1) =
        (2 : ℚ) ^ (nat_log2 a.num.natAbs + 1) / (2 : ℚ) ^ (nat_log2 a.den) := by
      rw [show ((nat_log2 a.num.natAbs : Int) - (nat_log2 a.den : Int)) + 1 =
        ((nat_log2 a.num.natAbs + 1 : Nat) : Int) - ((nat_log2 a.den : Nat) : Int) by push_cast; ring]
      rw [zpow_sub₀ (by norm_num : (2 : ℚ) ≠ 0), zpow_natCast, zpow_natCast]
    rw [e]
    conv_lhs => rw [ha]
    rw [div_lt_div_iff₀ hdq hpd]
    calc (a.num.natAbs : ℚ) * 2 ^ nat_log2 a.den ≤ (a.num.natAbs : ℚ) * a.den :=
          mul_le_mul_of_nonneg_left d1q (by positivity)
      _ < 2 ^ (nat_log2 a.num.natAbs + 1) * a.den := mul_lt_mul_of_pos_right n2q hdq
  have lo : (2 : ℚ) ^ (((nat_log2 a.num.natAbs : Int) - (nat_log2 a.den : Int)) - 1) ≤ a := by
    have e : (2 : ℚ) ^ (((nat_log2 a.num.natAbs : Int) - (nat_log2 a.den : Int)) - 1) =
        (2 : ℚ) ^ (nat_log2 a.num.natAbs) / (2 : ℚ) ^ (nat_log2 a.den + 1) := by
      rw [show ((nat_log2 a.num.natAbs : Int) - (nat_log2 a.den : Int)) - 1 =
        ((nat_log2 a.num.natAbs : Nat) : Int) - ((nat_log2 a.den + 1 : Nat) : Int) by push_cast; ring]
      rw [zpow_sub₀ (by norm_num : (2 : ℚ) ≠ 0), zpow_natCast, zpow_natCast]
    rw [e]
    conv_rhs => rw [ha]
    have hp2 : (0 : ℚ) < (2 : ℚ) ^ (nat_log2 a.den + 1) := by positivity
    rw [div_le_div_iff₀ hp2 hdq]
    calc (2 : ℚ) ^ nat_log2 a.num.natAbs * a.den ≤ (a.num.natAbs : ℚ) * a.den :=
          mul_le_mul_of_nonneg_right n1q (le_of_lt hdq)
      _ ≤ (a.num.natAbs : ℚ) * 2 ^ (nat_log2 a.den + 1) :=
          mul_le_mul_of_nonneg_left (le_of_lt d2q) (by positivity)
  unfold ilog2
  dsimp only
  by_cases hk : (2 : ℚ) ^ ((nat_log2 a.num.natAbs : Int) - (nat_log2 a.den : Int)) ≤ a
  · rw [if_pos hk]
    exact ⟨hk, up⟩
  · rw [if_neg hk]
    refine ⟨lo, ?_⟩
    rw [sub_add_cancel]
    exact lt_of_not_le hk

theorem round_even_int (n : Int) : round_even (n : ℚ) = n := by
  unfold round_even
  simp [Int.floor_intCast]

theorem round_even_bounds (x : ℚ) : ⌊x⌋ ≤ round_even x ∧ round_even x ≤ ⌊x⌋ + 1 := by
  unfold round_even
  dsimp only
  split_ifs <;> constructor <;> omega

theorem round_even_mono (x y : ℚ) (h : x ≤ y) : round_even x ≤ round_even y := by
  have hf : ⌊x⌋ ≤ ⌊y⌋ := Int.floor_mono h
  rcases lt_or_eq_of_le hf with hlt | heq
  · have := (round_even_bounds x).2
    have := (round_even_bounds y).1
    omega
  · have hxy : x - (⌊y⌋ : ℚ) ≤ y - (⌊y⌋ : ℚ) := by linarith
    unfold round_even
    dsimp only
    rw [heq]
    split_ifs <;> first | omega | (exfalso; linarith)

theorem fp_ulp_pos (fmt : fp_format) (a : ℚ) : 0 < fp_ulp fmt a := by
  unfold fp_ulp
  positivity

theorem fp_exponent_mono (fmt : fp_format) (x y : ℚ) (hx : 0 < x) (hxy : x ≤ y) :
    fp_exponent fmt x ≤ fp_exponent fmt y := by
  have hy : 0 < y := lt_of_lt_of_le hx hxy
  obtain ⟨x1, _⟩ := ilog2_spec x hx
  obtain ⟨_, y2⟩ := ilog2_spec y hy
  have : ilog2 x ≤ ilog2 y := by
    by_contra hc
    have h1 : ilog2 y + 1 ≤ ilog2 x := by omega
    have h2 : (2 : ℚ) ^ (ilog2 y + 1) ≤ (2 : ℚ) ^ ilog2 x :=
      zpow_le_zpow_right₀ (by norm_num) h1
    linarith
  unfold fp_exponent
  exact max_le_max (le_refl _) this

theorem fp_nearest_nonneg (fmt : fp_format) (a : ℚ) (h : 0 ≤ a) : 0 ≤ fp_nearest fmt a := by
  unfold fp_nearest
  have hu := fp_ulp_pos fmt a
  have h1 : (0 : ℚ) ≤ a / fp_ulp fmt a := div_nonneg h (le_of_lt hu)
  have h2 := round_even_mono _ _ h1
  have h3 : round_even ((0 : Int) : ℚ) = 0 := round_even_int 0
  simp only [Int.cast_zero] at h3
  rw [h3] at h2
  have h4 : (0 : ℚ) ≤ (round_even (a / fp_ulp fmt a) : ℚ) := by exact_mod_cast h2
  exact mul_nonneg h4 (le_of_lt hu)

theorem fp_nearest_mono (fmt : fp_format) (hp : 1 ≤ fmt.prec) (x y : ℚ) (hx : 0 ≤ x)
    (hxy : x ≤ y) : fp_nearest fmt x ≤ fp_nearest fmt y := by
  rcases eq_or_lt_of_le hx with h0 | hpos
  · subst h0
    have : fp_nearest fmt 0 = 0 := by
      unfold fp_nearest
      have h3 : round_even ((0 : Int) : ℚ) = 0 := round_even_int 0
      simp only [Int.cast_zero] at h3
      simp [h3]
    rw [this]
    exact fp_nearest_nonneg fmt y hxy
  · have hy : 0 < y := lt_of_lt_of_le hpos hxy
    have hE := fp_exponent_mono fmt x y hpos hxy
    have hux := fp_ulp_pos fmt x
    have huy := fp_ulp_pos fmt y
    rcases eq_or_lt_of_le hE with heq | hlt
    · have hu : fp_ulp fmt x = fp_ulp fmt y := by unfold fp_ulp; rw [heq]
      unfold fp_nearest
      rw [hu]
      have h1 : x / fp_ulp fmt y ≤ y / fp_ulp fmt y := div_le_div_of_nonneg_right hxy (le_of_lt huy)
      have h2 := round_even_mono _ _ h1
      have h3 : (round_even (x / fp_ulp fmt y) : ℚ) ≤ (round_even (y / fp_ulp fmt y) : ℚ) := by
        exact_mod_cast h2
      exact mul_le_mul_of_nonneg_right h3 (le_of_lt huy)
    · have two_ne : (2 : ℚ) ≠ 0 := by norm_num
      obtain ⟨_, x2⟩ := ilog2_spec x hpos
      obtain ⟨y1, _⟩ := ilog2_spec y hy
      have hEy : fp_exponent fmt y = ilog2 y := by
        unfold fp_exponent at hlt ⊢
        have : fmt.emin ≤ max fmt.emin (ilog2 x) := le_max_left _ _
        rcases max_cases fmt.emin (ilog2 y) with ⟨h, _⟩ | ⟨h, _⟩
        · omega
        · exact h
      have hEx : ilog2 x ≤ fp_exponent fmt x := le_max_right _ _
      have hxu : x < (2 : ℚ) ^ (fp_exponent fmt x + 1) :=
        lt_of_lt_of_le x2 (zpow_le_zpow_right₀ (by norm_num) (by omega))
      have ux_eq : (2 : ℚ) ^ (fp_exponent fmt x + 1) = ((2 ^ fmt.prec : Int) : ℚ) * fp_ulp fmt x := by
        unfold fp_ulp
        push_cast
        rw [← zpow_natCast, ← zpow_add₀ two_ne]
        congr 1
        omega
      have uy_eq : (2 : ℚ) ^ (fp_exponent fmt y) =
          ((2 ^ (fmt.prec - 1) : Int) : ℚ) * fp_ulp fmt y := by
        unfold fp_ulp
        push_cast
        rw [← zpow_natCast, ← zpow_add₀ two_ne]
        congr 1
        omega
      have h1 : x / fp_ulp fmt x ≤ ((2 ^ fmt.prec : Int) : ℚ) := by
        rw [div_le_iff₀ hux, ← ux_eq]
        exact le_of_lt hxu
      have h2 := round_even_mono _ _ h1
      rw [round_even_int] at h2
      have h3 : ((2 ^ (fmt.prec - 1) : Int) : ℚ) ≤ y / fp_ulp fmt y := by
        rw [le_div_iff₀ huy, ← uy_eq, hEy]
        exact y1
      have h4 := round_even_mono _ _ h3
      rw [round_even_int] at h4
      unfold fp_nearest
      have h2q : (round_even (x / fp_ulp fmt x) : ℚ) ≤ ((2 ^ fmt.prec : Int) : ℚ) := by
        exact_mod_cast h2
      have h4q : ((2 ^ (fmt.prec - 1) : Int) : ℚ) ≤ (round_even (y / fp_ulp fmt y) : ℚ) := by
        exact_mod_cast h4
      calc (round_even (x / fp_ulp fmt x) : ℚ) * fp_ulp fmt x
          ≤ ((2 ^ fmt.prec : Int) : ℚ) * fp_ulp fmt x :=
            mul_le_mul_of_nonneg_right h2q (le_of_lt hux)
        _ = (2 : ℚ) ^ (fp_exponent fmt x + 1) := ux_eq.symm
        _ ≤ (2 : ℚ) ^ (fp_exponent fmt y) := zpow_le_zpow_right₀ (by norm_num) (by omega)
        _ = ((2 ^ (fmt.prec - 1) : Int) : ℚ) * fp_ulp fmt y := uy_eq
        _ ≤ (round_even (y / fp_ulp fmt y) : ℚ) * fp_ulp fmt y :=
            mul_le_mul_of_nonneg_right h4q (le_of_lt huy)

theorem fp_round_pos_nonneg (fmt : fp_format) (a : ℚ) (h : 0 ≤ a) :
    fp_round_pos fmt a = float.pinf ∨ ∃ r : ℚ, 0 ≤ r ∧ fp_round_pos fmt a = float.fin r := by
  unfold fp_round_pos
  split_ifs
  · exact Or.inl rfl
  · exact Or.inr ⟨_, fp_nearest_nonneg fmt a h, rfl⟩

theorem fp_round_pos_mono (fmt : fp_format) (hp : 1 ≤ fmt.prec) (x y : ℚ) (hx : 0 ≤ x)
    (hxy : x ≤ y) : (fp_round_pos fmt x).gt (fp_round_pos fmt y) = false := by
  have h := fp_nearest_mono fmt hp x y hx hxy
  unfold fp_round_pos
  split_ifs with h1 h2 h2
  · rfl
  · exact absurd (le_trans h1 h) h2
  · rfl
  · simp only [float.gt, decide_eq_false_iff_not, not_lt]
    exact h

theorem fp_round_pos_exact (fmt : fp_format) (hp : 1 ≤ fmt.prec)
    (h1 : fmt.emin ≤ (fmt.prec : Int) - 1) (h2 : (fmt.prec : Int) ≤ fmt.emax + 1)
    (m : Nat) (hm : m < 2 ^ fmt.prec) : fp_round_pos fmt (m : ℚ) = float.fin (m : ℚ) := by
  have two_ne : (2 : ℚ) ≠ 0 := by norm_num
  have hmq : (m : ℚ) < (2 : ℚ) ^ (fmt.prec : Int) := by
    rw [zpow_natCast]
    exact_mod_cast hm
  have hE : fp_exponent fmt (m : ℚ) ≤ (fmt.prec : Int) - 1 := by
    unfold fp_exponent
    apply max_le h1
    rcases Nat.eq_zero_or_pos m with h0 | hpos
    · subst h0
      have : ilog2 ((0 : Nat) : ℚ) = -1 := by decide!
      rw [this]
      omega
    · have hq : (0 : ℚ) < (m : ℚ) := by exact_mod_cast hpos
      obtain ⟨a1, _⟩ := ilog2_spec _ hq
      by_contra hc
      have : (2 : ℚ) ^ (fmt.prec : Int) ≤ (2 : ℚ) ^ ilog2 (m : ℚ) :=
        zpow_le_zpow_right₀ (by norm_num) (by omega)
      linarith
  obtain ⟨k, hk⟩ : ∃ k : Nat, (k : Int) = (fmt.prec : Int) - 1 - fp_exponent fmt (m : ℚ) :=
    ⟨((fmt.prec : Int) - 1 - fp_exponent fmt (m : ℚ)).toNat, by omega⟩
  have hu : fp_ulp fmt (m : ℚ) = 1 / (2 : ℚ) ^ k := by
    unfold fp_ulp
    rw [show fp_exponent fmt (m : ℚ) - ((fmt.prec : Int) - 1) = -(k : Int) by omega,
      zpow_neg, zpow_natCast, one_div]
  have hpk : (0 : ℚ) < (2 : ℚ) ^ k := by positivity
  have hn : fp_nearest fmt (m : ℚ) = (m : ℚ) := by
    unfold fp_nearest
    rw [hu]
    have : (m : ℚ) / (1 / (2 : ℚ) ^ k) = (((m * 2 ^ k : Nat) : Int) : ℚ) := by
      push_cast
      field_simp
    rw [this, round_even_int]
    push_cast
    field_simp
  unfold fp_round_pos
  rw [hn]
  have : ¬ (2 : ℚ) ^ (fmt.emax + 1) ≤ (m : ℚ) := by
    intro hc
    have : (2 : ℚ) ^ (fmt.prec : Int) ≤ (2 : ℚ) ^ (fmt.emax + 1) :=
      zpow_le_zpow_right₀ (by norm_num) h2
    linarith
  rw [if_neg this]

theorem ilog2_le (v : ℚ) (hv : 0 < v) (k : Int) (h : v < (2 : ℚ) ^ (k + 1)) : ilog2 v ≤ k := by
  obtain ⟨v1, _⟩ := ilog2_spec v hv
  by_contra hc
  have : (2 : ℚ) ^ (k + 1) ≤ (2 : ℚ) ^ ilog2 v := zpow_le_zpow_right₀ (by norm_num) (by omega)
  linarith

theorem le_ilog2 (v : ℚ) (hv : 0 < v) (k : Int) (h : (2 : ℚ) ^ k ≤ v) : k ≤ ilog2 v := by
  obtain ⟨_, v2⟩ := ilog2_spec v hv
  by_contra hc
  have : (2 : ℚ) ^ (ilog2 v + 1) ≤ (2 : ℚ) ^ k := zpow_le_zpow_right₀ (by norm_num) (by omega)
  linarith

theorem fp_nearest_zero (fmt : fp_format) : fp_nearest fmt 0 = 0 := by
  unfold fp_nearest
  have h3 : round_even ((0 : Int) : ℚ) = 0 := round_even_int 0
  simp only [Int.cast_zero] at h3
  simp [h3]

theorem fp_nearest_idem (fmt : fp_format) (hp : 1 ≤ fmt.prec) (a : ℚ) (ha : 0 ≤ a) :
    fp_nearest fmt (fp_nearest fmt a) = fp_nearest fmt a := by
  have two_ne : (2 : ℚ) ≠ 0 := by norm_num
  rcases eq_or_lt_of_le ha with h0 | hpos
  · rw [← h0, fp_nearest_zero, fp_nearest_zero]
  have hu := fp_ulp_pos fmt a
  have hv0 := fp_nearest_nonneg fmt a ha
  rcases eq_or_lt_of_le hv0 with hz | hvpos
  · rw [← hz, fp_nearest_zero]
  obtain ⟨a1, a2⟩ := ilog2_spec a hpos
  have hEa : ilog2 a ≤ fp_exponent fmt a := le_max_right _ _
  have hEm : fmt.emin ≤ fp_exponent fmt a := le_max_left _ _
  have hxu : a < (2 : ℚ) ^ (fp_exponent fmt a + 1) :=
    lt_of_lt_of_le a2 (zpow_le_zpow_right₀ (by norm_num) (by omega))
  have ux_eq : (2 : ℚ) ^ (fp_exponent fmt a + 1) = ((2 ^ fmt.prec : Int) : ℚ) * fp_ulp fmt a := by
    unfold fp_ulp
    push_cast
    rw [← zpow_natCast, ← zpow_add₀ two_ne]
    congr 1
    omega
  have ue_eq : (2 : ℚ) ^ (fp_exponent fmt a) =
      ((2 ^ (fmt.prec - 1) : Int) : ℚ) * fp_ulp fmt a := by
    unfold fp_ulp
    push_cast
    rw [← zpow_natCast, ← zpow_add₀ two_ne]
    congr 1
    omega
  have h1 : a / fp_ulp fmt a ≤ ((2 ^ fmt.prec : Int) : ℚ) := by
    rw [div_le_iff₀ hu, ← ux_eq]
    exact le_of_lt hxu
  have h2 := round_even_mono _ _ h1
  rw [round_even_int] at h2
  have hd : ∀ v : ℚ, fp_nearest fmt v = (round_even (v / fp_ulp fmt v) : ℚ) * fp_ulp fmt v :=
    fun _ => rfl
  have hv : fp_nearest fmt a = (round_even (a / fp_ulp fmt a) : ℚ) * fp_ulp fmt a := rfl
  rcases eq_or_lt_of_le h2 with heq | hlt
  · have hv2 : fp_nearest fmt a = (2 : ℚ) ^ (fp_exponent fmt a + 1) := by
      rw [hv, heq, ux_eq]
    have hi : ilog2 (fp_nearest fmt a) = fp_exponent fmt a + 1 := by
      apply le_antisymm
      · apply ilog2_le _ hvpos
        rw [hv2]
        exact zpow_lt_zpow_right₀ (by norm_num) (by omega)
      · apply le_ilog2 _ hvpos
        rw [hv2]
    have hE : fp_exponent fmt (fp_nearest fmt a) = fp_exponent fmt a + 1 := by
      conv_lhs => unfold fp_exponent
      rw [hi]
      exact max_eq_right (by omega)
    have hu2 : fp_ulp fmt (fp_nearest fmt a) = 2 * fp_ulp fmt a := by
      unfold fp_ulp
      rw [hE, show fp_exponent fmt a + 1 - ((fmt.prec : Int) - 1) =
        1 + (fp_exponent fmt a - ((fmt.prec : Int) - 1)) by omega, zpow_add₀ two_ne, zpow_one]
    have hq : fp_nearest fmt a / fp_ulp fmt (fp_nearest fmt a) =
        ((2 ^ (fmt.prec - 1) : Int) : ℚ) := by
      rw [hu2, div_eq_iff (by positivity), hv, heq]
      have : fmt.prec = (fmt.prec - 1) + 1 := by omega
      conv_lhs => rw [this]
      push_cast
      ring
    rw [hd (fp_nearest fmt a), hq, round_even_int, hu2, hv, heq]
    have : fmt.prec = (fmt.prec - 1) + 1 := by omega
    conv_rhs => rw [this]
    push_cast
    ring
  · have hn : (round_even (a / fp_ulp fmt a) : ℚ) < ((2 ^ fmt.prec : Int) : ℚ) := by
      exact_mod_cast hlt
    have hvlt : fp_nearest fmt a < (2 : ℚ) ^ (fp_exponent fmt a + 1) := by
      rw [hv, ux_eq]
      exact mul_lt_mul_of_pos_right hn hu
    have hi1 : ilog2 (fp_nearest fmt a) ≤ fp_exponent fmt a := ilog2_le _ hvpos _ hvlt
    have hE : fp_exponent fmt (fp_nearest fmt a) = fp_exponent fmt a := by
      conv_lhs => unfold fp_exponent
      apply le_antisymm
      · exact max_le hEm hi1
      · rcases max_cases fmt.emin (ilog2 a) with ⟨h, _⟩ | ⟨h, _⟩
        · have : fp_exponent fmt a = fmt.emin := h
          rw [this]
          exact le_max_left _ _
        · have hEq : fp_exponent fmt a = ilog2 a := h
          have h3 : ((2 ^ (fmt.prec - 1) : Int) : ℚ) ≤ a / fp_ulp fmt a := by
            rw [le_div_iff₀ hu, ← ue_eq, hEq]
            exact a1
          have h4 := round_even_mono _ _ h3
          rw [round_even_int] at h4
          have h4q : ((2 ^ (fmt.prec - 1) : Int) : ℚ) ≤ (round_even (a / fp_ulp fmt a) : ℚ) := by
            exact_mod_cast h4
          have hge : (2 : ℚ) ^ (fp_exponent fmt a) ≤ fp_nearest fmt a := by
            rw [hv, ue_eq]
            exact mul_le_mul_of_nonneg_right h4q (le_of_lt hu)
          exact le_trans (le_ilog2 _ hvpos _ hge) (le_max_right _ _)
    have hu2 : fp_ulp fmt (fp_nearest fmt a) = fp_ulp fmt a := by
      unfold fp_ulp
      rw [hE]
    have hq : fp_nearest fmt a / fp_ulp fmt (fp_nearest fmt a) =
        (round_even (a / fp_ulp fmt a) : ℚ) := by
      rw [hu2, div_eq_iff (ne_of_gt hu)]
      rfl
    rw [hd (fp_nearest fmt a), hq, round_even_int, hu2]
    rfl

theorem fp_round_pos_idem (fmt : fp_format) (hp : 1 ≤ fmt.prec) (a r : ℚ) (ha : 0 ≤ a)
    (h : fp_round_pos fmt a = float.fin r) : fp_round_pos fmt r = float.fin r := by
  unfold fp_round_pos at h
  split_ifs at h with h1
  simp only [float.fin.injEq] at h
  subst h
  unfold fp_round_pos
  rw [fp_nearest_idem fmt hp a ha, if_neg h1]

/-! ## Order and addition of `float` values -/

theorem nonneg_float_not_ninf (x : float) (h : nonneg_float x) : x.is_ninf = false := by
  rcases h with rfl | ⟨q, _, rfl⟩ <;> rfl

theorem not_ninf_of_is_ninf (x : float) (h : x.is_ninf = false) : x ≠ float.ninf := by
  intro hx
  subst hx
  cases h

theorem float_add_pinf (c : ℚ) : (float.fin c).add float.pinf = float.pinf := rfl

theorem float_add_fin (a b : ℚ) : (float.fin a).add (float.fin b) = fp_round binary32 (a + b) :=
  rfl

theorem float_add_nonneg (c : ℚ) (hc : 0 ≤ c) (x : float) (hx : nonneg_float x) :
    nonneg_float ((float.fin c).add x) := by
  rcases hx with rfl | ⟨q, hq, rfl⟩
  · exact Or.inl rfl
  · rw [float_add_fin]
    unfold fp_round
    rw [if_neg (not_lt.mpr (add_nonneg hc hq))]
    rcases fp_round_pos_nonneg binary32 (c + q) (add_nonneg hc hq) with h | ⟨r, hr, h⟩
    · exact Or.inl h
    · exact Or.inr ⟨r, hr, h⟩

theorem float_gt_pinf (x : float) : x.gt float.pinf = false := by
  cases x <;> rfl

theorem float_gt_irrefl (x : float) : x.gt x = false := by
  cases x <;> simp [float.gt]

theorem float_add_mono (c : ℚ) (hc : 0 ≤ c) (x y : float) (hx : nonneg_float x)
    (hy : nonneg_float y) (h : x.gt y = false) :
    ((float.fin c).add x).gt ((float.fin c).add y) = false := by
  rcases hx with rfl | ⟨a, ha, rfl⟩ <;> rcases hy with rfl | ⟨b, hb, rfl⟩
  · rfl
  · simp [float.gt] at h
  · rw [float_add_pinf]
    exact float_gt_pinf _
  · have hab : a ≤ b := by simpa [float.gt] using h
    rw [float_add_fin, float_add_fin]
    unfold fp_round
    rw [if_neg (not_lt.mpr (add_nonneg hc ha)), if_neg (not_lt.mpr (add_nonneg hc hb))]
    exact fp_round_pos_mono binary32 (by decide) _ _ (add_nonneg hc ha) (by linarith)

theorem float_le_trans (x y z : float) (hy : nonneg_float y) (h1 : x.gt y = false)
    (h2 : y.gt z = false) : x.gt z = false := by
  rcases hy with rfl | ⟨b, _, rfl⟩ <;> cases x <;> cases z <;>
    simp only [float.gt, decide_eq_false_iff_not, not_lt, Bool.true_eq_false,
      Bool.false_eq_true] at h1 h2 ⊢
  all_goals linarith

theorem float_lt_of_lt_of_le (c x y : float) (hy : nonneg_float y) (h1 : x.gt c = true)
    (h2 : x.gt y = false) : y.gt c = true := by
  rcases hy with rfl | ⟨b, _, rfl⟩ <;> cases x <;> cases c <;>
    simp only [float.gt, decide_eq_false_iff_not, decide_eq_true_eq, not_lt, Bool.true_eq_false,
      Bool.false_eq_true] at h1 h2 ⊢
  all_goals linarith

theorem float_gt_asymm (x y : float) (h : x.gt y = true) : y.gt x = false := by
  cases x <;> cases y <;>
    simp only [float.gt, decide_eq_false_iff_not, decide_eq_true_eq, not_lt, Bool.true_eq_false,
      Bool.false_eq_true] at h ⊢
  all_goals linarith

theorem float_le_add (c : ℚ) (hc : 0 ≤ c) (x : float)
    (hx : x = float.pinf ∨
      ∃ v : ℚ, 0 ≤ v ∧ x = float.fin v ∧ fp_round_pos binary32 v = float.fin v) :
    x.gt ((float.fin c).add x) = false := by
  rcases hx with rfl | ⟨v, hv, rfl, hr⟩
  · rfl
  · rw [float_add_fin]
    unfold fp_round
    rw [if_neg (not_lt.mpr (add_nonneg hc hv))]
    have h := fp_round_pos_mono binary32 (by decide) v (c + v) hv (by linarith)
    rw [hr] at h
    exact h

/-! ## The dynamic program of `encode_word`: the chain of predecessors -/

theorem nonneg_scores_find (model : piece_map_t) (hn : nonneg_scores model) (key : Str)
    (id : Nat) (sc : float) (h : map_find key model = some (id, sc)) :
    ∃ q : ℚ, 0 ≤ q ∧ sc = float.fin q := by
  obtain ⟨q, h1, h2⟩ := hn _ (map_find_mem key (id, sc) model h)
  exact ⟨q, h2, h1⟩

theorem encode_word_inner_cases (word : Str) (model : piece_map_t) (s : Nat) (b : float)
    (e : Nat) (st : segmentation_state) :
    (map_find (substr word s (e - s)) model = none ∧
      encode_word_inner word model s b e st = st) ∨
    ∃ (id : Nat) (ts : float), map_find (substr word s (e - s)) model = some (id, ts) ∧
      ((b.is_ninf = true ∧ encode_word_inner word model s b e st = st) ∨
       (b.is_ninf = false ∧
         ((st.best_segmentations_scores.getD e float.ninf).is_ninf = true ∨
           (st.best_segmentations_scores.getD e float.ninf).gt (ts.add b) = true) ∧
         encode_word_inner word model s b e st =
           { best_segmentations_starts := st.best_segmentations_starts.set e (s : Int)
             best_segmentations_scores := st.best_segmentations_scores.set e (ts.add b) }) ∨
       (b.is_ninf = false ∧
         (st.best_segmentations_scores.getD e float.ninf).is_ninf = false ∧
         (st.best_segmentations_scores.getD e float.ninf).gt (ts.add b) = false ∧
         encode_word_inner word model s b e st = st)) := by
  cases hfind : map_find (substr word s (e - s)) model with
  | none =>
    left
    exact ⟨rfl, by simp only [encode_word_inner, hfind]⟩
  | some v =>
    obtain ⟨id0, ts⟩ := v
    right
    refine ⟨id0, ts, rfl, ?_⟩
    by_cases hbn : b.is_ninf = true
    · left
      exact ⟨hbn, by simp only [encode_word_inner, hfind, hbn, if_true]⟩
    · have hbf : b.is_ninf = false := by simpa using hbn
      right
      by_cases hc1 : (st.best_segmentations_scores.getD e float.ninf).is_ninf = true
      · left
        refine ⟨hbf, Or.inl hc1, ?_⟩
        simp only [encode_word_inner, hfind, hbf, hc1, Bool.true_or, if_true, if_false,
          Bool.false_eq_true]
      · have hc1f : (st.best_segmentations_scores.getD e float.ninf).is_ninf = false := by
          simpa using hc1
        by_cases hc2 : (st.best_segmentations_scores.getD e float.ninf).gt (ts.add b) = true
        · left
          refine ⟨hbf, Or.inr hc2, ?_⟩
          simp only [encode_word_inner, hfind, hbf, hc1f, hc2, Bool.or_true, if_true, if_false,
            Bool.false_eq_true]
        · have hc2f : (st.best_segmentations_scores.getD e float.ninf).gt (ts.add b) = false := by
            simpa using hc2
          right
          refine ⟨hbf, hc1f, hc2f, ?_⟩
          simp only [encode_word_inner, hfind, hbf, hc1f, hc2f, Bool.or_self, if_false,
            Bool.false_eq_true]

theorem chain_inv_inner (word : Str) (model : piece_map_t) (s e : Nat)
    (st : segmentation_state) (b : float) (hse : s < e) (hen : e ≤ word.length)
    (h : chain_inv word model s st ∧ st.best_segmentations_scores.getD s float.ninf = b) :
    chain_inv word model s (encode_word_inner word model s b e st) ∧
    (encode_word_inner word model s b e st).best_segmentations_scores.getD s float.ninf = b := by
  obtain ⟨h, hb⟩ := h
  rcases encode_word_inner_cases word model s b e st with
    ⟨-, hst⟩ | ⟨id0, ts, hfind, ⟨-, hst⟩ | ⟨hbf, -, hst⟩ | ⟨-, -, -, hst⟩⟩
  · rw [hst]; exact ⟨h, hb⟩
  · rw [hst]; exact ⟨h, hb⟩
  · rw [hst]
    have hle : e < st.best_segmentations_scores.length := by rw [h.len_scores]; omega
    have hls : e < st.best_segmentations_starts.length := by rw [h.len_starts]; omega
    have hupd : (st.best_segmentations_scores.set e (ts.add b)).getD s float.ninf = b := by
      rw [getD_set_ne _ _ _ _ _ (by omega)]
      exact hb
    refine ⟨⟨?_, ?_, ?_, ?_⟩, hupd⟩
    · simp [h.len_starts]
    · simp [h.len_scores]
    · show (st.best_segmentations_scores.set e _).getD 0 _ = _
      rw [getD_set_ne _ _ _ _ _ (by omega)]
      exact h.zero
    · intro e1 hpos he1 hr
      change ((st.best_segmentations_scores.set e _).getD e1 _).is_ninf = false at hr
      show ∃ (s1 id : Nat) (sc : float), s1 < e1 ∧ s1 ≤ s ∧
        (st.best_segmentations_starts.set e _).getD e1 _ = _ ∧ _ ∧
        ((st.best_segmentations_scores.set e _).getD s1 _).is_ninf = false ∧
        (st.best_segmentations_scores.set e _).getD e1 _ =
          sc.add ((st.best_segmentations_scores.set e _).getD s1 _)
      by_cases hee : e = e1
      · subst hee
        refine ⟨s, id0, ts, hse, Nat.le_refl _, getD_set_eq _ _ _ _ hls, hfind, ?_, ?_⟩
        · rw [hupd]; exact hbf
        · rw [hupd, getD_set_eq _ _ _ _ hle]
      · rw [getD_set_ne _ _ _ _ _ hee] at hr
        obtain ⟨s1, id, sc, a1, a2, a3, a4, a5, a6⟩ := h.chain e1 hpos he1 hr
        refine ⟨s1, id, sc, a1, a2, ?_, a4, ?_, ?_⟩
        · rw [getD_set_ne _ _ _ _ _ hee]
          exact a3
        · rw [getD_set_ne _ _ _ _ _ (by omega)]
          exact a5
        · rw [getD_set_ne _ _ _ _ _ hee, getD_set_ne _ _ _ _ _ (by omega)]
          exact a6
  · rw [hst]; exact ⟨h, hb⟩

theorem chain_inv_weaken (word : Str) (model : piece_map_t) (s t : Nat)
    (st : segmentation_state) (hst : s ≤ t) (h : chain_inv word model s st) :
    chain_inv word model t st := by
  refine ⟨h.len_starts, h.len_scores, h.zero, ?_⟩
  intro e hpos he hr
  obtain ⟨s1, id, sc, a1, a2, a3⟩ := h.chain e hpos he hr
  exact ⟨s1, id, sc, a1, by omega, a3⟩

theorem chain_inv_outer (word : Str) (model : piece_map_t) (s : Nat)
    (st : segmentation_state) (hs : s < word.length) (h : chain_inv word model s st) :
    chain_inv word model (s + 1) (encode_word_outer word model s st) := by
  unfold encode_word_outer
  have key := for_loop_inv
    (encode_word_inner word model s (st.best_segmentations_scores.getD s float.ninf))
    (fun _ st1 => chain_inv word model s st1 ∧
      st1.best_segmentations_scores.getD s float.ninf =
        st.best_segmentations_scores.getD s float.ninf)
    (word.length - s) (s + 1) st ⟨h, rfl⟩
    (fun e st1 h1 h2 hP => chain_inv_inner word model s e st1 _ (by omega) (by omega) hP)
  exact chain_inv_weaken word model s (s + 1) _ (by omega) key.1

theorem chain_inv_init (word : Str) (model : piece_map_t) :
    chain_inv word model 0 (encode_word_init word) := by
  unfold encode_word_init
  refine ⟨by simp, by simp, ?_, ?_⟩
  · show ((List.replicate (word.length + 1) float.ninf).set 0 _).getD 0 _ = _
    exact getD_set_eq _ _ _ _ (by simp)
  · intro e hpos he hr
    change (((List.replicate (word.length + 1) float.ninf).set 0 _).getD e _).is_ninf = false at hr
    rw [getD_set_ne _ _ _ _ _ (by omega), getD_replicate_lt _ _ _ _ (by omega)] at hr
    cases hr

theorem chain_inv_table (word : Str) (model : piece_map_t) :
    chain_inv word model word.length (encode_word_table word model) := by
  unfold encode_word_table
  have key := for_loop_inv (encode_word_outer word model)
    (fun s st => chain_inv word model s st) word.length 0 (encode_word_init word)
    (chain_inv_init word model)
    (fun s st _ h2 hP => chain_inv_outer word model s st (by omega) hP)
  simpa using key

theorem piece_score_of_find (model : piece_map_t) (p : Str) (id : Nat) (c : ℚ)
    (h : map_find p model = some (id, float.fin c)) : piece_score model p = c := by
  simp [piece_score, h]

theorem piece_id_of_find (model : piece_map_t) (p : Str) (id : Nat) (sc : float)
    (h : map_find p model = some (id, sc)) : piece_id model p = int32_of_nat id := by
  simp [piece_id, h]

theorem stored_score_of_find (model : piece_map_t) (p : Str) (id : Nat) (sc : float)
    (h : map_find p model = some (id, sc)) : stored_score model p = sc := by
  simp [stored_score, h]

theorem accumulated_score_append (model : piece_map_t) (ps : List Str) (p : Str) :
    accumulated_score model (ps ++ [p]) =
      (stored_score model p).add (accumulated_score model ps) := by
  simp [accumulated_score, List.foldl_append]

theorem encode_word_backtrack_step (word : Str) (model : piece_map_t) (starts : List Int)
    (fuel s1 e : Nat) (tokens : List Int) (id : Nat) (sc : float)
    (h1 : s1 ≤ e) (h2 : s1 ≤ word.length)
    (hfind : map_find (substr word s1 (e - s1)) model = some (id, sc)) :
    encode_word_backtrack word model starts (fuel + 1) (s1 : Int) (e : Int) tokens =
      if s1 ≠ 0 then
        encode_word_backtrack word model starts fuel (starts.getD s1 (-1)) (s1 : Int)
          (int32_of_nat id :: tokens)
      else .ok (int32_of_nat id :: tokens) := by
  have c1 : ¬ ((s1 : Int) < 0 ∨ (word.length : Int) < (s1 : Int)) := by omega
  have c2 : (s1 : Int) ≤ (e : Int) := by omega
  have c3 : ((e : Int) - (s1 : Int)).toNat = e - s1 := by omega
  rw [encode_word_backtrack]
  simp only [c1, c2, c3, if_false, if_true, Int.toNat_ofNat, hfind]
  by_cases h0 : s1 = 0
  · subst h0
    simp
  · have h0i : (s1 : Int) ≠ 0 := by omega
    simp [h0, h0i]

theorem dp_backtrack (word : Str) (model : piece_map_t) (st : segmentation_state)
    (h : chain_inv word model word.length st) :
    ∀ (e : Nat), 0 < e → e ≤ word.length →
      (st.best_segmentations_scores.getD e float.ninf).is_ninf = false →
      ∃ ps : List Str, ps.flatten = word.take e ∧
        (∀ p ∈ ps, p ≠ [] ∧ (map_find p model).isSome = true) ∧
        st.best_segmentations_scores.getD e float.ninf = accumulated_score model ps ∧
        ∀ fuel tokens, e ≤ fuel →
          encode_word_backtrack word model st.best_segmentations_starts fuel
            (st.best_segmentations_starts.getD e (-1)) (e : Int) tokens =
          .ok (ps.map (piece_id model) ++ tokens) := by
  intro e
  induction e using Nat.strong_induction_on with
  | _ e ih =>
    intro hpos he hr
    obtain ⟨s1, id, sc, a1, _, a3, a4, a5, a6⟩ := h.chain e hpos he hr
    have hstep := fun fuel tokens =>
      encode_word_backtrack_step word model st.best_segmentations_starts fuel s1 e tokens id _
        (by omega) (by omega) a4
    by_cases h0 : s1 = 0
    · subst h0
      refine ⟨[substr word 0 (e - 0)], ?_, ?_, ?_, ?_⟩
      · simp [substr]
      · intro p hp
        simp only [List.mem_singleton] at hp
        subst hp
        exact ⟨substr_ne_nil word 0 e hpos he, by rw [a4]; rfl⟩
      · rw [a6, h.zero]
        simp only [accumulated_score, List.foldl_cons, List.foldl_nil,
          stored_score_of_find model _ id sc a4]
      · intro fuel tokens hfuel
        obtain ⟨f, rfl⟩ : ∃ f, fuel = f + 1 := ⟨fuel - 1, by omega⟩
        rw [a3, hstep f tokens]
        have a4b : map_find (substr word 0 e) model = some (id, sc) := by
          simpa using a4
        simp [piece_id_of_find model _ id _ a4b]
    · obtain ⟨ps1, b1, b2, b3, b4⟩ := ih s1 a1 (by omega) (by omega) a5
      refine ⟨ps1 ++ [substr word s1 (e - s1)], ?_, ?_, ?_, ?_⟩
      · rw [List.flatten_append, b1]
        simp only [List.flatten_cons, List.flatten_nil, List.append_nil]
        exact take_append_substr word s1 e (by omega)
      · intro p hp
        rcases List.mem_append.mp hp with hp | hp
        · exact b2 p hp
        · simp only [List.mem_singleton] at hp
          subst hp
          exact ⟨substr_ne_nil word s1 e a1 he, by rw [a4]; rfl⟩
      · rw [accumulated_score_append, stored_score_of_find model _ id sc a4, a6, b3]
      · intro fuel tokens hfuel
        obtain ⟨f, rfl⟩ : ∃ f, fuel = f + 1 := ⟨fuel - 1, by omega⟩
        rw [a3, hstep f tokens]
        simp only [h0, ne_eq, not_false_eq_true, if_true]
        rw [b4 f (int32_of_nat id :: tokens) (by omega)]
        simp [piece_id_of_find model _ id _ a4]

/-! ## The dynamic program of `encode_word` on tables with scores that are not negative -/

theorem min_inv_keep (word : Str) (model : piece_map_t) (s e : Nat) (st : segmentation_state)
    (h : min_inv word model s e st)
    (hnew : ∀ (id : Nat) (sc : float),
      map_find (substr word s (e - s)) model = some (id, sc) →
      (st.best_segmentations_scores.getD s float.ninf).is_ninf = false →
      (st.best_segmentations_scores.getD e float.ninf).is_ninf = false ∧
      (st.best_segmentations_scores.getD e float.ninf).gt
        (sc.add (st.best_segmentations_scores.getD s float.ninf)) = false) :
    min_inv word model s (e + 1) st := by
  refine ⟨h.ok, ?_, h.first⟩
  intro s1 e1 id sc h1 h2 h3 h4 h5
  rcases h3 with h3 | ⟨h3, h3b⟩
  · exact h.opt s1 e1 id sc h1 h2 (Or.inl h3) h4 h5
  · by_cases hee : e1 < e
    · exact h.opt s1 e1 id sc h1 h2 (Or.inr ⟨h3, hee⟩) h4 h5
    · have : e1 = e := by omega
      subst this
      subst h3
      exact hnew id sc h4 h5

theorem min_inv_update (word : Str) (model : piece_map_t) (hn : nonneg_scores model)
    (s e : Nat) (st : segmentation_state) (hse : s < e) (hen : e ≤ word.length)
    (hc : chain_inv word model s st) (h : min_inv word model s e st) (id0 : Nat) (ts : float)
    (hfind : map_find (substr word s (e - s)) model = some (id0, ts))
    (hs : (st.best_segmentations_scores.getD s float.ninf).is_ninf = false)
    (hold : (st.best_segmentations_scores.getD e float.ninf).is_ninf = true ∨
      (st.best_segmentations_scores.getD e float.ninf).gt
        (ts.add (st.best_segmentations_scores.getD s float.ninf)) = true) :
    min_inv word model s (e + 1)
      { best_segmentations_starts := st.best_segmentations_starts.set e (s : Int)
        best_segmentations_scores :=
          st.best_segmentations_scores.set e
            (ts.add (st.best_segmentations_scores.getD s float.ninf)) } := by
  have hle : e < st.best_segmentations_scores.length := by rw [hc.len_scores]; omega
  have hls : e < st.best_segmentations_starts.length := by rw [hc.len_starts]; omega
  have reached_nonneg : ∀ i, i ≤ word.length →
      (st.best_segmentations_scores.getD i float.ninf).is_ninf = false →
      nonneg_float (st.best_segmentations_scores.getD i float.ninf) := by
    intro i hi hr
    rcases h.ok i hi with hx | hx
    · rw [hx] at hr
      cases hr
    · exact hx
  have cand_nonneg : ∀ (key : Str) (id : Nat) (sc : float) (i : Nat),
      map_find key model = some (id, sc) → i ≤ word.length →
      (st.best_segmentations_scores.getD i float.ninf).is_ninf = false →
      nonneg_float (sc.add (st.best_segmentations_scores.getD i float.ninf)) := by
    intro key id sc i hk hi hr
    obtain ⟨q, hq, rfl⟩ := nonneg_scores_find model hn key id sc hk
    exact float_add_nonneg q hq _ (reached_nonneg i hi hr)
  have hcand := cand_nonneg _ id0 ts s hfind (by omega) hs
  -- the stored score is greater than the new candidate wherever it is reached
  have hgt : (st.best_segmentations_scores.getD e float.ninf).is_ninf = false →
      (st.best_segmentations_scores.getD e float.ninf).gt
        (ts.add (st.best_segmentations_scores.getD s float.ninf)) = true := by
    intro hr
    rcases hold with hold | hold
    · rw [hold] at hr
      cases hr
    · exact hold
  refine ⟨?_, ?_, ?_⟩
  · intro e1 he1
    show (st.best_segmentations_scores.set e _).getD e1 _ = _ ∨
      nonneg_float ((st.best_segmentations_scores.set e _).getD e1 _)
    by_cases hee : e = e1
    · subst hee
      right
      rw [getD_set_eq _ _ _ _ hle]
      exact hcand
    · rw [getD_set_ne _ _ _ _ _ hee]
      exact h.ok e1 he1
  · intro s1 e1 id sc h1 h2 h3 h4 h5
    change ((st.best_segmentations_scores.set e _).getD s1 _).is_ninf = false at h5
    show ((st.best_segmentations_scores.set e _).getD e1 _).is_ninf = false ∧
      ((st.best_segmentations_scores.set e _).getD e1 _).gt
        (sc.add ((st.best_segmentations_scores.set e _).getD s1 _)) = false
    have hs1 : s1 ≤ s := by omega
    rw [getD_set_ne _ _ _ _ _ (by omega)] at h5
    rw [getD_set_ne _ _ _ _ _ (show e ≠ s1 by omega)]
    by_cases hee : e = e1
    · subst hee
      rw [getD_set_eq _ _ _ _ hle]
      refine ⟨nonneg_float_not_ninf _ hcand, ?_⟩
      by_cases hss : s1 = s
      · subst hss
        rw [hfind] at h4
        injection h4 with h4
        simp only [Prod.mk.injEq] at h4
        rw [← h4.2]
        exact float_gt_irrefl _
      · obtain ⟨hr, hq⟩ := h.opt s1 e id sc h1 h2 (Or.inl (by omega)) h4 h5
        have hlt := float_lt_of_lt_of_le _ _ _ (cand_nonneg _ id sc s1 h4 (by omega) h5)
          (hgt hr) hq
        exact float_gt_asymm _ _ hlt
    · rw [getD_set_ne _ _ _ _ _ hee]
      have hlt : s1 < s ∨ (s1 = s ∧ e1 < e) := by
        rcases h3 with h3 | ⟨h3, h3b⟩
        · exact Or.inl h3
        · exact Or.inr ⟨h3, by omega⟩
      exact h.opt s1 e1 id sc h1 h2 hlt h4 h5
  · intro e1 s1 s2 id sc hpos he1 hr hs1 hlt hfind2 hr2
    change ((st.best_segmentations_scores.set e _).getD e1 _).is_ninf = false at hr
    change (st.best_segmentations_starts.set e _).getD e1 _ = _ at hs1
    change ((st.best_segmentations_scores.set e _).getD s2 _).is_ninf = false at hr2
    show (sc.add ((st.best_segmentations_scores.set e _).getD s2 _)).gt
      ((st.best_segmentations_scores.set e _).getD e1 _) = true
    by_cases hee : e = e1
    · subst hee
      rw [getD_set_eq _ _ _ _ hls] at hs1
      have hs1n : s = s1 := by exact_mod_cast hs1
      subst hs1n
      rw [getD_set_ne _ _ _ _ _ (by omega)] at hr2
      rw [getD_set_ne _ _ _ _ _ (show e ≠ s2 by omega), getD_set_eq _ _ _ _ hle]
      obtain ⟨hr3, hq⟩ := h.opt s2 e id sc (by omega) hen (Or.inl hlt) hfind2 hr2
      exact float_lt_of_lt_of_le _ _ _ (cand_nonneg _ id sc s2 hfind2 (by omega) hr2)
        (hgt hr3) hq
    · rw [getD_set_ne _ _ _ _ _ hee] at hr hs1
      obtain ⟨s1', _, _, _, c2, c3, _⟩ := hc.chain e1 hpos he1 hr
      have hs1n : s1' = s1 := by
        rw [c3] at hs1
        exact_mod_cast hs1
      subst hs1n
      rw [getD_set_ne _ _ _ _ _ (by omega)] at hr2
      rw [getD_set_ne _ _ _ _ _ (show e ≠ s2 by omega), getD_set_ne _ _ _ _ _ hee]
      exact h.first e1 s1' s2 id sc hpos he1 hr hs1 hlt hfind2 hr2

theorem min_inv_inner (word : Str) (model : piece_map_t) (hn : nonneg_scores model)
    (s e : Nat) (st : segmentation_state) (b : float) (hse : s < e) (hen : e ≤ word.length)
    (hc : chain_inv word model s st) (hb : st.best_segmentations_scores.getD s float.ninf = b)
    (h : min_inv word model s e st) :
    min_inv word model s (e + 1) (encode_word_inner word model s b e st) := by
  subst hb
  rcases encode_word_inner_cases word model s
      (st.best_segmentations_scores.getD s float.ninf) e st with
    ⟨hnone, hst⟩ | ⟨id0, ts, hfind, ⟨hbn, hst⟩ | ⟨hbf, hold, hst⟩ | ⟨hbf, hr, hq, hst⟩⟩
  · rw [hst]
    refine min_inv_keep word model s e st h ?_
    intro id sc h4 _
    rw [hnone] at h4
    cases h4
  · rw [hst]
    refine min_inv_keep word model s e st h ?_
    intro id sc _ h5
    rw [hbn] at h5
    cases h5
  · rw [hst]
    exact min_inv_update word model hn s e st hse hen hc h id0 ts hfind hbf hold
  · rw [hst]
    refine min_inv_keep word model s e st h ?_
    intro id sc h4 _
    rw [hfind] at h4
    injection h4 with h4
    simp only [Prod.mk.injEq] at h4
    rw [← h4.2]
    exact ⟨hr, hq⟩

theorem min_inv_outer (word : Str) (model : piece_map_t) (hn : nonneg_scores model)
    (s : Nat) (st : segmentation_state) (hs : s < word.length)
    (hc : chain_inv word model s st) (h : min_inv word model s (s + 1) st) :
    min_inv word model (s + 1) (s + 2) (encode_word_outer word model s st) := by
  unfold encode_word_outer
  have key := for_loop_inv
    (encode_word_inner word model s (st.best_segmentations_scores.getD s float.ninf))
    (fun e st1 => (chain_inv word model s st1 ∧
      st1.best_segmentations_scores.getD s float.ninf =
        st.best_segmentations_scores.getD s float.ninf) ∧ min_inv word model s e st1)
    (word.length - s) (s + 1) st ⟨⟨hc, rfl⟩, h⟩
    (fun e st1 h1 h2 hP =>
      ⟨chain_inv_inner word model s e st1 _ (by omega) (by omega) hP.1,
        min_inv_inner word model hn s e st1 _ (by omega) (by omega) hP.1.1 hP.1.2 hP.2⟩)
  obtain ⟨_, k1⟩ := key
  refine ⟨k1.ok, ?_, k1.first⟩
  intro s1 e id sc h1 h2 h3 h4 h5
  refine k1.opt s1 e id sc h1 h2 ?_ h4 h5
  rcases h3 with h3 | ⟨h3, h3b⟩
  · by_cases hss : s1 = s
    · exact Or.inr ⟨hss, by omega⟩
    · exact Or.inl (by omega)
  · omega

theorem min_inv_init (word : Str) (model : piece_map_t) :
    min_inv word model 0 1 (encode_word_init word) := by
  unfold encode_word_init
  refine ⟨?_, ?_, ?_⟩
  · intro e he
    show ((List.replicate (word.length + 1) float.ninf).set 0 _).getD e _ = _ ∨
      nonneg_float (((List.replicate (word.length + 1) float.ninf).set 0 _).getD e _)
    by_cases h0 : 0 = e
    · subst h0
      right
      rw [getD_set_eq _ _ _ _ (by simp)]
      exact Or.inr ⟨1, by norm_num, rfl⟩
    · left
      rw [getD_set_ne _ _ _ _ _ h0]
      exact getD_replicate_lt _ _ _ _ (by omega)
  · intro s1 e id sc h1 h2 h3
    omega
  · intro e s1 s2 id sc hpos he hr
    change (((List.replicate (word.length + 1) float.ninf).set 0 _).getD e _).is_ninf = false at hr
    rw [getD_set_ne _ _ _ _ _ (by omega), getD_replicate_lt _ _ _ _ (by omega)] at hr
    cases hr

theorem min_inv_table (word : Str) (model : piece_map_t) (hn : nonneg_scores model) :
    min_inv word model word.length (word.length + 1) (encode_word_table word model) := by
  unfold encode_word_table
  have key := for_loop_inv (encode_word_outer word model)
    (fun s st => chain_inv word model s st ∧ min_inv word model s (s + 1) st)
    word.length 0 (encode_word_init word)
    ⟨chain_inv_init word model, min_inv_init word model⟩
    (fun s st _ h2 hP =>
      ⟨chain_inv_outer word model s st (by omega) hP.1,
        min_inv_outer word model hn s st (by omega) hP.1 hP.2⟩)
  simpa using key.2

theorem accumulated_score_nonneg (model : piece_map_t) (hn : nonneg_scores model)
    (qs : List Str) (hq : ∀ p ∈ qs, (map_find p model).isSome = true) :
    nonneg_float (accumulated_score model qs) := by
  induction qs using List.reverseRecOn with
  | nil => exact Or.inr ⟨1, by norm_num, rfl⟩
  | append_singleton qs p ih =>
    rw [accumulated_score_append]
    obtain ⟨v, hv⟩ := Option.isSome_iff_exists.mp (hq p (by simp))
    obtain ⟨id, sc⟩ := v
    obtain ⟨c, hc, rfl⟩ := nonneg_scores_find model hn p id sc hv
    rw [stored_score_of_find model p id _ hv]
    exact float_add_nonneg c hc _ (ih (fun r hr => hq r (List.mem_append_left _ hr)))

theorem accumulated_score_rounded (model : piece_map_t) (hn : nonneg_scores model)
    (qs : List Str) (hq : ∀ p ∈ qs, (map_find p model).isSome = true) :
    accumulated_score model qs = float.pinf ∨
      ∃ v : ℚ, 0 ≤ v ∧ accumulated_score model qs = float.fin v ∧
        fp_round_pos binary32 v = float.fin v := by
  induction qs using List.reverseRecOn with
  | nil =>
    refine Or.inr ⟨1, by norm_num, rfl, ?_⟩
    have h := fp_round_pos_exact binary32 (by decide) (by decide) (by decide) 1 (by decide)
    simpa using h
  | append_singleton qs p ih =>
    rw [accumulated_score_append]
    obtain ⟨v, hv⟩ := Option.isSome_iff_exists.mp (hq p (by simp))
    obtain ⟨id, sc⟩ := v
    obtain ⟨c, hc, rfl⟩ := nonneg_scores_find model hn p id sc hv
    rw [stored_score_of_find model p id _ hv]
    rcases ih (fun r hr => hq r (List.mem_append_left _ hr)) with h | ⟨v, hv0, h, -⟩
    · rw [h]
      exact Or.inl rfl
    · rw [h, float_add_fin]
      unfold fp_round
      rw [if_neg (not_lt.mpr (add_nonneg hc hv0))]
      rcases fp_round_pos_nonneg binary32 (c + v) (add_nonneg hc hv0) with h2 | ⟨r, hr0, h2⟩
      · exact Or.inl h2
      · exact Or.inr ⟨r, hr0, h2,
          fp_round_pos_idem binary32 (by decide) (c + v) r (add_nonneg hc hv0) h2⟩

theorem accumulated_score_filter (model : piece_map_t) (hn : nonneg_scores model)
    (qs : List Str) (hq : ∀ p ∈ qs, (map_find p model).isSome = true) :
    (accumulated_score model (qs.filter (fun p => decide (p ≠ [])))).gt
      (accumulated_score model qs) = false := by
  induction qs using List.reverseRecOn with
  | nil => exact float_gt_irrefl _
  | append_singleton qs p ih =>
    have hq1 : ∀ r ∈ qs, (map_find r model).isSome = true :=
      fun r hr => hq r (List.mem_append_left _ hr)
    have ih1 := ih hq1
    obtain ⟨v, hv⟩ := Option.isSome_iff_exists.mp (hq p (by simp))
    obtain ⟨id, sc⟩ := v
    obtain ⟨c, hc, rfl⟩ := nonneg_scores_find model hn p id sc hv
    rw [List.filter_append, accumulated_score_append, stored_score_of_find model p id _ hv]
    by_cases hp : p = []
    · have hf : List.filter (fun p => decide (p ≠ [])) [p] = [] := by
        rw [List.filter_cons]
        simp [hp]
      rw [hf, List.append_nil]
      exact float_le_trans _ _ _ (accumulated_score_nonneg model hn qs hq1) ih1
        (float_le_add c hc _ (accumulated_score_rounded model hn qs hq1))
    · have hf : List.filter (fun p => decide (p ≠ [])) [p] = [p] := by
        rw [List.filter_cons]
        simp [hp]
      rw [hf, accumulated_score_append, stored_score_of_find model p id _ hv]
      refine float_add_mono c hc _ _ (accumulated_score_nonneg model hn _ ?_)
        (accumulated_score_nonneg model hn qs hq1) ih1
      intro r hr
      exact hq1 r (List.mem_filter.mp hr).1

theorem dp_opt (word : Str) (model : piece_map_t) (hn : nonneg_scores model)
    (st : segmentation_state) (h : min_inv word model word.length (word.length + 1) st)
    (hz : st.best_segmentations_scores.getD 0 float.ninf = float.fin 1) :
    ∀ (qs : List Str) (e : Nat), e ≤ word.length → qs.flatten = word.take e →
      (∀ p ∈ qs, p ≠ [] ∧ (map_find p model).isSome = true) →
      (st.best_segmentations_scores.getD e float.ninf).is_ninf = false ∧
      (st.best_segmentations_scores.getD e float.ninf).gt (accumulated_score model qs) =
        false := by
  intro qs
  induction qs using List.reverseRecOn with
  | nil =>
    intro e he hfl _
    have he0 : e = 0 := by
      have := congrArg List.length hfl
      simp [List.length_take] at this
      omega
    subst he0
    rw [hz]
    exact ⟨rfl, by simp [accumulated_score, float.gt]⟩
  | append_singleton qs p ih =>
    intro e he hfl hp
    rw [List.flatten_append] at hfl
    simp only [List.flatten_cons, List.flatten_nil, List.append_nil] at hfl
    obtain ⟨hlen, ha, hpe⟩ := split_take word qs.flatten p e he hfl
    obtain ⟨hpne, hpk⟩ := hp p (by simp)
    have hplen : 0 < p.length := List.length_pos.mpr hpne
    have hqs : ∀ r ∈ qs, r ≠ [] ∧ (map_find r model).isSome = true :=
      fun r hr => hp r (List.mem_append_left _ hr)
    obtain ⟨hr1, hle1⟩ := ih qs.flatten.length (by omega) ha hqs
    obtain ⟨v, hv⟩ := Option.isSome_iff_exists.mp hpk
    obtain ⟨id, sc⟩ := v
    obtain ⟨c, hc, rfl⟩ := nonneg_scores_find model hn p id sc hv
    have hv2 : map_find (substr word qs.flatten.length (e - qs.flatten.length)) model
        = some (id, float.fin c) := by rw [← hpe]; exact hv
    obtain ⟨hr, hle⟩ := h.opt qs.flatten.length e id _ (by omega) he
      (Or.inl (by omega)) hv2 hr1
    refine ⟨hr, ?_⟩
    rw [accumulated_score_append, stored_score_of_find model p id _ hv]
    have hacc := accumulated_score_nonneg model hn qs (fun r hr => (hqs r hr).2)
    have hst : nonneg_float (st.best_segmentations_scores.getD qs.flatten.length float.ninf) := by
      rcases h.ok qs.flatten.length (by omega) with hx | hx
      · rw [hx] at hr1
        cases hr1
      · exact hx
    exact float_le_trans _ _ _ (float_add_nonneg c hc _ hst) hle
      (float_add_mono c hc _ _ hst hacc hle1)

theorem encode_word_spec (word : Str) (model : piece_map_t) (hn : nonneg_scores model)
    (hne : word ≠ []) (qs0 : List Str) (hcov : qs0.flatten = word)
    (hq0 : ∀ p ∈ qs0, p ≠ [] ∧ (map_find p model).isSome = true) :
    ∃ ps : List Str,
      encode_word word model =
        .ok (ps.map (piece_id model), accumulated_score model ps) ∧
      ps.flatten = word ∧
      (∀ p ∈ ps, p ≠ [] ∧ (map_find p model).isSome = true) ∧
      ∀ qs : List Str, qs.flatten = word →
        (∀ p ∈ qs, p ≠ [] ∧ (map_find p model).isSome = true) →
        (accumulated_score model ps).gt (accumulated_score model qs) = false := by
  have hc := chain_inv_table word model
  have h := min_inv_table word model hn
  have hpos : 0 < word.length := List.length_pos.mpr hne
  have htake : word.take word.length = word := List.take_length word
  obtain ⟨hr, _⟩ := dp_opt word model hn _ h hc.zero qs0 word.length (Nat.le_refl _)
    (by rw [htake]; exact hcov) hq0
  obtain ⟨ps, b1, b2, b3, b4⟩ := dp_backtrack word model _ hc word.length hpos (Nat.le_refl _) hr
  rw [htake] at b1
  refine ⟨ps, ?_, b1, b2, ?_⟩
  · unfold encode_word
    simp only [hr, Bool.false_eq_true, if_false]
    rw [b4 (word.length + 1) [] (by omega), b3]
    simp
  · intro qs hqs hqp
    obtain ⟨_, hle⟩ := dp_opt word model hn _ h hc.zero qs word.length (Nat.le_refl _)
      (by rw [htake]; exact hqs) hqp
    rw [b3] at hle
    exact hle

theorem flatten_filter_nonempty (ps : List Str) :
    (ps.filter (fun p => decide (p ≠ []))).flatten = ps.flatten := by
  induction ps with
  | nil => rfl
  | cons p ps ih =>
    by_cases hp : p = []
    · subst hp
      simpa [List.filter] using ih
    · have hd : List.filter (fun p => decide (p ≠ [])) (p :: ps) =
          p :: List.filter (fun p => decide (p ≠ [])) ps := by
        rw [List.filter_cons]
        simp [hp]
      rw [hd, List.flatten_cons, List.flatten_cons, ih]

/-! ## The dynamic program of `encode_word` on arbitrary tables -/

theorem coverable_extend (word : Str) (model : piece_map_t) (s e : Nat) (hse : s ≤ e)
    (hs : coverable model word s)
    (hk : (map_find (substr word s (e - s)) model).isSome = true) :
    coverable model word e := by
  obtain ⟨ps, h1, h2⟩ := hs
  refine ⟨ps ++ [substr word s (e - s)], ?_, ?_⟩
  · rw [List.flatten_append, h1]
    simp only [List.flatten_cons, List.flatten_nil, List.append_nil]
    exact take_append_substr word s e hse
  · intro p hp
    rcases List.mem_append.mp hp with hp | hp
    · exact h2 p hp
    · simp only [List.mem_singleton] at hp
      subst hp
      exact hk

theorem reach_inv_inner (word : Str) (model : piece_map_t) (s e : Nat)
    (st : segmentation_state) (b : float) (hse : s < e)
    (hb : b.is_ninf = false → coverable model word s) (h : reach_inv word model st) :
    reach_inv word model (encode_word_inner word model s b e st) := by
  cases hfind : map_find (substr word s (e - s)) model with
  | none =>
    have hst : encode_word_inner word model s b e st = st := by
      simp only [encode_word_inner, hfind]
    rw [hst]
    exact h
  | some v =>
    obtain ⟨id0, ts⟩ := v
    by_cases hbn : b.is_ninf = true
    · have hst : encode_word_inner word model s b e st = st := by
        simp only [encode_word_inner, hfind, hbn, if_true]
      rw [hst]
      exact h
    · by_cases hc : ((st.best_segmentations_scores.getD e float.ninf).is_ninf ||
          (st.best_segmentations_scores.getD e float.ninf).gt (ts.add b)) = true
      · have hst : encode_word_inner word model s b e st =
            { best_segmentations_starts := st.best_segmentations_starts.set e (s : Int)
              best_segmentations_scores := st.best_segmentations_scores.set e (ts.add b) } := by
          simp only [encode_word_inner, hfind, hbn, hc, if_true, if_false, Bool.false_eq_true]
        rw [hst]
        refine ⟨by simp [h.1], ?_⟩
        intro e1 he1 hr
        change ((st.best_segmentations_scores.set e _).getD e1 _).is_ninf = false at hr
        by_cases hee : e = e1
        · subst hee
          exact coverable_extend word model s e (by omega) (hb (by simpa using hbn))
            (by rw [hfind]; rfl)
        · rw [getD_set_ne _ _ _ _ _ hee] at hr
          exact h.2 e1 he1 hr
      · have hst : encode_word_inner word model s b e st = st := by
          simp only [encode_word_inner, hfind, hbn, hc, if_false, Bool.false_eq_true]
        rw [hst]
        exact h

theorem reach_inv_outer (word : Str) (model : piece_map_t) (s : Nat)
    (st : segmentation_state) (hs : s < word.length) (h : reach_inv word model st) :
    reach_inv word model (encode_word_outer word model s st) := by
  unfold encode_word_outer
  have key := for_loop_inv
    (encode_word_inner word model s (st.best_segmentations_scores.getD s float.ninf))
    (fun _ st1 => reach_inv word model st1) (word.length - s) (s + 1) st h
    (fun e st1 _ _ hP => reach_inv_inner word model s e st1 _ (by omega)
      (h.2 s (by omega)) hP)
  exact key

theorem reach_inv_table (word : Str) (model : piece_map_t) :
    reach_inv word model (encode_word_table word model) := by
  unfold encode_word_table
  have hinit : reach_inv word model (encode_word_init word) := by
    refine ⟨by simp [encode_word_init], ?_⟩
    intro e he hr
    change (((List.replicate (word.length + 1) float.ninf).set 0 _).getD e _).is_ninf = false at hr
    by_cases h0 : 0 = e
    · subst h0
      exact ⟨[], by simp, by simp⟩
    · rw [getD_set_ne _ _ _ _ _ h0, getD_replicate_lt _ _ _ _ (by omega)] at hr
      simp [float.is_ninf] at hr
  exact for_loop_inv (encode_word_outer word model) (fun _ st => reach_inv word model st)
    word.length 0 (encode_word_init word) hinit
    (fun s st _ h2 hP => reach_inv_outer word model s st (by omega) hP)

/-! ## Maps, `replace_all` and the vocabulary loop -/

theorem map_find_assign {κ ν : Type} [DecidableEq κ] (key k : κ) (v : ν) (m : List (κ × ν)) :
    map_find k (map_assign key v m) = if key = k then some v else map_find k m := by
  induction m with
  | nil => simp [map_assign, map_find]
  | cons e m ih =>
    obtain ⟨k1, w⟩ := e
    by_cases h1 : k1 = key
    · subst h1
      by_cases h2 : k1 = k
      · simp [map_assign, map_find, h2]
      · simp [map_assign, map_find, h2]
    · by_cases h2 : k1 = k
      · subst h2
        have h3 : ¬ key = k1 := fun h => h1 h.symm
        simp [map_assign, map_find, h1, h3]
      · simp [map_assign, map_find, h1, h2, ih]

theorem for_loop_except_inv {σ : Type} (body : Nat → σ → Except Exn σ) (P : Nat → σ → Prop) :
    ∀ (k i : Nat) (st st2 : σ), for_loop_except body i k st = .ok st2 → P i st →
      (∀ j st st1, i ≤ j → j < i + k → P j st → body j st = .ok st1 → P (j + 1) st1) →
      P (i + k) st2 := by
  intro k
  induction k with
  | zero =>
    intro i st st2 hrun h _
    simp only [for_loop_except, Except.ok.injEq] at hrun
    subst hrun
    simpa using h
  | succ k ih =>
    intro i st st2 hrun h hstep
    rw [for_loop_except] at hrun
    cases hb : body i st with
    | error e => rw [hb] at hrun; cases hrun
    | ok st1 =>
      rw [hb] at hrun
      have h1 : P (i + 1) st1 := hstep i st st1 (Nat.le_refl _) (by omega) h hb
      have h2 := ih (i + 1) st1 st2 hrun h1
        (fun j st st1 hj hj2 hP => hstep j st st1 (by omega) (by omega) hP)
      have e : i + 1 + k = i + (k + 1) := by omega
      rw [e] at h2
      exact h2

theorem str_find_from_bounds (str pat : Str) :
    ∀ (fuel pos r : Nat), str_find_from str pat fuel pos = some r → pos ≤ r ∧ r < pos + fuel := by
  intro fuel
  induction fuel with
  | zero => intro pos r h; simp [str_find_from] at h
  | succ k ih =>
    intro pos r h
    rw [str_find_from] at h
    by_cases hm : substr str pos pat.length = pat
    · simp only [hm, if_true, Option.some.injEq] at h
      omega
    · simp only [hm, if_false] at h
      have := ih (pos + 1) r h
      omega

theorem str_find_bounds (str pat : Str) (pos r : Nat) (h : str_find str pat pos = some r) :
    pos ≤ r ∧ r + pat.length ≤ str.length := by
  unfold str_find at h
  by_cases hl : str.length < pos + pat.length
  · simp [hl] at h
  · simp only [hl, if_false] at h
    have := str_find_from_bounds str pat _ pos r h
    omega

theorem replace_all_loop_ok (str find replace : Str) (hfind : 0 < find.length) :
    ∀ (fuel : Nat) (result : Str) (from_ : Nat), from_ ≤ str.length →
      str.length - from_ < fuel →
      ∃ t : Str, replace_all_loop str find replace fuel result from_ = .ok (result ++ t) ∧
        (from_ < str.length → replace ≠ [] → t ≠ []) := by
  intro fuel
  induction fuel with
  | zero => intro result from_ _ h; omega
  | succ k ih =>
    intro result from_ hle hfuel
    rw [replace_all_loop]
    cases hf : str_find str find from_ with
    | none =>
      have hl : ¬ str.length < from_ := by omega
      simp only [hl, if_false]
      refine ⟨str.drop from_, rfl, ?_⟩
      intro hlt _ hnil
      have := congrArg List.length hnil
      simp at this
      omega
    | some pos =>
      obtain ⟨b1, b2⟩ := str_find_bounds str find from_ pos hf
      obtain ⟨t, ht, _⟩ := ih (result ++ substr str from_ (pos - from_) ++ replace)
        (pos + find.length) b2 (by omega)
      refine ⟨substr str from_ (pos - from_) ++ replace ++ t, ?_, ?_⟩
      · show replace_all_loop str find replace k
            (result ++ substr str from_ (pos - from_) ++ replace) (pos + find.length) = _
        rw [ht]
        simp only [List.append_assoc]
      · intro _ hr hnil
        simp only [List.append_eq_nil] at hnil
        exact hr hnil.1.2

theorem replace_all_ok (str find replace : Str) (hfind : 0 < find.length) :
    ∃ t : Str, replace_all str find replace = .ok t ∧ (str ≠ [] → replace ≠ [] → t ≠ []) := by
  obtain ⟨t, h1, h2⟩ := replace_all_loop_ok str find replace hfind (str.length + 2) [] 0
    (Nat.zero_le _) (by omega)
  refine ⟨t, by simpa [replace_all] using h1, ?_⟩
  intro hs hr
  exact h2 (List.length_pos.mpr hs) hr

theorem int32_of_nat_small (n : Nat) (h : n < 2 ^ 31) : int32_of_nat n = (n : Int) := by
  unfold int32_of_nat
  have h1 : n % 2 ^ 32 = n := Nat.mod_eq_of_lt (by omega)
  rw [h1, if_pos h]

theorem pieces_in_vocab_entry (i : Nat) (hi : i < 2 ^ 31) (st st1 : tokenizer_load_state)
    (h : pieces_in_vocab i st.tokenizer) (hrun : replit_tokenizer_load_entry i st = .ok st1) :
    pieces_in_vocab (i + 1) st1.tokenizer := by
  unfold replit_tokenizer_load_entry at hrun
  cases h1 : read_u32 st.fin with
  | error e => rw [h1] at hrun; cases hrun
  | ok v =>
    obtain ⟨len, fin1⟩ := v
    rw [h1] at hrun
    simp only at hrun
    cases h2 : read_f32 (fin1.read len).2 with
    | error e => rw [h2] at hrun; cases hrun
    | ok w =>
      obtain ⟨score, fin3⟩ := w
      rw [h2] at hrun
      simp only [Except.ok.injEq] at hrun
      subst hrun
      intro key id sc hk
      simp only [map_find_assign] at hk ⊢
      by_cases hkey : overlay (resize st.buf len) (fin1.read len).1 = key
      · simp only [hkey, if_true, Option.some.injEq, Prod.mk.injEq] at hk
        obtain ⟨hid, _⟩ := hk
        subst hid
        simp [hkey]
      · simp only [hkey, if_false] at hk
        obtain ⟨c1, c2⟩ := h key id sc hk
        refine ⟨by omega, ?_⟩
        have hne : ¬ int32_of_nat i = int32_of_nat id := by
          rw [int32_of_nat_small i hi, int32_of_nat_small id (by omega)]
          omega
        simp only [hne, if_false]
        exact c2

theorem pieces_in_vocab_load (fin fin2 : istream) (n : Int) (hn : n < 2 ^ 31)
    (tokenizer : replit_tokenizer)
    (h : replit_tokenizer_load replit_tokenizer_empty fin n = .ok (tokenizer, fin2)) :
    pieces_in_vocab n.toNat tokenizer := by
  unfold replit_tokenizer_load at h
  cases hrun : for_loop_except replit_tokenizer_load_entry 0 n.toNat
      { tokenizer := replit_tokenizer_empty, fin := fin, buf := List.replicate 128 0 } with
  | error e => rw [hrun] at h; cases h
  | ok st =>
    rw [hrun] at h
    simp only [Except.ok.injEq, Prod.mk.injEq] at h
    have key := for_loop_except_inv replit_tokenizer_load_entry
      (fun i st => pieces_in_vocab i st.tokenizer) n.toNat 0 _ st hrun
      (by intro key id sc hk; simp [replit_tokenizer_empty, map_find] at hk)
      (fun j st st1 _ hj hP hb => pieces_in_vocab_entry j (by omega) st st1 hP hb)
    rw [← h.1]
    simpa using key

theorem nonempty_segmentation (model : piece_map_t) (word : Str)
    (h : ∃ qs, is_segmentation model word qs) :
    ∃ qs : List Str, qs.flatten = word ∧
      ∀ p ∈ qs, p ≠ [] ∧ (map_find p model).isSome = true := by
  obtain ⟨qs, h1, h2⟩ := h
  refine ⟨qs.filter (fun p => decide (p ≠ [])), ?_, ?_⟩
  · rw [flatten_filter_nonempty, h1]
  · intro p hp
    obtain ⟨hp1, hp2⟩ := List.mem_filter.mp hp
    exact ⟨of_decide_eq_true hp2, h2 p hp1⟩

/-! ## Claims about the unigram segmenter -/

/-- C1 as stated fails in three ways.  (1) Rounding: with the pieces `a`, `b` of
stored score `2 ^ -30` and `ab` of stored score `3 * 2 ^ -30`, every `float`
sum with the initial 1.0 is 1.0, the piece `ab` found first is kept, and
`encode_word` returns `ab` although `a`, `b` has the smaller sum of stored
scores.  (2) Overflow: with the pieces `a`, `b` of stored score `-FLT_MAX` the
sum for `b` is `-inf`, which is the mark of an unreached position, and
`encode_word` returns the unknown id for the covered word `ab`.  (3) With an
empty piece of negative stored score `encode_word` returns the single piece
`a`, while the empty piece followed by `a` has a smaller sum, and no way of
writing the word has minimal sum at all. -/
theorem encode_word_not_minimal :
    (finite_scores tiny_scores_table ∧
      is_segmentation tiny_scores_table [97, 98] [[97], [98]] ∧
      encode_word [97, 98] tiny_scores_table = .ok ([2], float.fin 1) ∧
      piece_id tiny_scores_table [97, 98] = 2 ∧
      total_score tiny_scores_table [[97], [98]] < total_score tiny_scores_table [[97, 98]]) ∧
    (finite_scores huge_negative_table ∧
      is_segmentation huge_negative_table [97, 98] [[97], [98]] ∧
      (float.fin (-FLT_MAX)).add (float.fin 1) = float.fin (-FLT_MAX) ∧
      (float.fin (-FLT_MAX)).add (float.fin (-FLT_MAX)) = float.ninf ∧
      encode_word [97, 98] huge_negative_table = .ok ([0], float.fin 0)) ∧
    (finite_scores empty_piece_table ∧
      is_segmentation empty_piece_table [97] [[97]] ∧
      encode_word [97] empty_piece_table = .ok ([0], float.fin 2) ∧
      is_segmentation empty_piece_table [97] [[], [97]] ∧
      total_score empty_piece_table [[], [97]] < total_score empty_piece_table [[97]] ∧
      ¬ ∃ ps : List Str, is_segmentation empty_piece_table [97] ps ∧
          ∀ qs, is_segmentation empty_piece_table [97] qs →
            total_score empty_piece_table ps ≤ total_score empty_piece_table qs) := by
  have hseg : ∀ model : piece_map_t, (map_find [97] model).isSome = true →
      (map_find [98] model).isSome = true → is_segmentation model [97, 98] [[97], [98]] := by
    intro model h1 h2
    refine ⟨rfl, ?_⟩
    intro p hp
    simp only [List.mem_cons, List.mem_singleton, List.not_mem_nil, or_false] at hp
    rcases hp with rfl | rfl
    · exact h1
    · exact h2
  refine ⟨⟨?_, hseg _ rfl rfl, by decide!, by decide!, by decide!⟩,
    ⟨?_, hseg _ rfl rfl, by decide!, by decide!, by decide!⟩,
    ⟨?_, ⟨rfl, ?_⟩, by decide!, ⟨rfl, ?_⟩, by decide!, ?_⟩⟩
  · intro e he
    simp only [tiny_scores_table, List.mem_cons, List.mem_singleton, List.not_mem_nil,
      or_false] at he
    rcases he with rfl | rfl | rfl <;> exact ⟨_, rfl⟩
  · intro e he
    simp only [huge_negative_table, List.mem_cons, List.mem_singleton, List.not_mem_nil,
      or_false] at he
    rcases he with rfl | rfl <;> exact ⟨_, rfl⟩
  · intro e he
    simp only [empty_piece_table, List.mem_cons, List.mem_singleton, List.not_mem_nil,
      or_false] at he
    rcases he with rfl | rfl <;> exact ⟨_, rfl⟩
  · intro p hp
    simp only [List.mem_singleton] at hp
    subst hp
    rfl
  · intro p hp
    simp only [List.mem_cons, List.mem_singleton, List.not_mem_nil, or_false] at hp
    rcases hp with rfl | rfl <;> rfl
  · rintro ⟨ps, ⟨h1, h2⟩, hmin⟩
    have hseg : is_segmentation empty_piece_table [97] ([] :: ps) := by
      refine ⟨by simpa using h1, ?_⟩
      intro p hp
      rcases List.mem_cons.mp hp with rfl | hp
      · rfl
      · exact h2 p hp
    have h3 := hmin ([] :: ps) hseg
    have h4 : total_score empty_piece_table ([] :: ps) =
        -5 + total_score empty_piece_table ps := by
      simp [total_score, piece_score, empty_piece_table, map_find]
    rw [h4] at h3
    linarith

/-- C1 (amended): for a table whose stored scores are finite and not negative
and a non-empty word that is a concatenation of known pieces, `encode_word`
returns the ids, left to right, of non-empty known pieces `ps` whose
concatenation is the word, together with the score accumulated along `ps` in
`float` arithmetic from the initial 1.0 (`accumulated_score`); that score is a
number not below zero or `+inf`, and it is not greater than the accumulated
score of any way `qs` of writing the word as a concatenation of known pieces.
Where the accumulated scores of `ps` and `qs` are their sums of stored scores
plus 1.0 without rounding, the sum of the stored scores of `ps` is not greater
than that of `qs`. -/
theorem encode_word_min_score (word : Str) (model : piece_map_t) (hn : nonneg_scores model)
    (hne : word ≠ []) (hcov : ∃ qs, is_segmentation model word qs) :
    ∃ ps : List Str,
      encode_word word model =
        .ok (ps.map (piece_id model), accumulated_score model ps) ∧
      is_segmentation model word ps ∧ (∀ p ∈ ps, p ≠ []) ∧
      nonneg_float (accumulated_score model ps) ∧
      ∀ qs, is_segmentation model word qs →
        nonneg_float (accumulated_score model qs) ∧
        (accumulated_score model ps).gt (accumulated_score model qs) = false ∧
        (accumulated_score model ps = float.fin (total_score model ps + 1) →
          accumulated_score model qs = float.fin (total_score model qs + 1) →
          total_score model ps ≤ total_score model qs) := by
  obtain ⟨qs0, c1, c2⟩ := nonempty_segmentation model word hcov
  obtain ⟨ps, b1, b2, b3, b4⟩ := encode_word_spec word model hn hne qs0 c1 c2
  refine ⟨ps, b1, ⟨b2, fun p hp => (b3 p hp).2⟩, fun p hp => (b3 p hp).1,
    accumulated_score_nonneg model hn ps (fun p hp => (b3 p hp).2), ?_⟩
  intro qs hq
  have hmem : ∀ p ∈ qs.filter (fun p => decide (p ≠ [])),
      p ≠ [] ∧ (map_find p model).isSome = true := by
    intro p hp
    obtain ⟨hp1, hp2⟩ := List.mem_filter.mp hp
    exact ⟨of_decide_eq_true hp2, hq.2 p hp1⟩
  have hf := b4 (qs.filter (fun p => decide (p ≠ [])))
    (by rw [flatten_filter_nonempty, hq.1]) hmem
  have hle := float_le_trans _ _ _
    (accumulated_score_nonneg model hn _ (fun p hp => (hmem p hp).2)) hf
    (accumulated_score_filter model hn qs hq.2)
  refine ⟨accumulated_score_nonneg model hn qs hq.2, hle, ?_⟩
  intro e1 e2
  rw [e1, e2] at hle
  have h3 : ¬ (total_score model qs + 1 < total_score model ps + 1) := by
    simpa [float.gt] using hle
  linarith

/-- Witness for C1 (amended): the word `ab` over the table `a`, `b`, `ab`. -/
theorem encode_word_min_score_witness :
    ∃ ps : List Str,
      encode_word [97, 98] three_piece_table =
        .ok (ps.map (piece_id three_piece_table), accumulated_score three_piece_table ps) ∧
      is_segmentation three_piece_table [97, 98] ps ∧ (∀ p ∈ ps, p ≠ []) ∧
      nonneg_float (accumulated_score three_piece_table ps) ∧
      ∀ qs, is_segmentation three_piece_table [97, 98] qs →
        nonneg_float (accumulated_score three_piece_table qs) ∧
        (accumulated_score three_piece_table ps).gt (accumulated_score three_piece_table qs) =
          false ∧
        (accumulated_score three_piece_table ps =
            float.fin (total_score three_piece_table ps + 1) →
          accumulated_score three_piece_table qs =
            float.fin (total_score three_piece_table qs + 1) →
          total_score three_piece_table ps ≤ total_score three_piece_table qs) :=
  encode_word_min_score [97, 98] three_piece_table
    (by
      intro e he
      simp only [three_piece_table, List.mem_cons, List.mem_singleton, List.not_mem_nil,
        or_false] at he
      rcases he with rfl | rfl | rfl <;> exact ⟨_, rfl, by norm_num⟩)
    (by decide)
    ⟨[[97], [98]], rfl, by
      intro p hp
      simp only [List.mem_cons, List.mem_singleton, List.not_mem_nil, or_false] at hp
      rcases hp with rfl | rfl <;> rfl⟩

/-- C2: for every piece table (whatever its scores) and every word that cannot
be written as a concatenation of known pieces, `encode_word` returns exactly
`([0], 0.0)`.  Such a word is never empty, the empty word being the empty
concatenation. -/
theorem encode_word_unknown (word : Str) (model : piece_map_t)
    (h : ¬ ∃ ps, is_segmentation model word ps) :
    encode_word word model = .ok ([0], float.fin 0) := by
  have hr := reach_inv_table word model
  have hn : (((encode_word_table word model).best_segmentations_scores.getD word.length
      float.ninf).is_ninf) = true := by
    by_contra hc
    have hc2 := hr.2 word.length (Nat.le_refl _) (by simpa using hc)
    unfold coverable at hc2
    rw [List.take_length] at hc2
    exact h hc2
  unfold encode_word
  simp only [hn, if_true]

/-- Witness for C2: the word `c` over the table `a`, `b`, `ab`. -/
theorem encode_word_unknown_witness :
    encode_word [99] three_piece_table = .ok ([0], float.fin 0) :=
  encode_word_unknown [99] three_piece_table (by
    rintro ⟨ps, h1, h2⟩
    cases ps with
    | nil => simp at h1
    | cons p ps =>
      have hp := h2 p (by simp)
      simp only [three_piece_table, map_find] at hp
      by_cases p1 : [97] = p
      · subst p1
        simp at h1
      · by_cases p2 : [98] = p
        · subst p2
          simp at h1
        · by_cases p3 : [97, 98] = p
          · subst p3
            simp at h1
          · simp [p1, p2, p3] at hp)

/-! ## Claims about the tensor record loop -/

/-- C4: in the record loop of both loaders, at any iteration, a record that the
loop reads (so of rank at most 2), whose name resolves to a declared tensor and
whose dimensions, padded with 1 to two entries, differ from the declared
`(ne[0], ne[1])`, makes the loader return false, and the directory with the
data of every tensor is left as it was: nothing of the record is copied. -/
theorem shape_mismatch_returns_false (g : ggml_lib) (fuel : Nat) (tensors : tensor_map)
    (fin : istream) (r : tensor_record) (tensor : ggml_tensor)
    (hread : read_tensor_record fin = .ok (some r))
    (hfind : map_find (c_str r.name) tensors = some tensor)
    (hshape : (r.ne0, r.ne1) ≠ (tensor.ne0, tensor.ne1)) :
    load_record g tensors fin = .ok (.return_false tensors r.fin) ∧
    load_weights g (fuel + 1) tensors fin = .ok (false, tensors) := by
  have hrec : load_record g tensors fin = .ok (.return_false tensors r.fin) := by
    unfold load_record
    simp only [hread, hfind]
    by_cases h1 : g.nelements tensor ≠ r.nelements
    · rw [if_pos h1]
    · have h2 : tensor.ne0 ≠ r.ne0 ∨ tensor.ne1 ≠ r.ne1 := by
        by_contra hc
        push_neg at hc
        exact hshape (by rw [hc.1, hc.2])
      rw [if_neg h1, if_pos h2]
  refine ⟨hrec, ?_⟩
  rw [load_weights, hrec]

/-- Witness for C4: the shape `[1, 2]` for the embedding declared `[2, 1]`. -/
theorem shape_mismatch_returns_false_witness :
    load_record ggml_ref sample_tensors (open_file bad_shape_record) =
      .ok (.return_false sample_tensors (open_file [1, 2, 3, 4, 5, 6, 7, 8])) ∧
    load_weights ggml_ref (0 + 1) sample_tensors (open_file bad_shape_record) =
      .ok (false, sample_tensors) :=
  shape_mismatch_returns_false ggml_ref 0 sample_tensors (open_file bad_shape_record)
    { n_dims := 2, length := 22, ttype := 0, nelements := 2, ne0 := 1, ne1 := 2
      name := ascii "transformer.wte.weight", fin := open_file [1, 2, 3, 4, 5, 6, 7, 8] }
    (ggml_new_tensor_2d 0 2 1) (by decide!) (by decide!) (by decide!)

/-- C5 as stated fails: the 24 name bytes `transformer.wte.weight\\0x` are not a
registered name, yet the record is accepted as the embedding, its data is copied
and the loader returns true. -/
theorem nul_name_accepted :
    map_find (ascii "transformer.wte.weight" ++ [0, 120]) sample_tensors = none ∧
    read_tensor_record (open_file nul_name_record) =
      .ok (some
        { n_dims := 2, length := 24, ttype := 0, nelements := 2, ne0 := 2, ne1 := 1
          name := ascii "transformer.wte.weight" ++ [0, 120]
          fin := open_file [1, 2, 3, 4, 5, 6, 7, 8] }) ∧
    load_weights ggml_ref 2 sample_tensors (open_file nul_name_record) =
      .ok (true,
        [(ascii "transformer.wte.weight",
            store_data (ggml_new_tensor_2d 0 2 1) [1, 2, 3, 4, 5, 6, 7, 8]),
         (ascii "transformer.norm_f.weight", ggml_new_tensor_1d 0 2)]) := by
  refine ⟨by decide!, by decide!, by decide!⟩

/-- C5 (amended): in the record loop of both loaders, a record whose name, cut
at its first NUL byte (the whole name when it has none), is not a registered
name makes the loader return false, with the directory left as it was. -/
theorem unknown_name_returns_false (g : ggml_lib) (fuel : Nat) (tensors : tensor_map)
    (fin : istream) (r : tensor_record)
    (hread : read_tensor_record fin = .ok (some r))
    (hfind : map_find (c_str r.name) tensors = none) :
    load_record g tensors fin = .ok (.return_false tensors r.fin) ∧
    load_weights g (fuel + 1) tensors fin = .ok (false, tensors) := by
  have hrec : load_record g tensors fin = .ok (.return_false tensors r.fin) := by
    unfold load_record
    simp only [hread, hfind]
  refine ⟨hrec, ?_⟩
  rw [load_weights, hrec]

/-- Witness for C5 (amended): a record named `transformer.wpe.weight`. -/
theorem unknown_name_returns_false_witness :
    load_record ggml_ref sample_tensors (open_file unknown_name_record) =
      .ok (.return_false sample_tensors (open_file [1, 2, 3, 4, 5, 6, 7, 8])) ∧
    load_weights ggml_ref (0 + 1) sample_tensors (open_file unknown_name_record) =
      .ok (false, sample_tensors) :=
  unknown_name_returns_false ggml_ref 0 sample_tensors (open_file unknown_name_record)
    { n_dims := 2, length := 22, ttype := 0, nelements := 2, ne0 := 2, ne1 := 1
      name := ascii "transformer.wpe.weight", fin := open_file [1, 2, 3, 4, 5, 6, 7, 8] }
    (by decide!) (by decide!)

/-- C6: in the record loop of both loaders, for a record that passed the name,
element-count and shape checks: when the size implied by the file,
`(nelements * element size of the record's type code) / block size`, differs from
the declared byte size the loader returns false and copies nothing; when they
are equal the loop goes on after reading that many bytes into the tensor, and a
stream that still holds that many bytes delivers exactly them.  The size is
computed in `size_t`; it is the plain quotient when the product fits. -/
theorem size_check_decides_copy (g : ggml_lib) (fuel : Nat) (tensors : tensor_map)
    (fin : istream) (r : tensor_record) (tensor : ggml_tensor)
    (hread : read_tensor_record fin = .ok (some r))
    (hfind : map_find (c_str r.name) tensors = some tensor)
    (hnel : g.nelements tensor = r.nelements)
    (hne0 : tensor.ne0 = r.ne0) (hne1 : tensor.ne1 = r.ne1) :
    (record_size g r tensor ≠ g.nbytes tensor →
      load_record g tensors fin = .ok (.return_false tensors r.fin) ∧
      load_weights g (fuel + 1) tensors fin = .ok (false, tensors)) ∧
    (record_size g r tensor = g.nbytes tensor →
      load_record g tensors fin =
        .ok (.next
          (map_assign (c_str r.name)
            (store_data tensor (r.fin.read (g.nbytes tensor)).1) tensors)
          (r.fin.read (g.nbytes tensor)).2) ∧
      (r.fin.eofbit = false → r.fin.failbit = false → g.nbytes tensor ≤ r.fin.data.length →
        (r.fin.read (g.nbytes tensor)).1 = r.fin.data.take (g.nbytes tensor) ∧
        (r.fin.read (g.nbytes tensor)).1.length = g.nbytes tensor)) ∧
    (0 ≤ r.nelements → r.nelements.toNat * g.ggml_type_size r.ttype < 2 ^ 64 →
      record_size g r tensor =
        r.nelements.toNat * g.ggml_type_size r.ttype / g.ggml_blck_size tensor.type) := by
  have h1 : ¬ g.nelements tensor ≠ r.nelements := by simp [hnel]
  have h2 : ¬ (tensor.ne0 ≠ r.ne0 ∨ tensor.ne1 ≠ r.ne1) := by simp [hne0, hne1]
  refine ⟨?_, ?_, ?_⟩
  · intro hsz
    have hrec : load_record g tensors fin = .ok (.return_false tensors r.fin) := by
      unfold load_record
      simp only [hread, hfind]
      rw [if_neg h1, if_neg h2, if_pos hsz]
    refine ⟨hrec, ?_⟩
    rw [load_weights, hrec]
  · intro hsz
    refine ⟨?_, ?_⟩
    · unfold load_record
      simp only [hread, hfind]
      rw [if_neg h1, if_neg h2, if_neg (by simp [hsz])]
    · intro he hf hlen
      have hr : (r.fin.read (g.nbytes tensor)).1 = r.fin.data.take (g.nbytes tensor) := by
        simp [istream.read, he, hf, hlen]
      refine ⟨hr, ?_⟩
      rw [hr, List.length_take]
      omega
  · intro hpos hfit
    unfold record_size size_t_of_int
    rcases Nat.eq_zero_or_pos (g.ggml_type_size r.ttype) with h0 | h0
    · simp [h0]
    · have hb : r.nelements.toNat * 1 ≤ r.nelements.toNat * g.ggml_type_size r.ttype :=
        Nat.mul_le_mul_left _ h0
      have e1 : (r.nelements % 2 ^ 64).toNat = r.nelements.toNat := by
        rw [Int.emod_eq_of_lt hpos (by omega)]
      rw [e1, Nat.mod_eq_of_lt hfit]

/-- Witness for C6: the record of the embedding in the sample files, eight bytes
for a tensor of eight bytes: the loop goes on with the eight bytes copied. -/
theorem size_check_decides_copy_witness :
    load_record ggml_ref sample_tensors (open_file wte_record) =
      .ok (.next
        (map_assign (c_str (ascii "transformer.wte.weight"))
          (store_data (ggml_new_tensor_2d 0 2 1)
            ((open_file [1, 2, 3, 4, 5, 6, 7, 8]).read
              (ggml_ref.nbytes (ggml_new_tensor_2d 0 2 1))).1) sample_tensors)
        ((open_file [1, 2, 3, 4, 5, 6, 7, 8]).read
          (ggml_ref.nbytes (ggml_new_tensor_2d 0 2 1))).2) ∧
    ((open_file [1, 2, 3, 4, 5, 6, 7, 8]).read
        (ggml_ref.nbytes (ggml_new_tensor_2d 0 2 1))).1 = [1, 2, 3, 4, 5, 6, 7, 8] :=
  ⟨((size_check_decides_copy ggml_ref 0 sample_tensors (open_file wte_record)
      { n_dims := 2, length := 22, ttype := 0, nelements := 2, ne0 := 2, ne1 := 1
        name := ascii "transformer.wte.weight", fin := open_file [1, 2, 3, 4, 5, 6, 7, 8] }
      (ggml_new_tensor_2d 0 2 1) (by decide!) (by decide!) (by decide!) (by decide!)
      (by decide!)).2.1 (by decide!)).1, by decide!⟩

/-! ## Reading from a good stream -/

theorem read_open (bytes : List Nat) (n : Nat) (h : n ≤ bytes.length) :
    (open_file bytes).read n = (bytes.take n, open_file (bytes.drop n)) := by
  simp [istream.read, open_file, h]

theorem le_bytes_length (n k : Nat) : (le_bytes n k).length = k := by
  induction k generalizing n with
  | zero => rfl
  | succ k ih => simp [le_bytes, ih]

theorem overlay_full (old got : List Nat) (h : old.length ≤ got.length) :
    overlay old got = got := by
  simp [overlay, List.drop_of_length_le h]

theorem read_u32_open (bytes : List Nat) (h : 4 ≤ bytes.length) :
    read_u32 (open_file bytes) = .ok (le_nat (bytes.take 4), open_file (bytes.drop 4)) := by
  unfold read_u32
  rw [read_open bytes 4 h]
  simp [List.length_take, h]

theorem read_i32_at (old : Int) (bytes : List Nat) (k : Nat) (h : k + 4 ≤ bytes.length) :
    read_i32 old (open_file (bytes.drop k)) =
      (field32 bytes k, open_file (bytes.drop (k + 4))) := by
  unfold read_i32
  rw [read_open (bytes.drop k) 4 (by simp; omega)]
  have hl : (le_bytes (old % 2 ^ 32).toNat 4).length ≤ ((bytes.drop k).take 4).length := by
    rw [le_bytes_length, List.length_take, List.length_drop]
    omega
  simp only [overlay_full _ _ hl, field32, List.drop_drop]

theorem read_bits_at (old : Nat) (bytes : List Nat) (k : Nat) (h : k + 4 ≤ bytes.length) :
    read_bits old (open_file (bytes.drop k)) =
      (le_nat ((bytes.drop k).take 4), open_file (bytes.drop (k + 4))) := by
  unfold read_bits
  rw [read_open (bytes.drop k) 4 (by simp; omega)]
  have hl : (le_bytes old 4).length ≤ ((bytes.drop k).take 4).length := by
    rw [le_bytes_length, List.length_take, List.length_drop]
    omega
  simp only [overlay_full _ _ hl, List.drop_drop]

theorem mpt_load_hparams_at (g : ggml_lib) (hparams : mpt_hparams) (bytes : List Nat)
    (h : 36 ≤ bytes.length) :
    mpt_load_hparams g hparams (open_file (bytes.drop 4)) =
      ({ d_model := field32 bytes 4, max_seq_len := field32 bytes 8
         n_heads := field32 bytes 12, n_layers := field32 bytes 16
         n_vocab := field32 bytes 20
         alibi_bias_max := le_nat ((bytes.drop 24).take 4)
         clip_qkv := le_nat ((bytes.drop 28).take 4)
         ftype := Int.tmod (field32 bytes 32) g.GGML_QNT_VERSION_FACTOR
         n_ctx := min (field32 bytes 8) hparams.n_ctx }, open_file (bytes.drop 36)) := by
  unfold mpt_load_hparams
  simp only [read_i32_at _ bytes 4 (by omega), read_i32_at _ bytes 8 (by omega),
    read_i32_at _ bytes 12 (by omega), read_i32_at _ bytes 16 (by omega),
    read_i32_at _ bytes 20 (by omega), read_bits_at _ bytes 24 (by omega),
    read_bits_at _ bytes 28 (by omega), read_i32_at _ bytes 32 (by omega)]

theorem replit_load_hparams_at (g : ggml_lib) (hparams : replit_hparams) (bytes : List Nat)
    (h : 28 ≤ bytes.length) :
    replit_load_hparams g hparams (open_file (bytes.drop 4)) =
      ({ d_model := field32 bytes 4, max_seq_len := field32 bytes 8
         n_heads := field32 bytes 12, n_layers := field32 bytes 16
         n_vocab := field32 bytes 20
         ftype := Int.tmod (field32 bytes 24) g.GGML_QNT_VERSION_FACTOR
         n_ctx := min (field32 bytes 8) hparams.n_ctx }, open_file (bytes.drop 28)) := by
  unfold replit_load_hparams
  simp only [read_i32_at _ bytes 4 (by omega), read_i32_at _ bytes 8 (by omega),
    read_i32_at _ bytes 12 (by omega), read_i32_at _ bytes 16 (by omega),
    read_i32_at _ bytes 20 (by omega), read_i32_at _ bytes 24 (by omega)]

/-! ## Claims about the file header -/

/-- C7: for every file of at least 4 bytes whose first four bytes, read as a
little-endian 32-bit value, differ from `GGML_FILE_MAGIC`, both loaders return
false at once: the model (hyperparameters, directory, cache tensors) and the
vocabulary or tokenizer are exactly the ones passed in. -/
theorem bad_magic_returns_false (g : ggml_lib) (bytes : List Nat) (h4 : 4 ≤ bytes.length)
    (hmagic : le_nat (bytes.take 4) ≠ g.GGML_FILE_MAGIC)
    (model : mpt_model) (vocab : gpt_vocab) (gpu_layers : Int)
    (rmodel : replit_model) (tokenizer : replit_tokenizer) :
    mpt_model_load g (open_file bytes) model vocab gpu_layers =
      .ok { ret := false, model := model, vocab := vocab } ∧
    replit_model_load g (open_file bytes) rmodel tokenizer =
      .ok { ret := false, model := rmodel, vocab := tokenizer } := by
  have hf : (open_file bytes).failbit = false := rfl
  constructor
  · unfold mpt_model_load mpt_model_load_head
    simp only [hf, Bool.false_eq_true, if_false, read_u32_open bytes h4]
    rw [if_pos hmagic]
  · unfold replit_model_load replit_model_load_head
    simp only [hf, Bool.false_eq_true, if_false, read_u32_open bytes h4]
    rw [if_pos hmagic]

/-- Witness for C7: a file that starts with the bytes 1, 2, 3, 4. -/
theorem bad_magic_returns_false_witness :
    mpt_model_load ggml_ref (open_file [1, 2, 3, 4, 5]) mpt_model_empty gpt_vocab_empty 0 =
      .ok { ret := false, model := mpt_model_empty, vocab := gpt_vocab_empty } ∧
    replit_model_load ggml_ref (open_file [1, 2, 3, 4, 5]) replit_model_empty
        replit_tokenizer_empty =
      .ok { ret := false, model := replit_model_empty, vocab := replit_tokenizer_empty } :=
  bad_magic_returns_false ggml_ref [1, 2, 3, 4, 5] (by decide) (by decide!) mpt_model_empty
    gpt_vocab_empty 0 replit_model_empty replit_tokenizer_empty

/-- C8: for every file with the magic, the complete hyperparameter block and a
vocabulary block that is read without running off the file, when the stored
`ftype` reduced modulo `GGML_QNT_VERSION_FACTOR` is mapped to `GGML_TYPE_COUNT`,
both loaders return false; only the hyperparameters and the vocabulary have
been updated: no default type is taken, and the directory, the context and the
cache tensors are the ones passed in. -/
theorem bad_ftype_returns_false (g : ggml_lib) (bytes : List Nat)
    (hmagic : le_nat (bytes.take 4) = g.GGML_FILE_MAGIC) :
    (∀ (model : mpt_model) (vocab : gpt_vocab) (gpu_layers : Int) (vs : vocab_load_state),
      36 ≤ bytes.length →
      g.ggml_ftype_to_ggml_type (Int.tmod (field32 bytes 32) g.GGML_QNT_VERSION_FACTOR) =
        g.GGML_TYPE_COUNT →
      mpt_load_vocab g (field32 bytes 20) vocab (open_file (bytes.drop 36)) = .ok vs →
      mpt_model_load g (open_file bytes) model vocab gpu_layers =
        .ok { ret := false
              model :=
                { model with
                  hparams := (mpt_load_hparams g model.hparams (open_file (bytes.drop 4))).1 }
              vocab := vs.vocab }) ∧
    (∀ (model : replit_model) (tokenizer tokenizer1 : replit_tokenizer) (fin2 : istream),
      28 ≤ bytes.length →
      g.ggml_ftype_to_ggml_type (Int.tmod (field32 bytes 24) g.GGML_QNT_VERSION_FACTOR) =
        g.GGML_TYPE_COUNT →
      replit_tokenizer_load tokenizer (open_file (bytes.drop 28)) (field32 bytes 20) =
        .ok (tokenizer1, fin2) →
      replit_model_load g (open_file bytes) model tokenizer =
        .ok { ret := false
              model :=
                { model with
                  hparams :=
                    (replit_load_hparams g model.hparams (open_file (bytes.drop 4))).1 }
              vocab := tokenizer1 }) := by
  have hf : (open_file bytes).failbit = false := rfl
  constructor
  · intro model vocab gpu_layers vs hlen hbad hv
    have hm : ¬ le_nat (bytes.take 4) ≠ g.GGML_FILE_MAGIC := by simp [hmagic]
    unfold mpt_model_load mpt_model_load_head
    simp only [hf, Bool.false_eq_true, if_false, read_u32_open bytes (by omega : 4 ≤ bytes.length)]
    rw [if_neg hm]
    simp only [mpt_load_hparams_at g model.hparams bytes hlen, hv, hbad, if_true]
  · intro model tokenizer tokenizer1 fin2 hlen hbad hv
    have hm : ¬ le_nat (bytes.take 4) ≠ g.GGML_FILE_MAGIC := by simp [hmagic]
    unfold replit_model_load replit_model_load_head
    simp only [hf, Bool.false_eq_true, if_false, read_u32_open bytes (by omega : 4 ≤ bytes.length)]
    rw [if_neg hm]
    simp only [replit_load_hparams_at g model.hparams bytes hlen, hv, hbad, if_true]

set_option maxRecDepth 100000 in
/-- Witness for C8: the sample files with `ftype = 4`. -/
theorem bad_ftype_returns_false_witness :
    mpt_model_load ggml_ref (open_file mpt_bad_ftype_file) mpt_model_empty gpt_vocab_empty 0 =
      .ok { ret := false
            model :=
              { mpt_model_empty with
                hparams := (mpt_load_hparams ggml_ref mpt_model_empty.hparams
                  (open_file (mpt_bad_ftype_file.drop 4))).1 }
            vocab := { token_to_id := [([97], 0)], id_to_token := [(0, [97])] } } ∧
    replit_model_load ggml_ref (open_file replit_bad_ftype_file) replit_model_empty
        replit_tokenizer_empty =
      .ok { ret := false
            model :=
              { replit_model_empty with
                hparams := (replit_load_hparams ggml_ref replit_model_empty.hparams
                  (open_file (replit_bad_ftype_file.drop 4))).1 }
            vocab :=
              { raw_vocab := { token_to_id := [], id_to_token := [(0, [97])] }
                piece_map := [([97], (0, float.fin 1))], vocab := [] } } :=
  ⟨(bad_ftype_returns_false ggml_ref mpt_bad_ftype_file (by decide!)).1 mpt_model_empty
      gpt_vocab_empty 0
      { vocab := { token_to_id := [([97], 0)], id_to_token := [(0, [97])] }
        fin := open_file wte_record, buf := [97] }
      (by decide!) (by decide!) (by decide!),
    (bad_ftype_returns_false ggml_ref replit_bad_ftype_file (by decide!)).2 replit_model_empty
      replit_tokenizer_empty
      { raw_vocab := { token_to_id := [], id_to_token := [(0, [97])] }
        piece_map := [([97], (0, float.fin 1))], vocab := [] }
      (open_file wte_record) (by decide!) (by decide!) (by decide!)⟩

/-! ## Runs of the record loop -/

theorem read_len_le (fin : istream) (n : Nat) :
    (fin.read n).2.data.length ≤ fin.data.length := by
  unfold istream.read
  split
  · simp
  · split
    · simp
    · simp

theorem read_i32_len_le (old : Int) (fin : istream) :
    (read_i32 old fin).2.data.length ≤ fin.data.length := by
  unfold read_i32
  exact read_len_le fin 4

theorem read_short_eof (bytes : List Nat) (n : Nat) (h : bytes.length < n) :
    ((open_file bytes).read n).2.eofbit = true := by
  have : ¬ n ≤ bytes.length := by omega
  simp [istream.read, open_file, this]

theorem read_eof_stays (fin : istream) (n : Nat) (h : fin.eofbit = true) :
    (fin.read n).2.eofbit = true := by
  simp [istream.read, h]

theorem header_eof_of_short (bytes : List Nat) (h : bytes.length < 12) :
    ((((open_file bytes).read 4).2.read 4).2.read 4).2.eofbit = true := by
  by_cases h4 : 4 ≤ bytes.length
  · rw [read_open bytes 4 h4]
    by_cases h8 : 4 ≤ (bytes.drop 4).length
    · rw [read_open (bytes.drop 4) 4 h8]
      exact read_short_eof _ 4 (by simp at h8 ⊢; omega)
    · exact read_eof_stays _ 4 (read_short_eof _ 4 (by omega))
  · exact read_eof_stays _ 4 (read_eof_stays _ 4 (read_short_eof _ 4 (by omega)))

theorem read_tensor_record_consumes (bytes : List Nat) (r : tensor_record)
    (h : read_tensor_record (open_file bytes) = .ok (some r)) :
    r.fin.data.length + 12 ≤ bytes.length := by
  by_cases h12 : bytes.length < 12
  · unfold read_tensor_record at h
    simp only [header_eof_of_short bytes h12, if_true] at h
    cases h
  · have e1 := read_open bytes 4 (by omega)
    have e2 := read_open (bytes.drop 4) 4 (by simp; omega)
    have e3 := read_open ((bytes.drop 4).drop 4) 4 (by simp; omega)
    unfold read_tensor_record at h
    simp only [e1, e2, e3] at h
    split at h
    · cases h
    · split at h
      · cases h
      · split at h
        · cases h
        · split at h
          · cases h
          · simp only [Except.ok.injEq, Option.some.injEq] at h
            subst h
            simp only
            refine Nat.le_trans (Nat.add_le_add_right (read_len_le _ _) 12) ?_
            have hb : (open_file ((bytes.drop 4).drop 4 |>.drop 4)).data.length + 12
                ≤ bytes.length := by
              simp [open_file]
              omega
            refine Nat.le_trans (Nat.add_le_add_right ?_ 12) hb
            split <;> split <;> (try dsimp only) <;>
              first
              | exact Nat.le_refl _
              | exact read_i32_len_le _ _
              | exact Nat.le_trans (read_i32_len_le _ _) (read_i32_len_le _ _)

theorem read_good (fin : istream) (n : Nat) (he : fin.eofbit = false) (hf : fin.failbit = false)
    (hn : n ≤ fin.data.length) :
    fin.read n = (fin.data.take n, open_file (fin.data.drop n)) := by
  simp [istream.read, open_file, he, hf, hn]

theorem complete_records_load (g : ggml_lib) (tensors : tensor_map) (bytes : List Nat)
    (h : complete_records g tensors bytes) :
    ∀ fuel, bytes.length < fuel →
      ∃ tensors2, load_weights g fuel tensors (open_file bytes) = .ok (true, tensors2) := by
  induction h with
  | done tensors =>
    intro fuel hfuel
    obtain ⟨k, rfl⟩ : ∃ k, fuel = k + 1 := ⟨fuel - 1, by omega⟩
    refine ⟨tensors, ?_⟩
    have hr : read_tensor_record (open_file []) = .ok none := by
      unfold read_tensor_record
      simp only [header_eof_of_short [] (by simp), if_true]
    rw [load_weights, load_record, hr]
  | record tensors bytes r tensor hread he hf hfind hnel h0 h1 hsz hlen _ ih =>
    intro fuel hfuel
    obtain ⟨k, rfl⟩ : ∃ k, fuel = k + 1 := ⟨fuel - 1, by omega⟩
    have hcons := read_tensor_record_consumes bytes r hread
    have hrec : load_record g tensors (open_file bytes) =
        .ok (.next
          (map_assign (c_str r.name)
            (store_data tensor (r.fin.data.take (g.nbytes tensor))) tensors)
          (open_file (r.fin.data.drop (g.nbytes tensor)))) := by
      unfold load_record
      simp only [hread, hfind]
      rw [if_neg (by simp [hnel]), if_neg (by simp [h0, h1]), if_neg (by simp [hsz]),
        read_good r.fin _ he hf hlen]
    obtain ⟨t2, ht2⟩ := ih k (by simp; omega)
    refine ⟨t2, ?_⟩
    rw [load_weights, hrec]
    exact ht2

/-- C10: when a loader reaches the record loop with a good stream whose
remaining bytes are complete tensor records, each passing the checks, and
nothing after the last of them (in particular no record at all), the loop stops
at the end of the stream and the loader returns true: the end of the stream
where a record header would start is not an error. -/
theorem complete_file_returns_true (g : ggml_lib) (fin : istream) (bytes : List Nat) :
    (∀ (model model1 : mpt_model) (vocab vocab1 : gpt_vocab) (gpu_layers : Int),
      mpt_model_load_head g fin model vocab gpu_layers =
        .ok (.proceed model1 vocab1 (open_file bytes)) →
      complete_records g model1.tensors bytes →
      ∃ tensors2, mpt_model_load g fin model vocab gpu_layers =
        .ok { ret := true, model := { model1 with tensors := tensors2 }, vocab := vocab1 }) ∧
    (∀ (model model1 : replit_model) (tokenizer tokenizer1 : replit_tokenizer),
      replit_model_load_head g fin model tokenizer =
        .ok (.proceed model1 tokenizer1 (open_file bytes)) →
      complete_records g model1.tensors bytes →
      ∃ tensors2, replit_model_load g fin model tokenizer =
        .ok { ret := true, model := { model1 with tensors := tensors2 }
              vocab := tokenizer1 }) := by
  constructor
  · intro model model1 vocab vocab1 gpu_layers hhead hrec
    obtain ⟨t2, ht2⟩ := complete_records_load g model1.tensors bytes hrec (bytes.length + 1)
      (by omega)
    refine ⟨t2, ?_⟩
    unfold mpt_model_load
    rw [hhead]
    simp only [open_file] at ht2 ⊢
    rw [ht2]
  · intro model model1 tokenizer tokenizer1 hhead hrec
    obtain ⟨t2, ht2⟩ := complete_records_load g model1.tensors bytes hrec (bytes.length + 1)
      (by omega)
    refine ⟨t2, ?_⟩
    unfold replit_model_load
    rw [hhead]
    simp only [open_file] at ht2 ⊢
    rw [ht2]

set_option maxRecDepth 100000 in
/-- The two records of the sample files are complete records for the declared
directory. -/
theorem sample_records_complete :
    complete_records ggml_ref sample_tensors (wte_record ++ norm_f_record) :=
  complete_records.record _ _
    { n_dims := 2, length := 22, ttype := 0, nelements := 2, ne0 := 2, ne1 := 1
      name := ascii "transformer.wte.weight"
      fin := open_file ([1, 2, 3, 4, 5, 6, 7, 8] ++ norm_f_record) }
    (ggml_new_tensor_2d 0 2 1) (by decide!) rfl rfl (by decide!) (by decide!) rfl rfl
    (by decide!) (by decide!)
    (complete_records.record _ _
      { n_dims := 1, length := 25, ttype := 0, nelements := 2, ne0 := 2, ne1 := 1
        name := ascii "transformer.norm_f.weight"
        fin := open_file [9, 10, 11, 12, 13, 14, 15, 16] }
      (ggml_new_tensor_1d 0 2) (by decide!) rfl rfl (by decide!) (by decide!) rfl rfl
      (by decide!) (by decide!) (complete_records.done _))

set_option maxRecDepth 100000 in
/-- Witness for C10: the sample files with both records, and nothing after. -/
theorem complete_file_returns_true_witness :
    (∃ tensors2, mpt_model_load ggml_ref
        (open_file (mpt_file_head ++ wte_record ++ norm_f_record))
        mpt_model_empty gpt_vocab_empty 0 =
      .ok { ret := true, model := { mpt_sample_model with tensors := tensors2 }
            vocab := sample_vocab }) ∧
    (∃ tensors2, replit_model_load ggml_ref
        (open_file (replit_file_head ++ wte_record ++ norm_f_record))
        replit_model_empty replit_tokenizer_empty =
      .ok { ret := true, model := { replit_sample_model with tensors := tensors2 }
            vocab := sample_tokenizer }) :=
  ⟨(complete_file_returns_true ggml_ref
      (open_file (mpt_file_head ++ wte_record ++ norm_f_record))
      (wte_record ++ norm_f_record)).1 mpt_model_empty mpt_sample_model gpt_vocab_empty
      sample_vocab 0 (by decide!) sample_records_complete,
    (complete_file_returns_true ggml_ref
      (open_file (replit_file_head ++ wte_record ++ norm_f_record))
      (wte_record ++ norm_f_record)).2 replit_model_empty replit_sample_model
      replit_tokenizer_empty sample_tokenizer (by decide!) sample_records_complete⟩

/-! ## `replace_all` with the marker as search string -/

theorem marker_to_space_marker (rest : Str) :
    marker_to_space (226 :: 150 :: 129 :: rest) = 32 :: marker_to_space rest := by
  rw [marker_to_space]

theorem marker_to_space_other (b : Nat) (rest : Str)
    (h : (b :: rest).take 3 ≠ ws_symbol) :
    marker_to_space (b :: rest) = b :: marker_to_space rest := by
  rw [marker_to_space]
  intro tl h1 h2
  subst h1 h2
  exact h (by simp [ws_symbol])

theorem marker_to_space_short (s : Str) (h : s.length ≤ 2) : marker_to_space s = s := by
  match s, h with
  | [], _ => rfl
  | [a], _ =>
    rw [marker_to_space_other a [] (by simp [ws_symbol]), marker_to_space]
  | [a, b], _ =>
    rw [marker_to_space_other a [b] (by simp [ws_symbol]),
      marker_to_space_other b [] (by simp [ws_symbol]), marker_to_space]

theorem drop_succ_of_drop_cons (str : Str) (pos b : Nat) (t : Str)
    (h : str.drop pos = b :: t) : str.drop (pos + 1) = t := by
  have := congrArg (List.drop 1) h
  rw [List.drop_drop] at this
  simpa [Nat.add_comm] using this

theorem find_marker_some (str : Str) :
    ∀ (fuel pos r : Nat), str_find_from str ws_symbol fuel pos = some r →
      pos ≤ r ∧
      marker_to_space (str.drop pos) =
        substr str pos (r - pos) ++ 32 :: marker_to_space (str.drop (r + 3)) := by
  intro fuel
  induction fuel with
  | zero => intro pos r h; simp [str_find_from] at h
  | succ k ih =>
    intro pos r h
    rw [str_find_from] at h
    by_cases hm : substr str pos ws_symbol.length = ws_symbol
    · simp only [hm, if_true, Option.some.injEq] at h
      subst h
      refine ⟨Nat.le_refl _, ?_⟩
      have h3 : (str.drop pos).take 3 = [226, 150, 129] := hm
      have hd : str.drop pos = 226 :: 150 :: 129 :: str.drop (pos + 3) := by
        have e := List.take_append_drop 3 (str.drop pos)
        rw [h3, List.drop_drop] at e
        rw [← e]
        simp [Nat.add_comm]
      rw [hd, marker_to_space_marker]
      simp [substr]
    · simp only [hm, if_false] at h
      obtain ⟨h1, h2⟩ := ih (pos + 1) r h
      refine ⟨by omega, ?_⟩
      cases hd : str.drop pos with
      | nil =>
        have hlen : str.length ≤ pos := by
          have := congrArg List.length hd
          simp at this
          omega
        rw [List.drop_of_length_le (by omega : str.length ≤ pos + 1)] at h2
        rw [marker_to_space] at h2
        exact absurd h2 (by simp)
      | cons b t =>
        have ht := drop_succ_of_drop_cons str pos b t hd
        rw [ht] at h2
        have hne : (b :: t).take 3 ≠ ws_symbol := by
          rw [← hd]
          exact hm
        rw [marker_to_space_other b t hne, h2]
        have hs : substr str pos (r - pos) = b :: substr str (pos + 1) (r - (pos + 1)) := by
          have e : r - pos = (r - (pos + 1)) + 1 := by omega
          simp only [substr, hd, ht, e, List.take_succ_cons]
        rw [hs]
        simp

theorem find_marker_none (str : Str) :
    ∀ (fuel pos : Nat), str_find_from str ws_symbol fuel pos = none →
      str.length ≤ pos + fuel + 2 →
      marker_to_space (str.drop pos) = str.drop pos := by
  intro fuel
  induction fuel with
  | zero =>
    intro pos _ hlen
    exact marker_to_space_short _ (by simp; omega)
  | succ k ih =>
    intro pos h hlen
    rw [str_find_from] at h
    by_cases hm : substr str pos ws_symbol.length = ws_symbol
    · simp [hm] at h
    · simp only [hm, if_false] at h
      have h2 := ih (pos + 1) h (by omega)
      cases hd : str.drop pos with
      | nil => rw [marker_to_space]
      | cons b t =>
        have ht := drop_succ_of_drop_cons str pos b t hd
        rw [ht] at h2
        have hne : (b :: t).take 3 ≠ ws_symbol := by
          rw [← hd]
          exact hm
        rw [marker_to_space_other b t hne, h2]

theorem str_find_marker_none (str : Str) (pos : Nat)
    (h : str_find str ws_symbol pos = none) :
    marker_to_space (str.drop pos) = str.drop pos := by
  unfold str_find at h
  by_cases hl : str.length < pos + ws_symbol.length
  · exact marker_to_space_short _ (by simp [ws_symbol] at hl ⊢; omega)
  · simp only [hl, if_false] at h
    exact find_marker_none str _ pos h (by simp [ws_symbol] at hl ⊢; omega)

theorem str_find_marker_some (str : Str) (pos r : Nat)
    (h : str_find str ws_symbol pos = some r) :
    marker_to_space (str.drop pos) =
      substr str pos (r - pos) ++ 32 :: marker_to_space (str.drop (r + 3)) := by
  unfold str_find at h
  by_cases hl : str.length < pos + ws_symbol.length
  · simp [hl] at h
  · simp only [hl, if_false] at h
    exact (find_marker_some str _ pos r h).2

theorem replace_all_loop_marker (str : Str) :
    ∀ (fuel : Nat) (result : Str) (from_ : Nat), from_ ≤ str.length →
      str.length - from_ < fuel →
      replace_all_loop str ws_symbol [32] fuel result from_ =
        .ok (result ++ marker_to_space (str.drop from_)) := by
  intro fuel
  induction fuel with
  | zero => intro result from_ _ h; omega
  | succ k ih =>
    intro result from_ hle hfuel
    rw [replace_all_loop]
    cases hf : str_find str ws_symbol from_ with
    | none =>
      have hl : ¬ str.length < from_ := by omega
      simp only [hl, if_false]
      rw [str_find_marker_none str from_ hf]
    | some pos =>
      obtain ⟨b1, b2⟩ := str_find_bounds str ws_symbol from_ pos hf
      have hw : ws_symbol.length = 3 := rfl
      show replace_all_loop str ws_symbol [32] k
          (result ++ substr str from_ (pos - from_) ++ [32]) (pos + ws_symbol.length) = _
      rw [ih _ (pos + ws_symbol.length) b2 (by omega), str_find_marker_some str from_ pos hf, hw]
      simp

theorem replace_all_marker (str : Str) :
    replace_all str ws_symbol [32] = .ok (marker_to_space str) := by
  have h := replace_all_loop_marker str (str.length + 2) [] 0 (Nat.zero_le _) (by omega)
  simpa [replace_all] using h

theorem marker_to_space_head (l : Str) (c : Nat) (t : Str) (hc : c ≠ 32)
    (h : marker_to_space l = c :: t) : ∃ r, l = c :: r ∧ t = marker_to_space r := by
  cases l with
  | nil => rw [marker_to_space] at h; cases h
  | cons b rest =>
    by_cases hm : (b :: rest).take 3 = ws_symbol
    · have e := List.take_append_drop 3 (b :: rest)
      rw [hm] at e
      rw [← e] at h
      simp only [ws_symbol, List.cons_append, List.nil_append, marker_to_space_marker,
        List.cons.injEq] at h
      exact absurd h.1.symm hc
    · rw [marker_to_space_other b rest hm] at h
      simp only [List.cons.injEq] at h
      exact ⟨rest, by rw [h.1], h.2.symm⟩

theorem marker_to_space_no_marker (s : Str) :
    ∀ pos, substr (marker_to_space s) pos 3 ≠ ws_symbol := by
  induction s using marker_to_space.induct with
  | case1 rest ih =>
    intro pos
    rw [marker_to_space_marker]
    cases pos with
    | zero => simp [substr, ws_symbol]
    | succ p => simpa [substr] using ih p
  | case2 b rest hnot ih =>
    intro pos
    have hm : (b :: rest).take 3 ≠ ws_symbol := by
      intro hm
      have e := List.take_append_drop 3 (b :: rest)
      rw [hm] at e
      simp only [ws_symbol, List.cons_append, List.nil_append, List.cons.injEq] at e
      exact hnot _ e.1.symm e.2.symm
    rw [marker_to_space_other b rest hm]
    cases pos with
    | succ p => simpa [substr] using ih p
    | zero =>
      intro h
      have h1 : (b :: marker_to_space rest).take 3 = [226, 150, 129] := h
      cases hr : marker_to_space rest with
      | nil => rw [hr] at h1; simp at h1
      | cons c t =>
        rw [hr] at h1
        cases t with
        | nil => simp at h1
        | cons d u =>
          simp only [List.take_succ_cons, List.cons.injEq] at h1
          obtain ⟨hb, hc, hd, _⟩ := h1
          subst hb hc hd
          obtain ⟨r, hr1, hr2⟩ := marker_to_space_head rest 150 (129 :: u) (by decide) hr
          obtain ⟨r2, hr3, _⟩ := marker_to_space_head r 129 u (by decide) hr2.symm
          exact hnot r2 rfl (by rw [hr1, hr3])
  | case3 =>
    intro pos
    rw [marker_to_space]
    simp [substr, ws_symbol]

theorem marker_to_space_unchanged (s : Str) (h : ∀ pos, substr s pos 3 ≠ ws_symbol) :
    marker_to_space s = s := by
  induction s with
  | nil => rw [marker_to_space]
  | cons b rest ih =>
    have h0 : (b :: rest).take 3 ≠ ws_symbol := by simpa [substr] using h 0
    rw [marker_to_space_other b rest h0, ih]
    intro pos
    simpa [substr] using h (pos + 1)

/-- C20: `Detokenize(id)` of the Replit variant returns the empty string when
`id` is not a key of `id_to_token`, and otherwise the stored token with every
occurrence of the 3-byte marker replaced by one space and every other byte kept
(`marker_to_space`): the result holds no marker any more, and a token without
marker is returned unchanged. -/
theorem detokenize_replaces_markers (vocab_ : gpt_vocab) (id : Int) :
    (map_find id vocab_.id_to_token = none → replit_llm_Detokenize vocab_ id = .ok []) ∧
    (∀ token, map_find id vocab_.id_to_token = some token →
      replit_llm_Detokenize vocab_ id = .ok (marker_to_space token) ∧
      (∀ pos, substr (marker_to_space token) pos 3 ≠ ws_symbol) ∧
      ((∀ pos, substr token pos 3 ≠ ws_symbol) → marker_to_space token = token)) := by
  constructor
  · intro h
    simp only [replit_llm_Detokenize, h]
  · intro token h
    refine ⟨?_, marker_to_space_no_marker token, marker_to_space_unchanged token⟩
    simp only [replit_llm_Detokenize, h]
    exact replace_all_marker token

/-- Witness for C20: the token `a`, marker, `b` under id 0, and the unknown id 7. -/
theorem detokenize_replaces_markers_witness :
    replit_llm_Detokenize marker_vocab 7 = .ok [] ∧
    replit_llm_Detokenize marker_vocab 0 = .ok [97, 32, 98] :=
  ⟨(detokenize_replaces_markers marker_vocab 7).1 (by decide),
    ((detokenize_replaces_markers marker_vocab 0).2 [97, 226, 150, 129, 98] (by decide)).1⟩

/-! ## Vocabulary blocks -/

theorem le_nat_le_bytes (k n : Nat) : le_nat (le_bytes n k) = n % 256 ^ k := by
  induction k generalizing n with
  | zero => simp [le_bytes, le_nat, Nat.mod_one]
  | succ k ih =>
    simp only [le_bytes, le_nat, ih, Nat.mod_mod]
    rw [Nat.pow_succ, Nat.mul_comm (256 ^ k) 256, Nat.mod_mul]

theorem read_u32_le_bytes (n : Nat) (tail : List Nat) (h : n < 2 ^ 32) :
    read_u32 (open_file (le_bytes n 4 ++ tail)) = .ok (n, open_file tail) := by
  have hl : (le_bytes n 4).length = 4 := le_bytes_length n 4
  rw [read_u32_open _ (by simp [hl]), List.take_left' hl, List.drop_left' hl, le_nat_le_bytes]
  have : n % 256 ^ 4 = n := Nat.mod_eq_of_lt (by norm_num at h ⊢; exact h)
  rw [this]

theorem read_word (w tail buf : List Nat) :
    overlay (resize buf w.length) ((open_file (w ++ tail)).read w.length).1 = w ∧
    ((open_file (w ++ tail)).read w.length).2 = open_file tail := by
  rw [read_open _ _ (by simp)]
  simp only [List.take_left, List.drop_left]
  refine ⟨overlay_full _ _ ?_, trivial⟩
  simp [resize, List.length_take]
  omega

theorem replit_entry_step (i : Nat) (st : tokenizer_load_state) (e : Str × Nat)
    (rest : List Nat) (hfin : st.fin = open_file (replit_entry_bytes e ++ rest))
    (hlen : e.1.length < 2 ^ 32) (hs : e.2 < 2 ^ 32) :
    replit_tokenizer_load_entry i st =
      .ok { tokenizer :=
              { st.tokenizer with
                piece_map :=
                  map_assign e.1 (i, (float_of_bits e.2).neg) st.tokenizer.piece_map
                raw_vocab :=
                  { st.tokenizer.raw_vocab with
                    id_to_token :=
                      map_assign (int32_of_nat i) e.1 st.tokenizer.raw_vocab.id_to_token } }
            fin := open_file rest
            buf := e.1 } := by
  unfold replit_tokenizer_load_entry
  rw [hfin]
  simp only [replit_entry_bytes, List.append_assoc, read_u32_le_bytes _ _ hlen]
  obtain ⟨h1, h2⟩ := read_word e.1 (le_bytes e.2 4 ++ rest) st.buf
  simp only [h1, h2, read_f32, read_u32_le_bytes _ _ hs]

theorem mpt_entry_step (g : ggml_lib) (i : Nat) (st : vocab_load_state) (w : Str)
    (cps : List Nat) (rest : List Nat) (hfin : st.fin = open_file (mpt_entry_bytes w ++ rest))
    (hlen : w.length < 2 ^ 32) (hconv : g.convert_to_wstring w = .ok cps) :
    mpt_load_vocab_entry g i st =
      .ok { vocab :=
              { token_to_id :=
                  map_assign (cps.map (fun c => c % 256)) (int32_of_nat i)
                    st.vocab.token_to_id
                id_to_token :=
                  map_assign (int32_of_nat i) (cps.map (fun c => c % 256))
                    st.vocab.id_to_token }
            fin := open_file rest
            buf := w } := by
  unfold mpt_load_vocab_entry
  rw [hfin]
  simp only [mpt_entry_bytes, List.append_assoc, read_u32_le_bytes _ _ hlen]
  obtain ⟨h1, h2⟩ := read_word w rest st.buf
  simp only [h1, h2, hconv]

/-! ## Maps filled by a sequence of assignments -/

theorem assign_all_find_other {κ ν : Type} [DecidableEq κ] (key : κ) :
    ∀ (kvs m : List (κ × ν)), (∀ kv ∈ kvs, kv.1 ≠ key) →
      map_find key (assign_all kvs m) = map_find key m := by
  intro kvs
  induction kvs with
  | nil => intro m _; rfl
  | cons kv kvs ih =>
    intro m h
    obtain ⟨k, v⟩ := kv
    rw [assign_all, ih _ (fun kv hkv => h kv (List.mem_cons_of_mem _ hkv)), map_find_assign]
    have : ¬ k = key := h (k, v) (List.mem_cons_self _ _)
    simp only [this, if_false]

theorem assign_all_find_last {κ ν : Type} [DecidableEq κ] :
    ∀ (kvs m : List (κ × ν)) (i : Nat) (kv : κ × ν), kvs[i]? = some kv →
      (∀ j kv2, i < j → kvs[j]? = some kv2 → kv2.1 ≠ kv.1) →
      map_find kv.1 (assign_all kvs m) = some kv.2 := by
  intro kvs
  induction kvs with
  | nil => intro m i kv h; simp at h
  | cons kv0 kvs ih =>
    intro m i kv h hlast
    obtain ⟨k0, v0⟩ := kv0
    rw [assign_all]
    cases i with
    | zero =>
      simp only [List.getElem?_cons_zero, Option.some.injEq] at h
      subst h
      rw [assign_all_find_other, map_find_assign]
      · simp
      · intro kv2 hkv2
        obtain ⟨j, hj⟩ := List.mem_iff_getElem?.mp hkv2
        exact hlast (j + 1) kv2 (by omega) (by simpa using hj)
    | succ i =>
      simp only [List.getElem?_cons_succ] at h
      exact ih _ i kv h (fun j kv2 hj h2 => hlast (j + 1) kv2 (by omega) (by simpa using h2))

theorem assign_all_find_some {κ ν : Type} [DecidableEq κ] (key : κ) (v : ν) :
    ∀ (kvs m : List (κ × ν)), map_find key (assign_all kvs m) = some v →
      (∃ i : Nat, kvs[i]? = some (key, v)) ∨ map_find key m = some v := by
  intro kvs
  induction kvs with
  | nil => intro m h; exact Or.inr h
  | cons kv0 kvs ih =>
    intro m h
    obtain ⟨k0, v0⟩ := kv0
    rw [assign_all] at h
    rcases ih _ h with ⟨i, hi⟩ | h2
    · exact Or.inl ⟨i + 1, by simpa using hi⟩
    · rw [map_find_assign] at h2
      by_cases hk : k0 = key
      · simp only [hk, if_true, Option.some.injEq] at h2
        exact Or.inl ⟨0, by simp [hk, h2]⟩
      · simp only [hk, if_false] at h2
        exact Or.inr h2

theorem assign_all_find_stays {κ ν : Type} [DecidableEq κ] (key : κ) :
    ∀ (kvs m : List (κ × ν)), (map_find key m).isSome = true →
      (map_find key (assign_all kvs m)).isSome = true := by
  intro kvs
  induction kvs with
  | nil => intro m h; exact h
  | cons kv0 kvs ih =>
    intro m h
    obtain ⟨k0, v0⟩ := kv0
    rw [assign_all]
    apply ih
    rw [map_find_assign]
    by_cases hk : k0 = key
    · simp [hk]
    · simpa [hk] using h

theorem assign_all_find_mem {κ ν : Type} [DecidableEq κ] :
    ∀ (kvs m : List (κ × ν)) (kv : κ × ν), kv ∈ kvs →
      (map_find kv.1 (assign_all kvs m)).isSome = true := by
  intro kvs
  induction kvs with
  | nil => intro m kv h; simp at h
  | cons kv0 kvs ih =>
    intro m kv h
    obtain ⟨k0, v0⟩ := kv0
    rw [assign_all]
    rcases List.mem_cons.mp h with rfl | h
    · apply assign_all_find_stays
      rw [map_find_assign]
      simp
    · exact ih _ kv h

theorem map_assign_length_new {κ ν : Type} [DecidableEq κ] (key : κ) (v : ν) :
    ∀ (m : List (κ × ν)), map_find key m = none →
      (map_assign key v m).length = m.length + 1 := by
  intro m
  induction m with
  | nil => intro _; rfl
  | cons e m ih =>
    intro h
    obtain ⟨k, w⟩ := e
    by_cases hk : k = key
    · simp [map_find, hk] at h
    · simp only [map_find, hk, if_false] at h
      simp [map_assign, hk, ih h]

theorem assign_all_length {κ ν : Type} [DecidableEq κ] :
    ∀ (kvs m : List (κ × ν)), (kvs.map Prod.fst).Nodup →
      (∀ kv ∈ kvs, map_find kv.1 m = none) →
      (assign_all kvs m).length = m.length + kvs.length := by
  intro kvs
  induction kvs with
  | nil => intro m _ _; rfl
  | cons kv0 kvs ih =>
    intro m hnd hnone
    obtain ⟨k0, v0⟩ := kv0
    simp only [List.map_cons, List.nodup_cons] at hnd
    rw [assign_all, ih _ hnd.2, map_assign_length_new k0 v0 m (hnone (k0, v0) (by simp))]
    · simp only [List.length_cons]
      omega
    · intro kv hkv
      rw [map_find_assign]
      have hne : ¬ k0 = kv.1 := by
        intro he
        exact hnd.1 (by rw [he]; exact List.mem_map_of_mem _ hkv)
      simp only [hne, if_false]
      exact hnone kv (List.mem_cons_of_mem _ hkv)

theorem replit_load_block :
    ∀ (es : List (Str × Nat)) (i : Nat) (st : tokenizer_load_state) (rest : List Nat),
      (∀ e ∈ es, e.1.length < 2 ^ 32 ∧ e.2 < 2 ^ 32) →
      st.fin = open_file (replit_vocab_bytes es ++ rest) →
      ∃ buf, for_loop_except replit_tokenizer_load_entry i es.length st =
        .ok { tokenizer :=
                { raw_vocab :=
                    { token_to_id := st.tokenizer.raw_vocab.token_to_id
                      id_to_token :=
                        assign_all ((es.enumFrom i).map (fun p => (int32_of_nat p.1, p.2.1)))
                          st.tokenizer.raw_vocab.id_to_token }
                  piece_map :=
                    assign_all
                      ((es.enumFrom i).map
                        (fun p => (p.2.1, ((p.1, (float_of_bits p.2.2).neg) : piece_t))))
                      st.tokenizer.piece_map
                  vocab := st.tokenizer.vocab }
              fin := open_file rest
              buf := buf } := by
  intro es
  induction es with
  | nil =>
    intro i st rest _ hfin
    refine ⟨st.buf, ?_⟩
    simp only [replit_vocab_bytes, List.map_nil, List.flatten_nil, List.nil_append] at hfin
    simp only [List.length_nil, for_loop_except, List.enumFrom_nil, List.map_nil, assign_all,
      ← hfin]
  | cons e es ih =>
    intro i st rest hb hfin
    have hstep := replit_entry_step i st e (replit_vocab_bytes es ++ rest)
      (by simpa [replit_vocab_bytes] using hfin) (hb e (by simp)).1 (hb e (by simp)).2
    obtain ⟨buf, hrest⟩ := ih (i + 1) _ rest (fun e2 h2 => hb e2 (List.mem_cons_of_mem _ h2))
      (rfl :
        ({ tokenizer :=
              { st.tokenizer with
                piece_map :=
                  map_assign e.1 (i, (float_of_bits e.2).neg) st.tokenizer.piece_map,
                raw_vocab :=
                  { st.tokenizer.raw_vocab with
                    id_to_token :=
                      map_assign (int32_of_nat i) e.1 st.tokenizer.raw_vocab.id_to_token } },
            fin := open_file (replit_vocab_bytes es ++ rest),
            buf := e.1 } : tokenizer_load_state).fin = _)
    refine ⟨buf, ?_⟩
    rw [List.length_cons, for_loop_except, hstep]
    simp only [hrest, List.enumFrom_cons, List.map_cons, assign_all]

theorem mpt_load_block (g : ggml_lib) :
    ∀ (ws : List Str) (i : Nat) (st : vocab_load_state) (rest : List Nat),
      (∀ w ∈ ws, w.length < 2 ^ 32 ∧ ∃ cps, g.convert_to_wstring w = .ok cps) →
      st.fin = open_file (mpt_vocab_bytes ws ++ rest) →
      ∃ buf, for_loop_except (mpt_load_vocab_entry g) i ws.length st =
        .ok { vocab :=
                { token_to_id :=
                    assign_all ((ws.enumFrom i).map (fun p => (mpt_token g p.2, int32_of_nat p.1)))
                      st.vocab.token_to_id
                  id_to_token :=
                    assign_all ((ws.enumFrom i).map (fun p => (int32_of_nat p.1, mpt_token g p.2)))
                      st.vocab.id_to_token }
              fin := open_file rest
              buf := buf } := by
  intro ws
  induction ws with
  | nil =>
    intro i st rest _ hfin
    refine ⟨st.buf, ?_⟩
    simp only [mpt_vocab_bytes, List.map_nil, List.flatten_nil, List.nil_append] at hfin
    simp only [List.length_nil, for_loop_except, List.enumFrom_nil, List.map_nil, assign_all,
      ← hfin]
  | cons w ws ih =>
    intro i st rest hb hfin
    obtain ⟨hlen, cps, hconv⟩ := hb w (by simp)
    have hstep := mpt_entry_step g i st w cps (mpt_vocab_bytes ws ++ rest)
      (by simpa [mpt_vocab_bytes] using hfin) hlen hconv
    have htok : mpt_token g w = cps.map (fun c => c % 256) := by simp [mpt_token, hconv]
    obtain ⟨buf, hrest⟩ := ih (i + 1) _ rest (fun e2 h2 => hb e2 (List.mem_cons_of_mem _ h2))
      (rfl :
        ({ vocab :=
              { token_to_id :=
                  map_assign (cps.map (fun c => c % 256)) (int32_of_nat i) st.vocab.token_to_id,
                id_to_token :=
                  map_assign (int32_of_nat i) (cps.map (fun c => c % 256))
                    st.vocab.id_to_token },
            fin := open_file (mpt_vocab_bytes ws ++ rest),
            buf := w } : vocab_load_state).fin = _)
    refine ⟨buf, ?_⟩
    rw [List.length_cons, for_loop_except, hstep]
    simp only [hrest, List.enumFrom_cons, List.map_cons, assign_all, htok]

theorem enum_map_getElem {α β : Type} (f : Nat × α → β) (es : List α) (i : Nat) :
    ((es.enumFrom 0).map f)[i]? = (es[i]?).map (fun e => f (i, e)) := by
  rw [List.getElem?_map, List.getElem?_enumFrom]
  cases es[i]? <;> simp

theorem assign_enum_last {α κ ν : Type} [DecidableEq κ] (key : α → κ) (val : Nat → α → ν)
    (es : List α) (m : List (κ × ν)) (i : Nat) (e : α) (h : es[i]? = some e)
    (hlast : ∀ (j : Nat) e2, i < j → es[j]? = some e2 → key e2 ≠ key e) :
    map_find (key e) (assign_all ((es.enumFrom 0).map (fun p => (key p.2, val p.1 p.2))) m) =
      some (val i e) := by
  apply assign_all_find_last _ m i (key e, val i e)
  · rw [enum_map_getElem, h]
    rfl
  · intro j kv2 hj h2
    rw [enum_map_getElem] at h2
    cases he : es[j]? with
    | none => simp [he] at h2
    | some e2 =>
      simp only [he, Option.map_some', Option.some.injEq] at h2
      subst h2
      exact hlast j e2 hj he

theorem assign_enum_some {α κ ν : Type} [DecidableEq κ] (key : α → κ) (val : Nat → α → ν)
    (es : List α) (k : κ) (v : ν)
    (h : map_find k (assign_all ((es.enumFrom 0).map (fun p => (key p.2, val p.1 p.2))) []) =
      some v) :
    ∃ (i : Nat) (e : α), es[i]? = some e ∧ key e = k ∧ val i e = v := by
  rcases assign_all_find_some k v _ _ h with ⟨i, hi⟩ | h2
  · rw [enum_map_getElem] at hi
    cases he : es[i]? with
    | none => simp [he] at hi
    | some e =>
      simp only [he, Option.map_some', Option.some.injEq, Prod.mk.injEq] at hi
      exact ⟨i, e, he, hi.1, hi.2⟩
  · simp [map_find] at h2

theorem assign_enum_ids {α ν : Type} (val : α → ν) (es : List α) (hn : es.length < 2 ^ 31) :
    (∀ (i : Nat) e, es[i]? = some e →
      map_find (i : Int)
        (assign_all ((es.enumFrom 0).map (fun p => (int32_of_nat p.1, val p.2))) []) =
        some (val e)) ∧
    (∀ id v,
      map_find id
        (assign_all ((es.enumFrom 0).map (fun p => (int32_of_nat p.1, val p.2))) []) = some v →
      ∃ i : Nat, i < es.length ∧ id = (i : Int)) := by
  have hlt : ∀ (j : Nat) (e : α), es[j]? = some e → j < es.length := by
    intro j e h
    exact (List.getElem?_eq_some.mp h).1
  constructor
  · intro i e h
    have hi := hlt i e h
    have hlast := assign_all_find_last
      ((es.enumFrom 0).map (fun p => (int32_of_nat p.1, val p.2))) [] i (int32_of_nat i, val e)
      (by rw [enum_map_getElem, h]; rfl)
      (by
        intro j kv2 hj h2
        rw [enum_map_getElem] at h2
        cases he : es[j]? with
        | none => simp [he] at h2
        | some e2 =>
          simp only [he, Option.map_some', Option.some.injEq] at h2
          subst h2
          have hj2 := hlt j e2 he
          simp only [ne_eq]
          rw [int32_of_nat_small j (by omega), int32_of_nat_small i (by omega)]
          omega)
    rw [int32_of_nat_small i (by omega)] at hlast
    exact hlast
  · intro id v h
    rcases assign_all_find_some id v _ _ h with ⟨i, hi⟩ | h2
    · rw [enum_map_getElem] at hi
      cases he : es[i]? with
      | none => simp [he] at hi
      | some e =>
        simp only [he, Option.map_some', Option.some.injEq, Prod.mk.injEq] at hi
        have hi2 := hlt i e he
        refine ⟨i, hi2, ?_⟩
        rw [← hi.1, int32_of_nat_small i (by omega)]
    · simp [map_find] at h2

theorem assign_enum_length {α κ ν : Type} [DecidableEq κ] (key : α → κ) (val : Nat → α → ν)
    (es : List α) (hnd : (es.map key).Nodup) :
    (assign_all ((es.enumFrom 0).map (fun p => (key p.2, val p.1 p.2))) []).length =
      es.length := by
  rw [assign_all_length]
  · simp [List.enumFrom_length]
  · have : ((es.enumFrom 0).map (fun p => (key p.2, val p.1 p.2))).map Prod.fst =
        es.map key := by
      rw [List.map_map]
      have h2 : (Prod.fst ∘ fun p : Nat × α => (key p.2, val p.1 p.2)) = key ∘ Prod.snd := rfl
      rw [h2, ← List.map_map, List.enumFrom_map_snd]
    rw [this]
    exact hnd
  · intro kv _
    rfl

theorem mpt_load_vocab_block (g : ggml_lib) (ws : List Str) (rest : List Nat)
    (hb : ∀ w ∈ ws, w.length < 2 ^ 32 ∧ ∃ cps, g.convert_to_wstring w = .ok cps) :
    ∃ buf, mpt_load_vocab g ws.length gpt_vocab_empty (open_file (mpt_vocab_bytes ws ++ rest)) =
      .ok { vocab :=
              { token_to_id :=
                  assign_all ((ws.enumFrom 0).map (fun p => (mpt_token g p.2, int32_of_nat p.1)))
                    []
                id_to_token :=
                  assign_all ((ws.enumFrom 0).map (fun p => (int32_of_nat p.1, mpt_token g p.2)))
                    [] }
            fin := open_file rest
            buf := buf } := by
  obtain ⟨buf, h⟩ := mpt_load_block g ws 0
    { vocab := gpt_vocab_empty, fin := open_file (mpt_vocab_bytes ws ++ rest),
      buf := List.replicate 128 0 } rest hb rfl
  exact ⟨buf, by simpa [mpt_load_vocab, gpt_vocab_empty] using h⟩

theorem replit_tokenizer_load_block (es : List (Str × Nat)) (rest : List Nat)
    (hb : ∀ e ∈ es, e.1.length < 2 ^ 32 ∧ e.2 < 2 ^ 32) :
    replit_tokenizer_load replit_tokenizer_empty (open_file (replit_vocab_bytes es ++ rest))
        es.length =
      .ok ({ raw_vocab :=
               { token_to_id := []
                 id_to_token :=
                   assign_all ((es.enumFrom 0).map (fun p => (int32_of_nat p.1, p.2.1))) [] }
             piece_map :=
               assign_all
                 ((es.enumFrom 0).map
                   (fun p => (p.2.1, ((p.1, (float_of_bits p.2.2).neg) : piece_t))))
                 []
             vocab := [] }, open_file rest) := by
  obtain ⟨buf, h⟩ := replit_load_block es 0
    { tokenizer := replit_tokenizer_empty, fin := open_file (replit_vocab_bytes es ++ rest),
      buf := List.replicate 128 0 } rest hb rfl
  simp only [replit_tokenizer_load, Int.toNat_ofNat, h]
  rfl

/-- C16: for both loaders, a vocabulary block of `n_vocab` entries read into an
empty vocabulary leaves an id-to-token map whose keys are exactly the ids
`0..n_vocab-1`, and the token under id `i` is the one produced from the `i`-th
entry of the block (the bytes themselves for Replit, the packed code points for
MPT); the stream is left just behind the block. -/
theorem vocab_ids_in_file_order (g : ggml_lib) (rest : List Nat) :
    (∀ ws : List Str, ws.length < 2 ^ 31 →
      (∀ w ∈ ws, w.length < 2 ^ 32 ∧ ∃ cps, g.convert_to_wstring w = .ok cps) →
      ∃ st, mpt_load_vocab g ws.length gpt_vocab_empty
          (open_file (mpt_vocab_bytes ws ++ rest)) = .ok st ∧
        st.fin = open_file rest ∧
        (∀ (i : Nat) w, ws[i]? = some w →
          map_find (i : Int) st.vocab.id_to_token = some (mpt_token g w)) ∧
        (∀ id tok, map_find id st.vocab.id_to_token = some tok →
          ∃ i : Nat, i < ws.length ∧ id = (i : Int))) ∧
    (∀ es : List (Str × Nat), es.length < 2 ^ 31 →
      (∀ e ∈ es, e.1.length < 2 ^ 32 ∧ e.2 < 2 ^ 32) →
      ∃ tok, replit_tokenizer_load replit_tokenizer_empty
          (open_file (replit_vocab_bytes es ++ rest)) es.length = .ok (tok, open_file rest) ∧
        (∀ (i : Nat) e, es[i]? = some e →
          map_find (i : Int) tok.raw_vocab.id_to_token = some e.1) ∧
        (∀ id w, map_find id tok.raw_vocab.id_to_token = some w →
          ∃ i : Nat, i < es.length ∧ id = (i : Int))) := by
  constructor
  · intro ws hn hb
    obtain ⟨buf, h⟩ := mpt_load_vocab_block g ws rest hb
    have hids := assign_enum_ids (mpt_token g) ws hn
    exact ⟨_, h, rfl, hids.1, hids.2⟩
  · intro es hn hb
    have hids := assign_enum_ids (fun e : Str × Nat => e.1) es hn
    exact ⟨_, replit_tokenizer_load_block es rest hb, hids.1, hids.2⟩

theorem utf8_decode_a_b : utf8_decode [97] = .ok [97] ∧ utf8_decode [98] = .ok [98] := by
  decide

/-- C16, at the MPT block `a`, `b` and the Replit block `a` (score bits 0), `b`
(score bits 1) followed by the byte 7. -/
theorem vocab_ids_in_file_order_witness :
    (∃ st, mpt_load_vocab ggml_ref ([[97], [98]] : List Str).length gpt_vocab_empty
        (open_file (mpt_vocab_bytes [[97], [98]] ++ [7])) = .ok st ∧
      st.fin = open_file [7] ∧
      (∀ (i : Nat) w, ([[97], [98]] : List Str)[i]? = some w →
        map_find (i : Int) st.vocab.id_to_token = some (mpt_token ggml_ref w)) ∧
      (∀ id tok, map_find id st.vocab.id_to_token = some tok →
        ∃ i : Nat, i < ([[97], [98]] : List Str).length ∧ id = (i : Int))) ∧
    (∃ tok, replit_tokenizer_load replit_tokenizer_empty
        (open_file (replit_vocab_bytes [([97], 0), ([98], 1)] ++ [7]))
        ([([97], 0), ([98], 1)] : List (Str × Nat)).length = .ok (tok, open_file [7]) ∧
      (∀ (i : Nat) e, ([([97], 0), ([98], 1)] : List (Str × Nat))[i]? = some e →
        map_find (i : Int) tok.raw_vocab.id_to_token = some e.1) ∧
      (∀ id w, map_find id tok.raw_vocab.id_to_token = some w →
        ∃ i : Nat, i < ([([97], 0), ([98], 1)] : List (Str × Nat)).length ∧ id = (i : Int))) :=
  ⟨(vocab_ids_in_file_order ggml_ref [7]).1 [[97], [98]] (by decide)
      (by
        intro w hw
        simp only [List.mem_cons, List.mem_singleton, List.not_mem_nil, or_false] at hw
        rcases hw with rfl | rfl
        · exact ⟨by decide, [97], utf8_decode_a_b.1⟩
        · exact ⟨by decide, [98], utf8_decode_a_b.2⟩),
    (vocab_ids_in_file_order ggml_ref [7]).2 [([97], 0), ([98], 1)] (by decide)
      (by
        intro e he
        simp only [List.mem_cons, List.mem_singleton, List.not_mem_nil, or_false] at he
        rcases he with rfl | rfl <;> exact ⟨by decide, by decide⟩)⟩

/-- C18: after `replit_tokenizer_load` has read the entries `(w_0, s_0) ..
(w_{n-1}, s_{n-1})` into an empty tokenizer, the keys of the piece table are
exactly the strings `w_i`, every stored value is `(i, -s_i)` for an entry `i`
with that string, and the key `w` maps to `(i, -s_i)` for the last index `i`
with `w_i = w`. -/
theorem piece_table_last_entry_wins (es : List (Str × Nat)) (rest : List Nat)
    (hb : ∀ e ∈ es, e.1.length < 2 ^ 32 ∧ e.2 < 2 ^ 32) :
    ∃ tok, replit_tokenizer_load replit_tokenizer_empty
        (open_file (replit_vocab_bytes es ++ rest)) es.length = .ok (tok, open_file rest) ∧
      (∀ e ∈ es, (map_find e.1 tok.piece_map).isSome = true) ∧
      (∀ w v, map_find w tok.piece_map = some v →
        ∃ (i : Nat) (e : Str × Nat),
          es[i]? = some e ∧ e.1 = w ∧ v = (i, (float_of_bits e.2).neg)) ∧
      (∀ (i : Nat) e, es[i]? = some e →
        (∀ (j : Nat) e2, i < j → es[j]? = some e2 → e2.1 ≠ e.1) →
        map_find e.1 tok.piece_map = some (i, (float_of_bits e.2).neg)) := by
  refine ⟨_, replit_tokenizer_load_block es rest hb, ?_, ?_, ?_⟩
  · intro e he
    obtain ⟨i, hi⟩ := List.mem_iff_getElem?.mp he
    have hmem : (e.1, (i, (float_of_bits e.2).neg)) ∈
        (es.enumFrom 0).map
          (fun p => (p.2.1, ((p.1, (float_of_bits p.2.2).neg) : piece_t))) := by
      apply List.mem_iff_getElem?.mpr
      exact ⟨i, by rw [enum_map_getElem, hi]; rfl⟩
    exact assign_all_find_mem _ [] _ hmem
  · intro w v h
    obtain ⟨i, e, hi, hk, hv⟩ := assign_enum_some (fun e : Str × Nat => e.1)
      (fun (i : Nat) (e : Str × Nat) => ((i, (float_of_bits e.2).neg) : piece_t))
      es w v h
    exact ⟨i, e, hi, hk, hv.symm⟩
  · intro i e hi hlast
    exact assign_enum_last (fun e : Str × Nat => e.1)
      (fun (i : Nat) (e : Str × Nat) => ((i, (float_of_bits e.2).neg) : piece_t))
      es [] i e hi hlast

/-- C18, at the block `a` (score bits of 1.0), `b` (score bits of 2.0), `a`
(score bits of -0.5): the table has the two keys `a` and `b`, with `a` bound to
the last entry. -/
theorem piece_table_last_entry_wins_witness :
    ∃ tok, replit_tokenizer_load replit_tokenizer_empty
        (open_file (replit_vocab_bytes
          [([97], 0x3f800000), ([98], 0x40000000), ([97], 0xbf000000)] ++ []))
        ([([97], 0x3f800000), ([98], 0x40000000), ([97], 0xbf000000)] :
          List (Str × Nat)).length = .ok (tok, open_file []) ∧
      (∀ e ∈ ([([97], 0x3f800000), ([98], 0x40000000), ([97], 0xbf000000)] :
          List (Str × Nat)), (map_find e.1 tok.piece_map).isSome = true) ∧
      (∀ w v, map_find w tok.piece_map = some v →
        ∃ (i : Nat) (e : Str × Nat),
          ([([97], 0x3f800000), ([98], 0x40000000), ([97], 0xbf000000)] :
            List (Str × Nat))[i]? = some e ∧ e.1 = w ∧
          v = (i, (float_of_bits e.2).neg)) ∧
      (∀ (i : Nat) e,
        ([([97], 0x3f800000), ([98], 0x40000000), ([97], 0xbf000000)] :
          List (Str × Nat))[i]? = some e →
        (∀ (j : Nat) e2, i < j →
          ([([97], 0x3f800000), ([98], 0x40000000), ([97], 0xbf000000)] :
            List (Str × Nat))[j]? = some e2 → e2.1 ≠ e.1) →
        map_find e.1 tok.piece_map = some (i, (float_of_bits e.2).neg)) :=
  piece_table_last_entry_wins [([97], 0x3f800000), ([98], 0x40000000), ([97], 0xbf000000)] []
    (by
      intro e he
      simp only [List.mem_cons, List.mem_singleton, List.not_mem_nil, or_false] at he
      rcases he with rfl | rfl | rfl <;> exact ⟨by decide, by decide⟩)

set_option maxRecDepth 100000 in
/-- C19 counterexample: the MPT vocabulary block with the two entries `A` and
U+0141 (bytes `C5 81`) loads; both ids get the token `A`, the token map has one
entry only, and it sends the token of id 0 to id 1. -/
theorem mpt_vocab_not_bidirectional :
    ∃ st, mpt_load_vocab ggml_ref 2 gpt_vocab_empty (open_file colliding_vocab_file) = .ok st ∧
      map_find 0 st.vocab.id_to_token = some [65] ∧
      map_find 1 st.vocab.id_to_token = some [65] ∧
      map_find [65] st.vocab.token_to_id = some 1 ∧
      st.vocab.token_to_id.length = 1 :=
  ⟨_, rfl, rfl, rfl, rfl, rfl⟩

/-- C19 amended: in the loaded MPT vocabulary the token of entry `i` is stored
under id `i`, and the token map sends it back to `i` whenever no later entry
produces the same token; when the tokens of the block are pairwise distinct the
token map has exactly `n_vocab` entries. -/
theorem mpt_vocab_last_token_wins (g : ggml_lib) (ws : List Str) (rest : List Nat)
    (hn : ws.length < 2 ^ 31)
    (hb : ∀ w ∈ ws, w.length < 2 ^ 32 ∧ ∃ cps, g.convert_to_wstring w = .ok cps) :
    ∃ st, mpt_load_vocab g ws.length gpt_vocab_empty
        (open_file (mpt_vocab_bytes ws ++ rest)) = .ok st ∧
      (∀ (i : Nat) w, ws[i]? = some w →
        (∀ (j : Nat) w2, i < j → ws[j]? = some w2 → mpt_token g w2 ≠ mpt_token g w) →
        ∃ tok, map_find (i : Int) st.vocab.id_to_token = some tok ∧
          map_find tok st.vocab.token_to_id = some (i : Int)) ∧
      ((ws.map (mpt_token g)).Nodup → st.vocab.token_to_id.length = ws.length) := by
  obtain ⟨buf, h⟩ := mpt_load_vocab_block g ws rest hb
  refine ⟨_, h, ?_, ?_⟩
  · intro i w hi hlast
    refine ⟨mpt_token g w, (assign_enum_ids (mpt_token g) ws hn).1 i w hi, ?_⟩
    have hlt : i < ws.length := (List.getElem?_eq_some.mp hi).1
    have := assign_enum_last (mpt_token g) (fun (i : Nat) (_ : Str) => int32_of_nat i)
      ws [] i w hi hlast
    simp only [int32_of_nat_small i (show i < 2 ^ 31 by omega)] at this
    exact this
  · intro hnd
    exact assign_enum_length (mpt_token g) (fun (i : Nat) (_ : Str) => int32_of_nat i) ws hnd

/-- C19 amended, at the block `a`, `b`. -/
theorem mpt_vocab_last_token_wins_witness :
    ∃ st, mpt_load_vocab ggml_ref ([[97], [98]] : List Str).length gpt_vocab_empty
        (open_file (mpt_vocab_bytes [[97], [98]] ++ [])) = .ok st ∧
      (∀ (i : Nat) w, ([[97], [98]] : List Str)[i]? = some w →
        (∀ (j : Nat) w2, i < j → ([[97], [98]] : List Str)[j]? = some w2 →
          mpt_token ggml_ref w2 ≠ mpt_token ggml_ref w) →
        ∃ tok, map_find (i : Int) st.vocab.id_to_token = some tok ∧
          map_find tok st.vocab.token_to_id = some (i : Int)) ∧
      ((([[97], [98]] : List Str).map (mpt_token ggml_ref)).Nodup →
        st.vocab.token_to_id.length = ([[97], [98]] : List Str).length) :=
  mpt_vocab_last_token_wins ggml_ref [[97], [98]] [] (by decide)
    (by
      intro w hw
      simp only [List.mem_cons, List.mem_singleton, List.not_mem_nil, or_false] at hw
      rcases hw with rfl | rfl
      · exact ⟨by decide, [97], utf8_decode_a_b.1⟩
      · exact ⟨by decide, [98], utf8_decode_a_b.2⟩)

theorem utf8_decode_loop_ascii :
    ∀ (w : Str) (fuel : Nat), w.length < fuel → (∀ b ∈ w, b < 128) →
      utf8_decode_loop fuel w = .ok w := by
  intro w
  induction w with
  | nil =>
    intro fuel hf _
    cases fuel with
    | zero => omega
    | succ fuel => rfl
  | cons b w ih =>
    intro fuel hf hb
    cases fuel with
    | zero => omega
    | succ fuel =>
      have h1 : b < 128 := hb b (List.mem_cons_self _ _)
      simp only [utf8_decode_loop, h1, if_true,
        ih fuel (by simp only [List.length_cons] at hf; omega)
          (fun c hc => hb c (List.mem_cons_of_mem _ hc))]

theorem utf8_decode_ascii (w : Str) (h : ∀ b ∈ w, b < 128) : utf8_decode w = .ok w :=
  utf8_decode_loop_ascii w (w.length + 1) (by omega) h

/-- C17: an MPT vocabulary entry whose bytes decode to the code points
`c_1..c_k` is stored, under its id and as the key of that id, as the `k`-byte
string whose `j`-th byte is `c_j mod 256`; a code point above 255 is therefore
not stored as itself, and with the UTF-8 decoder an all-ASCII entry is stored
unchanged. -/
theorem mpt_entry_packs_code_points (g : ggml_lib) (i : Nat) (st : vocab_load_state)
    (w : Str) (cps rest : List Nat) (hfin : st.fin = open_file (mpt_entry_bytes w ++ rest))
    (hlen : w.length < 2 ^ 32) (hconv : g.convert_to_wstring w = .ok cps) :
    ∃ st2 tok, mpt_load_vocab_entry g i st = .ok st2 ∧
      map_find (int32_of_nat i) st2.vocab.id_to_token = some tok ∧
      map_find tok st2.vocab.token_to_id = some (int32_of_nat i) ∧
      tok.length = cps.length ∧
      (∀ (j : Nat) c, cps[j]? = some c → tok[j]? = some (c % 256)) ∧
      (∀ (j : Nat) c, cps[j]? = some c → 255 < c → tok[j]? ≠ some c) ∧
      (g.convert_to_wstring = utf8_decode → (∀ b ∈ w, b < 128) → tok = w) := by
  have hstep := mpt_entry_step g i st w cps rest hfin hlen hconv
  refine ⟨_, cps.map (fun c => c % 256), hstep, ?_, ?_, ?_, ?_, ?_, ?_⟩
  · simp [map_find_assign]
  · simp [map_find_assign]
  · simp
  · intro j c hj
    simp [List.getElem?_map, hj]
  · intro j c hj hc
    simp only [List.getElem?_map, hj, Option.map_some', ne_eq, Option.some.injEq]
    omega
  · intro hg hascii
    rw [hg, utf8_decode_ascii w hascii] at hconv
    simp only [Except.ok.injEq] at hconv
    subst hconv
    apply List.ext_getElem?
    intro j
    rw [List.getElem?_map]
    cases hj : w[j]? with
    | none => rfl
    | some b =>
      have hb : b < 128 := hascii b (List.getElem?_mem hj)
      simp only [Option.map_some', Option.some.injEq]
      omega

/-- C17, at the entry `C5 81 41` (U+0141 then `A`) read as entry 3 into an empty
vocabulary: the stored token is `41 41`. -/
theorem mpt_entry_packs_code_points_witness :
    ∃ st2 tok,
      mpt_load_vocab_entry ggml_ref 3
        { vocab := gpt_vocab_empty, fin := open_file (mpt_entry_bytes [197, 129, 65] ++ [9]),
          buf := List.replicate 128 0 } = .ok st2 ∧
      map_find (int32_of_nat 3) st2.vocab.id_to_token = some tok ∧
      map_find tok st2.vocab.token_to_id = some (int32_of_nat 3) ∧
      tok.length = ([321, 65] : List Nat).length ∧
      (∀ (j : Nat) c, ([321, 65] : List Nat)[j]? = some c → tok[j]? = some (c % 256)) ∧
      (∀ (j : Nat) c, ([321, 65] : List Nat)[j]? = some c → 255 < c → tok[j]? ≠ some c) ∧
      (ggml_ref.convert_to_wstring = utf8_decode →
        (∀ b ∈ ([197, 129, 65] : Str), b < 128) → tok = [197, 129, 65]) :=
  mpt_entry_packs_code_points ggml_ref 3
    { vocab := gpt_vocab_empty, fin := open_file (mpt_entry_bytes [197, 129, 65] ++ [9]),
      buf := List.replicate 128 0 } [197, 129, 65] [321, 65] [9] rfl (by decide) (by decide)

/-! ## `Load` and the context length -/

theorem mpt_head_n_ctx (g : ggml_lib) (fin : istream) (model : mpt_model) (vocab : gpt_vocab)
    (gpu_layers : Int) (m : mpt_model) (v : gpt_vocab) (f : istream)
    (h : mpt_model_load_head g fin model vocab gpu_layers = .ok (.proceed m v f)) :
    m.hparams.n_ctx = min m.hparams.max_seq_len model.hparams.n_ctx := by
  unfold mpt_model_load_head at h
  split at h
  · cases h
  · split at h
    · cases h
    · split at h
      · cases h
      · dsimp only at h
        split at h
        · cases h
        · split at h
          · cases h
          · split at h
            · cases h
            · split at h
              · cases h
              · simp only [Except.ok.injEq, head_result.proceed.injEq] at h
                obtain ⟨hm, -, -⟩ := h
                subst hm
                rfl

theorem mpt_model_load_n_ctx (g : ggml_lib) (fin : istream) (model : mpt_model)
    (vocab : gpt_vocab) (gpu_layers : Int) (r : load_result mpt_model gpt_vocab)
    (h : mpt_model_load g fin model vocab gpu_layers = .ok r) (hret : r.ret = true) :
    r.model.hparams.n_ctx = min r.model.hparams.max_seq_len model.hparams.n_ctx := by
  unfold mpt_model_load at h
  split at h
  · cases h
  · simp only [Except.ok.injEq] at h
    subst h
    cases hret
  · rename_i model1 vocab1 fin1 hhead
    split at h
    · cases h
    · simp only [Except.ok.injEq] at h
      subst h
      exact mpt_head_n_ctx g fin model vocab gpu_layers model1 vocab1 fin1 hhead

theorem replit_head_n_ctx (g : ggml_lib) (fin : istream) (model : replit_model)
    (tokenizer : replit_tokenizer) (m : replit_model) (v : replit_tokenizer) (f : istream)
    (h : replit_model_load_head g fin model tokenizer = .ok (.proceed m v f)) :
    m.hparams.n_ctx = min m.hparams.max_seq_len model.hparams.n_ctx := by
  unfold replit_model_load_head at h
  split at h
  · cases h
  · split at h
    · cases h
    · split at h
      · cases h
      · dsimp only at h
        split at h
        · cases h
        · split at h
          · cases h
          · split at h
            · cases h
            · split at h
              · cases h
              · simp only [Except.ok.injEq, head_result.proceed.injEq] at h
                obtain ⟨hm, -, -⟩ := h
                subst hm
                rfl

theorem replit_model_load_n_ctx (g : ggml_lib) (fin : istream) (model : replit_model)
    (tokenizer : replit_tokenizer) (r : load_result replit_model replit_tokenizer)
    (h : replit_model_load g fin model tokenizer = .ok r) (hret : r.ret = true) :
    r.model.hparams.n_ctx = min r.model.hparams.max_seq_len model.hparams.n_ctx := by
  unfold replit_model_load at h
  split at h
  · cases h
  · simp only [Except.ok.injEq] at h
    subst h
    cases hret
  · rename_i model1 tokenizer1 fin1 hhead
    split at h
    · cases h
    · simp only [Except.ok.injEq] at h
      subst h
      exact replit_head_n_ctx g fin model tokenizer model1 tokenizer1 fin1 hhead

/-- C14: after a successful `Load` on a freshly constructed object (whose
`hparams.n_ctx` holds the default 2048), for both model families, the context
length `n_ctx_` is `min(max_seq_len, context_length)` when `context_length > 0`
and `min(max_seq_len, 2048)` otherwise, `max_seq_len` being the value read from
the file. -/
theorem load_sets_effective_context (g : ggml_lib) (fin : istream)
    (context_length gpu_layers : Int) :
    (∀ (self r : mpt_llm), self.model_.hparams.n_ctx = 2048 →
      mpt_llm_Load g fin context_length gpu_layers self = .ok (true, r) →
      r.n_ctx_ = min r.model_.hparams.max_seq_len
        (if 0 < context_length then context_length else 2048)) ∧
    (∀ (self r : replit_llm), self.model_.hparams.n_ctx = 2048 →
      replit_llm_Load g fin context_length self = .ok (true, r) →
      r.n_ctx_ = min r.model_.hparams.max_seq_len
        (if 0 < context_length then context_length else 2048)) := by
  constructor
  · intro self r hnew h
    have key : ∀ model1 : mpt_model,
        model1.hparams.n_ctx = (if 0 < context_length then context_length else 2048) →
        (match mpt_model_load g fin model1 self.vocab_ gpu_layers with
          | .error e => .error e
          | .ok res =>
            if res.ret = false then
              .ok (false, { self with model_ := res.model, vocab_ := res.vocab })
            else
              .ok (true, ({ model_ := res.model, vocab_ := res.vocab
                            n_ctx_ := res.model.hparams.n_ctx } : mpt_llm))) =
          (.ok (true, r) : Except Exn (Bool × mpt_llm)) →
        r.n_ctx_ = min r.model_.hparams.max_seq_len
          (if 0 < context_length then context_length else 2048) := by
      intro model1 hm h
      split at h
      · cases h
      · rename_i res hload
        split at h
        · cases h
        · rename_i hret
          simp only [Except.ok.injEq, Prod.mk.injEq, true_and] at h
          subst h
          have hn := mpt_model_load_n_ctx g fin _ _ _ res hload (by simpa using hret)
          dsimp only
          rw [hn, hm]
    apply key _ _ h
    split
    · rfl
    · exact hnew
  · intro self r hnew h
    have key : ∀ model1 : replit_model,
        model1.hparams.n_ctx = (if 0 < context_length then context_length else 2048) →
        (match replit_model_load g fin model1 self.replit_tokenizer_ with
          | .error e => .error e
          | .ok res =>
            if res.ret = false then
              .ok (false, { self with model_ := res.model, replit_tokenizer_ := res.vocab })
            else
              .ok (true, ({ model_ := res.model, replit_tokenizer_ := res.vocab
                            vocab_ := res.vocab.raw_vocab
                            n_ctx_ := res.model.hparams.n_ctx } : replit_llm))) =
          (.ok (true, r) : Except Exn (Bool × replit_llm)) →
        r.n_ctx_ = min r.model_.hparams.max_seq_len
          (if 0 < context_length then context_length else 2048) := by
      intro model1 hm h
      split at h
      · cases h
      · rename_i res hload
        split at h
        · cases h
        · rename_i hret
          simp only [Except.ok.injEq, Prod.mk.injEq, true_and] at h
          subst h
          have hn := replit_model_load_n_ctx g fin _ _ res hload (by simpa using hret)
          dsimp only
          rw [hn, hm]
    apply key _ _ h
    split
    · rfl
    · exact hnew

set_option maxRecDepth 100000 in
/-- C14, at the one-layer sample files (`max_seq_len = 4`): the MPT file loaded
with the override 3 reports 3, the Replit file loaded without override reports
4. -/
theorem load_sets_effective_context_witness :
    (∃ r, mpt_llm_Load ggml_ref (open_file mpt_one_layer_file) 3 0 (mpt_llm_new 0) =
        .ok (true, r) ∧ r.model_.hparams.max_seq_len = 4 ∧ r.n_ctx_ = 3) ∧
    (∃ r, replit_llm_Load ggml_ref (open_file replit_one_layer_file) 0 (replit_llm_new 0) =
        .ok (true, r) ∧ r.model_.hparams.max_seq_len = 4 ∧ r.n_ctx_ = 4) :=
  ⟨⟨_, rfl, rfl,
      (load_sets_effective_context ggml_ref (open_file mpt_one_layer_file) 3 0).1
        (mpt_llm_new 0) _ rfl rfl⟩,
    ⟨_, rfl, rfl,
      (load_sets_effective_context ggml_ref (open_file replit_one_layer_file) 0 0).2
        (replit_llm_new 0) _ rfl rfl⟩⟩

set_option maxRecDepth 100000 in
/-- C15 at the failing input: the one-layer Replit file (`d_model = 2`,
`max_seq_len = 4`, `n_layers = 1`) loaded with the override 2 reports the context
length 2, and both cache tensors are declared with 8 elements, not
`2 * 1 * 2 = 4`; the MPT loader declares 4 elements for the same
hyperparameters and override. -/
theorem replit_cache_ignores_override :
    (∃ r, replit_llm_Load ggml_ref (open_file replit_one_layer_file) 2 (replit_llm_new 0) =
        .ok (true, r) ∧
      r.n_ctx_ = 2 ∧ r.model_.hparams.n_layers = 1 ∧ r.model_.hparams.d_model = 2 ∧
      r.model_.memory_k = some (ggml_new_tensor_1d 1 8) ∧
      r.model_.memory_v = some (ggml_new_tensor_1d 1 8)) ∧
    (∃ r, mpt_llm_Load ggml_ref (open_file mpt_one_layer_file) 2 0 (mpt_llm_new 0) =
        .ok (true, r) ∧
      r.n_ctx_ = 2 ∧ r.model_.hparams.n_layers = 1 ∧ r.model_.hparams.d_model = 2 ∧
      r.model_.memory_k = some (ggml_new_tensor_1d 1 4) ∧
      r.model_.memory_v = some (ggml_new_tensor_1d 1 4)) :=
  ⟨⟨_, rfl, rfl, rfl, rfl, rfl, rfl⟩, ⟨_, rfl, rfl, rfl, rfl, rfl, rfl⟩⟩

/-! ## Evaluation: the cache and the logits -/

theorem slot_outside_write (d C k N : Int) (il l : Nat) (p e : Int)
    (hk : 0 ≤ k) (hN : 0 ≤ N) (hC : k + N ≤ C) (hp0 : 0 ≤ p) (hp : p < k) (he0 : 0 ≤ e)
    (he : e < d) :
    d * ((l : Int) * C + p) + e < d * ((il : Int) * C + k) ∨
      d * ((il : Int) * C + k) + N * d ≤ d * ((l : Int) * C + p) + e := by
  have hd : 0 ≤ d := by omega
  have hC0 : 0 ≤ C := by omega
  by_cases h : l ≤ il
  · left
    have h1 : (l : Int) * C ≤ (il : Int) * C :=
      mul_le_mul_of_nonneg_right (by exact_mod_cast h) hC0
    have h2 : d * ((l : Int) * C + p + 1) ≤ d * ((il : Int) * C + k) :=
      mul_le_mul_of_nonneg_left (by omega) hd
    have h3 : d * ((l : Int) * C + p + 1) = d * ((l : Int) * C + p) + d := by ring
    omega
  · right
    have hl : ((il : Int) + 1) ≤ (l : Int) := by exact_mod_cast (by omega : il + 1 ≤ l)
    have h1 : ((il : Int) + 1) * C ≤ (l : Int) * C := mul_le_mul_of_nonneg_right hl hC0
    have h1b : ((il : Int) + 1) * C = (il : Int) * C + C := by ring
    have h2 : d * ((il : Int) * C + k + N) ≤ d * ((l : Int) * C + p) :=
      mul_le_mul_of_nonneg_left (by omega) hd
    have h3 : d * ((il : Int) * C + k + N) = d * ((il : Int) * C + k) + N * d := by ring
    omega

theorem store_frame (mem : List Nat) (src : Nat → Nat) (s c x : Nat) (h : s + c ≤ mem.length)
    (hx : x < s ∨ s + c ≤ x) :
    (mem.take s ++ (List.range c).map src ++ mem.drop (s + c))[x]? = mem[x]? := by
  rcases hx with hx | hx
  · rw [List.append_assoc, List.getElem?_append_left (by simp; omega)]
    rw [List.getElem?_take_of_lt hx]
  · rw [List.getElem?_append_right (by simp; omega)]
    simp only [List.length_append, List.length_take, List.length_map, List.length_range,
      List.getElem?_drop]
    congr 1
    omega

theorem store_length (mem : List Nat) (src : Nat → Nat) (s c : Nat) (h : s + c ≤ mem.length) :
    (mem.take s ++ (List.range c).map src ++ mem.drop (s + c)).length = mem.length := by
  simp only [List.length_append, List.length_take, List.length_map, List.length_range,
    List.length_drop]
  omega

theorem cache_store_ok (mem : List Nat) (src : Nat → Nat) (start count : Int)
    (mem2 : List Nat) (h : cache_store mem src start count = .ok mem2) :
    0 ≤ start ∧ 0 ≤ count ∧ start + count ≤ (mem.length : Int) ∧
      mem2 = mem.take start.toNat ++ (List.range count.toNat).map src ++
        mem.drop (start.toNat + count.toNat) := by
  unfold cache_store at h
  split at h
  · cases h
  · rename_i hb
    simp only [Except.ok.injEq] at h
    exact ⟨by omega, by omega, by omega, h.symm⟩

theorem cache_store_frame (mem : List Nat) (src : Nat → Nat) (start count : Int)
    (mem2 : List Nat) (h : cache_store mem src start count = .ok mem2) :
    mem2.length = mem.length ∧
      ∀ x : Nat, ((x : Int) < start ∨ start + count ≤ (x : Int)) → mem2[x]? = mem[x]? := by
  obtain ⟨h0, h1, h2, rfl⟩ := cache_store_ok mem src start count mem2 h
  have hb : start.toNat + count.toNat ≤ mem.length := by omega
  refine ⟨store_length mem src _ _ hb, ?_⟩
  intro x hx
  exact store_frame mem src _ _ x hb (by omega)

theorem eval_layer_frame (b : eval_backend) (d C k N : Int) (il : Nat) (st st2 : eval_state)
    (h : eval_layer b d C k N il st = .ok st2) :
    st2.embd_w = st.embd_w ∧ st2.mem_per_token = st.mem_per_token ∧
      st2.buf_size = st.buf_size ∧ st2.memory_k.length = st.memory_k.length ∧
      st2.memory_v.length = st.memory_v.length ∧
      ∀ x : Nat, ((x : Int) < d * ((il : Int) * C + k) ∨
          d * ((il : Int) * C + k) + N * d ≤ (x : Int)) →
        st2.memory_k[x]? = st.memory_k[x]? ∧ st2.memory_v[x]? = st.memory_v[x]? := by
  unfold eval_layer at h
  split at h
  · cases h
  · split at h
    · cases h
    · rename_i kk hk
      split at h
      · cases h
      · rename_i vv hv
        simp only [Except.ok.injEq] at h
        subst h
        have fk := cache_store_frame _ _ _ _ _ hk
        have fv := cache_store_frame _ _ _ _ _ hv
        exact ⟨rfl, rfl, rfl, fk.1, fv.1, fun x hx => ⟨fk.2 x hx, fv.2 x hx⟩⟩

theorem eval_layers_frame (b : eval_backend) (d C k N : Int) (n : Nat) (st st2 : eval_state)
    (h : for_loop_except (eval_layer b d C k N) 0 n st = .ok st2) :
    st2.embd_w = st.embd_w ∧ st2.mem_per_token = st.mem_per_token ∧
      st2.buf_size = st.buf_size ∧ st2.memory_k.length = st.memory_k.length ∧
      st2.memory_v.length = st.memory_v.length ∧
      ∀ x : Nat,
        (∀ il : Nat, il < n → ((x : Int) < d * ((il : Int) * C + k) ∨
          d * ((il : Int) * C + k) + N * d ≤ (x : Int))) →
        st2.memory_k[x]? = st.memory_k[x]? ∧ st2.memory_v[x]? = st.memory_v[x]? := by
  have inv := for_loop_except_inv (eval_layer b d C k N)
    (fun _ s => s.embd_w = st.embd_w ∧ s.mem_per_token = st.mem_per_token ∧
      s.buf_size = st.buf_size ∧ s.memory_k.length = st.memory_k.length ∧
      s.memory_v.length = st.memory_v.length ∧
      ∀ x : Nat,
        (∀ il : Nat, il < n → ((x : Int) < d * ((il : Int) * C + k) ∨
          d * ((il : Int) * C + k) + N * d ≤ (x : Int))) →
        s.memory_k[x]? = st.memory_k[x]? ∧ s.memory_v[x]? = st.memory_v[x]?)
    n 0 st st2 h ⟨rfl, rfl, rfl, rfl, rfl, fun _ _ => ⟨rfl, rfl⟩⟩
    (by
      intro j s s1 _ hj hP hbody
      obtain ⟨f1, f2, f3, f4, f5, f6⟩ := eval_layer_frame b d C k N j s s1 hbody
      obtain ⟨p1, p2, p3, p4, p5, p6⟩ := hP
      refine ⟨f1.trans p1, f2.trans p2, f3.trans p3, f4.trans p4, f5.trans p5, ?_⟩
      intro x hx
      have hj2 : j < n := by omega
      have := f6 x (hx j hj2)
      exact ⟨this.1.trans (p6 x hx).1, this.2.trans (p6 x hx).2⟩)
  exact inv

theorem eval_compute_ok (b : eval_backend) (d L V C k N : Int) (st : eval_state)
    (r : Bool × eval_state) (h : eval_compute b d L V C k N st = .ok r) :
    r.1 = true ∧ 0 ≤ V ∧ 0 ≤ V * (N - 1) ∧
      ∃ st2, for_loop_except (eval_layer b d C k N) 0 L.toNat st = .ok st2 ∧
        r.2.memory_k = st2.memory_k ∧ r.2.memory_v = st2.memory_v ∧
        r.2.embd_w = (List.range V.toNat).map
          (fun j => b.inpL st2.memory_k st2.memory_v ((V * (N - 1)).toNat + j)) := by
  unfold eval_compute at h
  split at h
  · cases h
  · rename_i st2 hloop
    split at h
    · cases h
    · rename_i hV
      split at h
      · cases h
      · rename_i hoff
        have hoff2 : 0 ≤ V * (N - 1) := by
          simp only [not_or, not_not, not_lt] at hoff
          exact hoff.2
        dsimp only at h
        split at h
        · split at h
          · cases h
          · simp only [Except.ok.injEq] at h
            subst h
            exact ⟨rfl, by omega, hoff2, st2, hloop, rfl, rfl, rfl⟩
        · simp only [Except.ok.injEq] at h
          subst h
          exact ⟨rfl, by omega, hoff2, st2, hloop, rfl, rfl, rfl⟩

theorem transformer_eval_ok (b : eval_backend) (d L V C k : Int) (toks : List Int)
    (st : eval_state) (r : Bool × eval_state)
    (h : transformer_eval b d L V C k toks st = .ok r) :
    (r.1 = false ∧
      (0 < st.mem_per_token ∧
        st.buf_size <
          (st.mem_per_token * size_t_of_int (int32_of_nat toks.length)) % 2 ^ 64) ∧
      b.realloc
        (b.grow ((st.mem_per_token * size_t_of_int (int32_of_nat toks.length)) % 2 ^ 64)) =
        false ∧
      r.2.memory_k = st.memory_k ∧ r.2.memory_v = st.memory_v ∧ r.2.embd_w = st.embd_w) ∨
    (r.1 = true ∧
      ¬ ((0 < st.mem_per_token ∧
          st.buf_size <
            (st.mem_per_token * size_t_of_int (int32_of_nat toks.length)) % 2 ^ 64) ∧
        b.realloc
          (b.grow ((st.mem_per_token * size_t_of_int (int32_of_nat toks.length)) % 2 ^ 64)) =
          false) ∧
      0 ≤ V ∧ 0 ≤ V * (int32_of_nat toks.length - 1) ∧
      ∃ st1 st2, st1.memory_k = st.memory_k ∧ st1.memory_v = st.memory_v ∧
        for_loop_except (eval_layer b d C k (int32_of_nat toks.length)) 0 L.toNat st1 =
          .ok st2 ∧
        r.2.memory_k = st2.memory_k ∧ r.2.memory_v = st2.memory_v ∧
        r.2.embd_w = (List.range V.toNat).map
          (fun j => b.inpL st2.memory_k st2.memory_v
            ((V * (int32_of_nat toks.length - 1)).toNat + j))) := by
  unfold transformer_eval at h
  dsimp only at h
  split at h
  · rename_i hg
    split at h
    · rename_i hr
      simp only [Except.ok.injEq] at h
      subst h
      exact Or.inl ⟨rfl, hg, hr, rfl, rfl, rfl⟩
    · rename_i hr
      obtain ⟨h1, h2, h3, st2, h4, h5, h6, h7⟩ := eval_compute_ok _ _ _ _ _ _ _ _ _ h
      refine Or.inr ⟨h1, fun hh => hr hh.2, h2, h3, _, st2, ?_, ?_, h4, h5, h6, h7⟩ <;> rfl
  · rename_i hg
    obtain ⟨h1, h2, h3, st2, h4, h5, h6, h7⟩ := eval_compute_ok _ _ _ _ _ _ _ _ _ h
    exact Or.inr ⟨h1, fun hh => hg hh.1, h2, h3, _, st2, rfl, rfl, h4, h5, h6, h7⟩

theorem toNat_mul_nat (V : Int) (n : Nat) (hV : 0 ≤ V) :
    (V * (n : Int)).toNat = V.toNat * n := by
  lift V to Nat using hV
  have : ((V : Int) * (n : Int)) = ((V * n : Nat) : Int) := by push_cast; rfl
  rw [this, Int.toNat_natCast, Int.toNat_natCast]

theorem eval_last_row (b : eval_backend) (d L V C k : Int) (toks : List Int)
    (st r : eval_state) (hlen : toks.length < 2 ^ 31)
    (h : transformer_eval b d L V C k toks st = .ok (true, r)) :
    0 ≤ V ∧ r.embd_w.length = V.toNat ∧
      ∀ j : Nat, j < V.toNat →
        r.embd_w[j]? = some (b.inpL r.memory_k r.memory_v (V.toNat * (toks.length - 1) + j)) := by
  rcases transformer_eval_ok b d L V C k toks st _ h with ⟨hf, -⟩ | ⟨-, -, hV, hoff, -, st2, -, -, -, hk, hv, hw⟩
  · cases hf
  · dsimp only at hk hv hw
    rw [int32_of_nat_small _ hlen] at hoff hw
    have hoffset : (V * ((toks.length : Int) - 1)).toNat = V.toNat * (toks.length - 1) := by
      cases hl : toks.length with
      | zero =>
        rw [hl] at hoff
        simp only [Nat.cast_zero, zero_sub, Nat.zero_sub, Nat.mul_zero] at hoff ⊢
        have : V = 0 := by omega
        simp [this]
      | succ n =>
        simp only [Nat.cast_succ, add_sub_cancel_right, Nat.add_sub_cancel]
        exact toNat_mul_nat V n hV
    rw [hoffset] at hw
    refine ⟨hV, by simp [hw], ?_⟩
    intro j hj
    rw [hw, hk, hv, List.getElem?_map, List.getElem?_range hj]
    rfl

/-- C13: a successful evaluation (either family) of a batch of `N` tokens
leaves in `embd_w` exactly `n_vocab` values, and they are the values at offsets
`n_vocab * (N - 1) .. n_vocab * (N - 1) + n_vocab - 1` of the output of the
graph, the row of the last input position. -/
theorem eval_returns_last_row (b : eval_backend) (n_past : Int) (embd_inp : List Int)
    (st r : eval_state) (hlen : embd_inp.length < 2 ^ 31) :
    (∀ model : mpt_model, mpt_eval b model n_past embd_inp st = .ok (true, r) →
      0 ≤ model.hparams.n_vocab ∧ r.embd_w.length = model.hparams.n_vocab.toNat ∧
      ∀ j : Nat, j < model.hparams.n_vocab.toNat →
        r.embd_w[j]? = some (b.inpL r.memory_k r.memory_v
          (model.hparams.n_vocab.toNat * (embd_inp.length - 1) + j))) ∧
    (∀ model : replit_model, replit_eval b model n_past embd_inp st = .ok (true, r) →
      0 ≤ model.hparams.n_vocab ∧ r.embd_w.length = model.hparams.n_vocab.toNat ∧
      ∀ j : Nat, j < model.hparams.n_vocab.toNat →
        r.embd_w[j]? = some (b.inpL r.memory_k r.memory_v
          (model.hparams.n_vocab.toNat * (embd_inp.length - 1) + j))) :=
  ⟨fun _ h => eval_last_row b _ _ _ _ n_past embd_inp st r hlen h,
    fun _ h => eval_last_row b _ _ _ _ n_past embd_inp st r hlen h⟩

set_option maxRecDepth 100000 in
/-- C13, at a batch of two tokens evaluated by the two-layer MPT model with
nothing in the cache: the logits are the outputs at offsets 2 and 3. -/
theorem eval_returns_last_row_witness :
    mpt_eval sample_backend mpt_two_layer_model 0 [0, 1] used_eval_state =
        .ok (true,
          { memory_k := [100, 101, 110, 111], memory_v := [200, 201, 210, 211]
            embd_w := [302, 303], mem_per_token := 500, buf_size := 256 * 1024 * 1024 }) ∧
      (0 : Int) ≤ mpt_two_layer_model.hparams.n_vocab ∧
      ([302, 303] : List Nat).length = mpt_two_layer_model.hparams.n_vocab.toNat ∧
      ∀ j : Nat, j < mpt_two_layer_model.hparams.n_vocab.toNat →
        ([302, 303] : List Nat)[j]? =
          some (sample_backend.inpL [100, 101, 110, 111] [200, 201, 210, 211]
            (mpt_two_layer_model.hparams.n_vocab.toNat * (([0, 1] : List Int).length - 1) + j)) :=
  ⟨rfl,
    (eval_returns_last_row sample_backend 0 [0, 1] used_eval_state
      { memory_k := [100, 101, 110, 111], memory_v := [200, 201, 210, 211]
        embd_w := [302, 303], mem_per_token := 500, buf_size := 256 * 1024 * 1024 }
      (by decide)).1 mpt_two_layer_model rfl⟩

theorem eval_keeps_earlier_positions (b : eval_backend) (d L V C k : Int) (toks : List Int)
    (st : eval_state) (r : Bool × eval_state) (hk : 0 ≤ k) (hlen : toks.length < 2 ^ 31)
    (hC : k + (toks.length : Int) ≤ C)
    (h : transformer_eval b d L V C k toks st = .ok r) (l p e : Nat) (hp : (p : Int) < k)
    (he : (e : Int) < d) :
    (∀ (il : Nat) (j : Int), 0 ≤ j → j < (toks.length : Int) * d →
      d * ((il : Int) * C + k) + j ≠ d * ((l : Int) * C + (p : Int)) + (e : Int)) ∧
    r.2.memory_k[(d * ((l : Int) * C + (p : Int)) + (e : Int)).toNat]? =
      st.memory_k[(d * ((l : Int) * C + (p : Int)) + (e : Int)).toNat]? ∧
    r.2.memory_v[(d * ((l : Int) * C + (p : Int)) + (e : Int)).toNat]? =
      st.memory_v[(d * ((l : Int) * C + (p : Int)) + (e : Int)).toNat]? := by
  have hout : ∀ il : Nat,
      d * ((l : Int) * C + (p : Int)) + (e : Int) < d * ((il : Int) * C + k) ∨
        d * ((il : Int) * C + k) + (toks.length : Int) * d ≤
          d * ((l : Int) * C + (p : Int)) + (e : Int) :=
    fun il => slot_outside_write d C k toks.length il l p e hk (by omega) hC (by omega) hp
      (by omega) he
  have hnn : 0 ≤ d * ((l : Int) * C + (p : Int)) + (e : Int) := by
    have h1 : 0 ≤ (l : Int) * C := mul_nonneg (by omega) (by omega)
    have h2 : 0 ≤ d * ((l : Int) * C + (p : Int)) := mul_nonneg (by omega) (by omega)
    omega
  refine ⟨?_, ?_⟩
  · intro il j hj0 hj
    rcases hout il with h1 | h1 <;> omega
  · rcases transformer_eval_ok b d L V C k toks st r h with
      ⟨-, -, -, h1, h2, -⟩ | ⟨-, -, -, -, st1, st2, h1, h2, hloop, h3, h4, -⟩
    · rw [h1, h2]
      exact ⟨rfl, rfl⟩
    · rw [int32_of_nat_small _ hlen] at hloop
      have hf := (eval_layers_frame b d C k toks.length L.toNat st1 st2 hloop).2.2.2.2.2
        (d * ((l : Int) * C + (p : Int)) + (e : Int)).toNat
        (by
          intro il _
          rw [Int.toNat_of_nonneg hnn]
          exact hout il)
      rw [h3, h4, hf.1, hf.2, h1, h2]
      exact ⟨rfl, rfl⟩

/-- C12: when `n_past = k >= 0` and `k` plus the number `m` of new tokens does
not exceed the context length the routine strides the cache by (`n_ctx` for
MPT, `max_seq_len` for Replit), an evaluation that completes leaves every
element `e` of every position `p < k` of every layer `l` as it was, in the key
and in the value cache: the offsets `d_model * (il * C + k) + j`,
`j < m * d_model`, written for a layer `il` are all different from the offset
`d_model * (l * C + p) + e` of such an element. -/
theorem cache_append_keeps_earlier_positions (b : eval_backend) (k : Int)
    (embd_inp : List Int) (st : eval_state) (r : Bool × eval_state) (hk : 0 ≤ k)
    (hlen : embd_inp.length < 2 ^ 31) :
    (∀ model : mpt_model, k + (embd_inp.length : Int) ≤ model.hparams.n_ctx →
      mpt_eval b model k embd_inp st = .ok r →
      ∀ l p e : Nat, (p : Int) < k → (e : Int) < model.hparams.d_model →
        (∀ (il : Nat) (j : Int), 0 ≤ j → j < (embd_inp.length : Int) * model.hparams.d_model →
          model.hparams.d_model * ((il : Int) * model.hparams.n_ctx + k) + j ≠
            model.hparams.d_model * ((l : Int) * model.hparams.n_ctx + (p : Int)) + (e : Int)) ∧
        r.2.memory_k[(model.hparams.d_model *
            ((l : Int) * model.hparams.n_ctx + (p : Int)) + (e : Int)).toNat]? =
          st.memory_k[(model.hparams.d_model *
            ((l : Int) * model.hparams.n_ctx + (p : Int)) + (e : Int)).toNat]? ∧
        r.2.memory_v[(model.hparams.d_model *
            ((l : Int) * model.hparams.n_ctx + (p : Int)) + (e : Int)).toNat]? =
          st.memory_v[(model.hparams.d_model *
            ((l : Int) * model.hparams.n_ctx + (p : Int)) + (e : Int)).toNat]?) ∧
    (∀ model : replit_model, k + (embd_inp.length : Int) ≤ model.hparams.max_seq_len →
      replit_eval b model k embd_inp st = .ok r →
      ∀ l p e : Nat, (p : Int) < k → (e : Int) < model.hparams.d_model →
        (∀ (il : Nat) (j : Int), 0 ≤ j → j < (embd_inp.length : Int) * model.hparams.d_model →
          model.hparams.d_model * ((il : Int) * model.hparams.max_seq_len + k) + j ≠
            model.hparams.d_model * ((l : Int) * model.hparams.max_seq_len + (p : Int)) +
              (e : Int)) ∧
        r.2.memory_k[(model.hparams.d_model *
            ((l : Int) * model.hparams.max_seq_len + (p : Int)) + (e : Int)).toNat]? =
          st.memory_k[(model.hparams.d_model *
            ((l : Int) * model.hparams.max_seq_len + (p : Int)) + (e : Int)).toNat]? ∧
        r.2.memory_v[(model.hparams.d_model *
            ((l : Int) * model.hparams.max_seq_len + (p : Int)) + (e : Int)).toNat]? =
          st.memory_v[(model.hparams.d_model *
            ((l : Int) * model.hparams.max_seq_len + (p : Int)) + (e : Int)).toNat]?) :=
  ⟨fun _ hC h l p e hp he =>
      eval_keeps_earlier_positions b _ _ _ _ k embd_inp st r hk hlen hC h l p e hp he,
    fun _ hC h l p e hp he =>
      eval_keeps_earlier_positions b _ _ _ _ k embd_inp st r hk hlen hC h l p e hp he⟩

set_option maxRecDepth 100000 in
/-- C12, at the two-layer MPT model (context length 2, `d_model = 1`) with one
position in the cache and one new token: the call writes offsets 1 and 3 and
leaves offset 2, position 0 of layer 1, as it was. -/
theorem cache_append_keeps_earlier_positions_witness :
    mpt_eval sample_backend mpt_two_layer_model 1 [0] used_eval_state =
        .ok (true,
          { memory_k := [11, 100, 13, 110], memory_v := [21, 200, 23, 210]
            embd_w := [300, 301], mem_per_token := 500, buf_size := 256 * 1024 * 1024 }) ∧
      ([11, 100, 13, 110] : List Nat)[2]? = used_eval_state.memory_k[2]? ∧
      ([21, 200, 23, 210] : List Nat)[2]? = used_eval_state.memory_v[2]? :=
  ⟨rfl,
    ((cache_append_keeps_earlier_positions sample_backend 1 [0] used_eval_state
      (true,
        { memory_k := [11, 100, 13, 110], memory_v := [21, 200, 23, 210]
          embd_w := [300, 301], mem_per_token := 500, buf_size := 256 * 1024 * 1024 })
      (by decide) (by decide)).1 mpt_two_layer_model (by decide) rfl 1 0 0 (by decide)
      (by decide)).2⟩

theorem eval_false_iff (b : eval_backend) (d L V C k : Int) (toks : List Int)
    (st : eval_state) (r : Bool × eval_state)
    (h : transformer_eval b d L V C k toks st = .ok r) :
    (r.1 = false ↔
      ((0 < st.mem_per_token ∧
          st.buf_size <
            (st.mem_per_token * size_t_of_int (int32_of_nat toks.length)) % 2 ^ 64) ∧
        b.realloc
          (b.grow ((st.mem_per_token * size_t_of_int (int32_of_nat toks.length)) % 2 ^ 64)) =
          false)) ∧
    (r.1 = false → r.2.memory_k = st.memory_k ∧ r.2.memory_v = st.memory_v) := by
  rcases transformer_eval_ok b d L V C k toks st r h with
    ⟨h1, h2, h3, h4, h5, -⟩ | ⟨h1, h2, -⟩
  · exact ⟨⟨fun _ => ⟨h2, h3⟩, fun _ => h1⟩, fun _ => ⟨h4, h5⟩⟩
  · constructor
    · constructor
      · intro hf
        rw [h1] at hf
        cases hf
      · intro hc
        exact absurd hc h2
    · intro hf
      rw [h1] at hf
      cases hf

theorem for_loop_except_split {σ : Type} (body : Nat → σ → Except Exn σ) :
    ∀ (a b i : Nat) (st st2 : σ), for_loop_except body i (a + b) st = .ok st2 →
      ∃ mid, for_loop_except body i a st = .ok mid ∧
        for_loop_except body (i + a) b mid = .ok st2 := by
  intro a
  induction a with
  | zero =>
    intro b i st st2 h
    exact ⟨st, rfl, by simpa using h⟩
  | succ a ih =>
    intro b i st st2 h
    rw [show a + 1 + b = (a + b) + 1 by omega, for_loop_except] at h
    cases hb : body i st with
    | error e => rw [hb] at h; cases h
    | ok st1 =>
      rw [hb] at h
      obtain ⟨mid, h1, h2⟩ := ih b (i + 1) st1 st2 h
      refine ⟨mid, ?_, ?_⟩
      · rw [for_loop_except, hb]
        exact h1
      · rw [show i + (a + 1) = i + 1 + a by omega]
        exact h2

theorem eval_layer_stores (b : eval_backend) (d C k N : Int) (il : Nat) (st st2 : eval_state)
    (h : eval_layer b d C k N il st = .ok st2) :
    0 ≤ d * ((il : Int) * C + k) ∧ 0 ≤ N * d ∧
    d * ((il : Int) * C + k) + N * d ≤ (st.memory_k.length : Int) ∧
    d * ((il : Int) * C + k) + N * d ≤ (st.memory_v.length : Int) ∧
    st2.memory_k =
      st.memory_k.take (d * ((il : Int) * C + k)).toNat ++
        (List.range (N * d).toNat).map (b.Kcur il st.memory_k st.memory_v) ++
        st.memory_k.drop ((d * ((il : Int) * C + k)).toNat + (N * d).toNat) ∧
    st2.memory_v =
      st.memory_v.take (d * ((il : Int) * C + k)).toNat ++
        (List.range (N * d).toNat).map (b.Vcur il st2.memory_k st.memory_v) ++
        st.memory_v.drop ((d * ((il : Int) * C + k)).toNat + (N * d).toNat) := by
  unfold eval_layer at h
  split at h
  · cases h
  · split at h
    · cases h
    · rename_i kk hk
      split at h
      · cases h
      · rename_i vv hv
        simp only [Except.ok.injEq] at h
        subst h
        obtain ⟨a1, a2, a3, a4⟩ := cache_store_ok _ _ _ _ _ hk
        obtain ⟨b1, b2, b3, b4⟩ := cache_store_ok _ _ _ _ _ hv
        exact ⟨a1, a2, a3, b3, a4, b4⟩

theorem eval_layers_stores (b : eval_backend) (d C k N : Int) (n : Nat) (st st2 : eval_state)
    (h : for_loop_except (eval_layer b d C k N) 0 n st = .ok st2) (l : Nat) (hl : l < n) :
    ∃ sa sb : eval_state,
      for_loop_except (eval_layer b d C k N) 0 l st = .ok sa ∧
      eval_layer b d C k N l sa = .ok sb ∧
      for_loop_except (eval_layer b d C k N) (l + 1) (n - (l + 1)) sb = .ok st2 ∧
      0 ≤ d * ((l : Int) * C + k) ∧ 0 ≤ N * d ∧
      d * ((l : Int) * C + k) + N * d ≤ (sa.memory_k.length : Int) ∧
      d * ((l : Int) * C + k) + N * d ≤ (sa.memory_v.length : Int) ∧
      sb.memory_k =
        sa.memory_k.take (d * ((l : Int) * C + k)).toNat ++
          (List.range (N * d).toNat).map (b.Kcur l sa.memory_k sa.memory_v) ++
          sa.memory_k.drop ((d * ((l : Int) * C + k)).toNat + (N * d).toNat) ∧
      sb.memory_v =
        sa.memory_v.take (d * ((l : Int) * C + k)).toNat ++
          (List.range (N * d).toNat).map (b.Vcur l sb.memory_k sa.memory_v) ++
          sa.memory_v.drop ((d * ((l : Int) * C + k)).toNat + (N * d).toNat) := by
  have e : n = l + (1 + (n - (l + 1))) := by omega
  rw [e] at h
  obtain ⟨sa, h1, h2⟩ := for_loop_except_split _ l _ 0 st st2 h
  obtain ⟨sb, h3, h4⟩ := for_loop_except_split _ 1 _ (0 + l) sa st2 h2
  have h5 : eval_layer b d C k N l sa = .ok sb := by
    rw [for_loop_except] at h3
    simp only [Nat.zero_add] at h3
    cases hb : eval_layer b d C k N l sa with
    | error e1 => rw [hb] at h3; cases h3
    | ok s1 =>
      rw [hb] at h3
      simp only [for_loop_except, Except.ok.injEq] at h3
      rw [h3]
  obtain ⟨c1, c2, c3, c4, c5, c6⟩ := eval_layer_stores b d C k N l sa sb h5
  refine ⟨sa, sb, h1, h5, ?_, c1, c2, c3, c4, c5, c6⟩
  simpa [Nat.add_comm] using h4

theorem eval_true_stores (b : eval_backend) (d L V C k : Int) (toks : List Int)
    (st : eval_state) (r : Bool × eval_state)
    (h : transformer_eval b d L V C k toks st = .ok r) (ht : r.1 = true) :
    ∃ st1 st2 : eval_state, st1.memory_k = st.memory_k ∧ st1.memory_v = st.memory_v ∧
      for_loop_except (eval_layer b d C k (int32_of_nat toks.length)) 0 L.toNat st1 =
        .ok st2 ∧
      r.2.memory_k = st2.memory_k ∧ r.2.memory_v = st2.memory_v ∧
      ∀ l : Nat, l < L.toNat → ∃ sa sb : eval_state,
        for_loop_except (eval_layer b d C k (int32_of_nat toks.length)) 0 l st1 = .ok sa ∧
        eval_layer b d C k (int32_of_nat toks.length) l sa = .ok sb ∧
        for_loop_except (eval_layer b d C k (int32_of_nat toks.length)) (l + 1)
          (L.toNat - (l + 1)) sb = .ok st2 ∧
        0 ≤ d * ((l : Int) * C + k) ∧ 0 ≤ int32_of_nat toks.length * d ∧
        d * ((l : Int) * C + k) + int32_of_nat toks.length * d ≤ (sa.memory_k.length : Int) ∧
        d * ((l : Int) * C + k) + int32_of_nat toks.length * d ≤ (sa.memory_v.length : Int) ∧
        sb.memory_k =
          sa.memory_k.take (d * ((l : Int) * C + k)).toNat ++
            (List.range (int32_of_nat toks.length * d).toNat).map
              (b.Kcur l sa.memory_k sa.memory_v) ++
            sa.memory_k.drop
              ((d * ((l : Int) * C + k)).toNat + (int32_of_nat toks.length * d).toNat) ∧
        sb.memory_v =
          sa.memory_v.take (d * ((l : Int) * C + k)).toNat ++
            (List.range (int32_of_nat toks.length * d).toNat).map
              (b.Vcur l sb.memory_k sa.memory_v) ++
            sa.memory_v.drop
              ((d * ((l : Int) * C + k)).toNat + (int32_of_nat toks.length * d).toNat) := by
  rcases transformer_eval_ok b d L V C k toks st r h with
    ⟨h1, -⟩ | ⟨-, -, -, -, st1, st2, a1, a2, a3, a4, a5, -⟩
  · rw [h1] at ht
    cases ht
  · exact ⟨st1, st2, a1, a2, a3, a4, a5,
      fun l hl => eval_layers_stores b d C k _ L.toNat st1 st2 a3 l hl⟩

set_option maxRecDepth 100000 in
/-- C11 counterexample: with one position in the cache and two new tokens,
`replit_eval` on a model whose context length is 2 (`max_seq_len = 4` capped by
the override 2) returns true and writes the cache elements 1 and 2; `mpt_eval`
on a two-layer model of context length 2 stores the keys and values of layer 0
at the elements 1 and 2, the second one being position 0 of layer 1, and then
leaves the cache tensor instead of returning false. -/
theorem eval_beyond_context_writes :
    replit_eval sample_backend replit_capped_model 1 [0, 1] used_eval_state =
      .ok (true,
        { memory_k := [11, 100, 101, 14], memory_v := [21, 200, 201, 24]
          embd_w := [302, 303], mem_per_token := 500, buf_size := 256 * 1024 * 1024 }) ∧
    eval_layer sample_backend 1 2 1 2 0 used_eval_state =
      .ok { used_eval_state with
            memory_k := [11, 100, 101, 14], memory_v := [21, 200, 201, 24] } ∧
    mpt_eval sample_backend mpt_two_layer_model 1 [0, 1] used_eval_state =
      .error .undefined_behaviour :=
  ⟨rfl, rfl, rfl⟩

/-- C11 amended: neither evaluation routine compares `n_past + N` with a
context length.  A call that completes returns false exactly when
`mem_per_token * N` exceeds the scratch buffer and the `realloc` to the grown
size fails, and then the key and value caches are as before the call.  Every
other completed call returns true after the layers have run in order over the
caches as they were before the call, and layer `l`, from the state `sa` it
finds to the state `sb` it leaves, has stored `N * d_model` keys and as many
values from element `d_model * (l * C + n_past)` on, inside the cache tensors
and whatever `n_past + N` is: the elements before and behind the stored range
are kept, the stored keys are the values of `Kcur` and the stored values those
of `Vcur`.  The stride `C` is `n_ctx` in `mpt_eval` and `max_seq_len` in
`replit_eval`; the caches returned are those behind the last layer. -/
theorem eval_false_only_when_realloc_fails (b : eval_backend) (n_past : Int)
    (embd_inp : List Int) (st : eval_state) (r : Bool × eval_state) :
    (∀ model : mpt_model, mpt_eval b model n_past embd_inp st = .ok r →
      (r.1 = false ↔
        ((0 < st.mem_per_token ∧
            st.buf_size <
              (st.mem_per_token * size_t_of_int (int32_of_nat embd_inp.length)) % 2 ^ 64) ∧
          b.realloc
            (b.grow
              ((st.mem_per_token * size_t_of_int (int32_of_nat embd_inp.length)) % 2 ^ 64)) =
            false)) ∧
      (r.1 = false → r.2.memory_k = st.memory_k ∧ r.2.memory_v = st.memory_v) ∧
      (r.1 = true →
        ∃ st1 st2 : eval_state, st1.memory_k = st.memory_k ∧ st1.memory_v = st.memory_v ∧
          for_loop_except
              (eval_layer b model.hparams.d_model model.hparams.n_ctx n_past
                (int32_of_nat embd_inp.length))
              0 model.hparams.n_layers.toNat st1 = .ok st2 ∧
          r.2.memory_k = st2.memory_k ∧ r.2.memory_v = st2.memory_v ∧
          ∀ l : Nat, l < model.hparams.n_layers.toNat → ∃ sa sb : eval_state,
            for_loop_except
                (eval_layer b model.hparams.d_model model.hparams.n_ctx n_past
                  (int32_of_nat embd_inp.length)) 0 l st1 = .ok sa ∧
            eval_layer b model.hparams.d_model model.hparams.n_ctx n_past
                (int32_of_nat embd_inp.length) l sa = .ok sb ∧
            for_loop_except
                (eval_layer b model.hparams.d_model model.hparams.n_ctx n_past
                  (int32_of_nat embd_inp.length))
                (l + 1) (model.hparams.n_layers.toNat - (l + 1)) sb = .ok st2 ∧
            0 ≤ model.hparams.d_model * ((l : Int) * model.hparams.n_ctx + n_past) ∧
            0 ≤ int32_of_nat embd_inp.length * model.hparams.d_model ∧
            model.hparams.d_model * ((l : Int) * model.hparams.n_ctx + n_past) +
                int32_of_nat embd_inp.length * model.hparams.d_model ≤
              (sa.memory_k.length : Int) ∧
            model.hparams.d_model * ((l : Int) * model.hparams.n_ctx + n_past) +
                int32_of_nat embd_inp.length * model.hparams.d_model ≤
              (sa.memory_v.length : Int) ∧
            sb.memory_k =
              sa.memory_k.take
                  (model.hparams.d_model * ((l : Int) * model.hparams.n_ctx + n_past)).toNat ++
                (List.range (int32_of_nat embd_inp.length * model.hparams.d_model).toNat).map
                  (b.Kcur l sa.memory_k sa.memory_v) ++
                sa.memory_k.drop
                  ((model.hparams.d_model * ((l : Int) * model.hparams.n_ctx + n_past)).toNat +
                    (int32_of_nat embd_inp.length * model.hparams.d_model).toNat) ∧
            sb.memory_v =
              sa.memory_v.take
                  (model.hparams.d_model * ((l : Int) * model.hparams.n_ctx + n_past)).toNat ++
                (List.range (int32_of_nat embd_inp.length * model.hparams.d_model).toNat).map
                  (b.Vcur l sb.memory_k sa.memory_v) ++
                sa.memory_v.drop
                  ((model.hparams.d_model * ((l : Int) * model.hparams.n_ctx + n_past)).toNat +
                    (int32_of_nat embd_inp.length * model.hparams.d_model).toNat))) ∧
    (∀ model : replit_model, replit_eval b model n_past embd_inp st = .ok r →
      (r.1 = false ↔
        ((0 < st.mem_per_token ∧
            st.buf_size <
              (st.mem_per_token * size_t_of_int (int32_of_nat embd_inp.length)) % 2 ^ 64) ∧
          b.realloc
            (b.grow
              ((st.mem_per_token * size_t_of_int (int32_of_nat embd_inp.length)) % 2 ^ 64)) =
            false)) ∧
      (r.1 = false → r.2.memory_k = st.memory_k ∧ r.2.memory_v = st.memory_v) ∧
      (r.1 = true →
        ∃ st1 st2 : eval_state, st1.memory_k = st.memory_k ∧ st1.memory_v = st.memory_v ∧
          for_loop_except
              (eval_layer b model.hparams.d_model model.hparams.max_seq_len n_past
                (int32_of_nat embd_inp.length))
              0 model.hparams.n_layers.toNat st1 = .ok st2 ∧
          r.2.memory_k = st2.memory_k ∧ r.2.memory_v = st2.memory_v ∧
          ∀ l : Nat, l < model.hparams.n_layers.toNat → ∃ sa sb : eval_state,
            for_loop_except
                (eval_layer b model.hparams.d_model model.hparams.max_seq_len n_past
                  (int32_of_nat embd_inp.length)) 0 l st1 = .ok sa ∧
            eval_layer b model.hparams.d_model model.hparams.max_seq_len n_past
                (int32_of_nat embd_inp.length) l sa = .ok sb ∧
            for_loop_except
                (eval_layer b model.hparams.d_model model.hparams.max_seq_len n_past
                  (int32_of_nat embd_inp.length))
                (l + 1) (model.hparams.n_layers.toNat - (l + 1)) sb = .ok st2 ∧
            0 ≤ model.hparams.d_model * ((l : Int) * model.hparams.max_seq_len + n_past) ∧
            0 ≤ int32_of_nat embd_inp.length * model.hparams.d_model ∧
            model.hparams.d_model * ((l : Int) * model.hparams.max_seq_len + n_past) +
                int32_of_nat embd_inp.length * model.hparams.d_model ≤
              (sa.memory_k.length : Int) ∧
            model.hparams.d_model * ((l : Int) * model.hparams.max_seq_len + n_past) +
                int32_of_nat embd_inp.length * model.hparams.d_model ≤
              (sa.memory_v.length : Int) ∧
            sb.memory_k =
              sa.memory_k.take
                  (model.hparams.d_model *
                    ((l : Int) * model.hparams.max_seq_len + n_past)).toNat ++
                (List.range (int32_of_nat embd_inp.length * model.hparams.d_model).toNat).map
                  (b.Kcur l sa.memory_k sa.memory_v) ++
                sa.memory_k.drop
                  ((model.hparams.d_model *
                      ((l : Int) * model.hparams.max_seq_len + n_past)).toNat +
                    (int32_of_nat embd_inp.length * model.hparams.d_model).toNat) ∧
            sb.memory_v =
              sa.memory_v.take
                  (model.hparams.d_model *
                    ((l : Int) * model.hparams.max_seq_len + n_past)).toNat ++
                (List.range (int32_of_nat embd_inp.length * model.hparams.d_model).toNat).map
                  (b.Vcur l sb.memory_k sa.memory_v) ++
                sa.memory_v.drop
                  ((model.hparams.d_model *
                      ((l : Int) * model.hparams.max_seq_len + n_past)).toNat +
                    (int32_of_nat embd_inp.length * model.hparams.d_model).toNat))) :=
  ⟨fun _ h =>
      ⟨(eval_false_iff b _ _ _ _ n_past embd_inp st r h).1,
        (eval_false_iff b _ _ _ _ n_past embd_inp st r h).2,
        eval_true_stores b _ _ _ _ n_past embd_inp st r h⟩,
    fun _ h =>
      ⟨(eval_false_iff b _ _ _ _ n_past embd_inp st r h).1,
        (eval_false_iff b _ _ _ _ n_past embd_inp st r h).2,
        eval_true_stores b _ _ _ _ n_past embd_inp st r h⟩⟩

set_option maxRecDepth 100000 in
/-- C11 amended, at two calls.  With a one-byte scratch buffer and a failing
`realloc` the call returns false with the caches untouched, here with
`n_past = 5` beyond the context length 2.  With one position in the cache and
two new tokens `replit_eval` on the model of context length 2 returns true, and
its one layer has stored the cache elements 1 and 2 of the result. -/
theorem eval_false_only_when_realloc_fails_witness :
    (mpt_eval failing_backend mpt_two_layer_model 5 [0] tight_eval_state =
        .ok (false, { tight_eval_state with buf_size := 2 }) ∧
      ({ tight_eval_state with buf_size := 2 } : eval_state).memory_k =
        tight_eval_state.memory_k ∧
      ({ tight_eval_state with buf_size := 2 } : eval_state).memory_v =
        tight_eval_state.memory_v) ∧
    replit_eval sample_backend replit_capped_model 1 [0, 1] used_eval_state =
      .ok (true,
        { memory_k := [11, 100, 101, 14], memory_v := [21, 200, 201, 24]
          embd_w := [302, 303], mem_per_token := 500, buf_size := 256 * 1024 * 1024 }) ∧
    ∃ sa sb : eval_state,
      eval_layer sample_backend 1 4 1 2 0 sa = .ok sb ∧
      sa.memory_k = [11, 12, 13, 14] ∧ sa.memory_v = [21, 22, 23, 24] ∧
      sb.memory_k = [11, 100, 101, 14] ∧ sb.memory_v = [21, 200, 201, 24] := by
  refine ⟨⟨rfl,
    ((eval_false_only_when_realloc_fails failing_backend 5 [0] tight_eval_state
      (false, { tight_eval_state with buf_size := 2 })).1 mpt_two_layer_model rfl).2.1 rfl⟩,
    rfl, ?_⟩
  obtain ⟨st1, st2, e1, e2, -, -, -, hl⟩ :=
    ((eval_false_only_when_realloc_fails sample_backend 1 [0, 1] used_eval_state
        (true,
          { memory_k := [11, 100, 101, 14], memory_v := [21, 200, 201, 24]
            embd_w := [302, 303], mem_per_token := 500, buf_size := 256 * 1024 * 1024 })).2
      replit_capped_model rfl).2.2 rfl
  obtain ⟨sa, sb, ha, hb, -, -, -, -, -, hk, hv⟩ := hl 0 (by decide)
  have hsa : sa = st1 := by
    simp only [for_loop_except, Except.ok.injEq] at ha
    exact ha.symm
  subst hsa
  rw [e1, e2] at hk
  rw [e2] at hv
  refine ⟨sa, sb, hb, e1, e2, ?_, ?_⟩
  · rw [hk]
    decide
  · rw [hv, hk]
    decide

/-! ## Further claims about the unigram segmenter -/

/-- C29: for the empty word `encode_word` looks the empty string up in the piece
table: when it is not a piece the lookup throws (out of range), otherwise the
result is the single id of the empty piece with the score 1.0; so a result is
never the fallback `([0], 0.0)` and never an empty sequence. -/
theorem encode_word_empty (model : piece_map_t) :
    (map_find [] model = none → encode_word [] model = .error .out_of_range) ∧
    (∀ id sc, map_find [] model = some (id, sc) →
      encode_word [] model = .ok ([int32_of_nat id], float.fin 1)) ∧
    (∀ r, encode_word [] model = .ok r → r.1.length = 1 ∧ r.2 = float.fin 1) := by
  have h1 : map_find [] model = none → encode_word [] model = .error .out_of_range := by
    intro h
    simp [encode_word, encode_word_table, for_loop, encode_word_init, float.is_ninf,
      encode_word_backtrack, substr, h]
  have h2 : ∀ id sc, map_find [] model = some (id, sc) →
      encode_word [] model = .ok ([int32_of_nat id], float.fin 1) := by
    intro id sc h
    simp [encode_word, encode_word_table, for_loop, encode_word_init, float.is_ninf,
      encode_word_backtrack, substr, h]
  refine ⟨h1, h2, ?_⟩
  intro r hr
  cases hfind : map_find [] model with
  | none =>
    rw [h1 hfind] at hr
    cases hr
  | some v =>
    obtain ⟨id, sc⟩ := v
    rw [h2 id sc hfind] at hr
    simp only [Except.ok.injEq] at hr
    subst hr
    exact ⟨rfl, rfl⟩

/-- C29, at the table holding the empty piece under id 1: the empty word gives
`([1], 1.0)`. -/
theorem encode_word_empty_witness :
    encode_word [] empty_piece_table = .ok ([int32_of_nat 1], float.fin 1) :=
  (encode_word_empty empty_piece_table).2.1 1 (float.fin (-5)) rfl

/-- C30: for a piece table with finite scores and a non-empty word,
`encode_word` returns a result (no lookup throws and the backtracking loop ends
within `word.length + 1` steps), and in the filled vectors every reached
position `e > 0` has a recorded predecessor `s < e` that is itself reached, with
`word[s..e)` a key of the table; backtracking from such a position succeeds. -/
theorem encode_word_total (word : Str) (model : piece_map_t) (hf : finite_scores model)
    (hne : word ≠ []) :
    (∃ r, encode_word word model = .ok r) ∧
    ∀ e, 0 < e → e ≤ word.length →
      ((encode_word_table word model).best_segmentations_scores.getD e float.ninf).is_ninf =
        false →
      ∃ (s id : Nat) (sc : float), s < e ∧
        (encode_word_table word model).best_segmentations_starts.getD e (-1) = (s : Int) ∧
        map_find (substr word s (e - s)) model = some (id, sc) ∧
        ((encode_word_table word model).best_segmentations_scores.getD s float.ninf).is_ninf =
          false ∧
        ∀ fuel tokens, e ≤ fuel →
          ∃ ids, encode_word_backtrack word model
            (encode_word_table word model).best_segmentations_starts fuel
            ((encode_word_table word model).best_segmentations_starts.getD e (-1)) (e : Int)
            tokens = .ok ids := by
  have _ := hf
  have h := chain_inv_table word model
  have hpos : 0 < word.length := List.length_pos.mpr hne
  constructor
  · cases hr : ((encode_word_table word model).best_segmentations_scores.getD word.length
        float.ninf).is_ninf with
    | true =>
      refine ⟨([0], float.fin 0), ?_⟩
      unfold encode_word
      simp only [hr, if_true]
    | false =>
      obtain ⟨ps, -, -, -, b4⟩ := dp_backtrack word model _ h word.length hpos (Nat.le_refl _) hr
      refine ⟨(ps.map (piece_id model) ++ [],
        (encode_word_table word model).best_segmentations_scores.getD word.length float.ninf), ?_⟩
      unfold encode_word
      simp only [hr, Bool.false_eq_true, if_false]
      rw [b4 (word.length + 1) [] (by omega)]
  · intro e hpos he hreach
    obtain ⟨s1, id, sc, a1, -, a3, a4, a5, -⟩ := h.chain e hpos he hreach
    obtain ⟨ps, -, -, -, b4⟩ := dp_backtrack word model _ h e hpos he hreach
    refine ⟨s1, id, sc, a1, a3, a4, a5, ?_⟩
    intro fuel tokens hfuel
    exact ⟨_, b4 fuel tokens hfuel⟩

/-- C30, at the word `ab` over the table `a`, `b`, `ab`. -/
theorem encode_word_total_witness :
    ∃ r, encode_word [97, 98] three_piece_table = .ok r :=
  (encode_word_total [97, 98] three_piece_table
    (by
      intro e he
      simp only [three_piece_table, List.mem_cons, List.mem_singleton, List.not_mem_nil,
        or_false] at he
      rcases he with rfl | rfl | rfl <;> exact ⟨_, rfl⟩)
    (by decide)).1

set_option maxRecDepth 100000 in
/-- C22 as stated fails.  For the word `ab` over the table `a` (1), `b` (2),
`ab` (5/2), position 2 holds the score 7/2 when the candidate 4 through `b`
arrives: the candidate is numerically greater and the step changes nothing, so
`encode_word` returns the piece `ab`.  Over the table `a` (1), `b` (1), `ab`
(5), position 2 holds 6 when the candidate 3 arrives: the candidate is
numerically smaller and replaces score and predecessor. -/
theorem greater_candidate_not_taken :
    encode_word_outer [97, 98] three_piece_table 0 (encode_word_init [97, 98]) =
      { best_segmentations_starts := [0, 0, 0]
        best_segmentations_scores := [float.fin 1, float.fin 2, float.fin (7 / 2)] } ∧
    encode_word_inner [97, 98] three_piece_table 1 (float.fin 2) 2
        { best_segmentations_starts := [0, 0, 0]
          best_segmentations_scores := [float.fin 1, float.fin 2, float.fin (7 / 2)] } =
      { best_segmentations_starts := [0, 0, 0]
        best_segmentations_scores := [float.fin 1, float.fin 2, float.fin (7 / 2)] } ∧
    encode_word [97, 98] three_piece_table = .ok ([2], float.fin (7 / 2)) ∧
    encode_word_outer [97, 98] cheap_parts_table 0 (encode_word_init [97, 98]) =
      { best_segmentations_starts := [0, 0, 0]
        best_segmentations_scores := [float.fin 1, float.fin 2, float.fin 6] } ∧
    encode_word_inner [97, 98] cheap_parts_table 1 (float.fin 2) 2
        { best_segmentations_starts := [0, 0, 0]
          best_segmentations_scores := [float.fin 1, float.fin 2, float.fin 6] } =
      { best_segmentations_starts := [0, 0, 1]
        best_segmentations_scores := [float.fin 1, float.fin 2, float.fin 3] } := by
  refine ⟨?_, ?_, ?_, ?_, ?_⟩ <;> decide!

/-- C22 (amended): in the inner step of `encode_word`, for a known piece from a
reached start offset and an end position that is already reached, score and
predecessor of the end position are replaced exactly when the stored score is
numerically greater than the candidate (piece score plus best score at the
start), that is when the candidate is smaller; otherwise the step changes
nothing.  For numbers the candidate is their sum rounded to `float`, and the
comparison is that of the numbers. -/
theorem reached_end_replaced_when_stored_greater (word : Str) (model : piece_map_t)
    (s e : Nat) (st : segmentation_state) (id : Nat) (token_score best stored : float)
    (hfind : map_find (substr word s (e - s)) model = some (id, token_score))
    (hbest : best.is_ninf = false)
    (hstored : st.best_segmentations_scores.getD e float.ninf = stored)
    (hreached : stored.is_ninf = false)
    (he1 : e < st.best_segmentations_starts.length)
    (he2 : e < st.best_segmentations_scores.length) :
    (stored.gt (token_score.add best) = true →
      (encode_word_inner word model s best e st).best_segmentations_scores.getD e float.ninf =
        token_score.add best ∧
      (encode_word_inner word model s best e st).best_segmentations_starts.getD e (-1) =
        (s : Int)) ∧
    (stored.gt (token_score.add best) = false → encode_word_inner word model s best e st = st) ∧
    (∀ c t b : ℚ, stored = float.fin c → token_score = float.fin t → best = float.fin b →
      token_score.add best = fp_round binary32 (t + b) ∧
      ∀ r : ℚ, token_score.add best = float.fin r →
        (stored.gt (token_score.add best) = true ↔ r < c)) := by
  refine ⟨?_, ?_, ?_⟩
  · intro hgt
    have hstep : encode_word_inner word model s best e st =
        { best_segmentations_starts := st.best_segmentations_starts.set e (s : Int)
          best_segmentations_scores :=
            st.best_segmentations_scores.set e (token_score.add best) } := by
      unfold encode_word_inner
      simp only [hfind, hbest, hstored, hreached, hgt, Bool.false_eq_true, if_false,
        Bool.false_or, if_true]
    rw [hstep]
    exact ⟨getD_set_eq _ _ _ _ he2, getD_set_eq _ _ _ _ he1⟩
  · intro hgt
    unfold encode_word_inner
    simp only [hfind, hbest, hstored, hreached, hgt, Bool.false_eq_true, if_false,
      Bool.or_self]
  · intro c t b hc ht hb
    subst hc ht hb
    refine ⟨rfl, ?_⟩
    intro r hr
    rw [hr]
    simp [float.gt]

/-- C22 (amended), at the two steps of the counterexample: the stored 7/2 is
not greater than the candidate 4, the stored 6 is greater than the candidate
3. -/
theorem reached_end_replaced_when_stored_greater_witness :
    encode_word_inner [97, 98] three_piece_table 1 (float.fin 2) 2
        { best_segmentations_starts := [0, 0, 0]
          best_segmentations_scores := [float.fin 1, float.fin 2, float.fin (7 / 2)] } =
      { best_segmentations_starts := [0, 0, 0]
        best_segmentations_scores := [float.fin 1, float.fin 2, float.fin (7 / 2)] } ∧
    (encode_word_inner [97, 98] cheap_parts_table 1 (float.fin 2) 2
        { best_segmentations_starts := [0, 0, 0]
          best_segmentations_scores := [float.fin 1, float.fin 2, float.fin 6]
          }).best_segmentations_starts.getD 2 (-1) = ((1 : Nat) : Int) :=
  ⟨(reached_end_replaced_when_stored_greater [97, 98] three_piece_table 1 2
      { best_segmentations_starts := [0, 0, 0]
        best_segmentations_scores := [float.fin 1, float.fin 2, float.fin (7 / 2)] }
      1 (float.fin 2) (float.fin 2) (float.fin (7 / 2)) (by decide!) (by decide!)
      (by decide!) (by decide!) (by decide) (by decide)).2.1 (by decide!),
    ((reached_end_replaced_when_stored_greater [97, 98] cheap_parts_table 1 2
      { best_segmentations_starts := [0, 0, 0]
        best_segmentations_scores := [float.fin 1, float.fin 2, float.fin 6] }
      1 (float.fin 1) (float.fin 2) (float.fin 6) (by decide!) (by decide!)
      (by decide!) (by decide!) (by decide) (by decide)).1 (by decide!)).2⟩

/-! ## The two vocabulary loaders side by side -/

theorem mpt_token_ascii (g : ggml_lib) (w : Str) (hg : g.convert_to_wstring = utf8_decode)
    (hascii : ∀ b ∈ w, b < 128) : mpt_token g w = w := by
  unfold mpt_token
  rw [hg, utf8_decode_ascii w hascii]
  apply List.ext_getElem?
  intro j
  rw [List.getElem?_map]
  cases hj : w[j]? with
  | none => rfl
  | some b =>
    have hb : b < 128 := hascii b (List.getElem?_mem hj)
    simp only [Option.map_some', Option.some.injEq]
    omega

set_option maxRecDepth 100000 in
/-- C23 as stated fails: from the one entry U+0141 (bytes `C5 81`) the Replit
loader stores the two bytes unchanged under id 0, while the MPT loader stores
the one byte `41`. -/
theorem id_maps_differ :
    (∃ tok fin2,
      replit_tokenizer_load replit_tokenizer_empty
        (open_file (replit_vocab_bytes [([197, 129], 0)])) 1 = .ok (tok, fin2) ∧
      tok.raw_vocab.id_to_token = [(0, [197, 129])]) ∧
    (∃ st,
      mpt_load_vocab ggml_ref 1 gpt_vocab_empty (open_file (mpt_vocab_bytes [[197, 129]])) =
        .ok st ∧
      st.vocab.id_to_token = [(0, [65])]) :=
  ⟨⟨_, _, rfl, rfl⟩, ⟨_, rfl, rfl⟩⟩

/-- C23 (amended): from the same entry strings the Replit loader stores under
the sequential id `i` the bytes of entry `i` unchanged, and the MPT loader the
packed code points of entry `i`; the two id-to-token maps are equal exactly when
the packing leaves every entry unchanged, which is the case for all-ASCII
entries under the UTF-8 decoder. -/
theorem id_maps_agree_on_unchanged_entries (g : ggml_lib) (es : List (Str × Nat))
    (rest1 rest2 : List Nat) (hn : es.length < 2 ^ 31)
    (hb : ∀ e ∈ es, e.1.length < 2 ^ 32 ∧ e.2 < 2 ^ 32 ∧
      ∃ cps, g.convert_to_wstring e.1 = .ok cps) :
    ∃ tok st,
      replit_tokenizer_load replit_tokenizer_empty
        (open_file (replit_vocab_bytes es ++ rest1)) es.length = .ok (tok, open_file rest1) ∧
      mpt_load_vocab g es.length gpt_vocab_empty
        (open_file (mpt_vocab_bytes (es.map Prod.fst) ++ rest2)) = .ok st ∧
      (∀ (i : Nat) e, es[i]? = some e →
        map_find (i : Int) tok.raw_vocab.id_to_token = some e.1 ∧
        map_find (i : Int) st.vocab.id_to_token = some (mpt_token g e.1)) ∧
      (tok.raw_vocab.id_to_token = st.vocab.id_to_token ↔ ∀ e ∈ es, mpt_token g e.1 = e.1) ∧
      (g.convert_to_wstring = utf8_decode → (∀ e ∈ es, ∀ b ∈ e.1, b < 128) →
        tok.raw_vocab.id_to_token = st.vocab.id_to_token) := by
  have hr := replit_tokenizer_load_block es rest1 (fun e he => ⟨(hb e he).1, (hb e he).2.1⟩)
  have hbm : ∀ w ∈ es.map Prod.fst, w.length < 2 ^ 32 ∧
      ∃ cps, g.convert_to_wstring w = .ok cps := by
    intro w hw
    obtain ⟨e, he, rfl⟩ := List.mem_map.mp hw
    exact ⟨(hb e he).1, (hb e he).2.2⟩
  obtain ⟨buf, hm⟩ := mpt_load_vocab_block g (es.map Prod.fst) rest2 hbm
  rw [List.length_map] at hm
  have hidr := assign_enum_ids (fun e : Str × Nat => e.1) es hn
  have hidm := assign_enum_ids (mpt_token g) (es.map Prod.fst) (by rw [List.length_map]; exact hn)
  have hlook : ∀ (i : Nat) e, es[i]? = some e →
      map_find (i : Int)
          (assign_all ((es.enumFrom 0).map (fun p => (int32_of_nat p.1, p.2.1))) []) =
        some e.1 ∧
      map_find (i : Int)
          (assign_all
            (((es.map Prod.fst).enumFrom 0).map (fun p => (int32_of_nat p.1, mpt_token g p.2)))
            []) =
        some (mpt_token g e.1) := by
    intro i e hi
    exact ⟨hidr.1 i e hi, hidm.1 i e.1 (by rw [List.getElem?_map, hi]; rfl)⟩
  have hback : (∀ e ∈ es, mpt_token g e.1 = e.1) →
      assign_all ((es.enumFrom 0).map (fun p => (int32_of_nat p.1, p.2.1))) [] =
        assign_all
          (((es.map Prod.fst).enumFrom 0).map (fun p => (int32_of_nat p.1, mpt_token g p.2)))
          [] := by
    intro hsame
    congr 1
    apply List.ext_getElem?
    intro i
    rw [enum_map_getElem, enum_map_getElem, List.getElem?_map]
    cases hi : es[i]? with
    | none => rfl
    | some e =>
      simp only [Option.map_some']
      rw [hsame e (List.getElem?_mem hi)]
  refine ⟨_, _, hr, hm, hlook, ⟨?_, hback⟩, ?_⟩
  · intro heq e he
    obtain ⟨i, hi⟩ := List.mem_iff_getElem?.mp he
    have h1 := hlook i e hi
    dsimp only at heq
    rw [heq] at h1
    have := h1.1.symm.trans h1.2
    simp only [Option.some.injEq] at this
    exact this.symm
  · intro hg hascii
    exact hback (fun e he => mpt_token_ascii g e.1 hg (hascii e he))

/-- C23 (amended), at the block `a`, `b`. -/
theorem id_maps_agree_on_unchanged_entries_witness :
    ∃ tok st,
      replit_tokenizer_load replit_tokenizer_empty
        (open_file (replit_vocab_bytes [([97], 0), ([98], 1)] ++ []))
        ([([97], 0), ([98], 1)] : List (Str × Nat)).length = .ok (tok, open_file []) ∧
      mpt_load_vocab ggml_ref ([([97], 0), ([98], 1)] : List (Str × Nat)).length gpt_vocab_empty
        (open_file
          (mpt_vocab_bytes (([([97], 0), ([98], 1)] : List (Str × Nat)).map Prod.fst) ++ [])) =
        .ok st ∧
      (∀ (i : Nat) e, ([([97], 0), ([98], 1)] : List (Str × Nat))[i]? = some e →
        map_find (i : Int) tok.raw_vocab.id_to_token = some e.1 ∧
        map_find (i : Int) st.vocab.id_to_token = some (mpt_token ggml_ref e.1)) ∧
      (tok.raw_vocab.id_to_token = st.vocab.id_to_token ↔
        ∀ e ∈ ([([97], 0), ([98], 1)] : List (Str × Nat)), mpt_token ggml_ref e.1 = e.1) ∧
      (ggml_ref.convert_to_wstring = utf8_decode →
        (∀ e ∈ ([([97], 0), ([98], 1)] : List (Str × Nat)), ∀ b ∈ e.1, b < 128) →
        tok.raw_vocab.id_to_token = st.vocab.id_to_token) :=
  id_maps_agree_on_unchanged_entries ggml_ref [([97], 0), ([98], 1)] [] [] (by decide)
    (by
      intro e he
      simp only [List.mem_cons, List.mem_singleton, List.not_mem_nil, or_false] at he
      rcases he with rfl | rfl
      · exact ⟨by decide, by decide, [97], utf8_decode_a_b.1⟩
      · exact ⟨by decide, by decide, [98], utf8_decode_a_b.2⟩)

/-! ## The cache views of a layer -/

theorem kv_view_bounds (d C k N : Int) (L l : Nat) (hl : l < L) (hd : 0 ≤ d) (hk : 0 ≤ k)
    (hN : 0 ≤ N) (hC : k + N ≤ C) :
    0 ≤ (l : Int) * C ∧ ((l : Int) + 1) * C ≤ (L : Int) * C ∧
    (l : Int) * C * d ≤ d * ((l : Int) * C + k) ∧
    d * ((l : Int) * C + k) + N * d ≤ ((l : Int) + 1) * C * d ∧
    ((l : Int) + 1) * C * d ≤ C * (L : Int) * d ∧ 0 ≤ (l : Int) * C * d ∧ 0 ≤ N * d ∧
    N * d ≤ C * d ∧ (k + N) * d ≤ C * d := by
  have hC0 : 0 ≤ C := by omega
  have hl0 : (0 : Int) ≤ (l : Int) := by omega
  have a1 : 0 ≤ (l : Int) * C := mul_nonneg hl0 hC0
  have hlL : ((l : Int) + 1) ≤ (L : Int) := by exact_mod_cast hl
  have a2 : ((l : Int) + 1) * C ≤ (L : Int) * C := mul_le_mul_of_nonneg_right hlL hC0
  have a3 : d * ((l : Int) * C) ≤ d * ((l : Int) * C + k) :=
    mul_le_mul_of_nonneg_left (by omega) hd
  have a4 : d * ((l : Int) * C + k + N) ≤ d * (((l : Int) + 1) * C) :=
    mul_le_mul_of_nonneg_left (by linarith) hd
  have a5 : d * (((l : Int) + 1) * C) ≤ d * ((L : Int) * C) := mul_le_mul_of_nonneg_left a2 hd
  have a6 : 0 ≤ d * ((l : Int) * C) := mul_nonneg hd a1
  have a7 : 0 ≤ N * d := mul_nonneg hN hd
  have a8 : N * d ≤ C * d := mul_le_mul_of_nonneg_right (by omega) hd
  have a9 : (k + N) * d ≤ C * d := mul_le_mul_of_nonneg_right hC hd
  refine ⟨a1, a2, by linarith, by linarith, by linarith, by linarith, a7, a8, a9⟩

theorem cache_store_inside (mem : List Nat) (src : Nat → Nat) (start count : Int)
    (h0 : 0 ≤ start) (h1 : 0 ≤ count) (h2 : start + count ≤ (mem.length : Int)) :
    cache_store mem src start count =
      .ok (mem.take start.toNat ++ (List.range count.toNat).map src ++
        mem.drop (start.toNat + count.toNat)) := by
  unfold cache_store
  rw [if_neg (by omega)]

theorem eval_layer_inside (b : eval_backend) (d C k N : Int) (L l : Nat) (st : eval_state)
    (hl : l < L) (hd : 0 ≤ d) (hk : 0 ≤ k) (hN : 0 ≤ N) (hC : k + N ≤ C)
    (hlenk : (st.memory_k.length : Int) = C * (L : Int) * d)
    (hlenv : (st.memory_v.length : Int) = C * (L : Int) * d)
    (hint : (L : Int) * C < 2 ^ 31) (hint2 : C * d < 2 ^ 31) :
    ∃ st2, eval_layer b d C k N l st = .ok st2 ∧
      st2.memory_k =
        st.memory_k.take (kv_write_view d C k N l).1.toNat ++
          (List.range (kv_write_view d C k N l).2.toNat).map
            (b.Kcur l st.memory_k st.memory_v) ++
          st.memory_k.drop
            ((kv_write_view d C k N l).1.toNat + (kv_write_view d C k N l).2.toNat) ∧
      st2.memory_v =
        st.memory_v.take (kv_write_view d C k N l).1.toNat ++
          (List.range (kv_write_view d C k N l).2.toNat).map
            (b.Vcur l st2.memory_k st.memory_v) ++
          st.memory_v.drop
            ((kv_write_view d C k N l).1.toNat + (kv_write_view d C k N l).2.toNat) := by
  obtain ⟨a1, a2, a3, a4, a5, a6, a7, a8, a9⟩ := kv_view_bounds d C k N L l hl hd hk hN hC
  have hC0 : 0 ≤ C := by omega
  have hints : int_ok (N * d) = true ∧ int_ok ((l : Int) * C) = true ∧
      int_ok ((l : Int) * C + k) = true ∧ int_ok (k + N) = true ∧
      int_ok ((k + N) * d) = true := by
    have hCL : C ≤ (L : Int) * C := by nlinarith
    have hkN : 0 ≤ (k + N) * d := mul_nonneg (by omega) hd
    simp only [int_ok, decide_eq_true_eq]
    refine ⟨⟨by omega, by omega⟩, ⟨by omega, by linarith⟩, ⟨by omega, by linarith⟩,
      ⟨by omega, by omega⟩, ⟨by omega, by omega⟩⟩
  have hk1 := cache_store_inside st.memory_k (b.Kcur l st.memory_k st.memory_v)
    (d * ((l : Int) * C + k)) (N * d) (by linarith) a7 (by rw [hlenk]; linarith)
  have hlen2 : (st.memory_k.take (d * ((l : Int) * C + k)).toNat ++
      (List.range (N * d).toNat).map (b.Kcur l st.memory_k st.memory_v) ++
      st.memory_k.drop ((d * ((l : Int) * C + k)).toNat + (N * d).toNat)).length =
      st.memory_k.length := by
    apply store_length
    have : d * ((l : Int) * C + k) + N * d ≤ (st.memory_k.length : Int) := by
      rw [hlenk]; linarith
    have h0 : 0 ≤ d * ((l : Int) * C + k) := by linarith
    omega
  refine ⟨{ st with
      memory_k :=
        st.memory_k.take (kv_write_view d C k N l).1.toNat ++
          (List.range (kv_write_view d C k N l).2.toNat).map
            (b.Kcur l st.memory_k st.memory_v) ++
          st.memory_k.drop
            ((kv_write_view d C k N l).1.toNat + (kv_write_view d C k N l).2.toNat)
      memory_v :=
        st.memory_v.take (kv_write_view d C k N l).1.toNat ++
          (List.range (kv_write_view d C k N l).2.toNat).map
            (b.Vcur l
              (st.memory_k.take (kv_write_view d C k N l).1.toNat ++
                (List.range (kv_write_view d C k N l).2.toNat).map
                  (b.Kcur l st.memory_k st.memory_v) ++
                st.memory_k.drop
                  ((kv_write_view d C k N l).1.toNat + (kv_write_view d C k N l).2.toNat))
              st.memory_v) ++
          st.memory_v.drop
            ((kv_write_view d C k N l).1.toNat + (kv_write_view d C k N l).2.toNat) },
    ?_, rfl, rfl⟩
  unfold eval_layer
  rw [if_neg (by simp [hints])]
  simp only [hk1]
  rw [cache_store_inside st.memory_v _ (d * ((l : Int) * C + k)) (N * d) (by linarith) a7
    (by rw [hlenv]; linarith)]
  rfl

theorem eval_layers_inside (b : eval_backend) (d C k N : Int) (L : Nat) (hd : 0 ≤ d)
    (hk : 0 ≤ k) (hN : 0 ≤ N) (hC : k + N ≤ C) (hint : (L : Int) * C < 2 ^ 31)
    (hint2 : C * d < 2 ^ 31) :
    ∀ (n i : Nat) (st : eval_state), i + n ≤ L →
      (st.memory_k.length : Int) = C * (L : Int) * d →
      (st.memory_v.length : Int) = C * (L : Int) * d →
      ∃ st2, for_loop_except (eval_layer b d C k N) i n st = .ok st2 := by
  intro n
  induction n with
  | zero => intro i st _ _ _; exact ⟨st, rfl⟩
  | succ n ih =>
    intro i st hi hlk hlv
    obtain ⟨st1, h1, -, -⟩ :=
      eval_layer_inside b d C k N L i st (by omega) hd hk hN hC hlk hlv hint hint2
    obtain ⟨-, -, -, f4, f5, -⟩ := eval_layer_frame b d C k N i st st1 h1
    obtain ⟨st2, h2⟩ := ih (i + 1) st1 (by omega) (by rw [f4]; exact hlk) (by rw [f5]; exact hlv)
    exact ⟨st2, by rw [for_loop_except, h1]; exact h2⟩

/-- C21: in the layer step both evaluation routines share (`mpt_eval` strides
by `C = n_ctx`, `replit_eval` by `C = max_seq_len`, the length each loader sizes
the cache by), for a layer `l < n_layers`, `n_past = k >= 0` and `N` new tokens
with `k + N <= C`, over caches of `C * n_layers * d_model` elements: the store
view starts at element `(l * C + k) * d_model`, has `N * d_model` elements, and
lies inside the region `[l * C * d_model, (l + 1) * C * d_model)` of layer `l`,
which lies inside the tensor; the read view has `(k + N) * d_model` elements
from `l * C * d_model` on and ends where the store view ends.  The step stores
through exactly that view, and the loop over all layers completes. -/
theorem kv_views_inside_layer_region (b : eval_backend) (d C k N : Int) (L l : Nat)
    (st : eval_state) (hl : l < L) (hd : 0 ≤ d) (hk : 0 ≤ k) (hN : 0 ≤ N) (hC : k + N ≤ C)
    (hlenk : (st.memory_k.length : Int) = C * (L : Int) * d)
    (hlenv : (st.memory_v.length : Int) = C * (L : Int) * d)
    (hint : (L : Int) * C < 2 ^ 31) (hint2 : C * d < 2 ^ 31) :
    (kv_write_view d C k N l).1 = ((l : Int) * C + k) * d ∧
    (kv_write_view d C k N l).2 = N * d ∧
    (l : Int) * C * d ≤ (kv_write_view d C k N l).1 ∧
    (kv_write_view d C k N l).1 + (kv_write_view d C k N l).2 ≤ ((l : Int) + 1) * C * d ∧
    0 ≤ (l : Int) * C * d ∧ ((l : Int) + 1) * C * d ≤ C * (L : Int) * d ∧
    (kv_read_view d C k N l).1 = (l : Int) * C * d ∧
    (kv_read_view d C k N l).2 = (k + N) * d ∧
    (kv_read_view d C k N l).1 + (kv_read_view d C k N l).2 =
      (kv_write_view d C k N l).1 + (kv_write_view d C k N l).2 ∧
    (∃ st2, eval_layer b d C k N l st = .ok st2 ∧
      st2.memory_k =
        st.memory_k.take (kv_write_view d C k N l).1.toNat ++
          (List.range (kv_write_view d C k N l).2.toNat).map
            (b.Kcur l st.memory_k st.memory_v) ++
          st.memory_k.drop
            ((kv_write_view d C k N l).1.toNat + (kv_write_view d C k N l).2.toNat) ∧
      st2.memory_v =
        st.memory_v.take (kv_write_view d C k N l).1.toNat ++
          (List.range (kv_write_view d C k N l).2.toNat).map
            (b.Vcur l st2.memory_k st.memory_v) ++
          st.memory_v.drop
            ((kv_write_view d C k N l).1.toNat + (kv_write_view d C k N l).2.toNat)) ∧
    (∃ st3, for_loop_except (eval_layer b d C k N) 0 L st = .ok st3) := by
  obtain ⟨a1, a2, a3, a4, a5, a6, a7, a8, a9⟩ := kv_view_bounds d C k N L l hl hd hk hN hC
  refine ⟨by simp only [kv_write_view]; ring, rfl, a3, a4, a6, a5, rfl, rfl,
    by simp only [kv_read_view, kv_write_view]; ring,
    eval_layer_inside b d C k N L l st hl hd hk hN hC hlenk hlenv hint hint2,
    eval_layers_inside b d C k N L hd hk hN hC hint hint2 L 0 st (by omega) hlenk hlenv⟩

set_option maxRecDepth 100000 in
/-- C21, at layer 1 of two layers with `C = 2`, `d_model = 1`, one position in
the cache and one new token: the store view is element 3 alone, inside the
region `[2, 4)` of layer 1. -/
theorem kv_views_inside_layer_region_witness :
    kv_write_view 1 2 1 1 1 = (3, 1) ∧ kv_read_view 1 2 1 1 1 = (2, 2) ∧
    eval_layer sample_backend 1 2 1 1 1 used_eval_state =
      .ok { used_eval_state with
            memory_k := [11, 12, 13, 110], memory_v := [21, 22, 23, 210] } ∧
    ∃ st3, for_loop_except (eval_layer sample_backend 1 2 1 1) 0 2 used_eval_state = .ok st3 :=
  ⟨rfl, rfl, rfl,
    (kv_views_inside_layer_region sample_backend 1 2 1 1 2 1 used_eval_state (by decide)
      (by decide) (by decide) (by decide) (by decide) (by decide) (by decide) (by decide)
      (by decide)).2.2.2.2.2.2.2.2.2.2⟩

/-! ## Further claims about the tensor record loop -/

theorem c_str_append_nul (T junk : Str) (hT : ∀ b ∈ T, b ≠ 0) :
    c_str T = T ∧ c_str (T ++ 0 :: junk) = T := by
  induction T with
  | nil => simp [c_str]
  | cons a T ih =>
    have ha : a ≠ 0 := hT a (List.mem_cons_self _ _)
    have ih2 := ih (fun b hb => hT b (List.mem_cons_of_mem _ hb))
    have hp : decide (a ≠ 0) = true := decide_eq_true ha
    unfold c_str at ih2 ⊢
    constructor
    · rw [List.takeWhile_cons]
      simp only [hp, if_true, ih2.1]
    · rw [List.cons_append, List.takeWhile_cons]
      simp only [hp, if_true, ih2.2]

theorem c_str_shape (name : Str) :
    name = c_str name ∨ ∃ junk, name = c_str name ++ 0 :: junk := by
  induction name with
  | nil => left; rfl
  | cons a name ih =>
    by_cases ha : a = 0
    · right
      exact ⟨name, by simp [c_str, ha]⟩
    · have hc : c_str (a :: name) = a :: c_str name := by
        simp [c_str, List.takeWhile_cons, ha]
      rcases ih with h | ⟨junk, h⟩
      · left
        rw [hc, ← h]
      · right
        refine ⟨junk, ?_⟩
        rw [hc, List.cons_append, ← h]

/-- C27: the record loop looks a record up under its name cut at the first NUL
byte.  For a registered name `T` (without NUL byte): the record's key is `T`
exactly when its name is `T` or `T` followed by a NUL byte and arbitrary bytes;
with that key the record is checked against the tensor registered under `T` and,
when it passes, its data is stored there; with any other key an accepted record
leaves the tensor registered under `T` as it was. -/
theorem record_key_is_name_before_nul (g : ggml_lib) (tensors : tensor_map) (fin : istream)
    (r : tensor_record) (T : Str) (tensor : ggml_tensor)
    (hread : read_tensor_record fin = .ok (some r))
    (hT : ∀ b ∈ T, b ≠ 0) (hreg : map_find T tensors = some tensor) :
    (c_str r.name = T ↔ r.name = T ∨ ∃ junk, r.name = T ++ 0 :: junk) ∧
    (c_str r.name = T →
      load_record g tensors fin =
        if g.nelements tensor ≠ r.nelements ∨ tensor.ne0 ≠ r.ne0 ∨ tensor.ne1 ≠ r.ne1 ∨
            record_size g r tensor ≠ g.nbytes tensor then
          .ok (.return_false tensors r.fin)
        else
          .ok (.next
            (map_assign T (store_data tensor (r.fin.read (g.nbytes tensor)).1) tensors)
            (r.fin.read (g.nbytes tensor)).2)) ∧
    (c_str r.name ≠ T → ∀ t1 f1, load_record g tensors fin = .ok (.next t1 f1) →
      map_find T t1 = some tensor) := by
  refine ⟨⟨?_, ?_⟩, ?_, ?_⟩
  · intro h
    rcases c_str_shape r.name with h1 | ⟨junk, h1⟩
    · left
      rw [← h, ← h1]
    · right
      exact ⟨junk, by rw [← h]; exact h1⟩
  · rintro (h | ⟨junk, h⟩)
    · rw [h]
      exact (c_str_append_nul T [] hT).1
    · rw [h]
      exact (c_str_append_nul T junk hT).2
  · intro hkey
    unfold load_record
    simp only [hread, hkey, hreg]
    by_cases h1 : g.nelements tensor ≠ r.nelements
    · rw [if_pos h1, if_pos (Or.inl h1)]
    · by_cases h2 : tensor.ne0 ≠ r.ne0 ∨ tensor.ne1 ≠ r.ne1
      · rw [if_neg h1, if_pos h2, if_pos (by tauto)]
      · by_cases h3 : record_size g r tensor ≠ g.nbytes tensor
        · rw [if_neg h1, if_neg h2, if_pos h3, if_pos (by tauto)]
        · rw [if_neg h1, if_neg h2, if_neg h3, if_neg (by tauto)]
  · intro hkey t1 f1 hload
    unfold load_record at hload
    simp only [hread] at hload
    split at hload
    · cases hload
    · rename_i tensor2 hfind2
      split at hload
      · cases hload
      · split at hload
        · cases hload
        · split at hload
          · cases hload
          · simp only [Except.ok.injEq, record_result.next.injEq] at hload
            rw [← hload.1, map_find_assign, if_neg hkey]
            exact hreg

/-- C27, at the record named `transformer.wte.weight\\0x` read against the sample
directory: its key is the name of the embedding. -/
theorem record_key_is_name_before_nul_witness :
    (c_str (ascii "transformer.wte.weight" ++ [0, 120]) = ascii "transformer.wte.weight" ↔
      ascii "transformer.wte.weight" ++ [0, 120] = ascii "transformer.wte.weight" ∨
      ∃ junk, ascii "transformer.wte.weight" ++ [0, 120] =
        ascii "transformer.wte.weight" ++ 0 :: junk) :=
  (record_key_is_name_before_nul ggml_ref sample_tensors (open_file nul_name_record)
    { n_dims := 2, length := 24, ttype := 0, nelements := 2, ne0 := 2, ne1 := 1
      name := ascii "transformer.wte.weight" ++ [0, 120]
      fin := open_file [1, 2, 3, 4, 5, 6, 7, 8] }
    (ascii "transformer.wte.weight") (ggml_new_tensor_2d 0 2 1) (by decide!) (by decide)
    (by decide!)).1

/-- C28: the type code of a record enters the record loop only through its
element size.  Two records that differ in nothing but the type code, of codes
with equal element size, end the iteration in the same way; the declared type of
the tensor is not compared with the code, and an accepted record leaves the
tensor with its declared type and shape and with the bytes read from the file
as its data. -/
theorem type_code_enters_through_size (g : ggml_lib) (tensors : tensor_map)
    (fin1 fin2 : istream) (r1 r2 : tensor_record)
    (h1 : read_tensor_record fin1 = .ok (some r1))
    (h2 : read_tensor_record fin2 = .ok (some r2))
    (hsame : r2 = { r1 with ttype := r2.ttype })
    (hsize : g.ggml_type_size r1.ttype = g.ggml_type_size r2.ttype) :
    load_record g tensors fin2 = load_record g tensors fin1 ∧
    ∀ t1 f1, load_record g tensors fin1 = .ok (.next t1 f1) →
      ∃ tensor, map_find (c_str r1.name) tensors = some tensor ∧
        t1 = map_assign (c_str r1.name)
          { type := tensor.type, ne0 := tensor.ne0, ne1 := tensor.ne1, gpu := tensor.gpu
            data := overlay tensor.data (r1.fin.read (g.nbytes tensor)).1 } tensors := by
  have hname : r2.name = r1.name := by rw [hsame]
  have hfin : r2.fin = r1.fin := by rw [hsame]
  have hnel : r2.nelements = r1.nelements := by rw [hsame]
  have hne0 : r2.ne0 = r1.ne0 := by rw [hsame]
  have hne1 : r2.ne1 = r1.ne1 := by rw [hsame]
  have hrs : ∀ tensor, record_size g r2 tensor = record_size g r1 tensor := by
    intro tensor
    unfold record_size
    rw [hnel, hsize]
  constructor
  · unfold load_record
    simp only [h1, h2, hname, hfin, hnel, hne0, hne1, hrs]
  · intro t1 f1 hload
    unfold load_record at hload
    simp only [h1] at hload
    split at hload
    · cases hload
    · rename_i tensor hfind
      split at hload
      · cases hload
      · split at hload
        · cases hload
        · split at hload
          · cases hload
          · simp only [Except.ok.injEq, record_result.next.injEq] at hload
            exact ⟨tensor, hfind, hload.1.symm⟩

/-- C28, at the records of `transformer.norm_f.weight` (declared F32) with the
type codes 0 (F32) and 18 (I32), both of four bytes per element: both are
accepted. -/
theorem type_code_enters_through_size_witness :
    load_record ggml_ref sample_tensors (open_file norm_f_i32_record) =
      load_record ggml_ref sample_tensors (open_file norm_f_record) :=
  (type_code_enters_through_size ggml_ref sample_tensors (open_file norm_f_record)
    (open_file norm_f_i32_record)
    { n_dims := 1, length := 25, ttype := 0, nelements := 2, ne0 := 2, ne1 := 1
      name := ascii "transformer.norm_f.weight"
      fin := open_file [9, 10, 11, 12, 13, 14, 15, 16] }
    { n_dims := 1, length := 25, ttype := 18, nelements := 2, ne0 := 2, ne1 := 1
      name := ascii "transformer.norm_f.weight"
      fin := open_file [9, 10, 11, 12, 13, 14, 15, 16] }
    (by decide!) (by decide!) rfl (by decide!)).1

set_option maxRecDepth 100000 in
/-- C26: no read is checked for the number of bytes it delivered.  The sample
files ending after three of the eight data bytes of the record of the
embedding load with the result true and the embedding holding those three
bytes; the sample files ending inside the header of a second record load with
the result true as well. -/
theorem short_read_returns_true :
    mpt_model_load ggml_ref (open_file mpt_cut_data_file) mpt_model_empty gpt_vocab_empty 0 =
      .ok { ret := true
            model :=
              { mpt_sample_model with
                tensors :=
                  [(ascii "transformer.wte.weight",
                      { type := 0, ne0 := 2, ne1 := 1, gpu := false, data := [1, 2, 3] }),
                   (ascii "transformer.norm_f.weight", ggml_new_tensor_1d 0 2)] }
            vocab := sample_vocab } ∧
    replit_model_load ggml_ref (open_file replit_cut_data_file) replit_model_empty
        replit_tokenizer_empty =
      .ok { ret := true
            model :=
              { replit_sample_model with
                tensors :=
                  [(ascii "transformer.wte.weight",
                      { type := 0, ne0 := 2, ne1 := 1, gpu := false, data := [1, 2, 3] }),
                   (ascii "transformer.norm_f.weight", ggml_new_tensor_1d 0 2)] }
            vocab := sample_tokenizer } ∧
    mpt_model_load ggml_ref (open_file mpt_cut_header_file) mpt_model_empty gpt_vocab_empty 0 =
      .ok { ret := true
            model :=
              { mpt_sample_model with
                tensors :=
                  [(ascii "transformer.wte.weight",
                      { type := 0, ne0 := 2, ne1 := 1, gpu := false
                        data := [1, 2, 3, 4, 5, 6, 7, 8] }),
                   (ascii "transformer.norm_f.weight", ggml_new_tensor_1d 0 2)] }
            vocab := sample_vocab } ∧
    replit_model_load ggml_ref (open_file replit_cut_header_file) replit_model_empty
        replit_tokenizer_empty =
      .ok { ret := true
            model :=
              { replit_sample_model with
                tensors :=
                  [(ascii "transformer.wte.weight",
                      { type := 0, ne0 := 2, ne1 := 1, gpu := false
                        data := [1, 2, 3, 4, 5, 6, 7, 8] }),
                   (ascii "transformer.norm_f.weight", ggml_new_tensor_1d 0 2)] }
            vocab := sample_tokenizer } := by
  refine ⟨by decide!, by decide!, by decide!, by decide!⟩

/-! ## What a failed load leaves behind -/

theorem mpt_head_updates (g : ggml_lib) (fin : istream) (model : mpt_model) (vocab : gpt_vocab)
    (gpu_layers : Int) (h : head_result mpt_model gpt_vocab)
    (hh : mpt_model_load_head g fin model vocab gpu_layers = .ok h) :
    (h = .return_false model vocab ∧
      (fin.failbit = true ∨
        ∃ magic fin1, read_u32 fin = .ok (magic, fin1) ∧ magic ≠ g.GGML_FILE_MAGIC)) ∨
    (∃ fin1 vs, read_u32 fin = .ok (g.GGML_FILE_MAGIC, fin1) ∧
      mpt_load_vocab g (mpt_load_hparams g model.hparams fin1).1.n_vocab vocab
        (mpt_load_hparams g model.hparams fin1).2 = .ok vs ∧
      ((∃ m, h = .return_false m vs.vocab ∧
          m.hparams = (mpt_load_hparams g model.hparams fin1).1 ∧
          m.tensors = model.tensors) ∨
        (∃ m f, h = .proceed m vs.vocab f ∧
          m.hparams = (mpt_load_hparams g model.hparams fin1).1))) := by
  unfold mpt_model_load_head at hh
  split at hh
  · rename_i hfail
    simp only [Except.ok.injEq] at hh
    exact Or.inl ⟨hh.symm, Or.inl hfail⟩
  · split at hh
    · cases hh
    · rename_i magic fin1 hread
      split at hh
      · rename_i hmagic
        simp only [Except.ok.injEq] at hh
        exact Or.inl ⟨hh.symm, Or.inr ⟨magic, fin1, hread, hmagic⟩⟩
      · rename_i hmagic
        have hm : magic = g.GGML_FILE_MAGIC := by
          by_contra hc
          exact hmagic hc
        subst hm
        dsimp only at hh
        split at hh
        · cases hh
        · rename_i vs hv
          refine Or.inr ⟨fin1, vs, hread, hv, ?_⟩
          split at hh
          · simp only [Except.ok.injEq] at hh
            exact Or.inl ⟨_, hh.symm, rfl, rfl⟩
          · split at hh
            · simp only [Except.ok.injEq] at hh
              exact Or.inl ⟨_, hh.symm, rfl, rfl⟩
            · split at hh
              · cases hh
              · simp only [Except.ok.injEq] at hh
                exact Or.inr ⟨_, _, hh.symm, rfl⟩

theorem replit_head_updates (g : ggml_lib) (fin : istream) (model : replit_model)
    (tokenizer : replit_tokenizer) (h : head_result replit_model replit_tokenizer)
    (hh : replit_model_load_head g fin model tokenizer = .ok h) :
    (h = .return_false model tokenizer ∧
      (fin.failbit = true ∨
        ∃ magic fin1, read_u32 fin = .ok (magic, fin1) ∧ magic ≠ g.GGML_FILE_MAGIC)) ∨
    (∃ fin1 tokenizer1 fin2, read_u32 fin = .ok (g.GGML_FILE_MAGIC, fin1) ∧
      replit_tokenizer_load tokenizer (replit_load_hparams g model.hparams fin1).2
        (replit_load_hparams g model.hparams fin1).1.n_vocab = .ok (tokenizer1, fin2) ∧
      ((∃ m, h = .return_false m tokenizer1 ∧
          m.hparams = (replit_load_hparams g model.hparams fin1).1 ∧
          m.tensors = model.tensors) ∨
        (∃ m f, h = .proceed m tokenizer1 f ∧
          m.hparams = (replit_load_hparams g model.hparams fin1).1))) := by
  unfold replit_model_load_head at hh
  split at hh
  · rename_i hfail
    simp only [Except.ok.injEq] at hh
    exact Or.inl ⟨hh.symm, Or.inl hfail⟩
  · split at hh
    · cases hh
    · rename_i magic fin1 hread
      split at hh
      · rename_i hmagic
        simp only [Except.ok.injEq] at hh
        exact Or.inl ⟨hh.symm, Or.inr ⟨magic, fin1, hread, hmagic⟩⟩
      · rename_i hmagic
        have hm : magic = g.GGML_FILE_MAGIC := by
          by_contra hc
          exact hmagic hc
        subst hm
        dsimp only at hh
        split at hh
        · cases hh
        · rename_i tokenizer1 fin2 hv
          refine Or.inr ⟨fin1, tokenizer1, fin2, hread, hv, ?_⟩
          split at hh
          · simp only [Except.ok.injEq] at hh
            exact Or.inl ⟨_, hh.symm, rfl, rfl⟩
          · split at hh
            · simp only [Except.ok.injEq] at hh
              exact Or.inl ⟨_, hh.symm, rfl, rfl⟩
            · split at hh
              · cases hh
              · simp only [Except.ok.injEq] at hh
                exact Or.inr ⟨_, _, hh.symm, rfl⟩

set_option maxRecDepth 100000 in
/-- C25 as stated fails: on the sample files followed by a record of an
undeclared tensor both loaders return false, and the caller's model then holds
the hyperparameters of the file, the created context, the declared cache
tensors and the declared directory, and the vocabulary or tokenizer holds the
entry read; `replit_llm::Load` returns false with `model_` and
`replit_tokenizer_` so changed. -/
theorem failed_load_leaves_partial_state :
    mpt_model_load ggml_ref (open_file mpt_unknown_tensor_file) mpt_model_empty
        gpt_vocab_empty 0 =
      .ok { ret := false, model := mpt_sample_model, vocab := sample_vocab } ∧
    mpt_sample_model ≠ mpt_model_empty ∧ sample_vocab ≠ gpt_vocab_empty ∧
    replit_model_load ggml_ref (open_file replit_unknown_tensor_file) replit_model_empty
        replit_tokenizer_empty =
      .ok { ret := false, model := replit_sample_model, vocab := sample_tokenizer } ∧
    replit_sample_model ≠ replit_model_empty ∧ sample_tokenizer ≠ replit_tokenizer_empty ∧
    replit_llm_Load ggml_ref (open_file replit_unknown_tensor_file) 0 (replit_llm_new 0) =
      .ok (false,
        { model_ := replit_sample_model, replit_tokenizer_ := sample_tokenizer
          vocab_ := gpt_vocab_empty, n_ctx_ := 0 }) := by
  refine ⟨by decide!, by decide!, by decide!, by decide!, by decide!, by decide!, by decide!⟩

/-- C25 (amended): a loader that returns false leaves the objects of the caller
unchanged only when it fails on the stream or the magic number.  Every later
false return (bad ftype, failed `ggml_init`, a record that is refused) leaves
the hyperparameters overwritten with the values read from the file and the
vocabulary or tokenizer with the entries read.  A failed `replit_llm::Load`
leaves `vocab_` and `n_ctx_` as they were. -/
theorem failed_load_outcome (g : ggml_lib) (fin : istream) :
    (∀ (model : mpt_model) (vocab : gpt_vocab) (gpu_layers : Int)
        (r : load_result mpt_model gpt_vocab),
      mpt_model_load g fin model vocab gpu_layers = .ok r → r.ret = false →
      (r.model = model ∧ r.vocab = vocab ∧
        (fin.failbit = true ∨
          ∃ magic fin1, read_u32 fin = .ok (magic, fin1) ∧ magic ≠ g.GGML_FILE_MAGIC)) ∨
      (∃ fin1 vs, read_u32 fin = .ok (g.GGML_FILE_MAGIC, fin1) ∧
        mpt_load_vocab g (mpt_load_hparams g model.hparams fin1).1.n_vocab vocab
          (mpt_load_hparams g model.hparams fin1).2 = .ok vs ∧
        r.model.hparams = (mpt_load_hparams g model.hparams fin1).1 ∧
        r.vocab = vs.vocab)) ∧
    (∀ (model : replit_model) (tokenizer : replit_tokenizer)
        (r : load_result replit_model replit_tokenizer),
      replit_model_load g fin model tokenizer = .ok r → r.ret = false →
      (r.model = model ∧ r.vocab = tokenizer ∧
        (fin.failbit = true ∨
          ∃ magic fin1, read_u32 fin = .ok (magic, fin1) ∧ magic ≠ g.GGML_FILE_MAGIC)) ∨
      (∃ fin1 tokenizer1 fin2, read_u32 fin = .ok (g.GGML_FILE_MAGIC, fin1) ∧
        replit_tokenizer_load tokenizer (replit_load_hparams g model.hparams fin1).2
          (replit_load_hparams g model.hparams fin1).1.n_vocab = .ok (tokenizer1, fin2) ∧
        r.model.hparams = (replit_load_hparams g model.hparams fin1).1 ∧
        r.vocab = tokenizer1)) ∧
    (∀ (context_length : Int) (self r : replit_llm),
      replit_llm_Load g fin context_length self = .ok (false, r) →
      r.vocab_ = self.vocab_ ∧ r.n_ctx_ = self.n_ctx_) := by
  refine ⟨?_, ?_, ?_⟩
  · intro model vocab gpu_layers r h hret
    unfold mpt_model_load at h
    split at h
    · cases h
    · rename_i model1 vocab1 hhead
      simp only [Except.ok.injEq] at h
      subst h
      rcases mpt_head_updates g fin model vocab gpu_layers _ hhead with
        ⟨heq, hcause⟩ | ⟨fin1, vs, hread, hv, hcase⟩
      · simp only [head_result.return_false.injEq] at heq
        exact Or.inl ⟨heq.1, heq.2, hcause⟩
      · rcases hcase with ⟨m, heq, hm, -⟩ | ⟨m, f, heq, -⟩
        · simp only [head_result.return_false.injEq] at heq
          refine Or.inr ⟨fin1, vs, hread, hv, ?_, heq.2⟩
          dsimp only
          rw [heq.1, hm]
        · cases heq
    · rename_i model1 vocab1 fin1x hhead
      split at h
      · cases h
      · simp only [Except.ok.injEq] at h
        subst h
        rcases mpt_head_updates g fin model vocab gpu_layers _ hhead with
          ⟨heq, -⟩ | ⟨fin1, vs, hread, hv, hcase⟩
        · cases heq
        · rcases hcase with ⟨m, heq, -, -⟩ | ⟨m, f, heq, hm⟩
          · cases heq
          · simp only [head_result.proceed.injEq] at heq
            refine Or.inr ⟨fin1, vs, hread, hv, ?_, heq.2.1⟩
            dsimp only
            rw [heq.1, hm]
  · intro model tokenizer r h hret
    unfold replit_model_load at h
    split at h
    · cases h
    · rename_i model1 vocab1 hhead
      simp only [Except.ok.injEq] at h
      subst h
      rcases replit_head_updates g fin model tokenizer _ hhead with
        ⟨heq, hcause⟩ | ⟨fin1, tokenizer1, fin2, hread, hv, hcase⟩
      · simp only [head_result.return_false.injEq] at heq
        exact Or.inl ⟨heq.1, heq.2, hcause⟩
      · rcases hcase with ⟨m, heq, hm, -⟩ | ⟨m, f, heq, -⟩
        · simp only [head_result.return_false.injEq] at heq
          refine Or.inr ⟨fin1, tokenizer1, fin2, hread, hv, ?_, heq.2⟩
          dsimp only
          rw [heq.1, hm]
        · cases heq
    · rename_i model1 vocab1 fin1x hhead
      split at h
      · cases h
      · simp only [Except.ok.injEq] at h
        subst h
        rcases replit_head_updates g fin model tokenizer _ hhead with
          ⟨heq, -⟩ | ⟨fin1, tokenizer1, fin2, hread, hv, hcase⟩
        · cases heq
        · rcases hcase with ⟨m, heq, -, -⟩ | ⟨m, f, heq, hm⟩
          · cases heq
          · simp only [head_result.proceed.injEq] at heq
            refine Or.inr ⟨fin1, tokenizer1, fin2, hread, hv, ?_, heq.2.1⟩
            dsimp only
            rw [heq.1, hm]
  · intro context_length self r h
    unfold replit_llm_Load at h
    dsimp only at h
    split at h
    · cases h
    · split at h
      · simp only [Except.ok.injEq, Prod.mk.injEq, true_and] at h
        subst h
        exact ⟨rfl, rfl⟩
      · simp only [Except.ok.injEq, Prod.mk.injEq] at h
        exact absurd h.1 (by decide)

set_option maxRecDepth 100000 in
/-- C25 (amended), at the sample MPT file followed by a record of an undeclared
tensor. -/
theorem failed_load_outcome_witness :
    (mpt_sample_model = mpt_model_empty ∧ sample_vocab = gpt_vocab_empty ∧
      ((open_file mpt_unknown_tensor_file).failbit = true ∨
        ∃ magic fin1, read_u32 (open_file mpt_unknown_tensor_file) = .ok (magic, fin1) ∧
          magic ≠ ggml_ref.GGML_FILE_MAGIC)) ∨
    (∃ fin1 vs,
      read_u32 (open_file mpt_unknown_tensor_file) = .ok (ggml_ref.GGML_FILE_MAGIC, fin1) ∧
      mpt_load_vocab ggml_ref
        (mpt_load_hparams ggml_ref mpt_model_empty.hparams fin1).1.n_vocab gpt_vocab_empty
        (mpt_load_hparams ggml_ref mpt_model_empty.hparams fin1).2 = .ok vs ∧
      mpt_sample_model.hparams = (mpt_load_hparams ggml_ref mpt_model_empty.hparams fin1).1 ∧
      sample_vocab = vs.vocab) :=
  (failed_load_outcome ggml_ref (open_file mpt_unknown_tensor_file)).1 mpt_model_empty
    gpt_vocab_empty 0 { ret := false, model := mpt_sample_model, vocab := sample_vocab }
    (by decide!) rfl

/-! ## The byte budget of the arena -/

theorem fp_round_nat (fmt : fp_format) (hfmt : fmt = binary32 ∨ fmt = binary64) (m : Nat)
    (hm : m < 2 ^ fmt.prec) : fp_round fmt (m : ℚ) = float.fin (m : ℚ) := by
  unfold fp_round
  rw [if_neg (not_lt.mpr (Nat.cast_nonneg m))]
  rcases hfmt with rfl | rfl
  · exact fp_round_pos_exact binary32 (by decide) (by decide) (by decide) m hm
  · exact fp_round_pos_exact binary64 (by decide) (by decide) (by decide) m hm

theorem mul_sizef_nat (fmt : fp_format) (hfmt : fmt = binary32 ∨ fmt = binary64) (n x : Nat)
    (hn : n < 2 ^ fmt.prec) (hx : n * x < 2 ^ fmt.prec) :
    mul_sizef fmt ((n : ℕ) : Int) (float.fin ((x : ℕ) : ℚ)) = float.fin ((n * x : ℕ) : ℚ) := by
  unfold mul_sizef fp_of_int
  rw [Int.cast_natCast, fp_round_nat fmt hfmt n hn]
  show fp_round fmt ((n : ℚ) * (x : ℚ)) = _
  rw [← Nat.cast_mul]
  exact fp_round_nat fmt hfmt (n * x) hx

theorem add_sizef_nat (fmt : fp_format) (hfmt : fmt = binary32 ∨ fmt = binary64) (c a : Nat)
    (h : c + a < 2 ^ 64) (hp : c + a < 2 ^ fmt.prec) :
    add_sizef fmt c (float.fin ((a : ℕ) : ℚ)) = c + a := by
  unfold add_sizef fp_of_int
  rw [Int.cast_natCast, fp_round_nat fmt hfmt c (by omega)]
  show size_t_of_float (fp_round fmt ((c : ℚ) + (a : ℚ))) = _
  rw [← Nat.cast_add, fp_round_nat fmt hfmt (c + a) hp]
  show (⌊((c + a : ℕ) : ℚ)⌋).toNat % 2 ^ 64 = _
  rw [Int.floor_natCast, Int.toNat_natCast, Nat.mod_eq_of_lt h]

theorem ctx_size_sum (fmt : fp_format) (hfmt : fmt = binary32 ∨ fmt = binary64)
    (sw s32 s16 D L V C : Nat) (hsw : 0 < sw) (hs32 : 0 < s32) (hs16 : 0 < s16)
    (hL : L < 2 ^ fmt.prec) (hM : 4 * D * D * sw < 2 ^ fmt.prec)
    (hT : D * V * sw + D * s32 + L * (D * s32) + L * (3 * D * D * sw) + L * (D * D * sw) +
      L * (D * s32) + L * (4 * D * D * sw) + L * (D * D * 4 * sw) + C * L * D * s16 +
      C * L * D * s16 < 2 ^ fmt.prec)
    (hT64 : D * V * sw + D * s32 + L * (D * s32) + L * (3 * D * D * sw) + L * (D * D * sw) +
      L * (D * s32) + L * (4 * D * D * sw) + L * (D * D * 4 * sw) + C * L * D * s16 +
      C * L * D * s16 < 2 ^ 64) :
    (add_sizef fmt (add_sizef fmt (add_sizef fmt (add_sizef fmt (add_sizef fmt (add_sizef fmt (add_sizef fmt (add_sizef fmt (add_sizef fmt (add_sizef fmt 0
      (mul_sizef fmt ((D * V : ℕ) : Int) (float.fin ((sw : ℕ) : ℚ))))
      (mul_sizef fmt ((D : ℕ) : Int) (float.fin ((s32 : ℕ) : ℚ))))
      (mul_sizef fmt ((L : ℕ) : Int) (mul_sizef fmt ((D : ℕ) : Int) (float.fin ((s32 : ℕ) : ℚ)))))
      (mul_sizef fmt ((L : ℕ) : Int) (mul_sizef fmt ((3 * D * D : ℕ) : Int) (float.fin ((sw : ℕ) : ℚ)))))
      (mul_sizef fmt ((L : ℕ) : Int) (mul_sizef fmt ((D * D : ℕ) : Int) (float.fin ((sw : ℕ) : ℚ)))))
      (mul_sizef fmt ((L : ℕ) : Int) (mul_sizef fmt ((D : ℕ) : Int) (float.fin ((s32 : ℕ) : ℚ)))))
      (mul_sizef fmt ((L : ℕ) : Int) (mul_sizef fmt ((4 * D * D : ℕ) : Int) (float.fin ((sw : ℕ) : ℚ)))))
      (mul_sizef fmt ((L : ℕ) : Int) (mul_sizef fmt ((D * D * 4 : ℕ) : Int) (float.fin ((sw : ℕ) : ℚ)))))
      (mul_sizef fmt ((C * L * D : ℕ) : Int) (float.fin ((s16 : ℕ) : ℚ))))
      (mul_sizef fmt ((C * L * D : ℕ) : Int) (float.fin ((s16 : ℕ) : ℚ)))) =
      D * V * sw + D * s32 + L * (D * s32) + L * (3 * D * D * sw) + L * (D * D * sw) +
      L * (D * s32) + L * (4 * D * D * sw) + L * (D * D * 4 * sw) + C * L * D * s16 +
      C * L * D * s16 := by
  have e1 : 3 * D * D * sw = 3 * (D * D * sw) := by ring
  have e2 : 4 * D * D * sw = 4 * (D * D * sw) := by ring
  have e3 : D * D * 4 * sw = 4 * (D * D * sw) := by ring
  have e4 : 3 * D * D = 3 * (D * D) := by ring
  have e5 : 4 * D * D = 4 * (D * D) := by ring
  have e6 : D * D * 4 = 4 * (D * D) := by ring
  have b1 : D * V ≤ D * V * sw := Nat.le_mul_of_pos_right _ hsw
  have b2 : D ≤ D * s32 := Nat.le_mul_of_pos_right _ hs32
  have b3 : C * L * D ≤ C * L * D * s16 := Nat.le_mul_of_pos_right _ hs16
  have b4 : D * D ≤ D * D * sw := Nat.le_mul_of_pos_right _ hsw
  rw [mul_sizef_nat fmt hfmt (D * V) sw (by omega) (by omega)]
  rw [mul_sizef_nat fmt hfmt D s32 (by omega) (by omega)]
  rw [mul_sizef_nat fmt hfmt (3 * D * D) sw (by omega) (by omega)]
  rw [mul_sizef_nat fmt hfmt (D * D) sw (by omega) (by omega)]
  rw [mul_sizef_nat fmt hfmt (4 * D * D) sw (by omega) (by omega)]
  rw [mul_sizef_nat fmt hfmt (D * D * 4) sw (by omega) (by omega)]
  rw [mul_sizef_nat fmt hfmt (C * L * D) s16 (by omega) (by omega)]
  rw [mul_sizef_nat fmt hfmt L (D * s32) hL (by omega)]
  rw [mul_sizef_nat fmt hfmt L (3 * D * D * sw) hL (by omega)]
  rw [mul_sizef_nat fmt hfmt L (D * D * sw) hL (by omega)]
  rw [mul_sizef_nat fmt hfmt L (4 * D * D * sw) hL (by omega)]
  rw [mul_sizef_nat fmt hfmt L (D * D * 4 * sw) hL (by omega)]
  rw [add_sizef_nat fmt hfmt (0) (D * V * sw) (by omega) (by omega)]
  rw [add_sizef_nat fmt hfmt (0 + D * V * sw) (D * s32) (by omega) (by omega)]
  rw [add_sizef_nat fmt hfmt (0 + D * V * sw + D * s32) (L * (D * s32)) (by omega) (by omega)]
  rw [add_sizef_nat fmt hfmt (0 + D * V * sw + D * s32 + L * (D * s32)) (L * (3 * D * D * sw)) (by omega) (by omega)]
  rw [add_sizef_nat fmt hfmt (0 + D * V * sw + D * s32 + L * (D * s32) + L * (3 * D * D * sw)) (L * (D * D * sw)) (by omega) (by omega)]
  rw [add_sizef_nat fmt hfmt (0 + D * V * sw + D * s32 + L * (D * s32) + L * (3 * D * D * sw) + L * (D * D * sw)) (L * (D * s32)) (by omega) (by omega)]
  rw [add_sizef_nat fmt hfmt (0 + D * V * sw + D * s32 + L * (D * s32) + L * (3 * D * D * sw) + L * (D * D * sw) + L * (D * s32)) (L * (4 * D * D * sw)) (by omega) (by omega)]
  rw [add_sizef_nat fmt hfmt (0 + D * V * sw + D * s32 + L * (D * s32) + L * (3 * D * D * sw) + L * (D * D * sw) + L * (D * s32) + L * (4 * D * D * sw)) (L * (D * D * 4 * sw)) (by omega) (by omega)]
  rw [add_sizef_nat fmt hfmt (0 + D * V * sw + D * s32 + L * (D * s32) + L * (3 * D * D * sw) + L * (D * D * sw) + L * (D * s32) + L * (4 * D * D * sw) + L * (D * D * 4 * sw)) (C * L * D * s16) (by omega) (by omega)]
  rw [add_sizef_nat fmt hfmt (0 + D * V * sw + D * s32 + L * (D * s32) + L * (3 * D * D * sw) + L * (D * D * sw) + L * (D * s32) + L * (4 * D * D * sw) + L * (D * D * 4 * sw) + C * L * D * s16) (C * L * D * s16) (by omega) (by omega)]
  omega

theorem size_t_of_int_nat (n : Nat) (h : n < 2 ^ 64) : size_t_of_int (n : Int) = n := by
  unfold size_t_of_int
  rw [Int.emod_eq_of_lt (by omega) (by omega), Int.toNat_natCast]

theorem wrap32_nat (n : Nat) (h : n < 2 ^ 31) : wrap32 (n : Int) = (n : Int) := by
  unfold wrap32
  rw [Int.emod_eq_of_lt (by omega) (by omega), Int.toNat_natCast, int32_of_nat_small n h]

theorem wrap64_nat (n : Nat) (h : n < 2 ^ 63) : wrap64 (n : Int) = (n : Int) := by
  unfold wrap64
  rw [Int.emod_eq_of_lt (by omega) (by omega), if_pos (by omega)]

theorem assign_all_append {κ ν : Type} [DecidableEq κ] :
    ∀ (a b m : List (κ × ν)), assign_all (a ++ b) m = assign_all b (assign_all a m) := by
  intro a
  induction a with
  | nil => intro b m; rfl
  | cons kv a ih =>
    intro b m
    obtain ⟨k, v⟩ := kv
    rw [List.cons_append, assign_all, assign_all, ih]

theorem for_loop_assign {κ ν : Type} [DecidableEq κ] (f : Nat → List (κ × ν)) :
    ∀ (n i : Nat) (m : List (κ × ν)),
      for_loop (fun j ts => assign_all (f j) ts) i n m =
        assign_all (((List.range' i n).map f).flatten) m := by
  intro n
  induction n with
  | zero => intro i m; rfl
  | succ n ih =>
    intro i m
    rw [for_loop, ih, List.range'_succ, List.map_cons, List.flatten_cons, assign_all_append]

theorem declare_layer_eq (wtype n_embd F32 : Int) (gpu : Bool) (i : Nat) (ts : tensor_map) :
    declare_layer wtype n_embd F32 gpu i ts =
      assign_all (layer_declarations wtype n_embd F32 gpu i) ts := rfl

theorem mpt_declare_tensors_eq (g : ggml_lib) (hparams : mpt_hparams) (wtype gpu_layers : Int)
    (ts : tensor_map) :
    mpt_declare_tensors g hparams wtype gpu_layers ts =
      assign_all (mpt_declarations g hparams wtype gpu_layers) ts := by
  unfold mpt_declare_tensors mpt_declarations
  simp only [declare_layer_eq]
  rw [for_loop_assign
    (fun (i : Nat) => layer_declarations wtype hparams.d_model g.GGML_TYPE_F32
      (decide (hparams.n_layers - gpu_layers ≤ (i : Int))) i),
    assign_all_append, List.range_eq_range']
  rfl

theorem replit_declare_tensors_eq (g : ggml_lib) (hparams : replit_hparams) (wtype : Int)
    (ts : tensor_map) :
    replit_declare_tensors g hparams wtype ts =
      assign_all (replit_declarations g hparams wtype) ts := by
  unfold replit_declare_tensors replit_declarations
  simp only [declare_layer_eq]
  rw [for_loop_assign
    (fun i => layer_declarations wtype hparams.d_model g.GGML_TYPE_F32 false i),
    assign_all_append, List.range_eq_range']
  rfl

theorem total_nbytes_layers (g : ggml_lib) (f : Nat → List (Str × ggml_tensor)) (c : Nat)
    (hf : ∀ i, total_nbytes g ((f i).map Prod.snd) = c) :
    ∀ (n i : Nat),
      total_nbytes g ((((List.range' i n).map f).flatten).map Prod.snd) = n * c := by
  intro n
  induction n with
  | zero => intro i; simp [total_nbytes]
  | succ n ih =>
    intro i
    have h1 := ih (i + 1)
    have h2 := hf i
    unfold total_nbytes at h1 h2 ⊢
    rw [List.range'_succ, List.map_cons, List.flatten_cons, List.map_append, List.map_append,
      List.sum_append, h1, h2]
    ring

theorem flatten_length_layers (f : Nat → List (Str × ggml_tensor)) (c : Nat)
    (hf : ∀ i, (f i).length = c) :
    ∀ (n i : Nat), (((List.range' i n).map f).flatten).length = n * c := by
  intro n
  induction n with
  | zero => intro i; simp
  | succ n ih =>
    intro i
    rw [List.range'_succ, List.map_cons, List.flatten_cons, List.length_append, ih, hf]
    ring

theorem layer_bytes (g : ggml_lib) (wtype F32 : Int) (sw s32 D : Nat) (gpu : Bool) (i : Nat)
    (hw : plain_type g wtype sw) (h32 : plain_type g F32 s32) :
    total_nbytes g ((layer_declarations wtype (D : Int) F32 gpu i).map Prod.snd) =
      2 * (D * s32) + 12 * (D * D) * sw := by
  have t1 : ((D : Int) * 1).toNat = D := by simp
  have t2 : ((D : Int) * (3 * (D : Int))).toNat = 3 * (D * D) := by
    rw [show (D : Int) * (3 * (D : Int)) = ((3 * (D * D) : ℕ) : Int) by push_cast; ring,
      Int.toNat_natCast]
  have t3 : ((D : Int) * (D : Int)).toNat = D * D := by
    rw [show (D : Int) * (D : Int) = ((D * D : ℕ) : Int) by push_cast; ring, Int.toNat_natCast]
  have t4 : ((D : Int) * (4 * (D : Int))).toNat = 4 * (D * D) := by
    rw [show (D : Int) * (4 * (D : Int)) = ((4 * (D * D) : ℕ) : Int) by push_cast; ring,
      Int.toNat_natCast]
  have t5 : ((4 * (D : Int)) * (D : Int)).toNat = 4 * (D * D) := by
    rw [show (4 * (D : Int)) * (D : Int) = ((4 * (D * D) : ℕ) : Int) by push_cast; ring,
      Int.toNat_natCast]
  simp only [total_nbytes, layer_declarations, List.map_cons, List.map_nil, ggml_lib.nbytes,
    ggml_new_tensor_1d, ct_new_tensor, hw.2, h32.2, List.sum_cons, List.sum_nil, t1, t2, t3, t4,
    t5]
  ring

theorem layer_count (wtype n_embd F32 : Int) (gpu : Bool) (i : Nat) :
    (layer_declarations wtype n_embd F32 gpu i).length = 6 := rfl

theorem mpt_ctx_size_eq (g : ggml_lib) (hp : mpt_hparams) (wtype : Int) (sw s32 s16 : Nat)
    (D L V C : Nat) (hd : hp.d_model = (D : Int)) (hl : hp.n_layers = (L : Int))
    (hv : hp.n_vocab = (V : Int)) (hc : hp.n_ctx = (C : Int))
    (hD : D < 2 ^ 31) (hL : L < 2 ^ 31) (hV : V < 2 ^ 31) (hC : C < 2 ^ 31)
    (hw : plain_type g wtype sw) (h32 : plain_type g g.GGML_TYPE_F32 s32)
    (h16 : plain_type g g.GGML_TYPE_F16 s16) (hCLD : C * L * D < 2 ^ 64)
    (hfmt : g.sizef_format = binary32 ∨ g.sizef_format = binary64)
    (hsw : 0 < sw) (hs32 : 0 < s32) (hs16 : 0 < s16)
    (hLP : L < 2 ^ g.sizef_format.prec) (hM : 4 * D * D * sw < 2 ^ g.sizef_format.prec)
    (hT : D * V * sw + D * s32 + L * (D * s32) + L * (3 * D * D * sw) + L * (D * D * sw) +
      L * (D * s32) + L * (4 * D * D * sw) + L * (D * D * 4 * sw) + C * L * D * s16 +
      C * L * D * s16 < 2 ^ g.sizef_format.prec)
    (hfit : D * V * sw + D * s32 + L * (D * s32) + L * (3 * D * D * sw) + L * (D * D * sw) +
      L * (D * s32) + L * (4 * D * D * sw) + L * (D * D * 4 * sw) + C * L * D * s16 +
      C * L * D * s16 + (1 + 6 * L) * 512 < 2 ^ 64) :
    mpt_ctx_size g hp wtype =
      D * V * sw + D * s32 + L * (D * s32) + L * (3 * D * D * sw) + L * (D * D * sw) +
      L * (D * s32) + L * (4 * D * D * sw) + L * (D * D * 4 * sw) + C * L * D * s16 +
      C * L * D * s16 + (1 + 6 * L) * 512 := by
  have hDD : D * D < 2 ^ 62 := by
    have := Nat.mul_lt_mul'' hD hD
    norm_num at this ⊢
    exact this
  have hDV : D * V < 2 ^ 62 := by
    have := Nat.mul_lt_mul'' hD hV
    norm_num at this ⊢
    exact this
  have hCL : C * L < 2 ^ 62 := by
    have := Nat.mul_lt_mul'' hC hL
    norm_num at this ⊢
    exact this
  have a3 : 3 * D * D = 3 * (D * D) := by ring
  have a4 : 4 * D * D = 4 * (D * D) := by ring
  unfold mpt_ctx_size
  dsimp only
  rw [hd, hl, hv, hc]
  simp only [size_t_of_int_nat D (by omega), size_t_of_int_nat L (by omega),
    size_t_of_int_nat V (by omega), size_t_of_int_nat C (by omega)]
  rw [hw.1, h32.1, h16.1]
  simp only [Nat.mod_eq_of_lt (show D * V < 2 ^ 64 by omega),
    Nat.mod_eq_of_lt (show 3 * D < 2 ^ 64 by omega),
    Nat.mod_eq_of_lt (show 3 * D * D < 2 ^ 64 by omega),
    Nat.mod_eq_of_lt (show D * D < 2 ^ 64 by omega),
    Nat.mod_eq_of_lt (show 4 * D < 2 ^ 64 by omega),
    Nat.mod_eq_of_lt (show 4 * D * D < 2 ^ 64 by omega),
    Nat.mod_eq_of_lt (show D * D * 4 < 2 ^ 64 by omega),
    Nat.mod_eq_of_lt (show C * L < 2 ^ 64 by omega),
    Nat.mod_eq_of_lt hCLD,
    Nat.mod_eq_of_lt (show 6 * L < 2 ^ 64 by omega),
    Nat.mod_eq_of_lt (show 1 + 6 * L < 2 ^ 64 by omega),
    Nat.mod_eq_of_lt (show (1 + 6 * L) * 512 < 2 ^ 64 by omega)]
  rw [ctx_size_sum g.sizef_format hfmt sw s32 s16 D L V C hsw hs32 hs16 hLP hM hT (by omega)]
  rw [Nat.mod_eq_of_lt (by omega)]

theorem replit_ctx_size_eq (g : ggml_lib) (hp : replit_hparams) (wtype : Int) (sw s32 s16 : Nat)
    (D L V C : Nat) (hd : hp.d_model = (D : Int)) (hl : hp.n_layers = (L : Int))
    (hv : hp.n_vocab = (V : Int)) (hc : hp.max_seq_len = (C : Int))
    (hDV : D * V < 2 ^ 31) (hDD : 4 * D * D < 2 ^ 31) (hCL : C * L < 2 ^ 31)
    (hCLD : C * L * D < 2 ^ 31) (hL : (1 + 6 * L) * 512 < 2 ^ 31)
    (hw : plain_type g wtype sw) (h32 : plain_type g g.GGML_TYPE_F32 s32)
    (h16 : plain_type g g.GGML_TYPE_F16 s16)
    (hfmt : g.sizef_format = binary32 ∨ g.sizef_format = binary64)
    (hsw : 0 < sw) (hs32 : 0 < s32) (hs16 : 0 < s16)
    (hLP : L < 2 ^ g.sizef_format.prec) (hM : 4 * D * D * sw < 2 ^ g.sizef_format.prec)
    (hT : D * V * sw + D * s32 + L * (D * s32) + L * (3 * D * D * sw) + L * (D * D * sw) +
      L * (D * s32) + L * (4 * D * D * sw) + L * (D * D * 4 * sw) + C * L * D * s16 +
      C * L * D * s16 < 2 ^ g.sizef_format.prec)
    (hfit : D * V * sw + D * s32 + L * (D * s32) + L * (3 * D * D * sw) + L * (D * D * sw) +
      L * (D * s32) + L * (4 * D * D * sw) + L * (D * D * 4 * sw) + C * L * D * s16 +
      C * L * D * s16 + (1 + 6 * L) * 512 < 2 ^ 64) :
    replit_ctx_size g hp wtype =
      D * V * sw + D * s32 + L * (D * s32) + L * (3 * D * D * sw) + L * (D * D * sw) +
      L * (D * s32) + L * (4 * D * D * sw) + L * (D * D * 4 * sw) + C * L * D * s16 +
      C * L * D * s16 + (1 + 6 * L) * 512 := by
  have a3 : 3 * D * D = 3 * (D * D) := by ring
  have a4 : 4 * D * D = 4 * (D * D) := by ring
  have a5 : D * D * 4 = 4 * (D * D) := by ring
  have hDs : D < 2 ^ 15 := by
    by_contra hc2
    have h1 : 2 ^ 15 ≤ D := by omega
    have h2 := Nat.mul_le_mul h1 h1
    norm_num at h2
    omega
  have w1 : wrap32 ((D : Int) * (V : Int)) = ((D * V : ℕ) : Int) := by
    rw [show (D : Int) * (V : Int) = ((D * V : ℕ) : Int) by push_cast; ring]
    exact wrap32_nat _ hDV
  have w2 : wrap32 (3 * (D : Int)) = ((3 * D : ℕ) : Int) := by
    rw [show 3 * (D : Int) = ((3 * D : ℕ) : Int) by push_cast; ring]
    exact wrap32_nat _ (by omega)
  have w3 : wrap32 (((3 * D : ℕ) : Int) * (D : Int)) = ((3 * D * D : ℕ) : Int) := by
    rw [show ((3 * D : ℕ) : Int) * (D : Int) = ((3 * D * D : ℕ) : Int) by push_cast; ring]
    exact wrap32_nat _ (by omega)
  have w4 : wrap32 ((D : Int) * (D : Int)) = ((D * D : ℕ) : Int) := by
    rw [show (D : Int) * (D : Int) = ((D * D : ℕ) : Int) by push_cast; ring]
    exact wrap32_nat _ (by omega)
  have w5 : wrap32 (4 * (D : Int)) = ((4 * D : ℕ) : Int) := by
    rw [show 4 * (D : Int) = ((4 * D : ℕ) : Int) by push_cast; ring]
    exact wrap32_nat _ (by omega)
  have w6 : wrap32 (((4 * D : ℕ) : Int) * (D : Int)) = ((4 * D * D : ℕ) : Int) := by
    rw [show ((4 * D : ℕ) : Int) * (D : Int) = ((4 * D * D : ℕ) : Int) by push_cast; ring]
    exact wrap32_nat _ (by omega)
  have w7 : wrap32 (((D * D : ℕ) : Int) * 4) = ((D * D * 4 : ℕ) : Int) := by
    rw [show ((D * D : ℕ) : Int) * 4 = ((D * D * 4 : ℕ) : Int) by push_cast; ring]
    exact wrap32_nat _ (by omega)
  have w8 : wrap32 ((C : Int) * (L : Int)) = ((C * L : ℕ) : Int) := by
    rw [show (C : Int) * (L : Int) = ((C * L : ℕ) : Int) by push_cast; ring]
    exact wrap32_nat _ hCL
  have w9 : wrap32 (((C * L : ℕ) : Int) * (D : Int)) = ((C * L * D : ℕ) : Int) := by
    rw [show ((C * L : ℕ) : Int) * (D : Int) = ((C * L * D : ℕ) : Int) by push_cast; ring]
    exact wrap32_nat _ hCLD
  have w10 : wrap32 (6 * (L : Int)) = ((6 * L : ℕ) : Int) := by
    rw [show 6 * (L : Int) = ((6 * L : ℕ) : Int) by push_cast; ring]
    exact wrap32_nat _ (by omega)
  have w11 : wrap32 (1 + ((6 * L : ℕ) : Int)) = ((1 + 6 * L : ℕ) : Int) := by
    rw [show 1 + ((6 * L : ℕ) : Int) = ((1 + 6 * L : ℕ) : Int) by push_cast; ring]
    exact wrap32_nat _ (by omega)
  have w12 : wrap32 (((1 + 6 * L : ℕ) : Int) * 512) = (((1 + 6 * L) * 512 : ℕ) : Int) := by
    rw [show ((1 + 6 * L : ℕ) : Int) * 512 = (((1 + 6 * L) * 512 : ℕ) : Int) by
      push_cast; ring]
    exact wrap32_nat _ hL
  unfold replit_ctx_size
  dsimp only
  rw [hd, hl, hv, hc]
  simp only [w1, w2, w3, w4, w5, w6, w7, w8, w9, w10, w11, w12,
    size_t_of_int_nat ((1 + 6 * L) * 512) (by omega), Int.cast_natCast]
  rw [hw.1, h32.1, h16.1]
  rw [ctx_size_sum g.sizef_format hfmt sw s32 s16 D L V C hsw hs32 hs16 hLP hM hT (by omega)]
  rw [Nat.mod_eq_of_lt (by omega)]

theorem total_nbytes_append (g : ggml_lib) (a b : List ggml_tensor) :
    total_nbytes g (a ++ b) = total_nbytes g a + total_nbytes g b := by
  simp [total_nbytes]

theorem mpt_declared_bytes (g : ggml_lib) (hp : mpt_hparams) (wtype gpu_layers : Int)
    (sw s32 s16 D L V C : Nat) (hd : hp.d_model = (D : Int)) (hl : hp.n_layers = (L : Int))
    (hv : hp.n_vocab = (V : Int)) (hc : hp.n_ctx = (C : Int))
    (hw : plain_type g wtype sw) (h32 : plain_type g g.GGML_TYPE_F32 s32)
    (h16 : plain_type g g.GGML_TYPE_F16 s16) (hLC : L * C < 2 ^ 63)
    (hDLC : D * (L * C) < 2 ^ 63) :
    total_nbytes g ((mpt_declarations g hp wtype gpu_layers).map Prod.snd ++
        [mpt_cache_tensor g hp, mpt_cache_tensor g hp]) =
      D * V * sw + D * s32 + L * (2 * (D * s32) + 12 * (D * D) * sw) +
        2 * (D * (L * C) * s16) ∧
    (mpt_declarations g hp wtype gpu_layers).length = 2 + L * 6 := by
  have e1 : wrap64 ((D : Int) * wrap64 ((L : Int) * (C : Int))) = ((D * (L * C) : ℕ) : Int) := by
    rw [show (L : Int) * (C : Int) = ((L * C : ℕ) : Int) by push_cast; ring, wrap64_nat _ hLC,
      show (D : Int) * ((L * C : ℕ) : Int) = ((D * (L * C) : ℕ) : Int) by push_cast; ring,
      wrap64_nat _ hDLC]
  have ecache : g.nbytes (mpt_cache_tensor g hp) = D * (L * C) * s16 := by
    simp only [mpt_cache_tensor, ggml_lib.nbytes, ggml_new_tensor_1d, hd, hl, hc, e1, h16.2,
      mul_one, Int.toNat_natCast]
  have ewte : g.nbytes (ggml_new_tensor_2d wtype (D : Int) (V : Int)) = D * V * sw := by
    simp only [ggml_lib.nbytes, ggml_new_tensor_2d, hw.2]
    rw [show (D : Int) * (V : Int) = ((D * V : ℕ) : Int) by push_cast; ring, Int.toNat_natCast]
  have enorm : g.nbytes (ggml_new_tensor_1d g.GGML_TYPE_F32 (D : Int)) = D * s32 := by
    simp only [ggml_lib.nbytes, ggml_new_tensor_1d, h32.2, mul_one, Int.toNat_natCast]
  have elayers := total_nbytes_layers g
    (fun (i : Nat) => layer_declarations wtype (D : Int) g.GGML_TYPE_F32
      (decide ((L : Int) - gpu_layers ≤ (i : Int))) i)
    (2 * (D * s32) + 12 * (D * D) * sw)
    (fun i => layer_bytes g wtype g.GGML_TYPE_F32 sw s32 D _ i hw h32) L 0
  have ecount := flatten_length_layers
    (fun (i : Nat) => layer_declarations wtype (D : Int) g.GGML_TYPE_F32
      (decide ((L : Int) - gpu_layers ≤ (i : Int))) i) 6
    (fun i => layer_count _ _ _ _ i) L 0
  constructor
  · rw [total_nbytes_append]
    unfold mpt_declarations
    rw [hd, hl, hv, Int.toNat_natCast, List.range_eq_range', List.map_append,
      total_nbytes_append, elayers]
    simp only [total_nbytes, List.map_cons, List.map_nil, List.sum_cons, List.sum_nil, ecache,
      ewte, enorm]
    ring
  · unfold mpt_declarations
    rw [hd, hl, hv, Int.toNat_natCast, List.range_eq_range', List.length_append, ecount]
    rfl

theorem replit_declared_bytes (g : ggml_lib) (hp : replit_hparams) (wtype : Int)
    (sw s32 s16 D L V C : Nat) (hd : hp.d_model = (D : Int)) (hl : hp.n_layers = (L : Int))
    (hv : hp.n_vocab = (V : Int)) (hc : hp.max_seq_len = (C : Int))
    (hw : plain_type g wtype sw) (h32 : plain_type g g.GGML_TYPE_F32 s32)
    (h16 : plain_type g g.GGML_TYPE_F16 s16) (hLC : L * C < 2 ^ 31)
    (hDLC : D * (L * C) < 2 ^ 63) :
    total_nbytes g ((replit_declarations g hp wtype).map Prod.snd ++
        [replit_cache_tensor g hp, replit_cache_tensor g hp]) =
      D * V * sw + D * s32 + L * (2 * (D * s32) + 12 * (D * D) * sw) +
        2 * (D * (L * C) * s16) ∧
    (replit_declarations g hp wtype).length = 2 + L * 6 := by
  have e1 : wrap64 ((D : Int) * wrap32 ((L : Int) * (C : Int))) = ((D * (L * C) : ℕ) : Int) := by
    rw [show (L : Int) * (C : Int) = ((L * C : ℕ) : Int) by push_cast; ring, wrap32_nat _ hLC,
      show (D : Int) * ((L * C : ℕ) : Int) = ((D * (L * C) : ℕ) : Int) by push_cast; ring,
      wrap64_nat _ hDLC]
  have ecache : g.nbytes (replit_cache_tensor g hp) = D * (L * C) * s16 := by
    simp only [replit_cache_tensor, ggml_lib.nbytes, ggml_new_tensor_1d, hd, hl, hc, e1, h16.2,
      mul_one, Int.toNat_natCast]
  have ewte : g.nbytes (ggml_new_tensor_2d wtype (D : Int) (V : Int)) = D * V * sw := by
    simp only [ggml_lib.nbytes, ggml_new_tensor_2d, hw.2]
    rw [show (D : Int) * (V : Int) = ((D * V : ℕ) : Int) by push_cast; ring, Int.toNat_natCast]
  have enorm : g.nbytes (ggml_new_tensor_1d g.GGML_TYPE_F32 (D : Int)) = D * s32 := by
    simp only [ggml_lib.nbytes, ggml_new_tensor_1d, h32.2, mul_one, Int.toNat_natCast]
  have elayers := total_nbytes_layers g
    (fun (i : Nat) => layer_declarations wtype (D : Int) g.GGML_TYPE_F32 false i)
    (2 * (D * s32) + 12 * (D * D) * sw)
    (fun i => layer_bytes g wtype g.GGML_TYPE_F32 sw s32 D _ i hw h32) L 0
  have ecount := flatten_length_layers
    (fun (i : Nat) => layer_declarations wtype (D : Int) g.GGML_TYPE_F32 false i) 6
    (fun i => layer_count _ _ _ _ i) L 0
  constructor
  · rw [total_nbytes_append]
    unfold replit_declarations
    rw [hd, hl, hv, Int.toNat_natCast, List.range_eq_range', List.map_append,
      total_nbytes_append, elayers]
    simp only [total_nbytes, List.map_cons, List.map_nil, List.sum_cons, List.sum_nil, ecache,
      ewte, enorm]
    ring
  · unfold replit_declarations
    rw [hd, hl, hv, Int.toNat_natCast, List.range_eq_range', List.length_append, ecount]
    rfl

theorem ggml_ref_plain_f32 : plain_type ggml_ref ggml_ref.GGML_TYPE_F32 4 := by
  refine ⟨by simp [ggml_ref], ?_⟩
  intro ne0 ne1
  simp [ggml_ref]

theorem ggml_ref_plain_f16 : plain_type ggml_ref ggml_ref.GGML_TYPE_F16 2 := by
  refine ⟨by simp [ggml_ref], ?_⟩
  intro ne0 ne1
  simp [ggml_ref]

set_option maxRecDepth 100000 in
/-- C24 as stated fails in two ways.  For `d_model = 2`, `n_vocab = 1`, one
layer, context length 4 and F32 weights both loaders declare ten tensors (eight
in the directory and the two cache tensors) of 256 bytes in all and compute the
budget 3840, which is 256 plus seven times 512, not 256 plus ten times 512.
For `d_model = n_vocab = 2 ^ 30 + 1`, no layer and F32 weights the tensors
take `2 ^ 62 + 2 ^ 33 + 2 ^ 32 + 8` bytes; with `double` as the floating type
the element count of the embedding and the sum for the final norm each lose 4
bytes to rounding, and the budget of `mpt_model_load` is 8 bytes less than the
tensor bytes plus 512. -/
theorem budget_overhead_not_per_tensor :
    mpt_declare_tensors ggml_ref mpt_one_layer_hparams 0 0 [] =
      mpt_declarations ggml_ref mpt_one_layer_hparams 0 0 ∧
    ((mpt_declarations ggml_ref mpt_one_layer_hparams 0 0).map Prod.snd ++
      [mpt_cache_tensor ggml_ref mpt_one_layer_hparams,
        mpt_cache_tensor ggml_ref mpt_one_layer_hparams]).length = 10 ∧
    total_nbytes ggml_ref
      ((mpt_declarations ggml_ref mpt_one_layer_hparams 0 0).map Prod.snd ++
        [mpt_cache_tensor ggml_ref mpt_one_layer_hparams,
          mpt_cache_tensor ggml_ref mpt_one_layer_hparams]) = 256 ∧
    mpt_ctx_size ggml_ref mpt_one_layer_hparams 0 = 3840 ∧
    replit_declare_tensors ggml_ref replit_one_layer_hparams 0 [] =
      replit_declarations ggml_ref replit_one_layer_hparams 0 ∧
    ((replit_declarations ggml_ref replit_one_layer_hparams 0).map Prod.snd ++
      [replit_cache_tensor ggml_ref replit_one_layer_hparams,
        replit_cache_tensor ggml_ref replit_one_layer_hparams]).length = 10 ∧
    total_nbytes ggml_ref
      ((replit_declarations ggml_ref replit_one_layer_hparams 0).map Prod.snd ++
        [replit_cache_tensor ggml_ref replit_one_layer_hparams,
          replit_cache_tensor ggml_ref replit_one_layer_hparams]) = 256 ∧
    replit_ctx_size ggml_ref replit_one_layer_hparams 0 = 3840 ∧
    (3840 : Nat) ≠ 256 + 512 * 10 ∧
    ggml_ref.sizef_format = binary64 ∧
    total_nbytes ggml_ref
      ((mpt_declarations ggml_ref mpt_wide_hparams 0 0).map Prod.snd ++
        [mpt_cache_tensor ggml_ref mpt_wide_hparams,
          mpt_cache_tensor ggml_ref mpt_wide_hparams]) = 2 ^ 62 + 2 ^ 33 + 2 ^ 32 + 8 ∧
    mpt_ctx_size ggml_ref mpt_wide_hparams 0 = 2 ^ 62 + 2 ^ 33 + 2 ^ 32 + 512 := by
  refine ⟨by decide!, by decide!, by decide!, by decide!, by decide!, by decide!, by decide!,
    by decide!, by decide, rfl, by decide!, by decide!⟩

/-- C24 (amended): for an element type of the weights that is stored without
blocks (F32 and F16 are), non-negative hyperparameters and counts that fit the
integer types they are computed in, and values for which the floating-point
arithmetic of the budget is exact (`ggml_type_sizef` returns `float` or
`double` with `p` significand bits, and `n_layers`, the bytes
`4 * d_model * d_model * size` of the largest weight matrix and the bytes of all
declared tensors together are below `2 ^ p`), the byte budget of each loader is
the sum of the byte sizes of all declared tensors (the embedding, the final
norm, six per layer and the two cache tensors, `4 + 6 * n_layers` tensors) plus
512 bytes for `1 + 6 * n_layers` of them: the overhead is not counted for three
of the declared tensors. -/
theorem budget_has_overhead_for_layer_tensors (g : ggml_lib) (wtype : Int) (sw s32 s16 : Nat)
    (hw : plain_type g wtype sw) (h32 : plain_type g g.GGML_TYPE_F32 s32)
    (h16 : plain_type g g.GGML_TYPE_F16 s16)
    (hfmt : g.sizef_format = binary32 ∨ g.sizef_format = binary64)
    (hsw : 0 < sw) (hs32 : 0 < s32) (hs16 : 0 < s16) :
    (∀ (hp : mpt_hparams) (gpu_layers : Int) (ts : tensor_map),
      0 ≤ hp.d_model → 0 ≤ hp.n_layers → 0 ≤ hp.n_vocab → 0 ≤ hp.n_ctx →
      hp.d_model < 2 ^ 31 → hp.n_layers < 2 ^ 31 → hp.n_vocab < 2 ^ 31 → hp.n_ctx < 2 ^ 31 →
      hp.d_model * (hp.n_layers * hp.n_ctx) < 2 ^ 63 →
      total_nbytes g ((mpt_declarations g hp wtype gpu_layers).map Prod.snd ++
          [mpt_cache_tensor g hp, mpt_cache_tensor g hp]) +
        512 * (1 + 6 * hp.n_layers.toNat) < 2 ^ 64 →
      hp.n_layers < 2 ^ g.sizef_format.prec →
      4 * hp.d_model * hp.d_model * (sw : Int) < 2 ^ g.sizef_format.prec →
      total_nbytes g ((mpt_declarations g hp wtype gpu_layers).map Prod.snd ++
          [mpt_cache_tensor g hp, mpt_cache_tensor g hp]) < 2 ^ g.sizef_format.prec →
      mpt_declare_tensors g hp wtype gpu_layers ts =
        assign_all (mpt_declarations g hp wtype gpu_layers) ts ∧
      ((mpt_declarations g hp wtype gpu_layers).map Prod.snd ++
        [mpt_cache_tensor g hp, mpt_cache_tensor g hp]).length = 4 + 6 * hp.n_layers.toNat ∧
      mpt_ctx_size g hp wtype =
        total_nbytes g ((mpt_declarations g hp wtype gpu_layers).map Prod.snd ++
            [mpt_cache_tensor g hp, mpt_cache_tensor g hp]) +
          512 * (1 + 6 * hp.n_layers.toNat)) ∧
    (∀ (hp : replit_hparams) (ts : tensor_map),
      0 ≤ hp.d_model → 0 ≤ hp.n_layers → 0 ≤ hp.n_vocab → 0 ≤ hp.max_seq_len →
      hp.d_model * hp.n_vocab < 2 ^ 31 → 4 * hp.d_model * hp.d_model < 2 ^ 31 →
      hp.max_seq_len * hp.n_layers < 2 ^ 31 →
      hp.max_seq_len * hp.n_layers * hp.d_model < 2 ^ 31 →
      (1 + 6 * hp.n_layers) * 512 < 2 ^ 31 →
      total_nbytes g ((replit_declarations g hp wtype).map Prod.snd ++
          [replit_cache_tensor g hp, replit_cache_tensor g hp]) +
        512 * (1 + 6 * hp.n_layers.toNat) < 2 ^ 64 →
      hp.n_layers < 2 ^ g.sizef_format.prec →
      4 * hp.d_model * hp.d_model * (sw : Int) < 2 ^ g.sizef_format.prec →
      total_nbytes g ((replit_declarations g hp wtype).map Prod.snd ++
          [replit_cache_tensor g hp, replit_cache_tensor g hp]) < 2 ^ g.sizef_format.prec →
      replit_declare_tensors g hp wtype ts = assign_all (replit_declarations g hp wtype) ts ∧
      ((replit_declarations g hp wtype).map Prod.snd ++
        [replit_cache_tensor g hp, replit_cache_tensor g hp]).length =
        4 + 6 * hp.n_layers.toNat ∧
      replit_ctx_size g hp wtype =
        total_nbytes g ((replit_declarations g hp wtype).map Prod.snd ++
            [replit_cache_tensor g hp, replit_cache_tensor g hp]) +
          512 * (1 + 6 * hp.n_layers.toNat)) := by
  constructor
  · intro hp gpu_layers ts h0d h0l h0v h0c hd31 hl31 hv31 hc31 hcache hfit hlp hmp htp
    obtain ⟨D, hD⟩ := Int.eq_ofNat_of_zero_le h0d
    obtain ⟨L, hL⟩ := Int.eq_ofNat_of_zero_le h0l
    obtain ⟨V, hV⟩ := Int.eq_ofNat_of_zero_le h0v
    obtain ⟨C, hC⟩ := Int.eq_ofNat_of_zero_le h0c
    rw [hD] at hd31
    rw [hL] at hl31
    rw [hV] at hv31
    rw [hC] at hc31
    rw [hD, hL, hC] at hcache
    have hDn : D < 2 ^ 31 := by omega
    have hLn : L < 2 ^ 31 := by omega
    have hVn : V < 2 ^ 31 := by omega
    have hCn : C < 2 ^ 31 := by omega
    have hDLC : D * (L * C) < 2 ^ 63 := by exact_mod_cast hcache
    have hLC : L * C < 2 ^ 63 := by
      have := Nat.mul_lt_mul'' hLn hCn
      norm_num at this ⊢
      omega
    obtain ⟨hbytes, hlen⟩ := mpt_declared_bytes g hp wtype gpu_layers sw s32 s16 D L V C hD hL
      hV hC hw h32 h16 hLC hDLC
    have hnl : hp.n_layers.toNat = L := by rw [hL, Int.toNat_natCast]
    rw [hbytes, hnl] at hfit
    have key : D * V * sw + D * s32 + L * (D * s32) + L * (3 * D * D * sw) + L * (D * D * sw) +
        L * (D * s32) + L * (4 * D * D * sw) + L * (D * D * 4 * sw) + C * L * D * s16 +
        C * L * D * s16 + (1 + 6 * L) * 512 =
        D * V * sw + D * s32 + L * (2 * (D * s32) + 12 * (D * D) * sw) +
          2 * (D * (L * C) * s16) + 512 * (1 + 6 * L) := by ring
    have hCLD : C * L * D < 2 ^ 64 := by
      have : C * L * D = D * (L * C) := by ring
      omega
    have key2 : D * V * sw + D * s32 + L * (D * s32) + L * (3 * D * D * sw) + L * (D * D * sw) +
        L * (D * s32) + L * (4 * D * D * sw) + L * (D * D * 4 * sw) + C * L * D * s16 +
        C * L * D * s16 =
        D * V * sw + D * s32 + L * (2 * (D * s32) + 12 * (D * D) * sw) +
          2 * (D * (L * C) * s16) := by ring
    rw [hL] at hlp
    rw [hD] at hmp
    rw [hbytes] at htp
    have hLP : L < 2 ^ g.sizef_format.prec := by exact_mod_cast hlp
    have hMP : 4 * D * D * sw < 2 ^ g.sizef_format.prec := by exact_mod_cast hmp
    refine ⟨mpt_declare_tensors_eq g hp wtype gpu_layers ts, ?_, ?_⟩
    · rw [List.length_append, List.length_map, hlen, hnl]
      simp only [List.length_cons, List.length_nil]
      omega
    · rw [mpt_ctx_size_eq g hp wtype sw s32 s16 D L V C hD hL hV hC hDn hLn hVn hCn hw h32 h16
        hCLD hfmt hsw hs32 hs16 hLP hMP (by rw [key2]; exact htp) (by rw [key]; exact hfit),
        hbytes, hnl, key]
  · intro hp ts h0d h0l h0v h0c hdv hdd hcl hcld hl hfit hlp hmp htp
    obtain ⟨D, hD⟩ := Int.eq_ofNat_of_zero_le h0d
    obtain ⟨L, hL⟩ := Int.eq_ofNat_of_zero_le h0l
    obtain ⟨V, hV⟩ := Int.eq_ofNat_of_zero_le h0v
    obtain ⟨C, hC⟩ := Int.eq_ofNat_of_zero_le h0c
    rw [hD, hV] at hdv
    rw [hD] at hdd
    rw [hC, hL] at hcl
    rw [hC, hL, hD] at hcld
    rw [hL] at hl
    have hDV : D * V < 2 ^ 31 := by exact_mod_cast hdv
    have hDD : 4 * D * D < 2 ^ 31 := by exact_mod_cast hdd
    have hCL : C * L < 2 ^ 31 := by exact_mod_cast hcl
    have hCLD : C * L * D < 2 ^ 31 := by exact_mod_cast hcld
    have hLn : (1 + 6 * L) * 512 < 2 ^ 31 := by exact_mod_cast hl
    have hLC : L * C < 2 ^ 31 := by rw [Nat.mul_comm]; exact hCL
    have hDLC : D * (L * C) < 2 ^ 63 := by
      have : D * (L * C) = C * L * D := by ring
      omega
    obtain ⟨hbytes, hlen⟩ := replit_declared_bytes g hp wtype sw s32 s16 D L V C hD hL hV hC
      hw h32 h16 hLC hDLC
    have hnl : hp.n_layers.toNat = L := by rw [hL, Int.toNat_natCast]
    rw [hbytes, hnl] at hfit
    have key : D * V * sw + D * s32 + L * (D * s32) + L * (3 * D * D * sw) + L * (D * D * sw) +
        L * (D * s32) + L * (4 * D * D * sw) + L * (D * D * 4 * sw) + C * L * D * s16 +
        C * L * D * s16 + (1 + 6 * L) * 512 =
        D * V * sw + D * s32 + L * (2 * (D * s32) + 12 * (D * D) * sw) +
          2 * (D * (L * C) * s16) + 512 * (1 + 6 * L) := by ring
    have key2 : D * V * sw + D * s32 + L * (D * s32) + L * (3 * D * D * sw) + L * (D * D * sw) +
        L * (D * s32) + L * (4 * D * D * sw) + L * (D * D * 4 * sw) + C * L * D * s16 +
        C * L * D * s16 =
        D * V * sw + D * s32 + L * (2 * (D * s32) + 12 * (D * D) * sw) +
          2 * (D * (L * C) * s16) := by ring
    rw [hL] at hlp
    rw [hD] at hmp
    rw [hbytes] at htp
    have hLP : L < 2 ^ g.sizef_format.prec := by exact_mod_cast hlp
    have hMP : 4 * D * D * sw < 2 ^ g.sizef_format.prec := by exact_mod_cast hmp
    refine ⟨replit_declare_tensors_eq g hp wtype ts, ?_, ?_⟩
    · rw [List.length_append, List.length_map, hlen, hnl]
      simp only [List.length_cons, List.length_nil]
      omega
    · rw [replit_ctx_size_eq g hp wtype sw s32 s16 D L V C hD hL hV hC hDV hDD hCL hCLD hLn hw
        h32 h16 hfmt hsw hs32 hs16 hLP hMP (by rw [key2]; exact htp) (by rw [key]; exact hfit),
        hbytes, hnl, key]

set_option maxRecDepth 100000 in
/-- C24 (amended), at `d_model = 2`, `n_vocab = 1`, one layer, context length 4
and F32 weights: both budgets are 256 bytes of tensors plus seven times 512. -/
theorem budget_has_overhead_for_layer_tensors_witness :
    mpt_ctx_size ggml_ref mpt_one_layer_hparams ggml_ref.GGML_TYPE_F32 =
      total_nbytes ggml_ref
          ((mpt_declarations ggml_ref mpt_one_layer_hparams ggml_ref.GGML_TYPE_F32 0).map
            Prod.snd ++
            [mpt_cache_tensor ggml_ref mpt_one_layer_hparams,
              mpt_cache_tensor ggml_ref mpt_one_layer_hparams]) +
        512 * (1 + 6 * mpt_one_layer_hparams.n_layers.toNat) ∧
    replit_ctx_size ggml_ref replit_one_layer_hparams ggml_ref.GGML_TYPE_F32 =
      total_nbytes ggml_ref
          ((replit_declarations ggml_ref replit_one_layer_hparams ggml_ref.GGML_TYPE_F32).map
            Prod.snd ++
            [replit_cache_tensor ggml_ref replit_one_layer_hparams,
              replit_cache_tensor ggml_ref replit_one_layer_hparams]) +
        512 * (1 + 6 * replit_one_layer_hparams.n_layers.toNat) :=
  ⟨((budget_has_overhead_for_layer_tensors ggml_ref ggml_ref.GGML_TYPE_F32 4 4 2
      ggml_ref_plain_f32 ggml_ref_plain_f32 ggml_ref_plain_f16 (Or.inr rfl) (by decide)
      (by decide) (by decide)).1 mpt_one_layer_hparams 0 []
      (by decide) (by decide) (by decide) (by decide) (by decide) (by decide) (by decide)
      (by decide) (by decide) (by decide!) (by decide!) (by decide!) (by decide!)).2.2,
    ((budget_has_overhead_for_layer_tensors ggml_ref ggml_ref.GGML_TYPE_F32 4 4 2
      ggml_ref_plain_f32 ggml_ref_plain_f32 ggml_ref_plain_f16 (Or.inr rfl) (by decide)
      (by decide) (by decide)).2 replit_one_layer_hparams []
      (by decide) (by decide) (by decide) (by decide) (by decide) (by decide) (by decide)
      (by decide) (by decide) (by decide!) (by decide!) (by decide!) (by decide!)).2.2⟩

/-! ## `replace_all` with the space as search string -/

theorem find_space_some (str : Str) :
    ∀ (fuel pos r : Nat), str_find_from str [32] fuel pos = some r →
      pos ≤ r ∧
      space_to_marker (str.drop pos) =
        substr str pos (r - pos) ++ ws_symbol ++ space_to_marker (str.drop (r + 1)) := by
  intro fuel
  induction fuel with
  | zero => intro pos r h; simp [str_find_from] at h
  | succ k ih =>
    intro pos r h
    rw [str_find_from] at h
    by_cases hm : substr str pos [32].length = [32]
    · simp only [hm, if_true, Option.some.injEq] at h
      subst h
      refine ⟨Nat.le_refl _, ?_⟩
      have h1 : (str.drop pos).take 1 = [32] := hm
      have hd : str.drop pos = 32 :: str.drop (pos + 1) := by
        have e := List.take_append_drop 1 (str.drop pos)
        rw [h1, List.drop_drop] at e
        rw [← e]
        simp [Nat.add_comm]
      rw [hd, space_to_marker]
      simp [substr, ws_symbol]
    · simp only [hm, if_false] at h
      obtain ⟨h1, h2⟩ := ih (pos + 1) r h
      refine ⟨by omega, ?_⟩
      cases hd : str.drop pos with
      | nil =>
        have hr := str_find_from_bounds str [32] k (pos + 1) r h
        have hlen : str.length ≤ pos := by
          have := congrArg List.length hd
          simp at this
          omega
        exfalso
        clear h2 ih
        revert h
        have hnone : ∀ (f p : Nat), str.length ≤ p → str_find_from str [32] f p = none := by
          intro f
          induction f with
          | zero => intro p _; rfl
          | succ f ihf =>
            intro p hp
            rw [str_find_from]
            have hs : substr str p [32].length ≠ [32] := by
              simp [substr, List.drop_of_length_le hp]
            simp only [hs, if_false]
            exact ihf (p + 1) (by omega)
        rw [hnone k (pos + 1) (by omega)]
        simp
      | cons b t =>
        have ht := drop_succ_of_drop_cons str pos b t hd
        rw [ht] at h2
        have hne : b ≠ 32 := by
          intro hb
          apply hm
          simp [substr, hd, hb]
        rw [space_to_marker]
        simp only [hne, if_false]
        rw [h2]
        have hs : substr str pos (r - pos) = b :: substr str (pos + 1) (r - (pos + 1)) := by
          have e : r - pos = (r - (pos + 1)) + 1 := by omega
          simp only [substr, hd, ht, e, List.take_succ_cons]
        rw [hs]
        simp

theorem find_space_none (str : Str) :
    ∀ (fuel pos : Nat), str_find_from str [32] fuel pos = none →
      str.length ≤ pos + fuel →
      space_to_marker (str.drop pos) = str.drop pos := by
  intro fuel
  induction fuel with
  | zero =>
    intro pos _ hlen
    rw [List.drop_of_length_le (by omega)]
    rfl
  | succ k ih =>
    intro pos h hlen
    rw [str_find_from] at h
    by_cases hm : substr str pos [32].length = [32]
    · rw [if_pos hm] at h
      cases h
    · rw [if_neg hm] at h
      have h2 := ih (pos + 1) h (by omega)
      cases hd : str.drop pos with
      | nil => rfl
      | cons b t =>
        have ht := drop_succ_of_drop_cons str pos b t hd
        rw [ht] at h2
        have hne : b ≠ 32 := by
          intro hb
          apply hm
          simp [substr, hd, hb]
        rw [space_to_marker]
        simp only [hne, if_false]
        rw [h2]

theorem str_find_space_none (str : Str) (pos : Nat)
    (h : str_find str [32] pos = none) :
    space_to_marker (str.drop pos) = str.drop pos := by
  unfold str_find at h
  by_cases hl : str.length < pos + [32].length
  · rw [List.drop_of_length_le (by simp at hl; omega)]
    rfl
  · simp only [hl, if_false] at h
    exact find_space_none str _ pos h (by simp at hl ⊢; omega)

theorem str_find_space_some (str : Str) (pos r : Nat)
    (h : str_find str [32] pos = some r) :
    space_to_marker (str.drop pos) =
      substr str pos (r - pos) ++ ws_symbol ++ space_to_marker (str.drop (r + 1)) := by
  unfold str_find at h
  by_cases hl : str.length < pos + [32].length
  · rw [if_pos hl] at h
    cases h
  · rw [if_neg hl] at h
    exact (find_space_some str _ pos r h).2

theorem replace_all_loop_space (str : Str) :
    ∀ (fuel : Nat) (result : Str) (from_ : Nat), from_ ≤ str.length →
      str.length - from_ < fuel →
      replace_all_loop str [32] ws_symbol fuel result from_ =
        .ok (result ++ space_to_marker (str.drop from_)) := by
  intro fuel
  induction fuel with
  | zero => intro result from_ _ h; omega
  | succ k ih =>
    intro result from_ hle hfuel
    rw [replace_all_loop]
    cases hf : str_find str [32] from_ with
    | none =>
      have hl : ¬ str.length < from_ := by omega
      simp only [hl, if_false]
      rw [str_find_space_none str from_ hf]
    | some pos =>
      obtain ⟨b1, b2⟩ := str_find_bounds str [32] from_ pos hf
      have hw : [32].length = 1 := rfl
      show replace_all_loop str [32] ws_symbol k
          (result ++ substr str from_ (pos - from_) ++ ws_symbol) (pos + [32].length) = _
      rw [ih _ (pos + [32].length) b2 (by simp at b2 ⊢; omega),
        str_find_space_some str from_ pos hf, hw]
      simp

theorem replace_all_space (str : Str) :
    replace_all str [32] ws_symbol = .ok (space_to_marker str) := by
  have h := replace_all_loop_space str (str.length + 2) [] 0 (Nat.zero_le _) (by omega)
  simpa [replace_all] using h

theorem space_to_marker_no_space (s : Str) : 32 ∉ space_to_marker s := by
  induction s with
  | nil => simp [space_to_marker]
  | cons b rest ih =>
    rw [space_to_marker]
    by_cases hb : b = 32
    · simp only [hb, if_true]
      simp [ih]
    · simp only [hb, if_false]
      simp only [List.mem_cons, not_or]
      exact ⟨fun h => hb h.symm, ih⟩

theorem space_to_marker_head (l : Str) (c : Nat) (t : Str) (hc : c ≠ 226)
    (h : space_to_marker l = c :: t) : ∃ r, l = c :: r ∧ t = space_to_marker r := by
  cases l with
  | nil => rw [space_to_marker] at h; cases h
  | cons b rest =>
    rw [space_to_marker] at h
    by_cases hb : b = 32
    · simp only [hb, if_true, List.cons.injEq] at h
      exact absurd h.1.symm hc
    · simp only [hb, if_false, List.cons.injEq] at h
      exact ⟨rest, by rw [h.1], h.2.symm⟩

theorem marker_to_space_to_marker (s : Str) (h : ∀ pos, substr s pos 3 ≠ ws_symbol) :
    marker_to_space (space_to_marker s) = s := by
  induction s with
  | nil => rw [space_to_marker, marker_to_space]
  | cons b rest ih =>
    have ih2 := ih (fun pos => by simpa [substr] using h (pos + 1))
    rw [space_to_marker]
    by_cases hb : b = 32
    · simp only [hb, if_true]
      rw [marker_to_space_marker, ih2]
    · simp only [hb, if_false]
      have hne : (b :: space_to_marker rest).take 3 ≠ ws_symbol := by
        intro hm
        cases hr : space_to_marker rest with
        | nil => rw [hr] at hm; simp [ws_symbol] at hm
        | cons c t =>
          rw [hr] at hm
          cases t with
          | nil => simp [ws_symbol] at hm
          | cons d u =>
            simp only [ws_symbol, List.take_succ_cons, List.cons.injEq] at hm
            obtain ⟨e1, e2, e3, _⟩ := hm
            subst e1 e2 e3
            obtain ⟨r, hr1, hr2⟩ := space_to_marker_head rest 150 (129 :: u) (by decide) hr
            obtain ⟨r2, hr3, _⟩ := space_to_marker_head r 129 u (by decide) hr2.symm
            apply h 0
            rw [hr1, hr3]
            simp [substr, ws_symbol]
      rw [marker_to_space_other b _ hne, ih2]

/-! ## Claims about the normalisation of the text -/

/-- C32: `replace_all` returns a result for every non-empty search string
`find` (whatever the text and the replacement), and the normalisation of
`replit_tokenizer_tokenize` can be undone on text without the marker: for a
`text` in which the 3-byte marker does not occur, `replace_all(text, " ",
ws_symbol)` returns a string `normalized_text` with
`replace_all(normalized_text, ws_symbol, " ") = text`, and `normalized_text`
holds no space byte. -/
theorem normalisation_round_trip (str find replace text : Str)
    (hfind : 0 < find.length) (hfree : ∀ pos, substr text pos 3 ≠ ws_symbol) :
    (∃ result : Str, replace_all str find replace = .ok result) ∧
    ∃ normalized_text : Str, replace_all text [32] ws_symbol = .ok normalized_text ∧
      replace_all normalized_text ws_symbol [32] = .ok text ∧
      32 ∉ normalized_text := by
  constructor
  · obtain ⟨t, ht, _⟩ := replace_all_ok str find replace hfind
    exact ⟨t, ht⟩
  · refine ⟨space_to_marker text, replace_all_space text, ?_, space_to_marker_no_space text⟩
    rw [replace_all_marker, marker_to_space_to_marker text hfree]

/-- Witness for C32: the search string `a` replaced by `aa` in `aa`, and the
text `a b`, normalised to `a`, marker, `b`. -/
theorem normalisation_round_trip_witness :
    (∃ result : Str, replace_all [97, 97] [97] [97, 97] = .ok result) ∧
    ∃ normalized_text : Str, replace_all [97, 32, 98] [32] ws_symbol = .ok normalized_text ∧
      replace_all normalized_text ws_symbol [32] = .ok [97, 32, 98] ∧
      32 ∉ normalized_text :=
  normalisation_round_trip [97, 97] [97] [97, 97] [97, 32, 98] (by decide)
    (fun pos => match pos with
      | 0 => by decide
      | 1 => by decide
      | 2 => by decide
      | _ + 3 => by simp [substr, ws_symbol])

/-! ## The best score at a start offset is final -/

theorem for_loop_add {σ : Type} (body : Nat → σ → σ) :
    ∀ (a b i : Nat) (st : σ),
      for_loop body i (a + b) st = for_loop body (i + a) b (for_loop body i a st) := by
  intro a
  induction a with
  | zero => intro b i st; simp [for_loop]
  | succ a ih =>
    intro b i st
    rw [show a + 1 + b = (a + b) + 1 by omega, for_loop, for_loop, ih]
    rw [show i + 1 + a = i + (a + 1) by omega]

theorem encode_word_inner_frame (word : Str) (model : piece_map_t) (s : Nat) (b : float)
    (e : Nat) (st : segmentation_state) (i : Nat) (hi : e ≠ i) :
    (encode_word_inner word model s b e st).best_segmentations_scores.getD i float.ninf =
      st.best_segmentations_scores.getD i float.ninf := by
  unfold encode_word_inner
  dsimp only
  split
  · rfl
  · split
    · rfl
    · split
      · exact getD_set_ne _ _ _ _ _ hi
      · rfl

theorem encode_word_outer_frame (word : Str) (model : piece_map_t) (s : Nat)
    (st : segmentation_state) (i : Nat) (hi : i ≤ s) :
    (encode_word_outer word model s st).best_segmentations_scores.getD i float.ninf =
      st.best_segmentations_scores.getD i float.ninf := by
  unfold encode_word_outer
  exact for_loop_inv
    (encode_word_inner word model s (st.best_segmentations_scores.getD s float.ninf))
    (fun _ st1 => st1.best_segmentations_scores.getD i float.ninf =
      st.best_segmentations_scores.getD i float.ninf)
    (word.length - s) (s + 1) st rfl
    (fun e st1 h1 _ hP =>
      (encode_word_inner_frame word model s _ e st1 i (by omega)).trans hP)

theorem best_score_at_start_final (word : Str) (model : piece_map_t) (s : Nat)
    (hs : s ≤ word.length) :
    (for_loop (encode_word_outer word model) 0 s
        (encode_word_init word)).best_segmentations_scores.getD s float.ninf =
      (encode_word_table word model).best_segmentations_scores.getD s float.ninf := by
  unfold encode_word_table
  have hsplit : word.length = s + (word.length - s) := by omega
  rw [hsplit, for_loop_add]
  symm
  have key := for_loop_inv (encode_word_outer word model)
    (fun _ st1 => st1.best_segmentations_scores.getD s float.ninf =
      (for_loop (encode_word_outer word model) 0 s
        (encode_word_init word)).best_segmentations_scores.getD s float.ninf)
    (word.length - s) (0 + s) _ rfl
    (fun j st1 h1 _ hP =>
      (encode_word_outer_frame word model j st1 s (by omega)).trans hP)
  exact key

/-! ## Claims about the choice among equal candidates -/

set_option maxRecDepth 100000 in
/-- C31, as stated, fails on a table with finite scores.  For the word `abc`
and `overflow_middle_table` the start offset 0 stores `-FLT_MAX` at position 1
(piece `a`) and records the candidate 4 at end position 3 (piece `abc`, 3 + 1);
at the start offset 1 the candidate of the piece `bc` is
`-FLT_MAX + -FLT_MAX`, which overflows to `-inf` and replaces the 4; the start
offset 2 then finds the end position unreached and records its own candidate 4
(piece `c`, 2 + 2).  The end position 3 is reached with score 4 and the
recorded predecessor is 2, although the earlier start offset 0 has the same
candidate 4; `encode_word` returns the pieces `ab`, `c` and not `abc`. -/
theorem later_equal_candidate_recorded :
    finite_scores overflow_middle_table ∧
    for_loop (encode_word_outer [97, 98, 99] overflow_middle_table) 0 1
        (encode_word_init [97, 98, 99]) =
      { best_segmentations_starts := [0, 0, 0, 0]
        best_segmentations_scores :=
          [float.fin 1, float.fin (-FLT_MAX), float.fin 2, float.fin 4] } ∧
    for_loop (encode_word_outer [97, 98, 99] overflow_middle_table) 0 2
        (encode_word_init [97, 98, 99]) =
      { best_segmentations_starts := [0, 0, 0, 1]
        best_segmentations_scores :=
          [float.fin 1, float.fin (-FLT_MAX), float.fin 2, float.ninf] } ∧
    encode_word_table [97, 98, 99] overflow_middle_table =
      { best_segmentations_starts := [0, 0, 0, 2]
        best_segmentations_scores :=
          [float.fin 1, float.fin (-FLT_MAX), float.fin 2, float.fin 4] } ∧
    map_find (substr [97, 98, 99] 0 (3 - 0)) overflow_middle_table = some (2, float.fin 3) ∧
    (float.fin 3).add (float.fin 1) = float.fin 4 ∧
    map_find (substr [97, 98, 99] 1 (3 - 1)) overflow_middle_table =
      some (3, float.fin (-FLT_MAX)) ∧
    (float.fin (-FLT_MAX)).add (float.fin (-FLT_MAX)) = float.ninf ∧
    map_find (substr [97, 98, 99] 2 (3 - 2)) overflow_middle_table = some (4, float.fin 2) ∧
    (float.fin 2).add (float.fin 2) = float.fin 4 ∧
    encode_word [97, 98, 99] overflow_middle_table = .ok ([1, 4], float.fin 4) := by
  refine ⟨?_, ?_, ?_, ?_, ?_, ?_, ?_, ?_, ?_, ?_, ?_⟩
  · intro e he
    simp only [overflow_middle_table, List.mem_cons, List.mem_singleton, List.not_mem_nil,
      or_false] at he
    rcases he with rfl | rfl | rfl | rfl | rfl <;> exact ⟨_, rfl⟩
  all_goals decide!

/-- C31 (amended): for a piece table whose stored scores are finite and not
negative, the predecessor that `encode_word` records for a reached end position
`e > 0` is the smallest start offset of minimal candidate.  The candidate of a
start offset is the `float` sum of the score of the piece from there to `e`
and the best score at the start offset, which no longer changes once the outer
loop has come to that start offset.  The score stored at `e` is the candidate
of the recorded predecessor `s`; for every start offset `s2 < e` with a known
piece and a reached start the stored score is not greater than the candidate
of `s2`, and the candidate of an `s2` before `s` is greater than the stored
score. -/
theorem predecessor_is_first_minimal_start (word : Str) (model : piece_map_t)
    (hn : nonneg_scores model) (e : Nat) (hpos : 0 < e) (he : e ≤ word.length)
    (hr : ((encode_word_table word model).best_segmentations_scores.getD e
      float.ninf).is_ninf = false) :
    ∃ (s id : Nat) (sc : float), s < e ∧
      (encode_word_table word model).best_segmentations_starts.getD e (-1) = (s : Int) ∧
      map_find (substr word s (e - s)) model = some (id, sc) ∧
      ((encode_word_table word model).best_segmentations_scores.getD s float.ninf).is_ninf =
        false ∧
      (encode_word_table word model).best_segmentations_scores.getD e float.ninf =
        sc.add ((encode_word_table word model).best_segmentations_scores.getD s float.ninf) ∧
      (∀ (s2 id2 : Nat) (sc2 : float), s2 < e →
        map_find (substr word s2 (e - s2)) model = some (id2, sc2) →
        ((encode_word_table word model).best_segmentations_scores.getD s2 float.ninf).is_ninf =
          false →
        ((encode_word_table word model).best_segmentations_scores.getD e float.ninf).gt
          (sc2.add ((encode_word_table word model).best_segmentations_scores.getD s2
            float.ninf)) = false ∧
        (s2 < s →
          (sc2.add ((encode_word_table word model).best_segmentations_scores.getD s2
            float.ninf)).gt
            ((encode_word_table word model).best_segmentations_scores.getD e float.ninf) =
            true)) ∧
      ∀ s2, s2 ≤ word.length →
        (for_loop (encode_word_outer word model) 0 s2
            (encode_word_init word)).best_segmentations_scores.getD s2 float.ninf =
          (encode_word_table word model).best_segmentations_scores.getD s2 float.ninf := by
  have hc := chain_inv_table word model
  have hm := min_inv_table word model hn
  obtain ⟨s, id, sc, a1, _, a3, a4, a5, a6⟩ := hc.chain e hpos he hr
  refine ⟨s, id, sc, a1, a3, a4, a5, a6, ?_, ?_⟩
  · intro s2 id2 sc2 hlt hfind hr2
    refine ⟨(hm.opt s2 e id2 sc2 hlt he (Or.inl (by omega)) hfind hr2).2, ?_⟩
    intro hs2
    exact hm.first e s s2 id2 sc2 hpos he hr a3 hs2 hfind hr2
  · intro s2 hs2
    exact best_score_at_start_final word model s2 hs2

set_option maxRecDepth 100000 in
/-- Witness for C31 (amended): the word `ab` and `tie_table`, where the piece
`ab` from start offset 0 and the piece `b` from start offset 1 both give the
candidate 3 at end position 2; the recorded predecessor is 0 and `encode_word`
returns the piece `ab`. -/
theorem predecessor_is_first_minimal_start_witness :
    (encode_word_table [97, 98] tie_table).best_segmentations_starts.getD 2 (-1) = 0 ∧
    encode_word [97, 98] tie_table = .ok ([2], float.fin 3) ∧
    ∃ (s id : Nat) (sc : float), s < 2 ∧
      (encode_word_table [97, 98] tie_table).best_segmentations_starts.getD 2 (-1) = (s : Int) ∧
      map_find (substr [97, 98] s (2 - s)) tie_table = some (id, sc) ∧
      ((encode_word_table [97, 98] tie_table).best_segmentations_scores.getD s
        float.ninf).is_ninf = false ∧
      (encode_word_table [97, 98] tie_table).best_segmentations_scores.getD 2 float.ninf =
        sc.add ((encode_word_table [97, 98] tie_table).best_segmentations_scores.getD s
          float.ninf) ∧
      (∀ (s2 id2 : Nat) (sc2 : float), s2 < 2 →
        map_find (substr [97, 98] s2 (2 - s2)) tie_table = some (id2, sc2) →
        ((encode_word_table [97, 98] tie_table).best_segmentations_scores.getD s2
          float.ninf).is_ninf = false →
        ((encode_word_table [97, 98] tie_table).best_segmentations_scores.getD 2 float.ninf).gt
          (sc2.add ((encode_word_table [97, 98] tie_table).best_segmentations_scores.getD s2
            float.ninf)) = false ∧
        (s2 < s →
          (sc2.add ((encode_word_table [97, 98] tie_table).best_segmentations_scores.getD s2
            float.ninf)).gt
            ((encode_word_table [97, 98] tie_table).best_segmentations_scores.getD 2
              float.ninf) = true)) ∧
      ∀ s2, s2 ≤ [97, 98].length →
        (for_loop (encode_word_outer [97, 98] tie_table) 0 s2
            (encode_word_init [97, 98])).best_segmentations_scores.getD s2 float.ninf =
          (encode_word_table [97, 98] tie_table).best_segmentations_scores.getD s2 float.ninf :=
  ⟨by decide!, by decide!,
    predecessor_is_first_minimal_start [97, 98] tie_table
      (by
        intro e he
        simp only [tie_table, List.mem_cons, List.mem_singleton, List.not_mem_nil,
          or_false] at he
        rcases he with rfl | rfl | rfl <;> exact ⟨_, rfl, by norm_num⟩)
      2 (by decide) (by decide) (by decide!)⟩

/-! ## The round trip of `Tokenize` and `Detokenize` -/

theorem marker_to_space_append (p q : Str) (h1 : ¬ [226] <:+ p) (h2 : ¬ [226, 150] <:+ p) :
    marker_to_space (p ++ q) = marker_to_space p ++ marker_to_space q := by
  induction p using marker_to_space.induct with
  | case1 rest ih =>
    have e : 226 :: 150 :: 129 :: rest ++ q = 226 :: 150 :: 129 :: (rest ++ q) := rfl
    rw [e, marker_to_space_marker, marker_to_space_marker,
      ih (fun h => h1 (h.trans ⟨[226, 150, 129], rfl⟩))
        (fun h => h2 (h.trans ⟨[226, 150, 129], rfl⟩))]
    rfl
  | case2 b rest hnot ih =>
    have hm : (b :: rest).take 3 ≠ ws_symbol := by
      intro hm
      have e := List.take_append_drop 3 (b :: rest)
      rw [hm] at e
      simp only [ws_symbol, List.cons_append, List.nil_append, List.cons.injEq] at e
      exact hnot _ e.1.symm e.2.symm
    have hm2 : (b :: (rest ++ q)).take 3 ≠ ws_symbol := by
      intro hc
      match rest, hm, hc with
      | [], _, hc =>
        have hb : b = 226 := by
          cases q with
          | nil => simp [ws_symbol] at hc
          | cons c q =>
            cases q with
            | nil => simp [ws_symbol] at hc
            | cons d q =>
              simp only [ws_symbol, List.nil_append, List.take_succ_cons, List.cons.injEq] at hc
              exact hc.1
        subst hb
        exact h1 (List.suffix_refl _)
      | [c], _, hc =>
        have hb : b = 226 ∧ c = 150 := by
          cases q with
          | nil => simp [ws_symbol] at hc
          | cons d q =>
            simp only [ws_symbol, List.cons_append, List.nil_append, List.take_succ_cons,
              List.cons.injEq] at hc
            exact ⟨hc.1, hc.2.1⟩
        obtain ⟨rfl, rfl⟩ := hb
        exact h2 (List.suffix_refl _)
      | c :: d :: r, hm, hc =>
        apply hm
        simpa using hc
    have e : b :: rest ++ q = b :: (rest ++ q) := rfl
    rw [e, marker_to_space_other b _ hm2, marker_to_space_other b _ hm,
      ih (fun h => h1 (h.trans (List.suffix_cons b rest)))
        (fun h => h2 (h.trans (List.suffix_cons b rest)))]
    rfl
  | case3 =>
    simp [marker_to_space]

theorem marker_to_space_flatten (ps : List Str)
    (h : ∀ p ∈ ps, ¬ [226] <:+ p ∧ ¬ [226, 150] <:+ p) :
    (ps.map marker_to_space).flatten = marker_to_space ps.flatten := by
  induction ps with
  | nil => simp [marker_to_space]
  | cons p ps ih =>
    obtain ⟨h1, h2⟩ := h p (by simp)
    rw [List.map_cons, List.flatten_cons, List.flatten_cons, marker_to_space_append p _ h1 h2,
      ih (fun r hr => h r (List.mem_cons_of_mem _ hr))]

theorem detokenize_all_pieces (bound : Nat) (tokenizer : replit_tokenizer)
    (h : pieces_in_vocab bound tokenizer) (ps : List Str)
    (hp : ∀ p ∈ ps, (map_find p tokenizer.piece_map).isSome = true) :
    detokenize_all tokenizer.raw_vocab (ps.map (piece_id tokenizer.piece_map)) =
      .ok (ps.map marker_to_space).flatten := by
  induction ps with
  | nil => rfl
  | cons p ps ih =>
    obtain ⟨v, hv⟩ := Option.isSome_iff_exists.mp (hp p (by simp))
    obtain ⟨id, sc⟩ := v
    have h1 := (h p id sc hv).2
    have h2 := ih (fun r hr => hp r (List.mem_cons_of_mem _ hr))
    simp only [List.map_cons, detokenize_all, piece_id_of_find _ p id sc hv,
      replit_llm_Detokenize, h1, replace_all_marker, h2, List.flatten_cons]

theorem space_to_marker_ne_nil (text : Str) (h : text ≠ []) : space_to_marker text ≠ [] := by
  cases text with
  | nil => exact absurd rfl h
  | cons b rest =>
    rw [space_to_marker]
    split <;> simp

set_option maxRecDepth 100000 in
/-- C3 as stated fails in five ways.  (1) With the pieces `\342` and `\226\201` the
text of one space is normalised to the marker, which these pieces cover, but the
concatenated `Detokenize` results are the three marker bytes, not the space.
(2) The empty text is covered by the empty concatenation and `Tokenize` throws.
(3) With a piece `a` of file score `+inf` (stored `-inf`) the text `a` is
tokenized to the unknown id 0 and detokenized to `b`.  (4) With the pieces `a`
and `b` of file score `FLT_MAX` the `float` sum for `b` overflows, the text `ab`
is tokenized to the unknown id 0 and detokenized to `a`.  (5) A text that is
the marker itself is covered by the marker piece and detokenized to a space. -/
theorem tokenize_detokenize_not_text :
    replit_tokenizer_load replit_tokenizer_empty (open_file split_marker_file) 2 =
      .ok (split_marker_tokenizer, { data := [], eofbit := false, failbit := false }) ∧
    replace_all [32] [32] ws_symbol = .ok [226, 150, 129] ∧
    is_segmentation split_marker_tokenizer.piece_map [226, 150, 129] [[226], [150, 129]] ∧
    tokenize_detokenize split_marker_file 2 [32] = .ok [226, 150, 129] ∧
    tokenize_detokenize split_marker_file 2 [] = .error .out_of_range ∧
    tokenize_detokenize inf_score_file 2 [97] = .ok [98] ∧
    tokenize_detokenize max_score_file 2 [97, 98] = .ok [97] ∧
    tokenize_detokenize marker_piece_file 3 [226, 150, 129] = .ok [32] := by
  refine ⟨by decide!, by decide!, ⟨rfl, ?_⟩, by decide!, by decide!, by decide!, by decide!,
    by decide!⟩
  intro p hp
  simp only [List.mem_cons, List.mem_singleton, List.not_mem_nil, or_false] at hp
  rcases hp with rfl | rfl <;> rfl

/-- C3 (amended): for every tokenizer that `replit_tokenizer_load` builds from an
empty one, with stored scores that are finite and not negative and no piece
ending in the first byte or the first two bytes of the marker, and for every
non-empty text that does not contain the marker and whose normalised form
(each space replaced by the marker) is a concatenation of known pieces:
`Tokenize(text)` returns ids, and the concatenation of `Detokenize(id)` over
these ids, in order, is exactly `text`. -/
theorem tokenize_detokenize_text (fin fin2 : istream) (n : Int) (hn : n < 2 ^ 31)
    (tokenizer : replit_tokenizer)
    (hload : replit_tokenizer_load replit_tokenizer_empty fin n = .ok (tokenizer, fin2))
    (hscores : nonneg_scores tokenizer.piece_map)
    (hsuffix : ∀ (key : Str) (id : Nat) (sc : float),
      map_find key tokenizer.piece_map = some (id, sc) →
      ¬ [226] <:+ key ∧ ¬ [226, 150] <:+ key)
    (text : Str) (hne : text ≠ []) (hfree : ∀ pos, substr text pos 3 ≠ ws_symbol)
    (hcov : ∃ ps, is_segmentation tokenizer.piece_map (space_to_marker text) ps) :
    replace_all text [32] ws_symbol = .ok (space_to_marker text) ∧
    ∃ ids : List Int, replit_llm_Tokenize tokenizer text = .ok ids ∧
      detokenize_all tokenizer.raw_vocab ids = .ok text := by
  have h1 := replace_all_space text
  refine ⟨h1, ?_⟩
  obtain ⟨qs0, c1, c2⟩ := nonempty_segmentation tokenizer.piece_map _ hcov
  obtain ⟨ps, b1, b2, b3, _⟩ := encode_word_spec _ tokenizer.piece_map hscores
    (space_to_marker_ne_nil text hne) qs0 c1 c2
  refine ⟨ps.map (piece_id tokenizer.piece_map), ?_, ?_⟩
  · simp only [replit_llm_Tokenize, replit_tokenizer_tokenize, h1, b1]
  · rw [detokenize_all_pieces n.toNat tokenizer
      (pieces_in_vocab_load fin fin2 n hn tokenizer hload) ps (fun p hp => (b3 p hp).2)]
    have hsuf : ∀ p ∈ ps, ¬ [226] <:+ p ∧ ¬ [226, 150] <:+ p := by
      intro p hp
      obtain ⟨v, hv⟩ := Option.isSome_iff_exists.mp (b3 p hp).2
      exact hsuffix p v.1 v.2 hv
    rw [marker_to_space_flatten ps hsuf, b2, marker_to_space_to_marker text hfree]

set_option maxRecDepth 100000 in
/-- Witness for C3 (amended): the vocabulary `a`, marker, `b` and the text
`a b`. -/
theorem tokenize_detokenize_text_witness :
    replace_all [97, 32, 98] [32] ws_symbol = .ok (space_to_marker [97, 32, 98]) ∧
    ∃ ids : List Int, replit_llm_Tokenize marker_piece_tokenizer [97, 32, 98] = .ok ids ∧
      detokenize_all marker_piece_tokenizer.raw_vocab ids = .ok [97, 32, 98] :=
  tokenize_detokenize_text (open_file marker_piece_file)
    { data := [], eofbit := false, failbit := false } 3 (by norm_num) marker_piece_tokenizer
    (by decide!)
    (by
      intro e he
      simp only [marker_piece_tokenizer, List.mem_cons, List.mem_singleton, List.not_mem_nil,
        or_false] at he
      rcases he with rfl | rfl | rfl <;> exact ⟨_, rfl, by norm_num⟩)
    (by
      intro key id sc h
      have hm := map_find_mem key (id, sc) _ h
      simp only [marker_piece_tokenizer, List.mem_cons, List.mem_singleton, List.not_mem_nil,
        or_false, Prod.mk.injEq] at hm
      rcases hm with ⟨rfl, -⟩ | ⟨rfl, -⟩ | ⟨rfl, -⟩ <;> decide)
    [97, 32, 98] (by decide)
    (fun pos => match pos with
      | 0 => by decide
      | 1 => by decide
      | 2 => by decide
      | _ + 3 => by simp [substr, ws_symbol])
    ⟨[[97], [226, 150, 129], [98]], rfl, by
      intro p hp
      simp only [List.mem_cons, List.mem_singleton, List.not_mem_nil, or_false] at hp
      rcases hp with rfl | rfl | rfl <;> rfl⟩

end Ctransformers
